import Mathlib

/-! # vCard 4.0 parser (`src/src/VCParser.c`): a shallow embedding

Bytes are modelled as `Char`, C strings as `List Char` (the terminating NUL is
not part of the list).  A C pointer into the working copy that `createProperty`
tokenises is a `Nat` index into a byte buffer, and every `strtok` call returns
the buffer it has modified, so the NUL bytes `strtok` writes are seen by every
later read through any pointer into the same buffer.

An execution that dereferences `NULL`, reads an indeterminate buffer or reads
outside an allocated object has undefined behaviour in C.  Functions that can
do so return `Option`; `none` stands for such an execution and nothing is
claimed about what the compiled program does there.  Allocation (`malloc`,
`realloc`, the buffer of `getline`) is taken to succeed.
-/

set_option maxRecDepth 100000

namespace VCParser

/-! ## Bytes and the C library -/

/-- The NUL byte that terminates a C string. -/
def NUL : Char := Char.ofNat 0

/-- Carriage return. -/
def CR : Char := Char.ofNat 13

/-- Line feed. -/
def LF : Char := Char.ofNat 10

/-- The C string stored at the start of a byte buffer: everything before the
first NUL byte (`strlen` and every `str*` function see exactly this). -/
def cstr (buf : List Char) : List Char :=
  buf.takeWhile (fun c => c != NUL)

/-- The C string seen through the pointer `mem + p`. -/
def cstrAt (mem : List Char) (p : Nat) : List Char :=
  cstr (mem.drop p)

/-- The byte `mem[i]`; the byte just past the stored characters is the
terminator. -/
def peek (mem : List Char) (i : Nat) : Char :=
  mem.getD i NUL

/-- The function `tolower` in the C locale, as a byte value. -/
def tolower (c : Char) : Nat :=
  if 65 ≤ c.toNat ∧ c.toNat ≤ 90 then c.toNat + 32 else c.toNat

/-- The function `strcasecmp`: difference of the first pair of bytes that differ
after `tolower`, `0` when there is none. -/
def strcasecmp : List Char → List Char → Int
  | [], [] => 0
  | [], b :: _ => 0 - (tolower b : Int)
  | a :: _, [] => (tolower a : Int)
  | a :: as, b :: bs =>
    if tolower a = tolower b then strcasecmp as bs
    else (tolower a : Int) - (tolower b : Int)

/-- The function `strcmp`. -/
def strcmp : List Char → List Char → Int
  | [], [] => 0
  | [], b :: _ => 0 - (b.toNat : Int)
  | a :: _, [] => (a.toNat : Int)
  | a :: as, b :: bs =>
    if a = b then strcmp as bs else (a.toNat : Int) - (b.toNat : Int)

/-- The function `strspn`: length of the leading run of bytes that are in `accept`. -/
def strspn (s accept : List Char) : Nat :=
  (s.takeWhile (fun c => accept.contains c)).length

/-- The function `strcspn`: length of the leading run of bytes that are not in
`reject`. -/
def strcspn (s reject : List Char) : Nat :=
  (s.takeWhile (fun c => !reject.contains c)).length

/-- The function `strpbrk`: index of the first byte of `s` that is in `accept`,
`none` for `NULL`. -/
def strpbrk (s accept : List Char) : Option Nat :=
  if strcspn s accept < s.length then some (strcspn s accept) else none

/-- The test `strchr(s, c) != NULL` for a byte `c` other than NUL. -/
def strchr (s : List Char) (c : Char) : Bool :=
  s.contains c

/-- What one call of `strtok` leaves behind: the returned pointer (`none` is
`NULL`), the buffer after the call and the function's static continuation
pointer. -/
structure Tok where
  tok : Option Nat
  mem : List Char
  save : Nat
deriving DecidableEq, Repr

/-- The function `strtok(s, delim)` on the buffer `mem`.  With `s = none`
(`NULL`) scanning resumes at the saved pointer.  Leading delimiter bytes are
skipped; if the string ends there the result is `NULL`.  Otherwise the token
runs to the next delimiter byte, which is overwritten with NUL, or to the end
of the string. -/
def strtok (mem : List Char) (s : Option Nat) (delim : List Char) (save : Nat) : Tok :=
  let s0 := s.getD save
  let s1 := s0 + strspn (cstrAt mem s0) delim
  if cstrAt mem s1 = [] then ⟨none, mem, s1⟩
  else
    let e := s1 + strcspn (cstrAt mem s1) delim
    if peek mem e = NUL then ⟨some s1, mem, e⟩
    else ⟨some s1, mem.set e NUL, e + 1⟩

/-! ## Data model -/

/-- Modelled from the spec: the error codes of `VCParser.h`, which is not under
`src/`, in the order `errorToString` lists them. -/
inductive VCardErrorCode where
  | OK
  | INV_FILE
  | INV_CARD
  | INV_PROP
  | INV_DT
  | WRITE_ERROR
  | OTHER_ERROR
deriving DecidableEq, Repr

/-- Modelled from the spec: `Parameter` of `VCParser.h` (not under `src/`), a
name and a value, each a `char*` that may be `NULL` (`none`). -/
structure Parameter where
  name : Option (List Char)
  value : Option (List Char)
deriving DecidableEq, Repr

/-- Modelled from the spec: `Property` of `VCParser.h` (not under `src/`).  The
two strings and the two lists are pointers and may be `NULL` (`none`). -/
structure Property where
  name : Option (List Char)
  group : Option (List Char)
  parameters : Option (List Parameter)
  values : Option (List (List Char))
deriving DecidableEq, Repr

/-- Modelled from the spec: `DateTime` of `VCParser.h` (not under `src/`). -/
structure DateTime where
  UTC : Bool
  isText : Bool
  date : Option (List Char)
  time : Option (List Char)
  text : Option (List Char)
deriving DecidableEq, Repr

/-- Modelled from the spec: `Card` of `VCParser.h` (not under `src/`). -/
structure Card where
  fn : Option Property
  optionalProperties : Option (List Property)
  birthday : Option DateTime
  anniversary : Option DateTime
deriving DecidableEq, Repr

/-- Modelled from the spec: `insertBack` of the list library (not under
`src/`), which appends at the tail and does nothing on a `NULL` list. -/
def insertBack {α : Type} (list : Option (List α)) (toBeAdded : α) : Option (List α) :=
  list.map (fun l => l ++ [toBeAdded])

/-- Modelled from the spec: `getLength` of the list library (not under `src/`). -/
def getLength {α : Type} (list : List α) : Int :=
  (list.length : Int)

/-! ## Value tokenizer -/

/-- The loop of `parsePropertyValues` (lines 905-920): `previousDelim` is the
rest of the value string that has not been split yet. -/
def parsePropertyValuesLoop : Nat → List (List Char) → List Char → List (List Char)
  | 0, valueList, previousDelim => valueList ++ [previousDelim]
  | fuel + 1, valueList, previousDelim =>
    match strpbrk previousDelim [';'] with
    | some nextDelim =>
      parsePropertyValuesLoop fuel (valueList ++ [previousDelim.take nextDelim])
        (previousDelim.drop (nextDelim + 1))
    | none => valueList ++ [previousDelim]

/-- The function `parsePropertyValues` (lines 904-921): the values are appended
to `valueList`.  The C function only reads `valueString`. -/
def parsePropertyValues (valueList : List (List Char)) (_name : List Char)
    (valueString : List Char) : List (List Char) :=
  parsePropertyValuesLoop valueString.length valueList valueString

/-! ## Date and time -/

/-- Lines 939-954 of `createDateTime`: the date and the time of the string at
`mem + inputString`, once the `UTC` flag is known.  `strlen(token)` with
`token == NULL` is undefined. -/
def dateTimeFields (mem : List Char) (inputString : Nat) (utc : Bool) : Option DateTime :=
  if peek mem inputString = 'T' then
    some ⟨utc, false, some [], some (cstrAt mem (inputString + 1)), some []⟩
  else
    let t := strtok mem (some inputString) ['T'] 0
    match t.tok with
    | none => none
    | some token =>
      let t2 := strtok t.mem none [] t.save
      match t2.tok with
      | some token2 =>
        some ⟨utc, false, some (cstrAt t.mem token), some (cstrAt t2.mem token2), some []⟩
      | none => some ⟨utc, false, some (cstrAt t.mem token), some [], some []⟩

/-- The function `createDateTime` (lines 923-957) on the string at
`mem + inputString`.  The byte `inputString[strlen(inputString) - 1]` lies
before the buffer when the string is empty and starts the buffer. -/
def createDateTime (mem : List Char) (inputString : Nat) : Option DateTime :=
  let len := (cstrAt mem inputString).length
  if inputString + len = 0 then none
  else if peek mem (inputString + len - 1) = 'Z' then
    dateTimeFields (mem.set (inputString + len - 1) NUL) inputString true
  else dateTimeFields mem inputString false

/-- The function `validateDateTime` (lines 959-977). -/
def validateDateTime (dateTime : DateTime) : Bool :=
  match dateTime.date, dateTime.time, dateTime.text with
  | some date, some time, some text =>
    if dateTime.UTC && dateTime.isText then false
    else if dateTime.isText && (decide (date.length > 0) || decide (time.length > 0)) then false
    else if !dateTime.isText && decide (text.length > 0) then false
    else true
  | _, _, _ => false

/-! ## Property parser -/

/-- The parameter loop of `createProperty` (lines 757-774).  `paramToken` is the
pointer the last `strtok(NULL, ";")` returned.  A token without `=` makes the C
code allocate zero bytes for the value, copy nothing into them and call
`strlen` on them: an indeterminate read, `none`.  The inner `none` is the
`return NULL` of line 770. -/
def parseParameters : Nat → Tok → List Parameter → Option (Option (List Parameter × Tok))
  | 0, _, _ => none
  | fuel + 1, t, params =>
    match t.tok with
    | none => some (some (params, t))
    | some paramToken =>
      let token := cstrAt t.mem paramToken
      let paramNameLen := strcspn token ['=']
      if paramNameLen = token.length then none
      else
        let name := token.take paramNameLen
        let value := (cstrAt t.mem (paramToken + paramNameLen + 1)).take
          (token.length - paramNameLen)
        if value.length = 0 then some none
        else
          parseParameters fuel (strtok t.mem none [';'] t.save)
            (params ++ [⟨some name, some value⟩])

/-- What lines 738-784 of `createProperty` have established when the dispatch on
the property name starts: the group string, the pointer `propertyName`, the
parameters, the pointer `valueString`, and the working copy with `strtok`'s
saved pointer. -/
structure Head where
  group : List Char
  propertyName : Nat
  parameters : List Parameter
  valueString : Nat
  mem : List Char
  save : Nat
deriving DecidableEq, Repr

/-- Lines 776-784 of `createProperty`: the group.  `strlen(group)` with
`group == NULL` is undefined. -/
def parseGroup (mem : List Char) (propertyName save : Nat) :
    Option (List Char × Option Nat × List Char × Nat) :=
  if strchr (cstrAt mem propertyName) '.' then
    let g := strtok mem (some propertyName) ['.'] save
    match g.tok with
    | none => none
    | some group =>
      let n := strtok g.mem none ['.'] g.save
      some (cstrAt g.mem group, n.tok, n.mem, n.save)
  else some ([], some propertyName, mem, save)

/-- Lines 735-784 of `createProperty`: copy the line, find the value string,
tokenise the head.  The outer `none` is undefined behaviour (`strlen` or
`strcasecmp` of `NULL`, an indeterminate read), the inner `none` is
`return NULL`. -/
def parseHead (stringToParse : List Char) : Option (Option Head) :=
  let propertyString := cstr stringToParse
  match strpbrk propertyString [':'] with
  | none => some none
  | some colon =>
    let valueString := colon + 1
    let t1 := strtok propertyString (some 0) [':'] 0
    let t2 := strtok t1.mem t1.tok [';', ':'] t1.save
    match t2.tok with
    | none => none
    | some propertyName =>
      if (cstrAt t2.mem propertyName).length = 0 then some none
      else
        let t3 := strtok t2.mem none [';'] t2.save
        match parseParameters (t3.mem.length + 1) t3 [] with
        | none => none
        | some none => some none
        | some (some (params, t)) =>
          match parseGroup t.mem propertyName t.save with
          | none => none
          | some (_, none, _, _) => none
          | some (group, some name, mem, save) =>
            some (some ⟨group, name, params, valueString, mem, save⟩)

/-- The names the last branch of `createProperty` accepts (lines 856-887), as
the source spells them. -/
def genericNames : List (List Char) :=
  ["SOURCE".toList, "KIND".toList, "XML".toList, "N".toList, "NICKNAME".toList,
   "PHOTO".toList, "GENDER".toList, "ADR".toList, "TEL".toList, "EMAIL".toList,
   "IIMP".toList, "LANG".toList, "TZ".toList, "GEO".toList, "TITLE".toList,
   "ROLE".toList, "LOGO".toList, "ORG".toList, "MEMBER".toList, "RELATED".toList,
   "CATEGORIES".toList, "NOTE".toList, "PRODID".toList, "REV".toList, "SOUND".toList,
   "UID".toList, "CLIENTPIDMAP".toList, "URL".toList, "KEY".toList, "FBURL".toList,
   "CALADRURI".toList, "CALURI".toList]

/-- The iterator loop of lines 803-810 and 831-838: is there a parameter
`VALUE=text`, compared with `strcasecmp`. -/
def hasValueText (params : List Parameter) : Bool :=
  params.any (fun param =>
    match param.name, param.value with
    | some n, some v =>
      decide (strcasecmp n "VALUE".toList = 0) && decide (strcasecmp v "text".toList = 0)
    | _, _ => false)

/-- Lines 812-822 and 840-850: the `DateTime` stored for BDAY and ANNIVERSARY. -/
def dateOfHead (h : Head) : Option DateTime :=
  if hasValueText h.parameters then
    some ⟨false, true, some [], some [], some (cstrAt h.mem h.valueString)⟩
  else createDateTime h.mem h.valueString

/-- Lines 786-901 of `createProperty`: the dispatch on the property name. -/
def dispatch (card : Card) (h : Head) : Option (Option Card) :=
  let propertyName := cstrAt h.mem h.propertyName
  if strcasecmp propertyName "FN".toList = 0 then
    let t := strtok h.mem (some h.valueString) [';'] h.save
    match t.tok with
    | none => some none
    | some token =>
      some (some { card with fn := some ⟨some (cstrAt t.mem h.propertyName), some h.group,
        some h.parameters, some [cstrAt t.mem token]⟩ })
  else if strcasecmp propertyName "BDAY".toList = 0 then
    match dateOfHead h with
    | none => none
    | some dt => some (some { card with birthday := some dt })
  else if strcasecmp propertyName "ANNIVERSARY".toList = 0 then
    match dateOfHead h with
    | none => none
    | some dt => some (some { card with anniversary := some dt })
  else if genericNames.any (fun n => decide (strcasecmp propertyName n = 0)) then
    let newProperty : Property := ⟨some propertyName, some h.group, some h.parameters,
      some (parsePropertyValues [] propertyName (cstrAt h.mem h.valueString))⟩
    some (some { card with
      optionalProperties := insertBack card.optionalProperties newProperty })
  else some none

/-- The function `createProperty` (lines 723-902).  `some (some card)` is a
non-`NULL` return with the card as the call leaves it, `some none` is
`return NULL` (the card is untouched on every such path), `none` is undefined
behaviour. -/
def createProperty (card : Card) (stringToParse : List Char) : Option (Option Card) :=
  match parseHead stringToParse with
  | none => none
  | some none => some none
  | some (some h) => dispatch card h

/-! ## Line unfolder -/

/-- The function `getline` on the unread rest `fp` of the stream: the new
content of the line buffer as a C string, the rest of the stream and the
return value.  At end of file the buffer is left as it was (indeterminate,
`none`, if it had not been allocated) and the return value is `-1`. -/
def getline (lineptr : Option (List Char)) (fp : List Char) :
    Option (List Char) × List Char × Int :=
  if fp = [] then (lineptr, fp, -1)
  else
    let raw := fp.take (strcspn fp [LF] + 1)
    (some (cstr raw), fp.drop (strcspn fp [LF] + 1), (raw.length : Int))

/-- The locals of `createCard` that `readNextLine` works on. -/
structure Reader where
  currentLine : Option (List Char)
  nextLine : Option (List Char)
  fp : List Char
deriving DecidableEq, Repr

/-- The test `*(line + strlen(line) - 2) != '\r'` of `readNextLine` followed by
`*(line + strlen(line) - 2) = '\0'`: `some none` when the test makes the
function return `-1`, otherwise the line without its last two bytes.  The byte
read lies before the buffer when the string is shorter than two bytes, and the
buffer is indeterminate when `getline` never filled it: `none`. -/
def stripCRLF (line : Option (List Char)) : Option (Option (List Char)) :=
  match line with
  | none => none
  | some l =>
    if l.length < 2 then none
    else if peek l (l.length - 2) != CR then some none
    else some (some (l.take (l.length - 2)))

/-- The `while (*nextLine[0] == ' ')` loops of `readNextLine` (lines 686-694
and 709-717). -/
def unfoldLoop : Nat → List Char → List Char → List Char → Int → Option (Int × Reader)
  | 0, _, _, _, _ => none
  | fuel + 1, currentLine, nextLine, fp, read_size =>
    if peek nextLine 0 = ' ' then
      let g := getline (some nextLine) fp
      match stripCRLF g.1 with
      | none => none
      | some none => some (-1, ⟨some (currentLine ++ nextLine.drop 1), g.1, g.2.1⟩)
      | some (some next) => unfoldLoop fuel (currentLine ++ nextLine.drop 1) next g.2.1 g.2.2
    else some (read_size, ⟨some currentLine, some nextLine, fp⟩)

/-- The function `readNextLine` (lines 672-721): the return value and the
locals of the caller after the call. -/
def readNextLine (r : Reader) : Option (Int × Reader) :=
  match r.currentLine with
  | none =>
    let g := getline none r.fp
    match stripCRLF g.1 with
    | none => none
    | some none => some (-1, ⟨g.1, r.nextLine, g.2.1⟩)
    | some (some current) =>
      let g2 := getline r.nextLine g.2.1
      match stripCRLF g2.1 with
      | none => none
      | some none => some (-1, ⟨some current, g2.1, g2.2.1⟩)
      | some (some next) =>
        unfoldLoop (g2.2.1.length + next.length + 1) current next g2.2.1 g2.2.2
  | some _ =>
    match r.nextLine with
    | none => none
    | some current =>
      let g := getline (some current) r.fp
      match stripCRLF g.1 with
      | none => none
      | some none => some (-1, ⟨some current, g.1, g.2.1⟩)
      | some (some next) =>
        unfoldLoop (g.2.1.length + next.length + 1) current next g.2.1 g.2.2

/-! ## Card assembler -/

/-- The loop of lines 68-73 of `createCard`.  `some none` is the exit through
`error = INV_PROP`; otherwise the card and the reader when `readNextLine`
returned `-1`. -/
def readProperties : Nat → Card → Reader → Option (Option (Card × Reader))
  | 0, _, _ => none
  | fuel + 1, card, r =>
    match readNextLine r with
    | none => none
    | some (read_size, r1) =>
      if read_size = -1 then some (some (card, r1))
      else
        match r1.currentLine with
        | none => none
        | some currentLine =>
          match createProperty card currentLine with
          | none => none
          | some none => some none
          | some (some card1) => readProperties fuel card1 r1

/-- The card `createCard` starts from (lines 40-45). -/
def newCard : Card := ⟨none, some [], none, none⟩

/-- The function `createCard` from line 40 on, on the content `fp` of a file
that has been opened (the argument, extension and `fopen` gates of lines
21-38 are not part of this model).  The result is the error code and the
card; on an error the card is torn down (`none`). -/
def createCard (fp : List Char) : Option (VCardErrorCode × Option Card) :=
  match readNextLine ⟨none, none, fp⟩ with
  | none => none
  | some (read1, r1) =>
    if read1 = -1 then some (VCardErrorCode.INV_PROP, none)
    else
      match r1.currentLine with
      | none => none
      | some line1 =>
        if strcasecmp line1 "BEGIN:VCARD".toList ≠ 0 then some (VCardErrorCode.INV_CARD, none)
        else
          match readNextLine r1 with
          | none => none
          | some (read2, r2) =>
            if read2 = -1 then some (VCardErrorCode.INV_PROP, none)
            else
              match r2.currentLine with
              | none => none
              | some line2 =>
                if strcasecmp line2 "VERSION:4.0".toList ≠ 0 then
                  some (VCardErrorCode.INV_CARD, none)
                else
                  match readProperties (r2.fp.length + 1) newCard r2 with
                  | none => none
                  | some none => some (VCardErrorCode.INV_PROP, none)
                  | some (some (card, r)) =>
                    if card.fn = none then some (VCardErrorCode.INV_CARD, none)
                    else
                      match r.currentLine with
                      | none => none
                      | some last =>
                        if strcasecmp last "END:VCARD".toList ≠ 0 then
                          some (VCardErrorCode.INV_CARD, none)
                        else some (VCardErrorCode.OK, some card)

/-! ## Validator -/

/-- The counters of lines 306-311 of `validateCard`. -/
structure Counters where
  kindCounter : Int
  nCounter : Int
  genderCounter : Int
  prodidCounter : Int
  revCounter : Int
  uidCounter : Int
deriving DecidableEq, Repr

/-- The test `strcasecmp(name, s) == 0`. -/
def nameIs (name : List Char) (s : String) : Bool :=
  decide (strcasecmp name s.toList = 0)

/-- The names of lines 346-368 of `validateCard`: the properties that take a
single value and may repeat. -/
def singleValueNames : List String :=
  ["SOURCE", "XML", "FN", "NICKNAME", "PHOTO", "EMAIL", "IMPP", "LANG", "TZ", "GEO",
   "TITLE", "ROLE", "LOGO", "MEMBER", "RELATED", "CATEGORIES", "NOTE", "SOUND", "URL",
   "KEY", "FBURL", "CALADRURI", "CALURI"]

/-- The test of line 331 on one parameter. -/
def emptyParameter (param : Parameter) : Bool :=
  match param.name, param.value with
  | some name, some value => decide (name.length = 0) || decide (value.length = 0)
  | _, _ => true

/-- The body of the loop of `validateCard` (lines 316-423) for one property:
the code returned from inside the loop, or the counters after the iteration. -/
def validateProperty (c : Counters) (property : Property) : Except VCardErrorCode Counters :=
  match property.name, property.group, property.parameters, property.values with
  | some name, some _, some parameters, some values =>
    if parameters.any emptyParameter then .error .INV_PROP
    else if nameIs name "VERSION" then .error .INV_CARD
    else if nameIs name "BEGIN" || nameIs name "END" || nameIs name "BDAY"
        || nameIs name "ANNIVERSARY" then .error .INV_PROP
    else if singleValueNames.any (nameIs name) then
      if getLength values ≠ 1 then .error .INV_PROP else .ok c
    else if nameIs name "KIND" then
      if c.kindCounter > 0 ∨ getLength values ≠ 1 then .error .INV_PROP
      else .ok { c with kindCounter := c.kindCounter + 1 }
    else if nameIs name "PRODID" then
      if c.prodidCounter > 0 ∨ getLength values ≠ 1 then .error .INV_PROP
      else .ok { c with prodidCounter := c.prodidCounter + 1 }
    else if nameIs name "REV" then
      if c.revCounter > 0 ∨ getLength values ≠ 1 then .error .INV_PROP
      else .ok { c with revCounter := c.revCounter + 1 }
    else if nameIs name "UID" then
      if c.uidCounter > 0 ∨ getLength values ≠ 1 then .error .INV_PROP
      else .ok { c with uidCounter := c.uidCounter + 1 }
    else if nameIs name "GENDER" then
      if c.genderCounter > 0 then .error .INV_PROP
      else if getLength values ≠ 1 ∧ getLength values ≠ 2 then .error .INV_PROP
      else .ok { c with genderCounter := c.genderCounter + 1 }
    else if nameIs name "CLIENTPIDMAP" then
      if getLength values ≠ 2 then .error .INV_PROP else .ok c
    else if nameIs name "N" then
      if c.nCounter > 0 then .error .INV_PROP
      else if getLength values ≠ 5 then .error .INV_PROP
      else .ok { c with nCounter := c.nCounter + 1 }
    else if nameIs name "ADR" then
      if getLength values ≠ 7 then .error .INV_PROP else .ok c
    else if nameIs name "ORG" || nameIs name "TEL" then
      if getLength values = 0 then .error .INV_PROP else .ok c
    else .error .INV_PROP
  | _, _, _, _ => .error .INV_PROP

/-- The loop of lines 315-424 of `validateCard` over the optional properties. -/
def validateProperties : Counters → List Property → VCardErrorCode
  | _, [] => .OK
  | c, property :: rest =>
    match validateProperty c property with
    | .error code => code
    | .ok c1 => validateProperties c1 rest

/-- The function `validateCard` (lines 290-427); `none` is a `NULL` card. -/
def validateCard (obj : Option Card) : VCardErrorCode :=
  match obj with
  | none => .INV_CARD
  | some card =>
    match card.fn, card.optionalProperties with
    | some _, some optionalProperties =>
      if card.birthday.any (fun d => !validateDateTime d) then .INV_DT
      else if card.anniversary.any (fun d => !validateDateTime d) then .INV_DT
      else validateProperties ⟨0, 0, 0, 0, 0, 0⟩ optionalProperties
    | _, _ => .INV_CARD

/-! ## Serializer -/

/-- The parameter loop of `propertyToString` (lines 508-518): `;name=value` is appended to
the string for every parameter.  `strlen` of a `NULL` name or value is undefined. -/
def paramsToString : List Parameter → List Char → Option (List Char)
  | [], propertyString => some propertyString
  | param :: rest, propertyString =>
    match param.name, param.value with
    | some name, some value =>
      paramsToString rest (propertyString ++ [';'] ++ name ++ ['='] ++ value)
    | _, _ => none

/-- The value loop of `propertyToString` (lines 522-529): the value and a semicolon are
appended for every value.  `printData` of the value list is `valueToString` (line 734),
which returns the value itself. -/
def valuesToString : List (List Char) → List Char → List Char
  | [], propertyString => propertyString
  | value :: rest, propertyString => valuesToString rest (propertyString ++ value ++ [';'])

/-- The function `propertyToString` (lines 494-535).  The inner `none` is the `NULL` it
returns for a `NULL` property; the outer `none` is undefined behaviour (`strlen` of a `NULL`
name, an iterator over a `NULL` list).  Line 531 overwrites the last byte of the string, which
is the last semicolon, or the colon when there is no value. -/
def propertyToString (prop : Option Property) : Option (Option (List Char)) :=
  match prop with
  | none => some none
  | some property =>
    match property.name, property.parameters, property.values with
    | some name, some parameters, some values =>
      match paramsToString parameters name with
      | none => none
      | some withParams =>
        let propertyString := valuesToString values (withParams ++ [':'])
        some (some (propertyString.set (propertyString.length - 1) CR ++ [LF]))
    | _, _, _ => none

/-- The function `dateToString` (lines 636-668).  The inner `none` is the `NULL` it returns
for a `NULL` date; the outer `none` is undefined behaviour (`strlen` or `strcpy` of a `NULL`
string).  Line 663 overwrites the last byte of the string, the LF, with `Z`. -/
def dateToString (date : Option DateTime) : Option (Option (List Char)) :=
  match date with
  | none => some none
  | some dateTime =>
    let dateTimeString : Option (List Char) :=
      if dateTime.isText then
        match dateTime.text with
        | some text => some (text ++ [LF])
        | none => none
      else
        match dateTime.time, dateTime.date with
        | some time, some date =>
          if time.length > 0 then some (date ++ ['T'] ++ time ++ [LF])
          else some (date ++ [LF])
        | _, _ => none
    match dateTimeString with
    | none => none
    | some s =>
      if dateTime.UTC then some (some (s.set (s.length - 1) 'Z' ++ [LF]))
      else some (some s)

/-- Modelled from the spec: `toString` of the list library (not under `src/`), with the
`printData` of the list as an argument.  Section 4.7 lays the optional properties out as
"each optional property line": the strings `printData` gives for the elements, in list
order, with nothing before, between or after them.  A `NULL` list and a `NULL` string from
`printData` are undefined. -/
def toString {α : Type} (printData : α → Option (Option (List Char)))
    (list : Option (List α)) : Option (List Char) :=
  match list with
  | none => none
  | some elements =>
    elements.foldr (fun e rest =>
      match printData e, rest with
      | some (some d), some r => some (d ++ r)
      | _, _ => none) (some [])

/-- Lines 244-257 and 258-271 of `writeCard`: the line of a date is appended to
`cardString` when `dateToString` returned a string; the LF that ends that string is
overwritten with CR and an LF is appended.  `textTag` and `tag` are the two literals of the
block. -/
def writeDate (cardString : List Char) (textTag tag : String) (date : Option DateTime)
    (dateString : Option (List Char)) : List Char :=
  match dateString, date with
  | some s, some dateTime =>
    let withDate := cardString ++ (if dateTime.isText then textTag.toList else tag.toList) ++ s
    withDate.set (withDate.length - 1) CR ++ [LF]
  | _, _ => cardString

/-- The function `writeCard` from line 234 on, for a card that is not `NULL` and a file that
has been opened (the gates of lines 215-232 are not part of this model): the text handed to
`fputs`.  `none` is undefined behaviour: `strlen` of the `NULL` that `propertyToString`
returns for a card without `fn`, or an undefined call among the four of lines 234-237. -/
def writeCard (obj : Card) : Option (List Char) :=
  match propertyToString obj.fn, dateToString obj.birthday, dateToString obj.anniversary,
      toString (fun p => propertyToString (some p)) obj.optionalProperties with
  | some (some fullName), some birthday, some anniversary, some optionalProperties =>
    let withName := "BEGIN:VCARD\r\nVERSION:4.0\r\n".toList ++ fullName
    let withBirthday := writeDate withName "BDAY;VALUE=text:" "BDAY:" obj.birthday birthday
    let withAnniversary := writeDate withBirthday "ANNIVERSARY;VALUE=text:" "ANNIVERSARY:"
      obj.anniversary anniversary
    some (withAnniversary ++ optionalProperties ++ "END:VCARD\r\n".toList)
  | _, _, _, _ => none

/-- Lines 132-142 and 143-153 of `cardToString`: the tag and the string of a date are
appended to `cardString` when `dateToString` returned a string.  The string is left as
`dateToString` made it. -/
def describeDate (cardString : List Char) (textTag tag : String) (date : Option DateTime)
    (dateString : Option (List Char)) : List Char :=
  match dateString, date with
  | some s, some dateTime =>
    cardString ++ (if dateTime.isText then textTag.toList else tag.toList) ++ s
  | _, _ => cardString

/-- The function `cardToString` (lines 112-163); `none` as argument is a `NULL` card.  The
result `none` is undefined behaviour: `strlen` of the `NULL` that `propertyToString` returns
for a card without `fn`, or an undefined call among the four of lines 125-128. -/
def cardToString (obj : Option Card) : Option (List Char) :=
  match obj with
  | none => some "null".toList
  | some card =>
    match propertyToString card.fn, dateToString card.birthday, dateToString card.anniversary,
        toString (fun p => propertyToString (some p)) card.optionalProperties with
    | some (some fullName), some birthday, some anniversary, some optionalProperties =>
      let withBirthday := describeDate fullName "BDAY;VALUE=text:" "BDAY:" card.birthday
        birthday
      let withAnniversary := describeDate withBirthday "ANNIVERSARY;VALUE=text:"
        "ANNIVERSARY:" card.anniversary anniversary
      some (withAnniversary ++ optionalProperties)
    | _, _, _, _ => none

/-! ## Comparison of properties -/

/-- The function `compareParameters` (lines 550-566) on two parameters that are not `NULL`:
the two results of `strcasecmp` are added.  `strcasecmp` of a `NULL` string is undefined. -/
def compareParameters (first second : Parameter) : Option Int :=
  match first.name, second.name, first.value, second.value with
  | some firstName, some secondName, some firstValue, some secondValue =>
    some (0 + strcasecmp firstName secondName + strcasecmp firstValue secondValue)
  | _, _, _, _ => none

/-- The function `compareValues` (lines 589-604) on two values that are not `NULL`. -/
def compareValues (first second : List Char) : Int :=
  0 + strcmp first second

/-- The loop of lines 471-475 of `compareProperties`: the two iterators advance together and
the result of `compareParameters` is added to `ret` until one of the lists ends. -/
def compareParametersLoop : List Parameter → List Parameter → Int → Option Int
  | paramFirst :: rest1, paramSecond :: rest2, ret =>
    match compareParameters paramFirst paramSecond with
    | none => none
    | some d => compareParametersLoop rest1 rest2 (ret + d)
  | _, _, ret => some ret

/-- The loop of lines 485-489 of `compareProperties`, over the values. -/
def compareValuesLoop : List (List Char) → List (List Char) → Int → Int
  | valueFirst :: rest1, valueSecond :: rest2, ret =>
    compareValuesLoop rest1 rest2 (ret + compareValues valueFirst valueSecond)
  | _, _, ret => ret

/-- The function `compareProperties` (lines 448-492); `none` as argument is `NULL`.  The
result `none` is undefined behaviour: `strcasecmp` of a `NULL` string, an iterator over a
`NULL` list.  `ret` is an `int`; the sums are taken in the integers. -/
def compareProperties (first second : Option Property) : Option Int :=
  match first, second with
  | some firstProperty, some secondProperty =>
    match firstProperty.name, secondProperty.name, firstProperty.group, secondProperty.group,
        firstProperty.parameters, secondProperty.parameters, firstProperty.values,
        secondProperty.values with
    | some name1, some name2, some group1, some group2, some parameters1, some parameters2,
        some values1, some values2 =>
      let ret0 := 0 + strcasecmp name1 name2 + strcasecmp group1 group2
      let ret1 := if getLength parameters1 ≠ getLength parameters2 then ret0 + 1 else ret0
      match compareParametersLoop parameters1 parameters2 ret1 with
      | none => none
      | some ret2 =>
        let ret3 := if getLength values1 ≠ getLength values2 then ret2 + 1 else ret2
        some (compareValuesLoop values1 values2 ret3)
    | _, _, _, _, _, _, _, _ => none
  | _, _ => some 1

/-! ## Vocabulary of the statements

The claims speak of lines of the grammar `[group.]NAME(;name=value)*:value`.
The definitions below build such lines and describe the working copy of
`createProperty` while it is tokenised; they are not part of the program. -/

/-- A region of memory that ends at a NUL byte or at the end of the buffer. -/
def Ends (post : List Char) : Prop := post = [] ∨ ∃ post1, post = NUL :: post1

/-- The text of one parameter in the head of a line: `;name=value`. -/
def paramText (p : List Char × List Char) : List Char := ';' :: p.1 ++ '=' :: p.2

/-- The text of the parameters of a line, in order. -/
def paramsText (ps : List (List Char × List Char)) : List Char := (ps.map paramText).flatten

/-- The `Parameter` the parser allocates for the text `;name=value`. -/
def toParameter (p : List Char × List Char) : Parameter := ⟨some p.1, some p.2⟩

/-- A parameter the loop of lines 757-774 can read back: the name has no delimiter byte, the
value is not empty and has no semicolon or colon. -/
def ParamOK (p : List Char × List Char) : Prop :=
  (∀ c ∈ p.1, c ≠ ';' ∧ c ≠ ':' ∧ c ≠ '=' ∧ c ≠ NUL) ∧ p.2 ≠ [] ∧
    (∀ c ∈ p.2, c ≠ ';' ∧ c ≠ ':' ∧ c ≠ NUL)

/-- The group prefix of a name segment: nothing for the empty group, else `group.`. -/
def groupText (g : List Char) : List Char := if g = [] then [] else g ++ ['.']

/-- The logical line `[group.]name(;name=value)*:value`. -/
def propertyLine (g name : List Char) (ps : List (List Char × List Char)) (value : List Char) :
    List Char :=
  groupText g ++ name ++ paramsText ps ++ ':' :: value

/-- A group or property name: a C string without dot, semicolon or colon. -/
def TokenOK (s : List Char) : Prop := ∀ c ∈ s, c ≠ '.' ∧ c ≠ ';' ∧ c ≠ ':' ∧ c ≠ NUL

/-- The state of `createProperty` at line 786 for a line with the given group, name,
parameters and value string: the name is read through `propertyName`, and the byte before
the value string is the NUL that replaced the colon. -/
def HeadShape (h : Head) (g name : List Char) (params : List Parameter) (value : List Char) :
    Prop :=
  h.group = g ∧ h.parameters = params ∧
    ∃ a b, h.propertyName = a.length ∧ Ends b ∧ h.mem = a ++ name ++ b ++ NUL :: value ∧
      h.valueString = (a ++ name ++ b).length + 1

/-- Text that may follow the name segment in the head of a line: nothing, or a semicolon and
anything free of colons. -/
def TailOK (ptext : List Char) : Prop :=
  (ptext = [] ∨ ∃ r, ptext = ';' :: r) ∧ ':' ∉ ptext ∧ NUL ∉ ptext

/-- The byte that ends the name segment once the head has been tokenised. -/
def sepOf (ptext : List Char) : List Char := if ptext = [] then [] else [NUL]

/-- The parameter loop as `parseHead` runs it on the line `seg ++ ptext ++ ":" ++ value`
whose name segment is `seg`. -/
def headLoop (seg ptext value : List Char) : Option (Option (List Parameter × Tok)) :=
  parseParameters
    ((strtok (seg ++ sepOf ptext ++ ptext.drop 1 ++ NUL :: value) none [';']
      (seg ++ sepOf ptext).length).mem.length + 1)
    (strtok (seg ++ sepOf ptext ++ ptext.drop 1 ++ NUL :: value) none [';']
      (seg ++ sepOf ptext).length) []

/-- A name segment: not empty, without semicolon, colon or NUL. -/
def SegOK (seg : List Char) : Prop := seg ≠ [] ∧ ∀ c ∈ seg, c ≠ ';' ∧ c ≠ ':' ∧ c ≠ NUL

/-- What `parseHead` returns once the parameter loop has left the working copy `mem`:
the result of lines 776-784 and the `return` paths around them. -/
def headResult (mem : List Char) (save : Nat) (params : List Parameter) (valueString : Nat) :
    Option (Option Head) :=
  match parseGroup mem 0 save with
  | none => none
  | some (_, none, _, _) => none
  | some (group, some name, mem1, save1) =>
    some (some ⟨group, name, params, valueString, mem1, save1⟩)

/-- The part of a name segment before its first dot; empty when there is no dot. -/
def groupOf (seg : List Char) : List Char :=
  if '.' ∈ seg then seg.takeWhile (fun c => c != '.') else []

/-- The part of a name segment after its first dot; the whole segment when there is no dot. -/
def nameOf (seg : List Char) : List Char :=
  if '.' ∈ seg then (seg.dropWhile (fun c => c != '.')).drop 1 else seg

/-- Where an accepted FN or generic line leaves its `Property`: in `fn` when the name is FN,
at the tail of `optionalProperties` otherwise. -/
def StoredAs (card card1 : Card) (name : List Char) (p : Property) : Prop :=
  (strcasecmp name "FN".toList = 0 ∧ card1.fn = some p) ∨
    (strcasecmp name "FN".toList ≠ 0 ∧
      card1.optionalProperties = insertBack card.optionalProperties p)

/-- A physical line with its CRLF terminator. -/
def crlf (l : List Char) : List Char := l ++ [CR, LF]

/-- A logical line as it stands in the file: its first physical line and the continuation
lines that follow, each given without its leading space. -/
structure Folded where
  first : List Char
  conts : List (List Char)

/-- The continuation lines of a logical line as they stand in the file. -/
def contsText (conts : List (List Char)) : List Char :=
  (conts.map (fun c => crlf (' ' :: c))).flatten

/-- The text of a logical line in the file. -/
def Folded.text (l : Folded) : List Char := crlf l.first ++ contsText l.conts

/-- The logical line: the first physical line followed by the continuations. -/
def Folded.logical (l : Folded) : List Char := l.first ++ l.conts.flatten

/-- The text of a file made of the given logical lines. -/
def fileText (ls : List Folded) : List Char := (ls.map Folded.text).flatten

/-- The content of a physical line: no CR, LF or NUL byte. -/
def PieceOK (s : List Char) : Prop := ∀ c ∈ s, c ≠ CR ∧ c ≠ LF ∧ c ≠ NUL

/-- Every physical line of the logical line is free of CR, LF and NUL. -/
def Folded.Clean (l : Folded) : Prop := PieceOK l.first ∧ ∀ c ∈ l.conts, PieceOK c

/-- The first physical line does not start with a space, so it starts a logical line. -/
def Folded.Starts (l : Folded) : Prop := l.first.head? ≠ some ' '

/-- The last physical line of a logical line, as it stands in the file. -/
def Folded.lastPhysical (l : Folded) : List Char :=
  match l.conts.getLast? with
  | none => l.first
  | some c => ' ' :: c

/-- The property parser run over the logical lines in order, as the loop of lines 68-73
runs it: `none` once a call is undefined, `some none` once a line is rejected. -/
def parseAll : Card → List (List Char) → Option (Option Card)
  | card, [] => some (some card)
  | card, l :: ls =>
    match createProperty card l with
    | none => none
    | some none => some none
    | some (some card1) => parseAll card1 ls

/-- What the loop of lines 68-73 returns when the property parser gives `r` on the lines
before the last one and `last` is the last logical line. -/
def loopResult (r : Option (Option Card)) (last : Folded) : Option (Option (Card × Reader)) :=
  match r with
  | none => none
  | some none => some none
  | some (some card) => some (some (card, ⟨some last.logical, some last.lastPhysical, []⟩))

/-- The logical line is an FN property: its head parses and the name compares equal to FN
under `strcasecmp`, the test of line 787. -/
def IsFNLine (line : List Char) : Prop :=
  ∃ h, parseHead line = some (some h) ∧
    strcasecmp (cstrAt h.mem h.propertyName) "FN".toList = 0

/-- The content of a physical line that ends in CR LF: the bytes before the terminator hold
no LF (the line would end there) and no NUL (the line is text). -/
def LineOK (s : List Char) : Prop := ∀ c ∈ s, c ≠ LF ∧ c ≠ NUL

/-- The text of physical lines given without their terminators. -/
def linesText (ps : List (List Char)) : List Char := (ps.map crlf).flatten

/-- What `getline` leaves in the line buffer when the unread text is `fp`: the bytes up to
and including the first LF (all of `fp` when it has none), as a C string. -/
def firstLine (fp : List Char) : List Char := cstr (fp.take (strcspn fp [LF] + 1))

/-- The unread text starts with a physical line that fails the test of `readNextLine`: the
line, LF included when it has one, has at least two bytes and the byte before its last is not
CR.  Such is a line that ends in a bare LF and a last line without terminator. -/
def Unterminated (junk : List Char) : Prop :=
  junk ≠ [] ∧ 2 ≤ (firstLine junk).length ∧
    peek (firstLine junk) ((firstLine junk).length - 2) ≠ CR

/-- What the loop of lines 68-73 returns when the property parser gives `r` on the lines it
was handed and the reader is `rd` when `readNextLine` returns `-1`. -/
def loopEnd (r : Option (Option Card)) (rd : Reader) : Option (Option (Card × Reader)) :=
  match r with
  | none => none
  | some none => some none
  | some (some card) => some (some (card, rd))

/-- The `Property` the last branch of `createProperty` (lines 856-895) builds for a logical
line; `none` when the line does not reach that branch with a known name. -/
def genericOf (line : List Char) : Option Property :=
  match parseHead line with
  | some (some h) =>
    if strcasecmp (cstrAt h.mem h.propertyName) "FN".toList = 0 then none
    else if strcasecmp (cstrAt h.mem h.propertyName) "BDAY".toList = 0 then none
    else if strcasecmp (cstrAt h.mem h.propertyName) "ANNIVERSARY".toList = 0 then none
    else if genericNames.any (fun n => decide (strcasecmp (cstrAt h.mem h.propertyName) n = 0))
    then
      some ⟨some (cstrAt h.mem h.propertyName), some h.group, some h.parameters,
        some (parsePropertyValues [] (cstrAt h.mem h.propertyName)
          (cstrAt h.mem h.valueString))⟩
    else none
  | _ => none

/-- The logical lines the loop of lines 68-73 hands to `createProperty`, in order, when the
reader is `r` at the start of the loop. -/
def linesRead : Nat → Reader → List (List Char)
  | 0, _ => []
  | fuel + 1, r =>
    match readNextLine r with
    | none => []
    | some (read_size, r1) =>
      if read_size = -1 then []
      else
        match r1.currentLine with
        | none => []
        | some currentLine => currentLine :: linesRead fuel r1

/-- The logical lines of the input after the first two, as `createCard` reads them: the lines
its loop hands to `createProperty`, in the order they stand in the input. -/
def propertyLines (fp : List Char) : List (List Char) :=
  match readNextLine ⟨none, none, fp⟩ with
  | none => []
  | some (_, r1) =>
    match readNextLine r1 with
    | none => []
    | some (_, r2) => linesRead (r2.fp.length + 1) r2

/-- The names that are handled outside `optionalProperties`. -/
def structuralNames : List (List Char) :=
  ["FN".toList, "BDAY".toList, "ANNIVERSARY".toList, "BEGIN".toList, "END".toList,
   "VERSION".toList]

/-- The branches of the chain of name tests in the loop of `validateCard` (lines 336-423). -/
inductive Branch where
  | version
  | structural
  | single
  | kind
  | prodid
  | rev
  | uid
  | gender
  | clientpidmap
  | n
  | adr
  | orgtel
  | unknown
deriving DecidableEq, Repr

/-- The branch of the chain of lines 336-423 that a property name selects: the first test of
the chain that the name passes. -/
def branchOf (name : List Char) : Branch :=
  if nameIs name "VERSION" then .version
  else if nameIs name "BEGIN" || nameIs name "END" || nameIs name "BDAY"
      || nameIs name "ANNIVERSARY" then .structural
  else if singleValueNames.any (nameIs name) then .single
  else if nameIs name "KIND" then .kind
  else if nameIs name "PRODID" then .prodid
  else if nameIs name "REV" then .rev
  else if nameIs name "UID" then .uid
  else if nameIs name "GENDER" then .gender
  else if nameIs name "CLIENTPIDMAP" then .clientpidmap
  else if nameIs name "N" then .n
  else if nameIs name "ADR" then .adr
  else if nameIs name "ORG" || nameIs name "TEL" then .orgtel
  else .unknown

/-- The body of each branch of the chain of lines 336-423. -/
def branchStep (b : Branch) (c : Counters) (values : List (List Char)) :
    Except VCardErrorCode Counters :=
  match b with
  | .version => .error .INV_CARD
  | .structural => .error .INV_PROP
  | .single => if getLength values ≠ 1 then .error .INV_PROP else .ok c
  | .kind =>
    if c.kindCounter > 0 ∨ getLength values ≠ 1 then .error .INV_PROP
    else .ok { c with kindCounter := c.kindCounter + 1 }
  | .prodid =>
    if c.prodidCounter > 0 ∨ getLength values ≠ 1 then .error .INV_PROP
    else .ok { c with prodidCounter := c.prodidCounter + 1 }
  | .rev =>
    if c.revCounter > 0 ∨ getLength values ≠ 1 then .error .INV_PROP
    else .ok { c with revCounter := c.revCounter + 1 }
  | .uid =>
    if c.uidCounter > 0 ∨ getLength values ≠ 1 then .error .INV_PROP
    else .ok { c with uidCounter := c.uidCounter + 1 }
  | .gender =>
    if c.genderCounter > 0 then .error .INV_PROP
    else if getLength values ≠ 1 ∧ getLength values ≠ 2 then .error .INV_PROP
    else .ok { c with genderCounter := c.genderCounter + 1 }
  | .clientpidmap => if getLength values ≠ 2 then .error .INV_PROP else .ok c
  | .n =>
    if c.nCounter > 0 then .error .INV_PROP
    else if getLength values ≠ 5 then .error .INV_PROP
    else .ok { c with nCounter := c.nCounter + 1 }
  | .adr => if getLength values ≠ 7 then .error .INV_PROP else .ok c
  | .orgtel => if getLength values = 0 then .error .INV_PROP else .ok c
  | .unknown => .error .INV_PROP

/-- A rule on the number of values of a property. -/
inductive CountRule where
  | exactly (k : Nat)
  | oneOrTwo
  | atLeastOne
deriving DecidableEq, Repr

/-- Does a number of values satisfy the rule. -/
def CountRule.holds : CountRule → Nat → Bool
  | .exactly k, n => n == k
  | .oneOrTwo, n => n == 1 || n == 2
  | .atLeastOne, n => decide (1 ≤ n)

/-- The names that take exactly one value. -/
def oneValueNames : List String :=
  ["SOURCE", "XML", "FN", "NICKNAME", "PHOTO", "EMAIL", "IMPP", "LANG", "TZ", "GEO",
   "TITLE", "ROLE", "LOGO", "MEMBER", "RELATED", "CATEGORIES", "NOTE", "SOUND", "URL",
   "KEY", "FBURL", "CALADRURI", "CALURI", "KIND", "PRODID", "REV", "UID"]

/-- The value-count rule of the cardinality table for a property name, compared without
regard to case; `none` for a name the table does not list. -/
def countRule (name : List Char) : Option CountRule :=
  if oneValueNames.any (nameIs name) then some (.exactly 1)
  else if nameIs name "N" then some (.exactly 5)
  else if nameIs name "GENDER" then some .oneOrTwo
  else if nameIs name "CLIENTPIDMAP" then some (.exactly 2)
  else if nameIs name "ADR" then some (.exactly 7)
  else if nameIs name "ORG" || nameIs name "TEL" then some .atLeastOne
  else none

/-- The names the cardinality table lists. -/
def tableNames : List String :=
  oneValueNames ++ ["N", "GENDER", "CLIENTPIDMAP", "ADR", "ORG", "TEL"]

/-- The rule each branch of the chain enforces on the number of values. -/
def branchRule : Branch → Option CountRule
  | .single | .kind | .prodid | .rev | .uid => some (.exactly 1)
  | .gender => some .oneOrTwo
  | .clientpidmap => some (.exactly 2)
  | .n => some (.exactly 5)
  | .adr => some (.exactly 7)
  | .orgtel => some .atLeastOne
  | .version | .structural | .unknown => none

/-- The names that may occur on one property at most. -/
def onceNames : List String := ["KIND", "PRODID", "REV", "UID", "N", "GENDER"]

/-- The number of properties in the list whose name compares equal to `s` under
`strcasecmp`. -/
def occurrences (s : String) (ps : List Property) : Nat :=
  ps.countP (fun p => p.name.any (fun n => nameIs n s))

/-- A property that on its own satisfies the value-count rule for its name: the four
containers are present, the name is a C string the cardinality table lists, no parameter is
empty and the number of values satisfies the rule. -/
def RuleOK (p : Property) : Prop :=
  ∃ name group params values r, p = ⟨some name, some group, some params, some values⟩ ∧
    NUL ∉ name ∧ (∀ q ∈ params, emptyParameter q = false) ∧ countRule name = some r ∧
    r.holds values.length = true

/-- The counter of lines 306-311 that a branch of the chain tests and raises; `0` for a
branch without counter. -/
def counterOf (c : Counters) : Branch → Int
  | .kind => c.kindCounter
  | .prodid => c.prodidCounter
  | .rev => c.revCounter
  | .uid => c.uidCounter
  | .n => c.nCounter
  | .gender => c.genderCounter
  | _ => 0

/-- The branches that test a counter. -/
def onceBranches : List Branch := [.kind, .prodid, .rev, .uid, .n, .gender]

/-- The number of properties in the list whose name selects the branch `b`. -/
def branchCount (b : Branch) (ps : List Property) : Nat :=
  ps.countP (fun p => p.name.any (fun n => decide (branchOf n = b)))

/-- The `DateTime` has a date or a time that is not empty. -/
def hasDateOrTime (d : DateTime) : Bool :=
  d.date.any (fun s => decide (s ≠ [])) || d.time.any (fun s => decide (s ≠ []))

/-- Exactly one of the two holds: `isText` is true, the date or the time is not empty. -/
def ExactlyOneForm (d : DateTime) : Prop := (d.isText != hasDateOrTime d) = true

/-- What `validateDateTime` asks of a `DateTime`: the three strings are there, `UTC` and
`isText` are not both set, a text value has neither date nor time, and a value that is not
text has an empty text. -/
def DateAccepted (d : DateTime) : Prop :=
  ∃ date time text, d.date = some date ∧ d.time = some time ∧ d.text = some text ∧
    ¬ (d.UTC = true ∧ d.isText = true) ∧ ¬ (d.isText = true ∧ (date ≠ [] ∨ time ≠ [])) ∧
    (d.isText = false → text = [])

/-- The names the validator rejects in `optionalProperties` (lines 336-345). -/
def rejectedNames : List String := ["VERSION", "BEGIN", "END", "BDAY", "ANNIVERSARY"]

/-- A property that the loop of `validateCard` must not accept: its name compares equal to
VERSION, BEGIN, END, BDAY or ANNIVERSARY, or to none of the names of the cardinality table,
or one of its parameters has an empty name or an empty value. -/
def BadProperty (p : Property) : Prop :=
  (∃ n, p.name = some n ∧ ∃ s ∈ rejectedNames, nameIs n s = true) ∨
    (∃ n, p.name = some n ∧ ∀ s ∈ tableNames, nameIs n s = false) ∨
    (∃ params q, p.parameters = some params ∧ q ∈ params ∧
      (q.name = some [] ∨ q.value = some []))

/-- A property that `propertyToString` can print as a line with a value part: the name and
the two lists are present, every parameter has its name and its value, and there is at least
one value. -/
def Printable (p : Property) : Prop :=
  p.name ≠ none ∧ (∃ ps, p.parameters = some ps ∧ ∀ q ∈ ps, q.name ≠ none ∧ q.value ≠ none) ∧
    ∃ vs, p.values = some vs ∧ vs ≠ []

/-- The text of one parameter in a written line: `;name=value`. -/
def parameterText (q : Parameter) : List Char := ';' :: q.name.getD [] ++ '=' :: q.value.getD []

/-- The line of a property in the written text: the name, the parameters, a colon, the values
separated by semicolons, CR LF. -/
def lineOf (p : Property) : List Char :=
  crlf (p.name.getD [] ++ ((p.parameters.getD []).map parameterText).flatten ++
    ':' :: [';'].intercalate (p.values.getD []))

/-- A `DateTime` whose three strings are present. -/
def DatePrintable (d : DateTime) : Prop := d.date ≠ none ∧ d.time ≠ none ∧ d.text ≠ none

/-- The value part of the line of a date: the text, or the date followed by `T` and the time
when the time is not empty; then `Z` when `UTC` is set. -/
def dateBody (d : DateTime) : List Char :=
  (if d.isText then d.text.getD []
    else d.date.getD [] ++ (if d.time.getD [] = [] then [] else 'T' :: d.time.getD [])) ++
    (if d.UTC then ['Z'] else [])

/-- The line of a date in the written text; `tag` is BDAY or ANNIVERSARY. -/
def dateLine (tag : String) (d : DateTime) : List Char :=
  crlf ((if d.isText then tag.toList ++ ";VALUE=text:".toList else tag.toList ++ [':']) ++
    dateBody d)

/-- The string of a date in `cardToString`; `tag` is BDAY or ANNIVERSARY.  It is the line of
the date as `writeCard` writes it, but it ends in LF alone. -/
def dateText (tag : String) (d : DateTime) : List Char :=
  (if d.isText then tag.toList ++ ";VALUE=text:".toList else tag.toList ++ [':']) ++
    dateBody d ++ [LF]

/-- The counters after the loop body of `validateCard` has accepted every property of the
list in order; `none` when it rejects one of them. -/
def runProperties : Counters → List Property → Option Counters
  | c, [] => some c
  | c, p :: ps =>
    match validateProperty c p with
    | .error _ => none
    | .ok c1 => runProperties c1 ps

/-- Two parameters with equal names and equal values under `strcasecmp`. -/
def ParamsAlike (p q : Parameter) : Prop :=
  ∃ n1 v1 n2 v2, p = ⟨some n1, some v1⟩ ∧ q = ⟨some n2, some v2⟩ ∧
    strcasecmp n1 n2 = 0 ∧ strcasecmp v1 v2 = 0

/-- A value that the written line gives back: no semicolon, no CR, LF or NUL. -/
def ValueOK (v : List Char) : Prop := ∀ c ∈ v, c ≠ ';' ∧ c ≠ CR ∧ c ≠ LF ∧ c ≠ NUL

/-- A parameter that the written line gives back: the name and the value are present and free
of CR and LF, and the parameter loop reads them back. -/
def ParameterRereadable (q : Parameter) : Prop :=
  ∃ n v, q = ⟨some n, some v⟩ ∧ ParamOK (n, v) ∧ PieceOK n ∧ PieceOK v

/-- An `fn` that the written line gives back: the name compares equal to FN, the group is
empty, the parameters can be read back and there is one value, which is not empty. -/
def FNRereadable (p : Property) : Prop :=
  ∃ name params v, p = ⟨some name, some [], some params, some [v]⟩ ∧
    strcasecmp name "FN".toList = 0 ∧ PieceOK name ∧
    (∀ q ∈ params, ParameterRereadable q) ∧ v ≠ [] ∧ ValueOK v

/-- An optional property that the written line gives back: the name compares equal to a name
of the last branch of `createProperty`, the group is empty, the parameters can be read back
and there is at least one value. -/
def PropertyRereadable (p : Property) : Prop :=
  ∃ name params values, p = ⟨some name, some [], some params, some values⟩ ∧
    genericNames.any (fun n => decide (strcasecmp name n = 0)) = true ∧ PieceOK name ∧
    (∀ q ∈ params, ParameterRereadable q) ∧ values ≠ [] ∧ ∀ v ∈ values, ValueOK v

/-- A date that the written line gives back: a text, or a date and a time of which one is not
empty, the date without `T`, and the written string ending in `Z` only when `UTC` is set. -/
def DateRereadable (d : DateTime) : Prop :=
  (∃ text, d = ⟨false, true, some [], some [], some text⟩ ∧ PieceOK text) ∨
    ∃ utc date time, d = ⟨utc, false, some date, some time, some []⟩ ∧ 'T' ∉ date ∧
      PieceOK date ∧ PieceOK time ∧ date ++ time ≠ [] ∧
      (utc = false → (date ++ time).getLast? ≠ some 'Z')

/-- A card that the text `writeCard` writes gives back. -/
def CardRereadable (c : Card) : Prop :=
  (∃ fn, c.fn = some fn ∧ FNRereadable fn) ∧
    (∃ ps, c.optionalProperties = some ps ∧ ∀ p ∈ ps, PropertyRereadable p) ∧
    (∀ d, c.birthday = some d → DateRereadable d) ∧
    ∀ d, c.anniversary = some d → DateRereadable d

/-- The parameters in the written line of a date: `VALUE=text` for a text. -/
def dateParams (d : DateTime) : List (List Char × List Char) :=
  if d.isText then [("VALUE".toList, "text".toList)] else []

/-- The logical line of a property in the written text: its line without the CR LF. -/
def bodyOf (p : Property) : List Char :=
  p.name.getD [] ++ ((p.parameters.getD []).map parameterText).flatten ++
    ':' :: [';'].intercalate (p.values.getD [])

/-- The logical lines that `writeCard` writes between the VERSION line and the END line. -/
def writtenLines (fn : Property) (ps : List Property) (b a : Option DateTime) :
    List (List Char) :=
  bodyOf fn ::
    ((b.map (fun d => propertyLine [] "BDAY".toList (dateParams d) (dateBody d))).toList ++
      ((a.map (fun d => propertyLine [] "ANNIVERSARY".toList (dateParams d)
        (dateBody d))).toList ++ ps.map bodyOf))

/-! ## The C library on decomposed buffers -/

theorem take_strcspn (s r : List Char) :
    s.take (strcspn s r) = s.takeWhile (fun c => !r.contains c) := by
  unfold strcspn
  induction s with
  | nil => simp
  | cons a s ih =>
    by_cases h : a ∈ r
    · simp [List.takeWhile_cons, h]
    · simpa [List.takeWhile_cons, h] using ih

theorem drop_strcspn (s r : List Char) :
    s.drop (strcspn s r) = s.dropWhile (fun c => !r.contains c) := by
  unfold strcspn
  induction s with
  | nil => simp
  | cons a s ih =>
    by_cases h : a ∈ r
    · simp [List.takeWhile_cons, List.dropWhile_cons, h]
    · simpa [List.takeWhile_cons, List.dropWhile_cons, h] using ih

theorem strcspn_le (s r : List Char) : strcspn s r ≤ s.length := by
  unfold strcspn
  exact (List.takeWhile_sublist _).length_le

/-- Shape of a string around the first byte that is in `r`. -/
theorem strcspn_split (s r : List Char) (h : strcspn s r < s.length) :
    ∃ d rest, d ∈ r ∧ s = s.take (strcspn s r) ++ d :: rest ∧
      s.drop (strcspn s r + 1) = rest ∧ ∀ c ∈ s.take (strcspn s r), c ∉ r := by
  have h1 := take_strcspn s r
  have h2 := drop_strcspn s r
  have h3 : s.take (strcspn s r) ++ s.drop (strcspn s r) = s := List.take_append_drop _ _
  cases hd : s.dropWhile (fun c => !r.contains c) with
  | nil =>
    rw [hd] at h2
    have := congrArg List.length h3
    simp [h2] at this
    omega
  | cons d rest =>
    refine ⟨d, rest, ?_, ?_, ?_, ?_⟩
    · have := List.head_dropWhile_not (fun c => !r.contains c) s (by rw [hd]; simp)
      simp only [hd, List.head_cons] at this
      simpa using this
    · rw [hd] at h2
      rw [← h2]; exact h3.symm
    · rw [hd] at h2
      rw [← List.drop_drop, h2]; rfl
    · intro c hc
      rw [h1] at hc
      have := List.mem_takeWhile_imp hc
      simpa using this

theorem strcspn_append_of_mem (a b r : List Char) (d : Char) (ha : ∀ c ∈ a, c ∉ r) (hd : d ∈ r) :
    strcspn (a ++ d :: b) r = a.length := by
  unfold strcspn
  induction a with
  | nil => simp [List.takeWhile_cons, hd]
  | cons x a ih =>
    have hx : x ∉ r := ha x (by simp)
    have ih' := ih (fun c hc => ha c (by simp [hc]))
    simp only [List.cons_append, List.takeWhile_cons]
    simpa [hx] using ih'

theorem strcspn_of_not_mem (a r : List Char) (ha : ∀ c ∈ a, c ∉ r) :
    strcspn a r = a.length := by
  unfold strcspn
  congr 1
  rw [List.takeWhile_eq_self_iff]
  intro c hc
  simpa using ha c hc

theorem not_mem_of_strcspn_eq (s r : List Char) (h : ¬ strcspn s r < s.length) :
    ∀ c ∈ s, c ∉ r := by
  intro c hc
  have e := take_strcspn s r
  have : strcspn s r = s.length := le_antisymm (strcspn_le _ _) (not_lt.mp h)
  rw [this, List.take_length] at e
  have := (List.takeWhile_eq_self_iff.mp e.symm) c hc
  simpa using this

/-- The values `parsePropertyValuesLoop` appends split the rest of the value string at every semicolon. -/
theorem parsePropertyValuesLoop_spec (fuel : Nat) :
    ∀ (valueList : List (List Char)) (s : List Char), s.length ≤ fuel →
      ∃ toks : List (List Char),
        parsePropertyValuesLoop fuel valueList s = valueList ++ toks ∧
        toks.length = s.count ';' + 1 ∧ (∀ t ∈ toks, ';' ∉ t) ∧
        [';'].intercalate toks = s ∧ toks.head? = some (s.take (strcspn s [';'])) := by
  induction fuel with
  | zero =>
    intro valueList s hs
    have : s = [] := List.length_eq_zero.mp (Nat.le_zero.mp hs)
    subst this
    exact ⟨[[]], by simp [parsePropertyValuesLoop], by simp, by simp, by simp [List.intercalate], by simp⟩
  | succ fuel ih =>
    intro valueList s hs
    unfold parsePropertyValuesLoop
    by_cases hlt : strcspn s [';'] < s.length
    · obtain ⟨d, rest, hd, hsplit, hdrop, hfree⟩ := strcspn_split s [';'] hlt
      have hd' : d = ';' := by simpa using hd
      subst hd'
      have hrest : rest.length ≤ fuel := by
        have := congrArg List.length hsplit
        simp at this
        omega
      obtain ⟨toks, h1, h2, h3, h4, _⟩ := ih (valueList ++ [s.take (strcspn s [';'])]) rest hrest
      refine ⟨s.take (strcspn s [';']) :: toks, ?_, ?_, ?_, ?_, ?_⟩
      · simp [strpbrk, hlt, hdrop, h1]
      · rw [List.length_cons, h2]
        conv_rhs => rw [hsplit]
        have h0 : (s.take (strcspn s [';'])).count ';' = 0 := by
          rw [List.count_eq_zero]
          intro hm; exact hfree _ hm (by simp)
        simp [List.count_append, h0]
      · intro t ht
        rcases List.mem_cons.mp ht with rfl | ht
        · intro hm; exact hfree _ hm (by simp)
        · exact h3 t ht
      · conv_rhs => rw [hsplit]
        cases toks with
        | nil => simp at h2
        | cons t ts =>
          simp only [List.intercalate, List.intersperse_cons_cons, List.flatten_cons] at h4 ⊢
          rw [h4]; simp
      · simp
    · have hnone := not_mem_of_strcspn_eq s [';'] hlt
      have hsemi : ';' ∉ s := fun hm => hnone _ hm (by simp)
      refine ⟨[s], by simp [strpbrk, hlt], ?_, ?_, by simp [List.intercalate], ?_⟩
      · simp [List.count_eq_zero.mpr hsemi]
      · intro t ht
        simp at ht; subst ht
        exact hsemi
      · have : strcspn s [';'] = s.length := le_antisymm (strcspn_le _ _) (not_lt.mp hlt)
        simp [this]

theorem NUL_ne (c : Char) (h : c ≠ NUL) : (c != NUL) = true := by simpa using h

theorem cstr_append_NUL (s x : List Char) (hs : NUL ∉ s) : cstr (s ++ NUL :: x) = s := by
  unfold cstr
  induction s with
  | nil => simp
  | cons a s ih =>
    have ha : a ≠ NUL := fun h => hs (by simp [h])
    have hs' : NUL ∉ s := fun h => hs (by simp [h])
    simp [List.takeWhile_cons, ha, ih hs']

theorem cstr_of_not_mem (s : List Char) (hs : NUL ∉ s) : cstr s = s := by
  unfold cstr
  rw [List.takeWhile_eq_self_iff]
  intro c hc
  have : c ≠ NUL := fun h => hs (h ▸ hc)
  simpa using this

theorem not_mem_cstr (s : List Char) : NUL ∉ cstr s := by
  unfold cstr
  intro h
  have := List.mem_takeWhile_imp h
  simp at this

theorem cstr_append_ends (s post : List Char) (hs : NUL ∉ s) (hp : Ends post) :
    cstr (s ++ post) = s := by
  rcases hp with rfl | ⟨p, rfl⟩
  · simpa using cstr_of_not_mem s hs
  · exact cstr_append_NUL s p hs

theorem cstrAt_append (pre s post : List Char) (hs : NUL ∉ s) (hp : Ends post) :
    cstrAt (pre ++ s ++ post) pre.length = s := by
  unfold cstrAt
  rw [List.append_assoc, List.drop_left]
  exact cstr_append_ends s post hs hp

theorem peek_append (pre x : List Char) (d : Char) : peek (pre ++ d :: x) pre.length = d := by
  unfold peek
  induction pre with
  | nil => simp
  | cons a pre ih => simpa using ih

theorem peek_ends (pre post : List Char) (hp : Ends post) : peek (pre ++ post) pre.length = NUL := by
  rcases hp with rfl | ⟨p, rfl⟩
  · simp [peek, List.getD_eq_getElem?_getD]
  · exact peek_append pre p NUL

theorem set_append (pre x : List Char) (d c : Char) :
    (pre ++ d :: x).set pre.length c = pre ++ c :: x := by
  simp [List.set_append]

theorem strspn_append (a b r : List Char) (ha : ∀ c ∈ a, c ∈ r) (hb : ∀ c ∈ b.head?, c ∉ r) :
    strspn (a ++ b) r = a.length := by
  unfold strspn
  induction a with
  | nil =>
    cases b with
    | nil => simp
    | cons x b =>
      have : x ∉ r := hb x (by simp)
      simp [List.takeWhile_cons, this]
  | cons x a ih =>
    have hx : x ∈ r := ha x (by simp)
    have ih' := ih (fun c hc => ha c (by simp [hc]))
    simpa [List.takeWhile_cons, hx] using ih'

theorem strcspn_append (a b r : List Char) (ha : ∀ c ∈ a, c ∉ r) (hb : ∀ c ∈ b.head?, c ∈ r) :
    strcspn (a ++ b) r = a.length := by
  unfold strcspn
  induction a with
  | nil =>
    cases b with
    | nil => simp
    | cons x b =>
      have : x ∈ r := hb x (by simp)
      simp [List.takeWhile_cons, this]
  | cons x a ih =>
    have hx : x ∉ r := ha x (by simp)
    have ih' := ih (fun c hc => ha c (by simp [hc]))
    simpa [List.takeWhile_cons, hx] using ih'

/-- `strtok` on a region `dl ++ tok ++ d :: rest` whose token is followed by a delimiter. -/
theorem strtok_delim (pre dl tok rest post : List Char) (d : Char) (delim : List Char)
    (ptr : Option Nat) (sv : Nat) (hptr : ptr.getD sv = pre.length)
    (hdl : ∀ c ∈ dl, c ∈ delim) (htok : ∀ c ∈ tok, c ∉ delim ∧ c ≠ NUL) (hne : tok ≠ [])
    (hd : d ∈ delim) (hdn : d ≠ NUL) (hdlN : NUL ∉ dl) (hrest : NUL ∉ rest) (hp : Ends post) :
    strtok (pre ++ (dl ++ tok ++ d :: rest) ++ post) ptr delim sv =
      ⟨some (pre.length + dl.length), pre ++ (dl ++ tok ++ NUL :: rest) ++ post,
        pre.length + dl.length + tok.length + 1⟩ := by
  have hsN : NUL ∉ dl ++ tok ++ d :: rest := by
    simp only [List.mem_append, List.mem_cons, not_or]
    exact ⟨⟨hdlN, fun h => (htok _ h).2 rfl⟩, fun h => hdn h.symm, hrest⟩
  have hs2N : NUL ∉ tok ++ d :: rest := by
    simp only [List.mem_append, List.mem_cons, not_or]
    exact ⟨fun h => (htok _ h).2 rfl, fun h => hdn h.symm, hrest⟩
  obtain ⟨t0, tok', rfl⟩ := List.exists_cons_of_ne_nil hne
  have h1 : cstrAt (pre ++ (dl ++ (t0 :: tok') ++ d :: rest) ++ post) pre.length
      = dl ++ (t0 :: tok') ++ d :: rest := cstrAt_append _ _ _ hsN hp
  have h2 : strspn (dl ++ (t0 :: tok') ++ d :: rest) delim = dl.length := by
    rw [List.append_assoc]
    apply strspn_append _ _ _ hdl
    intro c hc
    simp at hc; subst hc
    exact (htok _ (by simp)).1
  have h3 : cstrAt (pre ++ (dl ++ (t0 :: tok') ++ d :: rest) ++ post) (pre.length + dl.length)
      = (t0 :: tok') ++ d :: rest := by
    have := cstrAt_append (pre ++ dl) ((t0 :: tok') ++ d :: rest) post hs2N hp
    simpa [List.append_assoc] using this
  have h4 : strcspn ((t0 :: tok') ++ d :: rest) delim = (t0 :: tok').length := by
    apply strcspn_append _ _ _ (fun c hc => (htok c hc).1)
    intro c hc
    simp at hc; subst hc; exact hd
  have h5 : peek (pre ++ (dl ++ (t0 :: tok') ++ d :: rest) ++ post)
      (pre.length + dl.length + (t0 :: tok').length) = d := by
    have := peek_append (pre ++ dl ++ (t0 :: tok')) (rest ++ post) d
    simpa [List.append_assoc, Nat.add_assoc] using this
  have h6 : (pre ++ (dl ++ (t0 :: tok') ++ d :: rest) ++ post).set
      (pre.length + dl.length + (t0 :: tok').length) NUL
      = pre ++ (dl ++ (t0 :: tok') ++ NUL :: rest) ++ post := by
    simp [List.append_assoc, Nat.add_assoc]
  unfold strtok
  simp only [hptr, h1, h2, h3, h4, h5, h6]
  simp [hdn]

/-- `strtok` on a region `dl ++ tok` whose token runs to the end of the string. -/
theorem strtok_end (pre dl tok post : List Char) (delim : List Char)
    (ptr : Option Nat) (sv : Nat) (hptr : ptr.getD sv = pre.length)
    (hdl : ∀ c ∈ dl, c ∈ delim) (htok : ∀ c ∈ tok, c ∉ delim ∧ c ≠ NUL) (hne : tok ≠ [])
    (hdlN : NUL ∉ dl) (hp : Ends post) :
    strtok (pre ++ (dl ++ tok) ++ post) ptr delim sv =
      ⟨some (pre.length + dl.length), pre ++ (dl ++ tok) ++ post,
        pre.length + dl.length + tok.length⟩ := by
  have hsN : NUL ∉ dl ++ tok := by
    simp only [List.mem_append, not_or]
    exact ⟨hdlN, fun h => (htok _ h).2 rfl⟩
  have htN : NUL ∉ tok := fun h => (htok _ h).2 rfl
  obtain ⟨t0, tok', rfl⟩ := List.exists_cons_of_ne_nil hne
  have h1 : cstrAt (pre ++ (dl ++ (t0 :: tok')) ++ post) pre.length = dl ++ (t0 :: tok') :=
    cstrAt_append _ _ _ hsN hp
  have h2 : strspn (dl ++ (t0 :: tok')) delim = dl.length := by
    apply strspn_append _ _ _ hdl
    intro c hc
    simp at hc; subst hc
    exact (htok _ (by simp)).1
  have h3 : cstrAt (pre ++ (dl ++ (t0 :: tok')) ++ post) (pre.length + dl.length)
      = (t0 :: tok') := by
    have := cstrAt_append (pre ++ dl) (t0 :: tok') post htN hp
    simpa [List.append_assoc] using this
  have h4 : strcspn (t0 :: tok') delim = (t0 :: tok').length :=
    strcspn_of_not_mem _ _ (fun c hc => (htok c hc).1)
  have h5 : peek (pre ++ (dl ++ (t0 :: tok')) ++ post)
      (pre.length + dl.length + (t0 :: tok').length) = NUL := by
    have := peek_ends (pre ++ dl ++ (t0 :: tok')) post hp
    simpa [List.append_assoc, Nat.add_assoc] using this
  unfold strtok
  simp only [hptr, h1, h2, h3, h4, h5]
  simp

/-- `strtok` on a region that holds delimiters only. -/
theorem strtok_none (pre dl post : List Char) (delim : List Char)
    (ptr : Option Nat) (sv : Nat) (hptr : ptr.getD sv = pre.length)
    (hdl : ∀ c ∈ dl, c ∈ delim) (hdlN : NUL ∉ dl) (hp : Ends post) :
    strtok (pre ++ dl ++ post) ptr delim sv =
      ⟨none, pre ++ dl ++ post, pre.length + dl.length⟩ := by
  have h1 : cstrAt (pre ++ dl ++ post) pre.length = dl := cstrAt_append _ _ _ hdlN hp
  have h2 : strspn dl delim = dl.length := by
    have := strspn_append dl [] delim hdl (by simp)
    simpa using this
  have h3 : cstrAt (pre ++ dl ++ post) (pre.length + dl.length) = [] := by
    have := cstrAt_append (pre ++ dl) [] post (by simp) hp
    simpa [List.append_assoc] using this
  unfold strtok
  simp only [hptr, h1, h2, h3]
  simp

/-- Any NUL-free string splits into leading delimiters, a token and what follows it. -/
theorem strtok_shape (s delim : List Char) (hs : NUL ∉ s) :
    ∃ dl tok after, s = dl ++ tok ++ after ∧ (∀ c ∈ dl, c ∈ delim) ∧
      (∀ c ∈ tok, c ∉ delim ∧ c ≠ NUL) ∧ NUL ∉ dl ∧
      (after = [] ∨ ∃ d rest, after = d :: rest ∧ d ∈ delim ∧ d ≠ NUL ∧ NUL ∉ rest) ∧
      (tok = [] → after = []) := by
  refine ⟨s.takeWhile (fun c => delim.contains c),
    (s.dropWhile (fun c => delim.contains c)).takeWhile (fun c => !delim.contains c),
    (s.dropWhile (fun c => delim.contains c)).dropWhile (fun c => !delim.contains c),
    ?_, ?_, ?_, ?_, ?_, ?_⟩
  · rw [List.append_assoc, List.takeWhile_append_dropWhile, List.takeWhile_append_dropWhile]
  · intro c hc
    simpa using List.mem_takeWhile_imp hc
  · intro c hc
    refine ⟨by simpa using List.mem_takeWhile_imp hc, ?_⟩
    intro h
    exact hs (h ▸ (List.dropWhile_sublist _).subset ((List.takeWhile_sublist _).subset hc))
  · intro h
    exact hs ((List.takeWhile_sublist _).subset h)
  · cases hd : (s.dropWhile (fun c => delim.contains c)).dropWhile (fun c => !delim.contains c) with
    | nil => exact Or.inl rfl
    | cons d rest =>
      right
      have hsub : (d :: rest).Sublist s := by
        rw [← hd]
        exact (List.dropWhile_sublist _).trans (List.dropWhile_sublist _)
      refine ⟨d, rest, rfl, ?_, ?_, ?_⟩
      · have := List.head_dropWhile_not (fun c => !delim.contains c)
          (s.dropWhile (fun c => delim.contains c)) (by rw [hd]; simp)
        simp only [hd, List.head_cons] at this
        simpa using this
      · intro h
        exact hs (h ▸ hsub.subset (by simp))
      · intro h
        exact hs (hsub.subset (by simp [h]))
  · intro h
    cases hr : s.dropWhile (fun c => delim.contains c) with
    | nil => simp
    | cons x r =>
      rw [hr] at h
      have hx : ¬ (delim.contains x = true) := by
        have := List.head_dropWhile_not (fun c => delim.contains c) s (by rw [hr]; simp)
        simp only [hr, List.head_cons] at this
        simpa using this
      simp [List.takeWhile_cons] at h
      simp at hx
      exact absurd h hx

/-- The parameter loop only writes inside the string it tokenises: the bytes before the saved
pointer and the bytes from the terminator on are left as they were. -/
theorem parseParameters_frame (fuel : Nat) :
    ∀ (mem : List Char) (sv : Nat) (pre s post : List Char) (acc params : List Parameter)
      (t : Tok), mem = pre ++ s ++ post → sv = pre.length →
      NUL ∉ s → Ends post →
      parseParameters fuel (strtok mem none [';'] sv) acc = some (some (params, t)) →
      ∃ s1, s1.length = s.length ∧ t.mem = pre ++ s1 ++ post := by
  induction fuel with
  | zero => intro mem sv pre s post acc params t _ _ _ _ h; simp [parseParameters] at h
  | succ fuel ih =>
    intro mem sv pre s post acc params t hmem hsv hs hp h
    subst hmem hsv
    obtain ⟨dl, tok, after, rfl, hdl, htok, hdlN, hafter, htokafter⟩ := strtok_shape s [';'] hs
    by_cases hne : tok = []
    · subst hne
      have ha := htokafter rfl
      subst ha
      have e := strtok_none pre dl post [';'] none pre.length rfl hdl hdlN hp
      simp only [List.append_nil] at h
      rw [e] at h
      simp only [parseParameters, Option.some.injEq, Prod.mk.injEq] at h
      refine ⟨dl, by simp, ?_⟩
      rw [← h.2]
    · rcases hafter with rfl | ⟨d, rest, rfl, hd, hdn, hrest⟩
      · have e := strtok_end pre dl tok post [';'] none pre.length rfl hdl htok hne hdlN hp
        simp only [List.append_nil] at h
        rw [e] at h
        simp only [parseParameters] at h
        split at h
        · exact absurd h (by simp)
        · split at h
          · exact absurd h (by simp)
          · obtain ⟨s1, hl, hm⟩ := ih _ _ (pre ++ (dl ++ tok)) [] post _ params t (by simp)
              (by simp [Nat.add_assoc]) (by simp) hp h
            refine ⟨dl ++ tok, by simp, ?_⟩
            have : s1 = [] := List.length_eq_zero.mp (by simpa using hl)
            subst this
            simpa using hm
      · have e := strtok_delim pre dl tok rest post d [';'] none pre.length rfl hdl htok hne hd hdn
          hdlN hrest hp
        rw [e] at h
        simp only [parseParameters] at h
        split at h
        · exact absurd h (by simp)
        · split at h
          · exact absurd h (by simp)
          · obtain ⟨s1, hl, hm⟩ := ih _ _ (pre ++ (dl ++ tok ++ [NUL])) rest post _ params t
              (by simp) (by simp [Nat.add_assoc]) hrest hp h
            refine ⟨dl ++ tok ++ NUL :: s1, by simp [hl], ?_⟩
            simpa using hm

theorem mem_paramsText (c : Char) (ps : List (List Char × List Char))
    (h : c ∈ paramsText ps) : c = ';' ∨ c = '=' ∨ ∃ p ∈ ps, c ∈ p.1 ∨ c ∈ p.2 := by
  induction ps with
  | nil => simp [paramsText] at h
  | cons p ps ih =>
    have h' : c ∈ paramText p ∨ c ∈ paramsText ps := by
      simpa [paramsText] using h
    rcases h' with h' | h'
    · simp only [paramText, List.mem_cons, List.cons_append, List.mem_append] at h'
      rcases h' with h' | h' | h' | h'
      · exact Or.inl h'
      · exact Or.inr (Or.inr ⟨p, by simp, Or.inl h'⟩)
      · exact Or.inr (Or.inl h')
      · exact Or.inr (Or.inr ⟨p, by simp, Or.inr h'⟩)
    · rcases ih h' with h1 | h1 | ⟨q, hq, h1⟩
      · exact Or.inl h1
      · exact Or.inr (Or.inl h1)
      · exact Or.inr (Or.inr ⟨q, by simp [hq], h1⟩)

theorem NUL_not_mem_paramsText (ps : List (List Char × List Char)) (h : ∀ p ∈ ps, ParamOK p) :
    NUL ∉ paramsText ps ∧ ':' ∉ paramsText ps := by
  constructor
  · intro hm
    rcases mem_paramsText _ _ hm with h1 | h1 | ⟨p, hp, h1 | h1⟩
    · exact absurd h1 (by decide)
    · exact absurd h1 (by decide)
    · exact ((h p hp).1 _ h1).2.2.2 rfl
    · exact ((h p hp).2.2 _ h1).2.2 rfl
  · intro hm
    rcases mem_paramsText _ _ hm with h1 | h1 | ⟨p, hp, h1 | h1⟩
    · exact absurd h1 (by decide)
    · exact absurd h1 (by decide)
    · exact ((h p hp).1 _ h1).2.1 rfl
    · exact ((h p hp).2.2 _ h1).2.1 rfl

/-- The parameter loop on well-formed parameter text: it returns the parameters in order. -/
theorem parseParameters_wf (ps : List (List Char × List Char)) :
    ∀ (mem : List Char) (sv : Nat) (pre post : List Char) (acc : List Parameter) (fuel : Nat),
      mem = pre ++ (paramsText ps).drop 1 ++ post → sv = pre.length →
      (∀ p ∈ ps, ParamOK p) → Ends post → ps.length < fuel →
      ∃ t, parseParameters fuel (strtok mem none [';'] sv) acc
        = some (some (acc ++ ps.map toParameter, t)) := by
  induction ps with
  | nil =>
    intro mem sv pre post acc fuel hmem hsv _ hp hf
    subst hmem hsv
    obtain ⟨fuel, rfl⟩ : ∃ k, fuel = k + 1 := ⟨fuel - 1, by omega⟩
    have e := strtok_none pre [] post [';'] none pre.length rfl (by simp) (by simp) hp
    simp only [paramsText, List.map_nil, List.flatten_nil, List.drop_nil]
    rw [e]
    exact ⟨⟨none, pre ++ post, pre.length⟩, by simp [parseParameters]⟩
  | cons p ps ih =>
    intro mem sv pre post acc fuel hmem hsv hok hp hf
    subst hmem hsv
    obtain ⟨fuel, rfl⟩ : ∃ k, fuel = k + 1 := ⟨fuel - 1, by omega⟩
    have hpok := hok p (by simp)
    have hrestok : ∀ q ∈ ps, ParamOK q := fun q hq => hok q (by simp [hq])
    obtain ⟨n, v⟩ := p
    have htokc : ∀ c ∈ n ++ '=' :: v, c ∉ [';'] ∧ c ≠ NUL := by
      intro c hc
      simp only [List.mem_append, List.mem_cons] at hc
      rcases hc with hc | rfl | hc
      · exact ⟨by simpa using (hpok.1 c hc).1, (hpok.1 c hc).2.2.2⟩
      · exact ⟨by decide, by decide⟩
      · exact ⟨by simpa using (hpok.2.2 c hc).1, (hpok.2.2 c hc).2.2⟩
    have hNn : NUL ∉ n := fun hm => (hpok.1 _ hm).2.2.2 rfl
    have hNv : NUL ∉ v := fun hm => (hpok.2.2 _ hm).2.2 rfl
    have hnameLen : strcspn (n ++ '=' :: v) ['='] = n.length :=
      strcspn_append_of_mem n v ['='] '=' (fun c hc => by simpa using (hpok.1 c hc).2.2.1)
        (by simp)
    have hdrop : (paramsText ((n, v) :: ps)).drop 1 = (n ++ '=' :: v) ++ paramsText ps := by
      simp [paramsText, paramText]
    rw [hdrop]
    cases ps with
    | nil =>
      have e := strtok_end pre [] (n ++ '=' :: v) post [';'] none pre.length rfl (by simp)
        htokc (by simp) (by simp) hp
      simp only [List.nil_append, List.length_nil, Nat.add_zero] at e
      simp only [paramsText, List.map_nil, List.flatten_nil, List.append_nil]
      rw [e]
      have hview : cstrAt (pre ++ (n ++ '=' :: v) ++ post) pre.length = n ++ '=' :: v :=
        cstrAt_append _ _ _ (fun hm => (htokc _ hm).2 rfl) hp
      have hview2 : cstrAt (pre ++ (n ++ '=' :: v) ++ post) (pre.length + n.length + 1) = v := by
        have := cstrAt_append (pre ++ n ++ ['=']) v post hNv hp
        simpa [List.append_assoc, Nat.add_assoc] using this
      obtain ⟨t, ht⟩ := ih (pre ++ (n ++ '=' :: v) ++ post) (pre.length + (n ++ '=' :: v).length)
        (pre ++ (n ++ '=' :: v)) post (acc ++ [toParameter (n, v)]) fuel
        (by simp [paramsText]) (by simp) hrestok hp (by simpa using hf)
      refine ⟨t, ?_⟩
      simp only [parseParameters, hview, hnameLen, hview2]
      have hv0 : v.length ≠ 0 := fun h => hpok.2.1 (List.length_eq_zero.mp h)
      have hlen : ¬ (n.length = (n ++ '=' :: v).length) := by simp
      have htake : List.take ((n ++ '=' :: v).length - n.length) v = v := by
        apply List.take_of_length_le
        simp
      simp only [hlen, if_false, htake, hv0, List.take_left']
      simpa [toParameter] using ht
    | cons q qs =>
      have hrest : paramsText (q :: qs) = ';' :: (paramsText (q :: qs)).drop 1 := by
        simp [paramsText, paramText]
      have hrestN : NUL ∉ (paramsText (q :: qs)).drop 1 := fun hm =>
        (NUL_not_mem_paramsText _ hrestok).1 ((List.drop_sublist _ _).subset hm)
      rw [hrest]
      have e := strtok_delim pre [] (n ++ '=' :: v) ((paramsText (q :: qs)).drop 1) post ';' [';']
        none pre.length rfl (by simp) htokc (by simp) (by simp) (by decide) (by simp) hrestN hp
      simp only [List.nil_append, List.length_nil, Nat.add_zero] at e
      rw [e]
      have hview : cstrAt (pre ++ (n ++ '=' :: v ++ NUL :: (paramsText (q :: qs)).drop 1) ++ post)
          pre.length = n ++ '=' :: v := by
        have := cstrAt_append pre (n ++ '=' :: v) (NUL :: (paramsText (q :: qs)).drop 1 ++ post)
          (fun hm => (htokc _ hm).2 rfl) (Or.inr ⟨_, rfl⟩)
        simpa [List.append_assoc] using this
      have hview2 : cstrAt (pre ++ (n ++ '=' :: v ++ NUL :: (paramsText (q :: qs)).drop 1) ++ post)
          (pre.length + n.length + 1) = v := by
        have := cstrAt_append (pre ++ n ++ ['=']) v (NUL :: (paramsText (q :: qs)).drop 1 ++ post)
          hNv (Or.inr ⟨_, rfl⟩)
        simpa [List.append_assoc, Nat.add_assoc] using this
      obtain ⟨t, ht⟩ := ih (pre ++ (n ++ '=' :: v ++ NUL :: (paramsText (q :: qs)).drop 1) ++ post)
        (pre.length + (n ++ '=' :: v).length + 1)
        (pre ++ (n ++ '=' :: v) ++ [NUL]) post (acc ++ [toParameter (n, v)]) fuel
        (by simp) (by simp [Nat.add_assoc]) hrestok hp (by simpa using hf)
      refine ⟨t, ?_⟩
      simp only [parseParameters, hview, hnameLen, hview2]
      have hv0 : v.length ≠ 0 := fun h => hpok.2.1 (List.length_eq_zero.mp h)
      have hlen : ¬ (n.length = (n ++ '=' :: v).length) := by simp
      have htake : List.take ((n ++ '=' :: v).length - n.length) v = v := by
        apply List.take_of_length_le
        simp
      simp only [hlen, if_false, htake, hv0, List.take_left']
      simpa [toParameter] using ht

theorem strtok_mem_length (mem : List Char) (ptr : Option Nat) (delim : List Char) (sv : Nat) :
    (strtok mem ptr delim sv).mem.length = mem.length := by
  unfold strtok
  simp only
  split
  · rfl
  · split
    · rfl
    · simp

theorem length_le_paramsText (ps : List (List Char × List Char)) :
    2 * ps.length ≤ (paramsText ps).length := by
  induction ps with
  | nil => simp [paramsText]
  | cons p ps ih =>
    have : (paramsText (p :: ps)).length = (paramText p).length + (paramsText ps).length := by
      simp [paramsText]
    rw [this]
    simp only [paramText, List.length_cons, List.length_append]
    omega

/-- Lines 776-784 on a name segment with at most one dot. -/
theorem parseGroup_wf (g name post : List Char) (sv : Nat) (hg : TokenOK g) (hn : TokenOK name)
    (hne : name ≠ []) (hp : Ends post) :
    ∃ a mem1 sv1, parseGroup (groupText g ++ name ++ post) 0 sv
        = some (g, some a.length, mem1, sv1) ∧ mem1 = a ++ name ++ post ∧
        a.length = (groupText g).length := by
  have hnN : NUL ∉ name := fun hm => (hn _ hm).2.2.2 rfl
  have hgN : NUL ∉ g := fun hm => (hg _ hm).2.2.2 rfl
  by_cases hg0 : g = []
  · subst hg0
    have hview : cstrAt (name ++ post) 0 = name := by
      have := cstrAt_append [] name post hnN hp
      simpa using this
    refine ⟨[], name ++ post, sv, ?_, by simp, by simp [groupText]⟩
    have hdot : ¬ ('.' ∈ name) := fun hm => (hn _ hm).1 rfl
    simp [parseGroup, groupText, hview, strchr, hdot]
  · have hview : cstrAt (g ++ '.' :: name ++ post) 0 = g ++ '.' :: name := by
      have := cstrAt_append [] (g ++ '.' :: name) post
        (by simp only [List.mem_append, List.mem_cons, not_or]
            exact ⟨hgN, by decide, hnN⟩) hp
      simpa using this
    have e1 := strtok_delim [] [] g name post '.' ['.'] (some 0) sv rfl (by simp)
      (fun c hc => ⟨by simpa using (hg c hc).1, (hg c hc).2.2.2⟩) hg0 (by simp) (by decide)
      (by simp) hnN hp
    simp only [List.nil_append, List.length_nil, Nat.zero_add] at e1
    have e2 := strtok_end (g ++ [NUL]) [] name post ['.'] none (g.length + 1) (by simp) (by simp)
      (fun c hc => ⟨by simpa using (hn c hc).1, (hn c hc).2.2.2⟩) hne (by simp) hp
    simp only [List.nil_append, List.length_nil, Nat.add_zero, List.append_assoc,
      List.singleton_append, List.length_append, List.length_singleton] at e2
    have hview2 : cstrAt (g ++ NUL :: name ++ post) 0 = g := by
      have := cstrAt_append [] g (NUL :: name ++ post) hgN (Or.inr ⟨_, rfl⟩)
      simpa using this
    refine ⟨g ++ [NUL], g ++ NUL :: name ++ post, g.length + 1 + name.length, ?_, by simp,
      by simp [groupText, hg0]⟩
    simp only [parseGroup, groupText, hg0, if_false, List.append_assoc, List.singleton_append,
      List.cons_append, List.nil_append] at e1 e2 hview hview2 ⊢
    simp only [hview, strchr, List.contains_eq_any_beq, List.any_append, List.any_cons, beq_self_eq_true,
      Bool.true_or, Bool.or_true, if_true, e1, e2, hview2]
    simp

theorem groupText_ok (g : List Char) (hg : TokenOK g) :
    ∀ c ∈ groupText g, c ≠ ';' ∧ c ≠ ':' ∧ c ≠ NUL := by
  intro c hc
  unfold groupText at hc
  split at hc
  · simp at hc
  · simp only [List.mem_append, List.mem_singleton] at hc
    rcases hc with hc | rfl
    · exact ⟨(hg c hc).2.1, (hg c hc).2.2.1, (hg c hc).2.2.2⟩
    · exact ⟨by decide, by decide, by decide⟩

/-- The steps of `parseHead`, one equation each. -/
theorem parseHead_eq (line : List Char) (colon pn : Nat) (t1 t2 t : Tok)
    (params : List Parameter)
    (h0 : strpbrk (cstr line) [':'] = some colon)
    (h1 : strtok (cstr line) (some 0) [':'] 0 = t1)
    (h2 : strtok t1.mem t1.tok [';', ':'] t1.save = t2)
    (h3 : t2.tok = some pn)
    (h4 : (cstrAt t2.mem pn).length ≠ 0)
    (h5 : parseParameters ((strtok t2.mem none [';'] t2.save).mem.length + 1)
      (strtok t2.mem none [';'] t2.save) [] = some (some (params, t))) :
    parseHead line = match parseGroup t.mem pn t.save with
      | none => none
      | some (_, none, _, _) => none
      | some (group, some name, mem, save) =>
        some (some ⟨group, name, params, colon + 1, mem, save⟩) := by
  unfold parseHead
  dsimp only
  rw [h0]
  dsimp only
  rw [h1, h2, h3]
  dsimp only
  rw [if_neg h4, h5]

/-- Lines 735-755 on a line whose name segment is `seg`: the state in which the parameter
loop starts. -/
theorem parseHead_start (seg ptext value : List Char) (hseg : SegOK seg)
    (hpt : TailOK ptext) (hv : NUL ∉ value) :
    strpbrk (cstr (seg ++ ptext ++ ':' :: value)) [':'] = some (seg ++ ptext).length ∧
      strtok (cstr (seg ++ ptext ++ ':' :: value)) (some 0) [':'] 0
        = ⟨some 0, seg ++ ptext ++ NUL :: value, (seg ++ ptext).length + 1⟩ ∧
      strtok (seg ++ ptext ++ NUL :: value) (some 0) [';', ':'] ((seg ++ ptext).length + 1)
        = ⟨some 0, seg ++ sepOf ptext ++ ptext.drop 1 ++ NUL :: value,
            (seg ++ sepOf ptext).length⟩ ∧
      cstrAt (seg ++ sepOf ptext ++ ptext.drop 1 ++ NUL :: value) 0 = seg := by
  obtain ⟨hsegne, hsegok⟩ := hseg
  have hheadok : ∀ c ∈ seg ++ ptext, c ≠ ':' ∧ c ≠ NUL := by
    intro c hc
    rcases List.mem_append.mp hc with hc | hc
    · exact ⟨(hsegok c hc).2.1, (hsegok c hc).2.2⟩
    · exact ⟨fun h => hpt.2.1 (h ▸ hc), fun h => hpt.2.2 (h ▸ hc)⟩
  have hheadne : seg ++ ptext ≠ [] := by simp [hsegne]
  have hlineN : NUL ∉ seg ++ ptext ++ ':' :: value := by
    simp only [List.mem_append, List.mem_cons, not_or]
    exact ⟨⟨fun h => (hsegok _ h).2.2 rfl, hpt.2.2⟩, by decide, hv⟩
  have hcstr := cstr_of_not_mem _ hlineN
  have hcolon : strcspn (seg ++ ptext ++ ':' :: value) [':'] = (seg ++ ptext).length :=
    strcspn_append_of_mem _ value [':'] ':' (fun c hc => by simpa using (hheadok c hc).1) (by simp)
  have htok2 : ∀ c ∈ seg, c ∉ [';', ':'] ∧ c ≠ NUL := fun c hc =>
    ⟨by simpa using ⟨(hsegok c hc).1, (hsegok c hc).2.1⟩, (hsegok c hc).2.2⟩
  refine ⟨?_, ?_, ?_, ?_⟩
  · rw [hcstr]
    unfold strpbrk
    rw [hcolon]
    simp
  · have := strtok_delim [] [] (seg ++ ptext) value [] ':' [':']
      (some 0) 0 rfl (by simp) (fun c hc => ⟨by simpa using (hheadok c hc).1, (hheadok c hc).2⟩)
      hheadne (by simp) (by decide) (by simp) hv (Or.inl rfl)
    rw [hcstr]
    simpa using this
  · rcases hpt.1 with rfl | ⟨r, rfl⟩
    · have e2 := strtok_end [] [] seg (NUL :: value) [';', ':'] (some 0)
        ((seg ++ []).length + 1) rfl (by simp) htok2 hsegne (by simp)
        (Or.inr ⟨_, rfl⟩)
      simpa [sepOf] using e2
    · have hrN : NUL ∉ r := fun hm => hpt.2.2 (by simp [hm])
      have e2 := strtok_delim [] [] seg r
        (NUL :: value) ';' [';', ':'] (some 0)
        ((seg ++ ';' :: r).length + 1) rfl (by simp) htok2 hsegne
        (by simp) (by decide) (by simp) hrN (Or.inr ⟨_, rfl⟩)
      simpa [sepOf, Nat.add_assoc] using e2
  · have hends : Ends (sepOf ptext ++ ptext.drop 1 ++ NUL :: value) := by
      rcases hpt.1 with rfl | ⟨r, rfl⟩
      · exact Or.inr ⟨value, by simp [sepOf]⟩
      · exact Or.inr ⟨r ++ NUL :: value, by simp [sepOf]⟩
    have := cstrAt_append [] seg (sepOf ptext ++ ptext.drop 1 ++ NUL :: value)
      (fun h => (hsegok _ h).2.2 rfl) hends
    simpa [List.append_assoc] using this

/-- Lines 735-784 on a line whose name segment is `seg`, in terms of what the parameter loop
returns: the loop leaves the name segment and the value string as they were. -/
theorem parseHead_of_loop (seg ptext value : List Char) (hseg : SegOK seg)
    (hpt : TailOK ptext) (hv : NUL ∉ value) :
    (headLoop seg ptext value = none → parseHead (seg ++ ptext ++ ':' :: value) = none) ∧
      (headLoop seg ptext value = some none →
        parseHead (seg ++ ptext ++ ':' :: value) = some none) ∧
      ∀ params t, headLoop seg ptext value = some (some (params, t)) →
        ∃ b, Ends b ∧ b.length = ptext.length ∧ t.mem = seg ++ b ++ NUL :: value ∧
          parseHead (seg ++ ptext ++ ':' :: value)
            = headResult t.mem t.save params ((seg ++ ptext).length + 1) := by
  obtain ⟨h0, h1, h2, hview0⟩ := parseHead_start seg ptext value hseg hpt hv
  have h4 : (cstrAt (seg ++ sepOf ptext ++ ptext.drop 1 ++ NUL :: value) 0).length ≠ 0 := by
    rw [hview0]; simp [hseg.1]
  refine ⟨?_, ?_, ?_⟩
  · intro hl
    unfold headLoop at hl
    unfold parseHead
    dsimp only
    rw [h0]
    dsimp only
    rw [h1, h2]
    dsimp only
    rw [if_neg h4, hl]
  · intro hl
    unfold headLoop at hl
    unfold parseHead
    dsimp only
    rw [h0]
    dsimp only
    rw [h1, h2]
    dsimp only
    rw [if_neg h4, hl]
  · intro params t hl
    unfold headLoop at hl
    have hdropN : NUL ∉ ptext.drop 1 := fun hm => hpt.2.2 ((List.drop_sublist _ _).subset hm)
    obtain ⟨s1, hs1len, hs1⟩ := parseParameters_frame _ _ _ (seg ++ sepOf ptext) _
      (NUL :: value) [] _ t rfl rfl hdropN (Or.inr ⟨_, rfl⟩) hl
    have hb : Ends (sepOf ptext ++ s1) := by
      rcases hpt.1 with rfl | ⟨r, rfl⟩
      · have : s1 = [] := by
          apply List.length_eq_zero.mp
          rw [hs1len]; simp
        subst this
        exact Or.inl (by simp [sepOf])
      · exact Or.inr ⟨s1, by simp [sepOf]⟩
    have hlen2 : (sepOf ptext ++ s1).length = ptext.length := by
      rcases hpt.1 with rfl | ⟨r, rfl⟩
      · simp [sepOf, hs1len]
      · simp [sepOf, hs1len]
    refine ⟨sepOf ptext ++ s1, hb, hlen2, by rw [hs1]; simp, ?_⟩
    exact parseHead_eq _ _ 0 _ _ t _ h0 h1 h2 rfl h4 hl

/-- Lines 735-784 on a line whose name segment is `[group.]name`. -/
theorem parseHead_shape (g name ptext value : List Char) (hg : TokenOK g) (hn : TokenOK name)
    (hne : name ≠ []) (hpt : TailOK ptext) (hv : NUL ∉ value) (params : List Parameter)
    (t : Tok) (hl : headLoop (groupText g ++ name) ptext value = some (some (params, t))) :
    ∃ h, parseHead (groupText g ++ name ++ ptext ++ ':' :: value) = some (some h) ∧
      HeadShape h g name params value := by
  have hseg : SegOK (groupText g ++ name) := by
    refine ⟨by simp [hne], ?_⟩
    intro c hc
    rcases List.mem_append.mp hc with hc | hc
    · exact groupText_ok g hg c hc
    · exact ⟨(hn c hc).2.1, (hn c hc).2.2.1, (hn c hc).2.2.2⟩
  obtain ⟨b, hb, hblen, htmem, hres⟩ :=
    (parseHead_of_loop (groupText g ++ name) ptext value hseg hpt hv).2.2 params t hl
  have hpost : Ends (b ++ NUL :: value) := by
    rcases hb with h | ⟨x, h⟩
    · rw [h]; exact Or.inr ⟨_, rfl⟩
    · rw [h]; exact Or.inr ⟨_, rfl⟩
  obtain ⟨a, mem1, sv1, hgrp, hmem1, halen⟩ := parseGroup_wf g name (b ++ NUL :: value)
    t.save hg hn hne hpost
  have htmem' : t.mem = groupText g ++ name ++ (b ++ NUL :: value) := by
    rw [htmem]; simp
  rw [← htmem'] at hgrp
  refine ⟨⟨g, a.length, params, (groupText g ++ name ++ ptext).length + 1, mem1, sv1⟩, ?_,
    rfl, rfl, a, b, rfl, hb, by simp [hmem1], ?_⟩
  · rw [hres]
    unfold headResult
    rw [hgrp]
  · simp only [List.length_append] at halen hblen ⊢
    rw [halen, hblen]

/-- Lines 735-784 on a line `[group.]NAME(;name=value)*:value`. -/
theorem parseHead_wf (g name : List Char) (ps : List (List Char × List Char))
    (value : List Char) (hg : TokenOK g) (hn : TokenOK name) (hne : name ≠ [])
    (hps : ∀ p ∈ ps, ParamOK p) (hv : NUL ∉ value) :
    ∃ h, parseHead (propertyLine g name ps value) = some (some h) ∧
      HeadShape h g name (ps.map toParameter) value := by
  have hpsN := NUL_not_mem_paramsText ps hps
  have hpt : TailOK (paramsText ps) := by
    refine ⟨?_, hpsN.2, hpsN.1⟩
    cases ps with
    | nil => exact Or.inl rfl
    | cons q qs => exact Or.inr ⟨_, by simp [paramsText, paramText]; rfl⟩
  have hfuel : ps.length < (strtok (groupText g ++ name ++ sepOf (paramsText ps) ++
      (paramsText ps).drop 1 ++ NUL :: value) none [';']
      (groupText g ++ name ++ sepOf (paramsText ps)).length).mem.length + 1 := by
    rw [strtok_mem_length]
    have := length_le_paramsText ps
    simp only [List.length_append, List.length_drop, List.length_cons]
    omega
  obtain ⟨t, ht⟩ := parseParameters_wf ps _ _ (groupText g ++ name ++ sepOf (paramsText ps))
    (NUL :: value) [] _ rfl rfl hps (Or.inr ⟨_, rfl⟩) hfuel
  have hl : headLoop (groupText g ++ name) (paramsText ps) value
      = some (some (ps.map toParameter, t)) := by
    unfold headLoop
    simpa using ht
  exact parseHead_shape g name (paramsText ps) value hg hn hne hpt hv _ t hl

theorem tolower_eq_zero (c : Char) (h : tolower c = 0) : c = NUL := by
  unfold tolower at h
  split at h
  · omega
  · have : Char.ofNat c.toNat = c := Char.ofNat_toNat c
    rw [h] at this
    exact this.symm

theorem strcasecmp_eq_zero_iff (a : List Char) : ∀ (b : List Char), NUL ∉ a → NUL ∉ b →
    (strcasecmp a b = 0 ↔ a.map tolower = b.map tolower) := by
  induction a with
  | nil =>
    intro b _ hb
    cases b with
    | nil => simp [strcasecmp]
    | cons y b =>
      have hy : tolower y ≠ 0 := fun h => hb (by simp [tolower_eq_zero y h])
      simp only [strcasecmp, List.map_nil, List.map_cons]
      constructor
      · intro h; omega
      · intro h; simp at h
  | cons x a ih =>
    intro b ha hb
    have hx : tolower x ≠ 0 := fun h => ha (by simp [tolower_eq_zero x h])
    cases b with
    | nil =>
      simp only [strcasecmp, List.map_nil, List.map_cons]
      constructor
      · intro h; omega
      · intro h; simp at h
    | cons y b =>
      have ha' : NUL ∉ a := fun h => ha (by simp [h])
      have hb' : NUL ∉ b := fun h => hb (by simp [h])
      simp only [strcasecmp, List.map_cons, List.cons.injEq]
      by_cases hxy : tolower x = tolower y
      · simp only [hxy, if_true, true_and]
        exact ih b ha' hb'
      · simp only [hxy, if_false, false_and, iff_false]
        omega

theorem HeadShape.name_view {h : Head} {g name : List Char} {params : List Parameter}
    {value : List Char} (hs : HeadShape h g name params value) (hn : NUL ∉ name) :
    cstrAt h.mem h.propertyName = name := by
  obtain ⟨_, _, a, b, hp, hb, hm, _⟩ := hs
  rw [hm, hp]
  have hE : Ends (b ++ NUL :: value) := by
    rcases hb with rfl | ⟨x, rfl⟩
    · exact Or.inr ⟨_, rfl⟩
    · exact Or.inr ⟨_, rfl⟩
  have := cstrAt_append a name (b ++ NUL :: value) hn hE
  simpa [List.append_assoc] using this

theorem HeadShape.value_view {h : Head} {g name : List Char} {params : List Parameter}
    {value : List Char} (hs : HeadShape h g name params value) (hv : NUL ∉ value) :
    cstrAt h.mem h.valueString = value := by
  obtain ⟨_, _, a, b, _, _, hm, hvs⟩ := hs
  rw [hm, hvs]
  have := cstrAt_append (a ++ name ++ b ++ [NUL]) value [] hv (Or.inl rfl)
  simpa [List.append_assoc] using this

/-- The last branch but one of the dispatch: a name of the list is stored as a generic
property. -/
theorem dispatch_generic (card : Card) (h : Head) (g name : List Char)
    (params : List Parameter) (value : List Char) (hs : HeadShape h g name params value)
    (hn : NUL ∉ name) (hv : NUL ∉ value)
    (h1 : strcasecmp name "FN".toList ≠ 0) (h2 : strcasecmp name "BDAY".toList ≠ 0)
    (h3 : strcasecmp name "ANNIVERSARY".toList ≠ 0)
    (h4 : genericNames.any (fun n => decide (strcasecmp name n = 0)) = true) :
    dispatch card h = some (some { card with
      optionalProperties := insertBack card.optionalProperties
        ⟨some name, some g, some params, some (parsePropertyValues [] name value)⟩ }) := by
  unfold dispatch
  dsimp only
  rw [hs.name_view hn, hs.value_view hv, if_neg h1, if_neg h2, if_neg h3, if_pos h4, hs.1, hs.2.1]

/-- The last branch of the dispatch: any other name is rejected. -/
theorem dispatch_unknown (card : Card) (h : Head) (g name : List Char)
    (params : List Parameter) (value : List Char) (hs : HeadShape h g name params value)
    (hn : NUL ∉ name)
    (h1 : strcasecmp name "FN".toList ≠ 0) (h2 : strcasecmp name "BDAY".toList ≠ 0)
    (h3 : strcasecmp name "ANNIVERSARY".toList ≠ 0)
    (h4 : genericNames.any (fun n => decide (strcasecmp name n = 0)) = false) :
    dispatch card h = some none := by
  unfold dispatch
  dsimp only
  rw [hs.name_view hn, if_neg h1, if_neg h2, if_neg h3, h4]
  rfl

/-- A parameter `VALUE=text` makes the date branches store the value string as text. -/
theorem dateOfHead_text (h : Head) (g name : List Char)
    (params : List Parameter) (value : List Char) (hs : HeadShape h g name params value)
    (hv : NUL ∉ value) (ht : hasValueText params = true) :
    dateOfHead h = some ⟨false, true, some [], some [], some value⟩ := by
  unfold dateOfHead
  rw [hs.2.1, if_pos ht, hs.value_view hv]

/-- C5: for every value string `s`, `parsePropertyValues` appends to the value list exactly
(number of semicolons in `s`) + 1 tokens, in order, none of which contains a semicolon and
whose concatenation with semicolon separators is `s`; the result is never empty and the
empty string yields the single token `""`. -/
theorem parsePropertyValues_tokens (valueList : List (List Char)) (name s : List Char) :
    ∃ toks : List (List Char),
      parsePropertyValues valueList name s = valueList ++ toks ∧
      toks.length = s.count ';' + 1 ∧ (∀ t ∈ toks, ';' ∉ t) ∧
      [';'].intercalate toks = s ∧ toks ≠ [] ∧ (s = [] → toks = [[]]) := by
  obtain ⟨toks, h1, h2, h3, h4, _⟩ := parsePropertyValuesLoop_spec s.length valueList s le_rfl
  refine ⟨toks, h1, h2, h3, h4, ?_, ?_⟩
  · intro h; rw [h] at h2; simp at h2
  · intro hs
    subst hs
    match toks, h2, h4 with
    | [t], _, h4 =>
      have : t = [] := by simpa [List.intercalate] using h4
      rw [this]

theorem cstrAt_decomp (mem : List Char) (p : Nat) (h : cstrAt mem p ≠ []) :
    ∃ pre post, mem = pre ++ cstrAt mem p ++ post ∧ pre.length = p ∧ Ends post := by
  have hp : p ≤ mem.length := by
    by_contra hlt
    apply h
    unfold cstrAt
    rw [List.drop_eq_nil_of_le (by omega)]
    rfl
  refine ⟨mem.take p, (mem.drop p).dropWhile (fun c => c != NUL), ?_, by simp [hp], ?_⟩
  · unfold cstrAt cstr
    rw [List.append_assoc, List.takeWhile_append_dropWhile, List.take_append_drop]
  · cases hd : (mem.drop p).dropWhile (fun c => c != NUL) with
    | nil => exact Or.inl rfl
    | cons x r =>
      right
      have := List.head_dropWhile_not (fun c => c != NUL) (mem.drop p) (by rw [hd]; simp)
      simp only [hd, List.head_cons] at this
      have hx : x = NUL := by simpa using this
      exact ⟨r, by rw [hx]⟩

/-- Lines 939-954 on a non-empty string `r` that sits between `pre` and a terminator. -/
theorem dateTimeFields_eq (pre r post : List Char) (utc : Bool) (hne : r ≠ [])
    (hr : NUL ∉ r) (hp : Ends post) :
    dateTimeFields (pre ++ r ++ post) pre.length utc = some ⟨utc, false,
      some (if r.head? = some 'T' then [] else r.takeWhile (fun c => c != 'T')),
      some (if r.head? = some 'T' then r.drop 1 else (r.dropWhile (fun c => c != 'T')).drop 1),
      some []⟩ := by
  obtain ⟨x, r1, rfl⟩ := List.exists_cons_of_ne_nil hne
  have hr1 : NUL ∉ r1 := fun h => hr (by simp [h])
  have hpeek : peek (pre ++ (x :: r1) ++ post) pre.length = x := by
    have := peek_append pre (r1 ++ post) x
    simpa [List.append_assoc] using this
  unfold dateTimeFields
  rw [hpeek]
  by_cases hx : x = 'T'
  · subst hx
    have hv : cstrAt (pre ++ ('T' :: r1) ++ post) (pre.length + 1) = r1 := by
      have := cstrAt_append (pre ++ ['T']) r1 post hr1 hp
      simpa [List.append_assoc] using this
    rw [if_pos rfl, hv]
    simp
  · rw [if_neg hx]
    have hhead : ¬ ((x :: r1).head? = some 'T') := by simpa using hx
    rw [if_neg hhead, if_neg hhead]
    -- split r at its first T
    have hsplit : x :: r1 = (x :: r1).takeWhile (fun c => c != 'T')
        ++ (x :: r1).dropWhile (fun c => c != 'T') := (List.takeWhile_append_dropWhile _ _).symm
    have htokne : (x :: r1).takeWhile (fun c => c != 'T') ≠ [] := by
      simp [List.takeWhile_cons, hx]
    have htok : ∀ c ∈ (x :: r1).takeWhile (fun c => c != 'T'), c ∉ ['T'] ∧ c ≠ NUL := by
      intro c hc
      refine ⟨by simpa using List.mem_takeWhile_imp hc, ?_⟩
      intro h
      exact hr (h ▸ (List.takeWhile_sublist _).subset hc)
    generalize htk : (x :: r1).takeWhile (fun c => c != 'T') = tok at hsplit htokne htok
    cases hd : (x :: r1).dropWhile (fun c => c != 'T') with
    | nil =>
      rw [hd, List.append_nil] at hsplit
      rw [hsplit]
      have e := strtok_end pre [] tok post ['T'] (some pre.length) 0 rfl (by simp) htok htokne
        (by simp) hp
      have e2 := strtok_none (pre ++ tok) [] post [] none (pre.length + tok.length) (by simp)
        (by simp) (by simp) hp
      have hv : cstrAt (pre ++ tok ++ post) pre.length = tok :=
        cstrAt_append pre tok post (fun h => (htok _ h).2 rfl) hp
      simp only [List.append_assoc, List.cons_append, List.nil_append, List.append_nil, List.length_append, List.length_cons, List.length_nil, List.singleton_append, Nat.add_assoc, Nat.add_zero, Nat.zero_add] at e e2 hv ⊢
      rw [e]
      dsimp only
      rw [e2]
      dsimp only
      rw [hv]
      simp
    | cons d rest =>
      have hdT : d = 'T' := by
        have := List.head_dropWhile_not (fun c => c != 'T') (x :: r1) (by rw [hd]; simp)
        simp only [hd, List.head_cons] at this
        simpa using this
      subst hdT
      rw [hd] at hsplit
      have hrestN : NUL ∉ rest := by
        intro h
        apply hr
        rw [hsplit]
        simp [h]
      rw [hsplit]
      have e := strtok_delim pre [] tok rest post 'T' ['T'] (some pre.length) 0 rfl (by simp) htok
        htokne (by simp) (by decide) (by simp) hrestN hp
      have hv : cstrAt (pre ++ (tok ++ NUL :: rest) ++ post) pre.length = tok := by
        have := cstrAt_append pre tok (NUL :: rest ++ post) (fun h => (htok _ h).2 rfl)
          (Or.inr ⟨_, rfl⟩)
        simpa [List.append_assoc] using this
      simp only [List.append_assoc, List.cons_append, List.nil_append, List.append_nil, List.length_append, List.length_cons, List.length_nil, List.singleton_append, Nat.add_assoc, Nat.add_zero, Nat.zero_add] at e hv ⊢
      rw [e]
      dsimp only
      rw [hv]
      by_cases hrest : rest = []
      · subst hrest
        have e2 := strtok_none (pre ++ tok ++ [NUL]) [] post [] none (pre.length + tok.length + 1)
          (by simp [Nat.add_assoc]) (by simp) (by simp) hp
        simp only [List.append_assoc, List.cons_append, List.nil_append, List.append_nil, List.length_append, List.length_cons, List.length_nil, List.singleton_append, Nat.add_assoc, Nat.add_zero, Nat.zero_add] at e2 ⊢
        rw [e2]
        simp
      · have e2 := strtok_end (pre ++ tok ++ [NUL]) [] rest post [] none
          (pre.length + tok.length + 1) (by simp [Nat.add_assoc]) (by simp)
          (fun c hc => ⟨by simp, fun h => hrestN (h ▸ hc)⟩) hrest (by simp) hp
        have hv2 : cstrAt ((pre ++ tok ++ [NUL]) ++ rest ++ post) (pre ++ tok ++ [NUL]).length
            = rest := cstrAt_append (pre ++ tok ++ [NUL]) rest post hrestN hp
        simp only [List.append_assoc, List.cons_append, List.nil_append, List.append_nil, List.length_append, List.length_cons, List.length_nil, List.singleton_append, Nat.add_assoc, Nat.add_zero, Nat.zero_add] at e2 hv2 ⊢
        rw [e2]
        dsimp only
        rw [hv2]
        simp

/-- C6: for every raw value string `s` whose remainder `r` (`s` without one trailing `Z`)
is not empty, `createDateTime` yields a `DateTime` with `isText = false`, empty `text`,
`UTC` true exactly when `s` ends in `Z`, and: if `r` starts with `T`, an empty date and the
rest of `r` as time; otherwise the prefix of `r` before its first `T` as date and the suffix
after that `T` as time (empty if `r` has no `T`). -/
theorem createDateTime_fields (mem : List Char) (p : Nat) (s r : List Char)
    (hs : cstrAt mem p = s)
    (hr : r = if s.getLast? = some 'Z' then s.dropLast else s)
    (hne : r ≠ []) :
    createDateTime mem p = some ⟨decide (s.getLast? = some 'Z'), false,
      some (if r.head? = some 'T' then [] else r.takeWhile (fun c => c != 'T')),
      some (if r.head? = some 'T' then r.drop 1 else (r.dropWhile (fun c => c != 'T')).drop 1),
      some []⟩ := by
  have hsne : s ≠ [] := by
    intro h
    apply hne
    rw [hr, h]
    simp
  have hsN : NUL ∉ s := by rw [← hs]; exact not_mem_cstr _
  obtain ⟨pre, post, hmem, hpre, hpost⟩ := cstrAt_decomp mem p (by rw [hs]; exact hsne)
  rw [hs] at hmem
  subst hpre
  obtain ⟨init, last, rfl⟩ : ∃ init last, s = init ++ [last] :=
    ⟨s.dropLast, s.getLast hsne, (List.dropLast_append_getLast hsne).symm⟩
  have hlen : pre.length + (init ++ [last]).length - 1 = (pre ++ init).length := by simp
  have hpeek : peek mem (pre ++ init).length = last := by
    rw [hmem]
    have := peek_append (pre ++ init) post last
    simpa [List.append_assoc] using this
  have hnz : ¬ (pre.length + (init ++ [last]).length = 0) := by simp
  unfold createDateTime
  dsimp only
  rw [hs, if_neg hnz, hlen, hpeek]
  by_cases hZ : last = 'Z'
  · subst hZ
    have hr' : r = init := by simp at hr; exact hr
    subst hr'
    have hset : mem.set (pre ++ r).length NUL = pre ++ r ++ (NUL :: post) := by
      rw [hmem]
      simp [List.append_assoc]
    rw [if_pos rfl, hset]
    have := dateTimeFields_eq pre r (NUL :: post) true hne (fun h => hsN (by simp [h]))
      (Or.inr ⟨_, rfl⟩)
    rw [this]
    simp
  · have hr' : r = init ++ [last] := by simpa [hZ] using hr
    subst hr'
    rw [if_neg hZ, hmem]
    have := dateTimeFields_eq pre (init ++ [last]) post false hne hsN hpost
    rw [this]
    simp [hZ]

/-- A name segment with one dot and nothing before or after it makes `parseHead` run into
`strlen(NULL)` or `strcasecmp(NULL, "FN")`. -/
theorem headResult_degenerate (a b post : List Char) (sv vs : Nat) (params : List Parameter)
    (ha : ∀ c ∈ a, c ≠ '.' ∧ c ≠ NUL) (hb : ∀ c ∈ b, c ≠ '.' ∧ c ≠ NUL)
    (hab : a = [] ∨ b = []) (hp : Ends post) :
    headResult (a ++ '.' :: b ++ post) sv params vs = none := by
  have haN : NUL ∉ a := fun h => (ha _ h).2 rfl
  have hbN : NUL ∉ b := fun h => (hb _ h).2 rfl
  have hview : cstrAt (a ++ '.' :: b ++ post) 0 = a ++ '.' :: b := by
    have := cstrAt_append [] (a ++ '.' :: b) post
      (by simp only [List.mem_append, List.mem_cons, not_or]
          exact ⟨haN, by decide, hbN⟩) hp
    simpa using this
  have hdot : strchr (a ++ '.' :: b) '.' = true := by simp [strchr]
  unfold headResult parseGroup
  rw [hview, if_pos hdot]
  by_cases ha0 : a = []
  · subst ha0
    by_cases hb0 : b = []
    · subst hb0
      have e := strtok_none [] ['.'] post ['.'] (some 0) sv rfl (by simp) (by decide) hp
      simp only [List.nil_append] at e ⊢
      rw [e]
    · have e := strtok_end [] ['.'] b post ['.'] (some 0) sv rfl (by simp)
        (fun c hc => ⟨by simpa using (hb c hc).1, (hb c hc).2⟩) hb0 (by decide) hp
      have e2 := strtok_none ('.' :: b) [] post ['.'] none (1 + b.length) (by simp; omega)
        (by simp) (by simp) hp
      simp only [List.append_assoc, List.cons_append, List.nil_append, List.append_nil,
        List.length_append, List.length_cons, List.length_nil, List.singleton_append,
        Nat.add_assoc, Nat.add_zero, Nat.zero_add] at e e2 ⊢
      rw [e]
      dsimp only
      rw [e2]
  · have hb0 : b = [] := hab.resolve_left ha0
    subst hb0
    have e := strtok_delim [] [] a [] post '.' ['.'] (some 0) sv rfl (by simp)
      (fun c hc => ⟨by simpa using (ha c hc).1, (ha c hc).2⟩) ha0 (by simp) (by decide)
      (by simp) (by simp) hp
    have e2 := strtok_none (a ++ [NUL]) [] post ['.'] none (a.length + 1) (by simp)
      (by simp) (by simp) hp
    simp only [List.append_assoc, List.cons_append, List.nil_append, List.append_nil,
      List.length_append, List.length_cons, List.length_nil, List.singleton_append,
      Nat.add_assoc, Nat.add_zero, Nat.zero_add] at e e2 ⊢
    rw [e]
    dsimp only
    rw [e2]

/-- The FN branch of the dispatch on any value string: leading semicolons are skipped and
the first token, if there is one, is the single value. -/
theorem dispatch_FN_any (card : Card) (h : Head) (g name : List Char)
    (params : List Parameter) (dl tok after : List Char)
    (hs : HeadShape h g name params (dl ++ tok ++ after))
    (hn : NUL ∉ name) (hdl : ∀ c ∈ dl, c = ';')
    (htok : ∀ c ∈ tok, c ≠ ';' ∧ c ≠ NUL)
    (hafter : after = [] ∨ ∃ r, after = ';' :: r ∧ NUL ∉ r)
    (htokafter : tok = [] → after = [])
    (h1 : strcasecmp name "FN".toList = 0) :
    dispatch card h = if tok = [] then some none else some (some { card with
      fn := some ⟨some name, some g, some params, some [tok]⟩ }) := by
  obtain ⟨hg, hpar, a, b, hp, hb, hm, hvs⟩ := hs
  have hview : cstrAt h.mem h.propertyName = name :=
    HeadShape.name_view ⟨hg, hpar, a, b, hp, hb, hm, hvs⟩ hn
  have htok' : ∀ c ∈ tok, c ∉ [';'] ∧ c ≠ NUL := fun c hc =>
    ⟨by simpa using (htok c hc).1, (htok c hc).2⟩
  have hdl' : ∀ c ∈ dl, c ∈ [';'] := fun c hc => by simpa using hdl c hc
  have hdlN : NUL ∉ dl := fun hm => absurd (hdl _ hm) (by decide)
  have hptr : (some h.valueString).getD h.save = (a ++ name ++ b ++ [NUL]).length := by
    simp [hvs]; omega
  by_cases hne : tok = []
  · subst hne
    have ha := htokafter rfl
    subst ha
    have e := strtok_none (a ++ name ++ b ++ [NUL]) dl [] [';'] (some h.valueString) h.save hptr
      hdl' hdlN (Or.inl rfl)
    have hm' : h.mem = a ++ name ++ b ++ [NUL] ++ dl ++ [] := by rw [hm]; simp
    rw [← hm'] at e
    unfold dispatch
    dsimp only
    rw [hview, if_pos h1, e]
    simp
  · rw [if_neg hne]
    have key : ∃ x, (strtok h.mem (some h.valueString) [';'] h.save).tok
          = some (a ++ name ++ b ++ [NUL] ++ dl).length ∧
        (strtok h.mem (some h.valueString) [';'] h.save).mem
          = a ++ name ++ b ++ [NUL] ++ dl ++ tok ++ x ∧ Ends x := by
      rcases hafter with rfl | ⟨r, rfl, hr⟩
      · have e := strtok_end (a ++ name ++ b ++ [NUL]) dl tok [] [';'] (some h.valueString) h.save
          hptr hdl' htok' hne hdlN (Or.inl rfl)
        have hm' : h.mem = a ++ name ++ b ++ [NUL] ++ (dl ++ tok) ++ [] := by
          rw [hm]; simp
        rw [← hm'] at e
        refine ⟨[], ?_, ?_, Or.inl rfl⟩
        · rw [e]; simp; omega
        · rw [e]; simp [hm]
      · have e := strtok_delim (a ++ name ++ b ++ [NUL]) dl tok r [] ';' [';']
          (some h.valueString) h.save hptr hdl' htok' hne (by simp) (by decide) hdlN hr
          (Or.inl rfl)
        have hm' : h.mem = a ++ name ++ b ++ [NUL] ++ (dl ++ tok ++ ';' :: r) ++ [] := by
          rw [hm]; simp
        rw [← hm'] at e
        refine ⟨NUL :: r, ?_, ?_, Or.inr ⟨_, rfl⟩⟩
        · rw [e]; simp; omega
        · rw [e]; simp
    obtain ⟨x, e, em, hx⟩ := key
    have hv1 : cstrAt (a ++ name ++ b ++ [NUL] ++ dl ++ tok ++ x) h.propertyName = name := by
      rw [hp]
      have hE : Ends (b ++ [NUL] ++ dl ++ tok ++ x) := by
        rcases hb with rfl | ⟨y, rfl⟩
        · exact Or.inr ⟨dl ++ tok ++ x, by simp⟩
        · exact Or.inr ⟨y ++ [NUL] ++ dl ++ tok ++ x, by simp⟩
      have := cstrAt_append a name (b ++ [NUL] ++ dl ++ tok ++ x) hn hE
      simpa [List.append_assoc] using this
    have hv2 : cstrAt (a ++ name ++ b ++ [NUL] ++ dl ++ tok ++ x)
        (a ++ name ++ b ++ [NUL] ++ dl).length = tok :=
      cstrAt_append (a ++ name ++ b ++ [NUL] ++ dl) tok x (fun hm => (htok _ hm).2 rfl) hx
    unfold dispatch
    dsimp only
    rw [hview, if_pos h1, e]
    dsimp only
    rw [em, hv1, hv2, hg, hpar]

theorem dispatch_group_name (card card1 : Card) (h : Head) (g name : List Char)
    (params : List Parameter) (value : List Char) (hs : HeadShape h g name params value)
    (hn : NUL ∉ name) (hv : NUL ∉ value)
    (h2 : strcasecmp name "BDAY".toList ≠ 0) (h3 : strcasecmp name "ANNIVERSARY".toList ≠ 0)
    (hacc : dispatch card h = some (some card1)) :
    ∃ p, StoredAs card card1 name p ∧ p.group = some g ∧ p.name = some name := by
  by_cases h1 : strcasecmp name "FN".toList = 0
  · obtain ⟨dl, tok, after, hsplit, hdl, htok, _, hafter, hta⟩ := strtok_shape value [';'] hv
    rw [hsplit] at hs
    have hafter' : after = [] ∨ ∃ r, after = ';' :: r ∧ NUL ∉ r := by
      rcases hafter with h | ⟨d, r, h, hd, _, hr⟩
      · exact Or.inl h
      · exact Or.inr ⟨r, by rw [h]; simp at hd; rw [hd], hr⟩
    have e := dispatch_FN_any card h g name params dl tok after hs hn
      (fun c hc => by simpa using hdl c hc)
      (fun c hc => ⟨by simpa using (htok c hc).1, (htok c hc).2⟩) hafter' hta h1
    rw [e] at hacc
    by_cases ht : tok = []
    · rw [if_pos ht] at hacc
      exact absurd hacc (by simp)
    · rw [if_neg ht] at hacc
      simp only [Option.some.injEq] at hacc
      refine ⟨⟨some name, some g, some params, some [tok]⟩, Or.inl ⟨h1, ?_⟩, rfl, rfl⟩
      rw [← hacc]
  · by_cases h4 : genericNames.any (fun n => decide (strcasecmp name n = 0)) = true
    · have e := dispatch_generic card h g name params value hs hn hv h1 h2 h3 h4
      rw [e] at hacc
      simp only [Option.some.injEq] at hacc
      refine ⟨⟨some name, some g, some params, some (parsePropertyValues [] name value)⟩,
        Or.inr ⟨h1, ?_⟩, rfl, rfl⟩
      rw [← hacc]
    · have e := dispatch_unknown card h g name params value hs hn h1 h2 h3
        (by simpa using h4)
      rw [e] at hacc
      exact absurd hacc (by simp)

theorem seg_split (seg : List Char) (hdot : '.' ∈ seg) (hcount : seg.count '.' ≤ 1) :
    seg = groupOf seg ++ '.' :: nameOf seg ∧ '.' ∉ groupOf seg ∧ '.' ∉ nameOf seg := by
  unfold groupOf nameOf
  rw [if_pos hdot, if_pos hdot]
  have hsplit := (List.takeWhile_append_dropWhile (fun c => c != '.') seg).symm
  have hnot : '.' ∉ seg.takeWhile (fun c => c != '.') := by
    intro h
    have := List.mem_takeWhile_imp h
    simp at this
  cases hd : seg.dropWhile (fun c => c != '.') with
  | nil =>
    rw [hd, List.append_nil] at hsplit
    rw [hsplit] at hdot
    exact absurd hdot hnot
  | cons d rest =>
    have hdT : d = '.' := by
      have := List.head_dropWhile_not (fun c => c != '.') seg (by rw [hd]; simp)
      simp only [hd, List.head_cons] at this
      simpa using this
    subst hdT
    rw [hd] at hsplit
    refine ⟨by simpa using hsplit, hnot, ?_⟩
    intro hr
    have hc : seg.count '.' = (seg.takeWhile (fun c => c != '.')).count '.'
        + (1 + rest.count '.') := by
      conv_lhs => rw [hsplit]
      simp [List.count_append, List.count_cons]
      omega
    have : 0 < rest.count '.' := List.count_pos_iff.mpr (by simpa using hr)
    omega

/-- The part of C9 that holds: for every logical line the property parser accepts as FN or
as a generic property whose name segment is not empty and holds at most one dot: with a dot,
the stored
group is the part of the name segment before the dot and the stored name the part after
it; without a dot, the stored group is empty and the stored name is the whole name
segment as written. -/
theorem createProperty_group_name (card card1 : Card) (seg ptext value : List Char)
    (hseg : SegOK seg) (hcount : seg.count '.' ≤ 1) (hpt : TailOK ptext) (hv : NUL ∉ value)
    (h2 : strcasecmp (nameOf seg) "BDAY".toList ≠ 0)
    (h3 : strcasecmp (nameOf seg) "ANNIVERSARY".toList ≠ 0)
    (hacc : createProperty card (seg ++ ptext ++ ':' :: value) = some (some card1)) :
    ∃ p, StoredAs card card1 (nameOf seg) p ∧ p.group = some (groupOf seg) ∧
      p.name = some (nameOf seg) := by
  have hloop := parseHead_of_loop seg ptext value hseg hpt hv
  unfold createProperty at hacc
  cases hl : headLoop seg ptext value with
  | none =>
    rw [hloop.1 hl] at hacc
    exact absurd hacc (by simp)
  | some r =>
    cases r with
    | none =>
      rw [hloop.2.1 hl] at hacc
      exact absurd hacc (by simp)
    | some pt =>
      obtain ⟨params, t⟩ := pt
      obtain ⟨b, hb, hblen, htmem, hres⟩ := hloop.2.2 params t hl
      have hpost : Ends (b ++ NUL :: value) := by
        rcases hb with h | ⟨x, h⟩
        · rw [h]; exact Or.inr ⟨_, rfl⟩
        · rw [h]; exact Or.inr ⟨_, rfl⟩
      -- the name segment as group and name
      have key : (groupOf seg ≠ [] ∨ '.' ∉ seg) → nameOf seg ≠ [] →
          seg = groupText (groupOf seg) ++ nameOf seg → TokenOK (groupOf seg) →
          TokenOK (nameOf seg) →
          ∃ p, StoredAs card card1 (nameOf seg) p ∧ p.group = some (groupOf seg) ∧
            p.name = some (nameOf seg) := by
        intro _ hnne hsegeq hgok hnok
        rw [hsegeq] at hl
        obtain ⟨h, hph, hshape⟩ := parseHead_shape (groupOf seg) (nameOf seg) ptext value hgok
          hnok hnne hpt hv params t hl
        rw [← hsegeq] at hph
        rw [hph] at hacc
        exact dispatch_group_name card card1 h _ _ params value hshape
          (fun hm => (hnok _ hm).2.2.2 rfl) hv h2 h3 hacc
      by_cases hdot : '.' ∈ seg
      · obtain ⟨hsplit, hgd, hnd⟩ := seg_split seg hdot hcount
        have hgsub : ∀ c ∈ groupOf seg, c ∈ seg := fun c hc => by
          rw [hsplit]; simp [hc]
        have hnsub : ∀ c ∈ nameOf seg, c ∈ seg := fun c hc => by
          rw [hsplit]; simp [hc]
        have hgok : TokenOK (groupOf seg) := fun c hc =>
          ⟨fun h => hgd (h ▸ hc), (hseg.2 c (hgsub c hc)).1, (hseg.2 c (hgsub c hc)).2.1,
            (hseg.2 c (hgsub c hc)).2.2⟩
        have hnok : TokenOK (nameOf seg) := fun c hc =>
          ⟨fun h => hnd (h ▸ hc), (hseg.2 c (hnsub c hc)).1, (hseg.2 c (hnsub c hc)).2.1,
            (hseg.2 c (hnsub c hc)).2.2⟩
        by_cases hdeg : groupOf seg = [] ∨ nameOf seg = []
        · have hnone := headResult_degenerate (groupOf seg) (nameOf seg) (b ++ NUL :: value)
            t.save ((seg ++ ptext).length + 1) params
            (fun c hc => ⟨(hgok c hc).1, (hgok c hc).2.2.2⟩)
            (fun c hc => ⟨(hnok c hc).1, (hnok c hc).2.2.2⟩) hdeg hpost
          have htm : t.mem = groupOf seg ++ '.' :: nameOf seg ++ (b ++ NUL :: value) := by
            rw [htmem]
            conv_lhs => rw [hsplit]
            simp
          rw [hres, htm, hnone] at hacc
          exact absurd hacc (by simp)
        · have hg0 : groupOf seg ≠ [] := fun h => hdeg (Or.inl h)
          have hn0 : nameOf seg ≠ [] := fun h => hdeg (Or.inr h)
          refine key (Or.inl hg0) hn0 ?_ hgok hnok
          conv_lhs => rw [hsplit]
          simp [groupText, hg0]
      · have hg : groupOf seg = [] := by simp [groupOf, hdot]
        have hn : nameOf seg = seg := by simp [nameOf, hdot]
        refine key (Or.inr hdot) (by rw [hn]; exact hseg.1) (by simp [hg, hn, groupText])
          (by rw [hg]; intro c hc; simp at hc) ?_
        rw [hn]
        exact fun c hc => ⟨fun h => hdot (h ▸ hc), (hseg.2 c hc).1, (hseg.2 c hc).2.1,
          (hseg.2 c hc).2.2⟩

theorem strcasecmp_ne_of_eq (a x y : List Char) (ha : NUL ∉ a) (hx : NUL ∉ x) (hy : NUL ∉ y)
    (hxy : x.map tolower ≠ y.map tolower) (h : strcasecmp a x = 0) : strcasecmp a y ≠ 0 := by
  intro h'
  have e1 := (strcasecmp_eq_zero_iff a x ha hx).mp h
  have e2 := (strcasecmp_eq_zero_iff a y ha hy).mp h'
  exact hxy (e1.symm.trans e2)

theorem hasValueText_of_mem (ps : List (List Char × List Char))
    (h : ∃ p ∈ ps, strcasecmp p.1 "VALUE".toList = 0 ∧ strcasecmp p.2 "text".toList = 0) :
    hasValueText (ps.map toParameter) = true := by
  obtain ⟨p, hp, h1, h2⟩ := h
  unfold hasValueText
  rw [List.any_eq_true]
  refine ⟨toParameter p, List.mem_map_of_mem _ hp, ?_⟩
  simp only [toParameter, h1, h2, decide_True, Bool.and_self]

/-- The BDAY branch of the dispatch. -/
theorem dispatch_BDAY (card : Card) (h : Head) (g name : List Char)
    (params : List Parameter) (value : List Char) (hs : HeadShape h g name params value)
    (hn : NUL ∉ name) (dt : DateTime) (hdt : dateOfHead h = some dt)
    (h1 : strcasecmp name "FN".toList ≠ 0) (h2 : strcasecmp name "BDAY".toList = 0) :
    dispatch card h = some (some { card with birthday := some dt }) := by
  unfold dispatch
  dsimp only
  rw [hs.name_view hn, if_neg h1, if_pos h2, hdt]

/-- The ANNIVERSARY branch of the dispatch. -/
theorem dispatch_ANNIVERSARY (card : Card) (h : Head) (g name : List Char)
    (params : List Parameter) (value : List Char) (hs : HeadShape h g name params value)
    (hn : NUL ∉ name) (dt : DateTime) (hdt : dateOfHead h = some dt)
    (h1 : strcasecmp name "FN".toList ≠ 0) (h2 : strcasecmp name "BDAY".toList ≠ 0)
    (h3 : strcasecmp name "ANNIVERSARY".toList = 0) :
    dispatch card h = some (some { card with anniversary := some dt }) := by
  unfold dispatch
  dsimp only
  rw [hs.name_view hn, if_neg h1, if_neg h2, if_pos h3, hdt]

/-- C7 (amended): for every BDAY or ANNIVERSARY line `[group.]NAME(;name=value)*:value`
whose parameters each have a value that is not empty, and that carries a parameter whose name
case-insensitively equals VALUE and whose value case-insensitively equals text, the property
parser stores on `birthday` (resp. `anniversary`) a `DateTime` with `isText = true`, `text`
equal to the whole raw value string after the first colon, empty `date` and `time` and
`UTC = false`, and leaves every other field of the card, `optionalProperties` included, as
it was. -/
theorem createProperty_date_text (card : Card) (g name : List Char)
    (ps : List (List Char × List Char)) (value : List Char)
    (hg : TokenOK g) (hn : TokenOK name) (hne : name ≠ [])
    (hps : ∀ p ∈ ps, ParamOK p) (hv : NUL ∉ value)
    (htext : ∃ p ∈ ps, strcasecmp p.1 "VALUE".toList = 0 ∧ strcasecmp p.2 "text".toList = 0) :
    (strcasecmp name "BDAY".toList = 0 →
      createProperty card (propertyLine g name ps value) = some (some { card with
        birthday := some ⟨false, true, some [], some [], some value⟩ })) ∧
    (strcasecmp name "ANNIVERSARY".toList = 0 →
      createProperty card (propertyLine g name ps value) = some (some { card with
        anniversary := some ⟨false, true, some [], some [], some value⟩ })) := by
  obtain ⟨h, hph, hs⟩ := parseHead_wf g name ps value hg hn hne hps hv
  have hnN : NUL ∉ name := fun hm => (hn _ hm).2.2.2 rfl
  have hdt := dateOfHead_text h g name _ value hs hv (hasValueText_of_mem ps htext)
  constructor
  · intro hb
    have h1 := strcasecmp_ne_of_eq name "BDAY".toList "FN".toList hnN (by decide) (by decide)
      (by decide) hb
    unfold createProperty
    rw [hph]
    exact dispatch_BDAY card h g name _ value hs hnN _ hdt h1 hb
  · intro ha
    have h1 := strcasecmp_ne_of_eq name "ANNIVERSARY".toList "FN".toList hnN (by decide)
      (by decide) (by decide) ha
    have h2 := strcasecmp_ne_of_eq name "ANNIVERSARY".toList "BDAY".toList hnN (by decide)
      (by decide) (by decide) ha
    unfold createProperty
    rw [hph]
    exact dispatch_ANNIVERSARY card h g name _ value hs hnN _ hdt h1 h2 ha

/-- Scenario D, `BDAY;VALUE=text:circa 1980`, as an instance of C7. -/
theorem createProperty_date_text_witness :
    TokenOK ([] : List Char) ∧ TokenOK "BDAY".toList ∧ "BDAY".toList ≠ [] ∧
      (∀ p ∈ [("VALUE".toList, "text".toList)], ParamOK p) ∧ NUL ∉ "circa 1980".toList ∧
      (∃ p ∈ [("VALUE".toList, "text".toList)],
        strcasecmp p.1 "VALUE".toList = 0 ∧ strcasecmp p.2 "text".toList = 0) ∧
      createProperty newCard "BDAY;VALUE=text:circa 1980".toList = some (some { newCard with
        birthday := some ⟨false, true, some [], some [], some "circa 1980".toList⟩ }) :=
  have h1 : TokenOK ([] : List Char) := by unfold TokenOK; decide
  have h2 : TokenOK "BDAY".toList := by unfold TokenOK; decide
  have h3 : ∀ p ∈ [("VALUE".toList, "text".toList)], ParamOK p := by unfold ParamOK; decide
  have h4 : ∃ p ∈ [("VALUE".toList, "text".toList)],
      strcasecmp p.1 "VALUE".toList = 0 ∧ strcasecmp p.2 "text".toList = 0 :=
    ⟨_, List.mem_singleton.mpr rfl, by decide, by decide⟩
  ⟨h1, h2, by decide, h3, by decide, h4,
    (createProperty_date_text newCard [] "BDAY".toList [("VALUE".toList, "text".toList)]
      "circa 1980".toList h1 h2 (by decide) h3 (by decide) h4).1 (by decide)⟩

/-- C7 fails as stated: the lines `BDAY;VALUE=text;X=:circa 1980` and
`ANNIVERSARY;X=;VALUE=text:circa 1980` carry the parameter `VALUE=text`, but the parameter `X`
has an empty value, so the parser returns `NULL` (line 766) and stores nothing; `createCard`
ends with INV_PROP on a file with such a line. -/
theorem createProperty_date_text_counterexample :
    createProperty newCard "BDAY;VALUE=text;X=:circa 1980".toList = some none ∧
      createProperty newCard "ANNIVERSARY;X=;VALUE=text:circa 1980".toList = some none ∧
      createCard ("BEGIN:VCARD\r\nVERSION:4.0\r\nFN:x\r\n".toList ++
          "BDAY;VALUE=text;X=:circa 1980\r\nEND:VCARD\r\n".toList)
        = some (VCardErrorCode.INV_PROP, none) := by
  decide

/-- C10 (amended): for every FN line `[group.]NAME(;name=value)*:value` whose parameters each
have a value that is not empty and whose raw value string is not empty and does not start
with a semicolon, the property parser sets `fn` to a
`Property` with exactly one value, the first token `parsePropertyValues` yields for the raw
value string; later tokens are discarded and the other fields of the card,
`optionalProperties` included, stay as they were. -/
theorem createProperty_FN (card : Card) (g name : List Char)
    (ps : List (List Char × List Char)) (value : List Char)
    (hg : TokenOK g) (hn : TokenOK name) (hne : name ≠ [])
    (hps : ∀ p ∈ ps, ParamOK p) (hv : NUL ∉ value)
    (hfn : strcasecmp name "FN".toList = 0)
    (hvne : value ≠ []) (hsemi : value.head? ≠ some ';') :
    ∃ tok, (parsePropertyValues [] name value).head? = some tok ∧
      createProperty card (propertyLine g name ps value) = some (some { card with
        fn := some ⟨some name, some g, some (ps.map toParameter), some [tok]⟩ }) := by
  obtain ⟨h, hph, hs⟩ := parseHead_wf g name ps value hg hn hne hps hv
  have hnN : NUL ∉ name := fun hm => (hn _ hm).2.2.2 rfl
  obtain ⟨toks, h1, _, _, _, h5⟩ := parsePropertyValuesLoop_spec value.length [] value le_rfl
  refine ⟨value.take (strcspn value [';']), ?_, ?_⟩
  · unfold parsePropertyValues
    rw [h1]
    simpa using h5
  · have hsplit : value = value.take (strcspn value [';']) ++ value.drop (strcspn value [';']) :=
      (List.take_append_drop _ _).symm
    have htokne : value.take (strcspn value [';']) ≠ [] := by
      obtain ⟨x, r, rfl⟩ := List.exists_cons_of_ne_nil hvne
      have hx : x ≠ ';' := by simpa using hsemi
      rw [take_strcspn]
      simp [List.takeWhile_cons, hx]
    have htok : ∀ c ∈ value.take (strcspn value [';']), c ≠ ';' ∧ c ≠ NUL := by
      intro c hc
      refine ⟨?_, fun hN => hv (hN ▸ (List.take_sublist _ _).subset hc)⟩
      rw [take_strcspn] at hc
      simpa using List.mem_takeWhile_imp hc
    have hafter : value.drop (strcspn value [';']) = [] ∨
        ∃ r, value.drop (strcspn value [';']) = ';' :: r ∧ NUL ∉ r := by
      by_cases hlt : strcspn value [';'] < value.length
      · obtain ⟨d, rest, hd, hsp, hdr, _⟩ := strcspn_split value [';'] hlt
        have hd' : d = ';' := by simpa using hd
        subst hd'
        right
        refine ⟨rest, ?_, fun hN => hv (by rw [hsp]; simp [hN])⟩
        have := List.take_append_drop (strcspn value [';']) value
        conv_rhs at this => rw [hsp]
        exact List.append_cancel_left this
      · left
        apply List.drop_eq_nil_of_le
        omega
    rw [hsplit] at hs
    have e := dispatch_FN_any card h g name _ [] _ _ (by simpa using hs) hnN (by simp) htok hafter
      (fun h0 => absurd h0 htokne) hfn
    unfold createProperty
    rw [hph]
    dsimp only
    rw [e, if_neg htokne]

/-- An FN line with parameters and a second value, as an instance of C10. -/
theorem createProperty_FN_witness :
    TokenOK "g".toList ∧ TokenOK "fn".toList ∧ "fn".toList ≠ [] ∧
      (∀ p ∈ [("LANGUAGE".toList, "en".toList)], ParamOK p) ∧ NUL ∉ "J. Doe;x".toList ∧
      strcasecmp "fn".toList "FN".toList = 0 ∧ "J. Doe;x".toList ≠ [] ∧
      "J. Doe;x".toList.head? ≠ some ';' ∧
      ∃ tok, (parsePropertyValues [] "fn".toList "J. Doe;x".toList).head? = some tok ∧
        createProperty newCard "g.fn;LANGUAGE=en:J. Doe;x".toList = some (some { newCard with
          fn := some ⟨some "fn".toList, some "g".toList,
            some [⟨some "LANGUAGE".toList, some "en".toList⟩], some [tok]⟩ }) :=
  have h1 : TokenOK "g".toList := by unfold TokenOK; decide
  have h2 : TokenOK "fn".toList := by unfold TokenOK; decide
  have h3 : ∀ p ∈ [("LANGUAGE".toList, "en".toList)], ParamOK p := by unfold ParamOK; decide
  ⟨h1, h2, by decide, h3, by decide, by decide, by decide, by decide,
    createProperty_FN newCard "g".toList "fn".toList [("LANGUAGE".toList, "en".toList)]
      "J. Doe;x".toList h1 h2 (by decide) h3 (by decide) (by decide) (by decide) (by decide)⟩

/-- C10 fails as stated: on `FN:;Bob` the tokenizer's first token is empty but the stored
value is `Bob`, on `FN:` the parser rejects the line and sets nothing, and on `FN;X=:J. Doe`,
where the parameter `X` has an empty value, it rejects the line as well (line 766). -/
theorem createProperty_FN_counterexample :
    (parsePropertyValues [] "FN".toList ";Bob".toList).head? = some [] ∧
      createProperty newCard "FN:;Bob".toList = some (some { newCard with
        fn := some ⟨some "FN".toList, some [], some [], some ["Bob".toList]⟩ }) ∧
      createProperty newCard "FN:".toList = some none ∧
      createProperty newCard "FN;X=:J. Doe".toList = some none := by
  decide

theorem getline_crlf (p rest : List Char) (buf : Option (List Char)) (hp : PieceOK p) :
    getline buf (crlf p ++ rest) = (some (crlf p), rest, ((p.length + 2 : Nat) : Int)) := by
  have hne : crlf p ++ rest ≠ [] := by simp [crlf]
  have hsp : strcspn (crlf p ++ rest) [LF] = p.length + 1 := by
    have := strcspn_append_of_mem (p ++ [CR]) rest [LF] LF
      (fun c hc => by
        simp only [List.mem_append, List.mem_singleton] at hc
        rcases hc with hc | rfl
        · simpa using (hp c hc).2.1
        · decide) (by simp)
    simpa [crlf, List.append_assoc] using this
  have hN : NUL ∉ crlf p := by
    simp only [crlf, List.mem_append, List.mem_cons, not_or]
    exact ⟨fun h => (hp _ h).2.2 rfl, by decide, by decide, by simp⟩
  have htake : (crlf p ++ rest).take (p.length + 1 + 1) = crlf p := by
    have : (crlf p).length = p.length + 1 + 1 := by simp [crlf]
    rw [← this, List.take_left']
    rfl
  have hdrop : (crlf p ++ rest).drop (p.length + 1 + 1) = rest := by
    have : (crlf p).length = p.length + 1 + 1 := by simp [crlf]
    rw [← this, List.drop_left']
    rfl
  unfold getline
  rw [if_neg hne, hsp, htake, hdrop]
  dsimp only
  rw [cstr_of_not_mem _ hN]
  simp [crlf]

theorem getline_eof (buf : Option (List Char)) : getline buf [] = (buf, [], -1) := by
  simp [getline]

theorem stripCRLF_crlf (p : List Char) : stripCRLF (some (crlf p)) = some (some p) := by
  have hlen : (crlf p).length - 2 = p.length := by simp [crlf]
  have hpeek : peek (crlf p) p.length = CR := by
    have := peek_append p [LF] CR
    simpa [crlf] using this
  unfold stripCRLF
  have h2 : ¬ ((crlf p).length < 2) := by simp [crlf]
  dsimp only
  rw [if_neg h2, hlen, hpeek]
  simp [crlf]

theorem stripCRLF_stale (s : List Char) (hs : PieceOK s) (hlen : 2 ≤ s.length) :
    stripCRLF (some s) = some none := by
  have hpeek : peek s (s.length - 2) ≠ CR := by
    unfold peek
    rw [List.getD_eq_getElem?_getD, List.getElem?_eq_getElem (by omega)]
    simp only [Option.getD_some]
    exact (hs _ (List.getElem_mem _)).1
  unfold stripCRLF
  have h2 : ¬ (s.length < 2) := by omega
  dsimp only
  rw [if_neg h2]
  simp [hpeek]

theorem peek_zero_cons (c : Char) (s : List Char) : peek (c :: s) 0 = c := rfl

theorem peek_zero_of_head (q : List Char) (hq : q.head? ≠ some ' ') : peek q 0 ≠ ' ' := by
  cases q with
  | nil => decide
  | cons x q => simpa [peek] using hq

theorem PieceOK_space_cons (c : List Char) (hc : PieceOK c) : PieceOK (' ' :: c) := by
  intro x hx
  rcases List.mem_cons.mp hx with rfl | hx
  · exact ⟨by decide, by decide, by decide⟩
  · exact hc x hx

theorem contsText_cons (c : List Char) (cs : List (List Char)) :
    contsText (c :: cs) = crlf (' ' :: c) ++ contsText cs := by
  simp [contsText]

/-- The unfolding loop when the continuation lines are followed by a line that starts a new
logical line. -/
theorem unfoldLoop_next (cs : List (List Char)) :
    ∀ (cur c q rest : List Char) (rs : Int) (fuel : Nat),
      (∀ x ∈ c :: cs, PieceOK x) → PieceOK q → q.head? ≠ some ' ' → cs.length + 2 ≤ fuel →
      unfoldLoop fuel cur (' ' :: c) (contsText cs ++ crlf q ++ rest) rs
        = some (((q.length + 2 : Nat) : Int),
            ⟨some (cur ++ c ++ cs.flatten), some q, rest⟩) := by
  induction cs with
  | nil =>
    intro cur c q rest rs fuel _ hq hhead hfuel
    obtain ⟨k, rfl⟩ : ∃ k, fuel = k + 2 := ⟨fuel - 2, by simp at hfuel; omega⟩
    have hpq := peek_zero_of_head q hhead
    simp only [contsText, List.map_nil, List.flatten_nil, List.nil_append, List.append_nil]
    rw [unfoldLoop, if_pos (peek_zero_cons _ _), getline_crlf q rest _ hq]
    dsimp only
    rw [stripCRLF_crlf]
    dsimp only
    rw [unfoldLoop, if_neg hpq]
    simp
  | cons c1 cs ih =>
    intro cur c q rest rs fuel hok hq hhead hfuel
    obtain ⟨k, rfl⟩ : ∃ k, fuel = k + 1 := ⟨fuel - 1, by simp at hfuel; omega⟩
    have hc1 : PieceOK (' ' :: c1) := PieceOK_space_cons c1 (hok c1 (by simp))
    rw [contsText_cons, List.append_assoc, List.append_assoc]
    rw [unfoldLoop, if_pos (peek_zero_cons _ _), getline_crlf (' ' :: c1) _ _ hc1]
    dsimp only
    rw [stripCRLF_crlf]
    dsimp only
    rw [← List.append_assoc]
    simp only [List.drop_succ_cons, List.drop_zero]
    rw [ih (cur ++ c) c1 q rest _ k (fun x hx => hok x (by
      rcases List.mem_cons.mp hx with rfl | hx
      · simp
      · simp [hx])) hq hhead (by simp at hfuel ⊢; omega)]
    simp

/-- The unfolding loop when the file ends after the continuation lines. -/
theorem unfoldLoop_eof (cs : List (List Char)) :
    ∀ (cur c : List Char) (rs : Int) (fuel : Nat),
      (∀ x ∈ c :: cs, PieceOK x) → (c :: cs).getLast?.all (fun x => x ≠ []) →
      cs.length + 1 ≤ fuel →
      unfoldLoop fuel cur (' ' :: c) (contsText cs) rs
        = some (-1, ⟨some (cur ++ c ++ cs.flatten),
            (c :: cs).getLast?.map (fun x => ' ' :: x), []⟩) := by
  induction cs with
  | nil =>
    intro cur c rs fuel hok hlast hfuel
    obtain ⟨k, rfl⟩ : ∃ k, fuel = k + 1 := ⟨fuel - 1, by simp at hfuel; omega⟩
    have hc : c ≠ [] := by simpa using hlast
    have hpc : PieceOK (' ' :: c) := PieceOK_space_cons c (hok c (by simp))
    have hlen : 2 ≤ (' ' :: c).length := by
      cases c with
      | nil => exact absurd rfl hc
      | cons x c => simp
    simp only [contsText, List.map_nil, List.flatten_nil, List.append_nil]
    rw [unfoldLoop, if_pos (peek_zero_cons _ _), getline_eof]
    dsimp only
    rw [stripCRLF_stale _ hpc hlen]
    simp
  | cons c1 cs ih =>
    intro cur c rs fuel hok hlast hfuel
    obtain ⟨k, rfl⟩ : ∃ k, fuel = k + 1 := ⟨fuel - 1, by simp at hfuel; omega⟩
    have hc1 : PieceOK (' ' :: c1) := PieceOK_space_cons c1 (hok c1 (by simp))
    have hnl := ih (cur ++ c) c1 ((((' ' :: c1).length + 2 : Nat) : Int)) k
      (fun x hx => hok x (by
        rcases List.mem_cons.mp hx with rfl | hx
        · simp
        · simp [hx])) (by simpa [List.getLast?_cons_cons] using hlast)
      (by simp at hfuel ⊢; omega)
    rw [contsText_cons]
    rw [unfoldLoop, if_pos (peek_zero_cons _ _), getline_crlf (' ' :: c1) _ _ hc1]
    dsimp only
    rw [stripCRLF_crlf]
    dsimp only
    simp only [List.drop_succ_cons, List.drop_zero]
    rw [hnl]
    simp

theorem length_le_contsText (cs : List (List Char)) : cs.length ≤ (contsText cs).length := by
  induction cs with
  | nil => simp [contsText]
  | cons c cs ih =>
    rw [contsText_cons]
    simp only [List.length_append, List.length_cons, crlf]
    omega

theorem fileText_cons (l : Folded) (ls : List Folded) :
    fileText (l :: ls) = crlf l.first ++ (contsText l.conts ++ fileText ls) := by
  simp [fileText, Folded.text]

/-- After a line has been fetched: the loop folds the continuation lines of the current
logical line and stops at the first line of the next one. -/
theorem unfold_to_next (cur : List Char) (cs : List (List Char)) (l1 : Folded)
    (rest : List Char) (buf : Option (List Char)) (hcs : ∀ x ∈ cs, PieceOK x)
    (hl1 : PieceOK l1.first) (hst : l1.Starts) :
    ∃ p fp1 n m, getline buf (contsText cs ++ (crlf l1.first ++ rest))
        = (some (crlf p), fp1, n) ∧ m ≠ -1 ∧
      unfoldLoop (fp1.length + p.length + 1) cur p fp1 n
        = some (m, ⟨some (cur ++ cs.flatten), some l1.first, rest⟩) := by
  cases cs with
  | nil =>
    refine ⟨l1.first, rest, ((l1.first.length + 2 : Nat) : Int),
      ((l1.first.length + 2 : Nat) : Int), ?_, by omega, ?_⟩
    · simpa [contsText] using getline_crlf l1.first rest buf hl1
    · rw [unfoldLoop, if_neg (peek_zero_of_head _ hst)]
      simp
  | cons c cs =>
    have hc : PieceOK (' ' :: c) := PieceOK_space_cons c (hcs c (by simp))
    refine ⟨' ' :: c, contsText cs ++ crlf l1.first ++ rest,
      (((' ' :: c).length + 2 : Nat) : Int), ((l1.first.length + 2 : Nat) : Int),
      ?_, by omega, ?_⟩
    · rw [contsText_cons, List.append_assoc]
      simpa [List.append_assoc] using getline_crlf (' ' :: c) (contsText cs ++ (crlf l1.first ++ rest)) buf hc
    · have := unfoldLoop_next cs cur c l1.first rest (((' ' :: c).length + 2 : Nat) : Int)
        ((contsText cs ++ crlf l1.first ++ rest).length + (' ' :: c).length + 1) hcs hl1 hst
        (by
          have := length_le_contsText cs
          simp only [List.length_append, List.length_cons]
          omega)
      simpa using this

/-- After the last line has been fetched: the loop folds its continuation lines and the
function returns `-1` at the end of the file. -/
theorem readNextLine_last (x : List Char) (l : Folded) (hl : l.Clean)
    (hlen : 2 ≤ l.lastPhysical.length) :
    readNextLine ⟨some x, some l.first, contsText l.conts⟩
      = some (-1, ⟨some l.logical, some l.lastPhysical, []⟩) := by
  obtain ⟨first, conts⟩ := l
  cases conts with
  | nil =>
    have : stripCRLF (some first) = some none :=
      stripCRLF_stale first hl.1 (by simpa [Folded.lastPhysical] using hlen)
    unfold readNextLine
    simp only [contsText, List.map_nil, List.flatten_nil, getline_eof, this, Folded.logical,
      List.append_nil, Folded.lastPhysical, List.getLast?_nil]
  | cons c cs =>
    have hc : PieceOK (' ' :: c) := PieceOK_space_cons c (hl.2 c (by simp))
    have hlast : (c :: cs).getLast?.all (fun x => x ≠ []) := by
      simp only [Folded.lastPhysical] at hlen
      cases hg : (c :: cs).getLast? with
      | none => simp
      | some y =>
        rw [hg] at hlen
        simp only [Option.all_some, decide_eq_true_eq]
        intro hy
        subst hy
        simp at hlen
    have hnl := unfoldLoop_eof cs first c (((' ' :: c).length + 2 : Nat) : Int)
      ((contsText cs).length + (' ' :: c).length + 1) hl.2 hlast (by
        have := length_le_contsText cs
        simp only [List.length_cons]
        omega)
    unfold readNextLine
    dsimp only
    rw [contsText_cons, getline_crlf (' ' :: c) (contsText cs) _ hc]
    dsimp only
    rw [stripCRLF_crlf]
    dsimp only
    rw [hnl]
    cases hg : (c :: cs).getLast? with
    | none => simp at hg
    | some y => simp [Folded.logical, Folded.lastPhysical, hg]

/-- A call of `readNextLine` after the first one, when another logical line follows. -/
theorem readNextLine_next (x : List Char) (l l1 : Folded) (rest : List Char)
    (hl : l.Clean) (hl1 : l1.Clean) (hst : l1.Starts) :
    ∃ m, m ≠ -1 ∧ readNextLine ⟨some x, some l.first, contsText l.conts ++ (l1.text ++ rest)⟩
      = some (m, ⟨some l.logical, some l1.first, contsText l1.conts ++ rest⟩) := by
  obtain ⟨p, fp1, n, m, hg, hm, hloop⟩ := unfold_to_next l.first l.conts l1
    (contsText l1.conts ++ rest) (some l.first) hl.2 hl1.1 hst
  refine ⟨m, hm, ?_⟩
  unfold readNextLine
  dsimp only
  rw [Folded.text, List.append_assoc, hg]
  dsimp only
  rw [stripCRLF_crlf]
  dsimp only
  rw [hloop]
  rfl

/-- The first call of `readNextLine`, on a file with at least two logical lines. -/
theorem readNextLine_first (l l1 : Folded) (rest : List Char)
    (hl : l.Clean) (hl1 : l1.Clean) (hst : l1.Starts) :
    ∃ m, m ≠ -1 ∧ readNextLine ⟨none, none, l.text ++ (l1.text ++ rest)⟩
      = some (m, ⟨some l.logical, some l1.first, contsText l1.conts ++ rest⟩) := by
  obtain ⟨p, fp1, n, m, hg, hm, hloop⟩ := unfold_to_next l.first l.conts l1
    (contsText l1.conts ++ rest) none hl.2 hl1.1 hst
  refine ⟨m, hm, ?_⟩
  unfold readNextLine
  dsimp only
  rw [Folded.text, List.append_assoc, getline_crlf l.first _ _ hl.1]
  dsimp only
  rw [stripCRLF_crlf]
  dsimp only
  rw [Folded.text, List.append_assoc, hg]
  dsimp only
  rw [stripCRLF_crlf]
  dsimp only
  rw [hloop]
  rfl

theorem length_le_fileText (ls : List Folded) : ls.length ≤ (fileText ls).length := by
  induction ls with
  | nil => simp [fileText]
  | cons l ls ih =>
    rw [fileText_cons]
    simp only [List.length_append, List.length_cons, crlf]
    omega

/-- The loop of lines 68-73 on the lines that follow the VERSION line. -/
theorem readProperties_eval (mids : List Folded) :
    ∀ (card : Card) (x : List Char) (last hd : Folded) (tl : List Folded) (fuel : Nat),
      mids ++ [last] = hd :: tl → (∀ l ∈ mids ++ [last], l.Clean ∧ l.Starts) →
      2 ≤ last.lastPhysical.length → mids.length + 1 ≤ fuel →
      readProperties fuel card ⟨some x, some hd.first, contsText hd.conts ++ fileText tl⟩
        = loopResult (parseAll card (mids.map Folded.logical)) last := by
  induction mids with
  | nil =>
    intro card x last hd tl fuel heq hok hlen hfuel
    obtain ⟨k, rfl⟩ : ∃ k, fuel = k + 1 := ⟨fuel - 1, by simp at hfuel; omega⟩
    simp only [List.nil_append, List.cons.injEq] at heq
    obtain ⟨rfl, rfl⟩ := heq
    have e := readNextLine_last x last (hok last (by simp)).1 hlen
    simp only [fileText, List.map_nil, List.flatten_nil, List.append_nil]
    rw [readProperties, e]
    simp [parseAll, loopResult]
  | cons m ms ih =>
    intro card x last hd tl fuel heq hok hlen hfuel
    obtain ⟨k, rfl⟩ : ∃ k, fuel = k + 1 := ⟨fuel - 1, by simp at hfuel; omega⟩
    simp only [List.cons_append, List.cons.injEq] at heq
    obtain ⟨rfl, rfl⟩ := heq
    obtain ⟨hd1, tl1, htl⟩ : ∃ hd1 tl1, ms ++ [last] = hd1 :: tl1 := by
      cases ms with
      | nil => exact ⟨last, [], rfl⟩
      | cons a as => exact ⟨a, as ++ [last], rfl⟩
    have hhd1 : hd1 ∈ m :: ms ++ [last] := by
      have : hd1 ∈ ms ++ [last] := by rw [htl]; simp
      simp only [List.cons_append, List.mem_cons]
      exact Or.inr this
    obtain ⟨n, hn, e⟩ := readNextLine_next x m hd1 (fileText tl1) (hok m (by simp)).1
      (hok hd1 hhd1).1 (hok hd1 hhd1).2
    rw [htl, fileText_cons, ← List.append_assoc (crlf hd1.first), ← Folded.text]
    rw [readProperties, e]
    dsimp only
    rw [if_neg hn]
    simp only [List.map_cons, parseAll]
    cases hc : createProperty card m.logical with
    | none => simp [loopResult]
    | some r =>
      cases r with
      | none => simp [loopResult]
      | some c1 =>
        dsimp only
        exact ih c1 m.logical last hd1 tl1 k htl
          (fun l hl => hok l (by simp only [List.cons_append, List.mem_cons]; exact Or.inr hl))
          hlen (by simp at hfuel ⊢; omega)

/-- `createCard` on a file of at least three clean logical lines, in terms of the property
parser run over the lines between the second and the last. -/
theorem createCard_eval (l0 l1 : Folded) (mids : List Folded) (last : Folded)
    (h0 : l0.Clean) (hok : ∀ l ∈ l1 :: mids ++ [last], l.Clean ∧ l.Starts)
    (hlen : 2 ≤ last.lastPhysical.length) :
    createCard (fileText (l0 :: l1 :: mids ++ [last])) =
      if strcasecmp l0.logical "BEGIN:VCARD".toList ≠ 0 then some (VCardErrorCode.INV_CARD, none)
      else if strcasecmp l1.logical "VERSION:4.0".toList ≠ 0 then
        some (VCardErrorCode.INV_CARD, none)
      else
        match parseAll newCard (mids.map Folded.logical) with
        | none => none
        | some none => some (VCardErrorCode.INV_PROP, none)
        | some (some card) =>
          if card.fn = none then some (VCardErrorCode.INV_CARD, none)
          else if strcasecmp last.logical "END:VCARD".toList ≠ 0 then
            some (VCardErrorCode.INV_CARD, none)
          else some (VCardErrorCode.OK, some card) := by
  obtain ⟨hd, tl, htl⟩ : ∃ hd tl, mids ++ [last] = hd :: tl := by
    cases mids with
    | nil => exact ⟨last, [], rfl⟩
    | cons a as => exact ⟨a, as ++ [last], rfl⟩
  have hhd : hd ∈ l1 :: mids ++ [last] := by
    have : hd ∈ mids ++ [last] := by rw [htl]; simp
    simp only [List.cons_append, List.mem_cons]
    exact Or.inr this
  have hl1 := hok l1 (by simp)
  obtain ⟨n1, hn1, e1⟩ := readNextLine_first l0 l1 (fileText (mids ++ [last])) h0 hl1.1 hl1.2
  obtain ⟨n2, hn2, e2⟩ := readNextLine_next l0.logical l1 hd (fileText tl) hl1.1 (hok hd hhd).1
    (hok hd hhd).2
  have e3 := readProperties_eval mids newCard l1.logical last hd tl
    ((contsText hd.conts ++ fileText tl).length + 1) htl
    (fun l hl => hok l (by simp only [List.cons_append, List.mem_cons]; exact Or.inr hl)) hlen
    (by
      have h1 := length_le_fileText tl
      have h2 : (mids ++ [last]).length = (hd :: tl).length := by rw [htl]
      simp only [List.length_append, List.length_cons, List.length_nil] at h2 ⊢
      omega)
  have hfile : fileText (l0 :: l1 :: mids ++ [last])
      = l0.text ++ (l1.text ++ fileText (mids ++ [last])) := by
    simp [fileText]
  unfold createCard
  rw [hfile, e1]
  dsimp only
  rw [if_neg hn1]
  by_cases hb : strcasecmp l0.logical "BEGIN:VCARD".toList ≠ 0
  · rw [if_pos hb, if_pos hb]
  · rw [if_neg hb, if_neg hb]
    rw [htl, fileText_cons, ← List.append_assoc (crlf hd.first), ← Folded.text, e2]
    dsimp only
    rw [if_neg hn2]
    by_cases hv : strcasecmp l1.logical "VERSION:4.0".toList ≠ 0
    · rw [if_pos hv, if_pos hv]
    · rw [if_neg hv, if_neg hv, e3]
      cases hp : parseAll newCard (mids.map Folded.logical) with
      | none => simp [loopResult]
      | some r =>
        cases r with
        | none => simp [loopResult]
        | some card => simp [loopResult]

theorem createProperty_fn_of_not_FN (card card1 : Card) (line : List Char)
    (hacc : createProperty card line = some (some card1)) (hn : ¬ IsFNLine line) :
    card1.fn = card.fn := by
  unfold createProperty at hacc
  cases hp : parseHead line with
  | none => rw [hp] at hacc; exact absurd hacc (by simp)
  | some r =>
    cases r with
    | none => rw [hp] at hacc; exact absurd hacc (by simp)
    | some h =>
      rw [hp] at hacc
      dsimp only at hacc
      have h1 : ¬ strcasecmp (cstrAt h.mem h.propertyName) "FN".toList = 0 :=
        fun h0 => hn ⟨h, hp, h0⟩
      unfold dispatch at hacc
      dsimp only at hacc
      rw [if_neg h1] at hacc
      split at hacc
      · split at hacc
        · exact absurd hacc (by simp)
        · simp only [Option.some.injEq] at hacc
          rw [← hacc]
      · split at hacc
        · split at hacc
          · exact absurd hacc (by simp)
          · simp only [Option.some.injEq] at hacc
            rw [← hacc]
        · split at hacc
          · simp only [Option.some.injEq] at hacc
            rw [← hacc]
          · exact absurd hacc (by simp)

theorem parseAll_fn_of_not_FN (lines : List (List Char)) :
    ∀ (card card1 : Card), parseAll card lines = some (some card1) →
      (∀ l ∈ lines, ¬ IsFNLine l) → card1.fn = card.fn := by
  induction lines with
  | nil =>
    intro card card1 h _
    simp only [parseAll, Option.some.injEq] at h
    rw [h]
  | cons l ls ih =>
    intro card card1 h hn
    simp only [parseAll] at h
    cases hc : createProperty card l with
    | none => rw [hc] at h; exact absurd h (by simp)
    | some r =>
      cases r with
      | none => rw [hc] at h; exact absurd h (by simp)
      | some c1 =>
        rw [hc] at h
        dsimp only at h
        rw [ih c1 card1 h (fun x hx => hn x (by simp [hx]))]
        exact createProperty_fn_of_not_FN card c1 l hc (hn l (by simp))

/-- C2 (amended): for every file of at least three clean logical lines in which every line
between the second and the last is accepted by the property parser and none of them is an
FN property, `createCard` fails with `INV_CARD`. -/
theorem createCard_without_FN (l0 l1 : Folded) (mids : List Folded) (last : Folded)
    (card : Card)
    (h0 : l0.Clean) (hok : ∀ l ∈ l1 :: mids ++ [last], l.Clean ∧ l.Starts)
    (hlen : 2 ≤ last.lastPhysical.length)
    (hacc : parseAll newCard (mids.map Folded.logical) = some (some card))
    (hnofn : ∀ l ∈ mids, ¬ IsFNLine l.logical) :
    createCard (fileText (l0 :: l1 :: mids ++ [last])) = some (VCardErrorCode.INV_CARD, none) := by
  have hfn : card.fn = none := by
    have := parseAll_fn_of_not_FN _ newCard card hacc (by
      intro l hl
      obtain ⟨m, hm, rfl⟩ := List.mem_map.mp hl
      exact hnofn m hm)
    rw [this]; rfl
  rw [createCard_eval l0 l1 mids last h0 hok hlen, hacc]
  dsimp only
  rw [if_pos hfn]
  split
  · rfl
  · split <;> rfl

/-- Scenario B, the text of Scenario A without its FN line, as an instance of C2. -/
theorem createCard_without_FN_witness :
    (Folded.mk "BEGIN:VCARD".toList []).Clean ∧
      (∀ l ∈ Folded.mk "VERSION:4.0".toList [] :: [] ++ [Folded.mk "END:VCARD".toList []],
        l.Clean ∧ l.Starts) ∧
      2 ≤ (Folded.mk "END:VCARD".toList []).lastPhysical.length ∧
      parseAll newCard (([] : List Folded).map Folded.logical) = some (some newCard) ∧
      (∀ l ∈ ([] : List Folded), ¬ IsFNLine l.logical) ∧
      createCard "BEGIN:VCARD\r\nVERSION:4.0\r\nEND:VCARD\r\n".toList
        = some (VCardErrorCode.INV_CARD, none) :=
  have h0 : (Folded.mk "BEGIN:VCARD".toList []).Clean := by
    simp only [Folded.Clean, PieceOK]; decide
  have hok : ∀ l ∈ Folded.mk "VERSION:4.0".toList [] :: [] ++ [Folded.mk "END:VCARD".toList []],
      l.Clean ∧ l.Starts := by
    simp only [Folded.Clean, Folded.Starts, PieceOK]; decide
  have hlen : 2 ≤ (Folded.mk "END:VCARD".toList []).lastPhysical.length := by decide
  ⟨h0, hok, hlen, rfl, by simp,
    createCard_without_FN (Folded.mk "BEGIN:VCARD".toList []) (Folded.mk "VERSION:4.0".toList [])
      [] (Folded.mk "END:VCARD".toList []) newCard h0 hok hlen rfl (by simp)⟩

theorem not_IsFNLine_of_eval (line : List Char) (h : Head)
    (hp : parseHead line = some (some h))
    (hn : strcasecmp (cstrAt h.mem h.propertyName) "FN".toList ≠ 0) : ¬ IsFNLine line := by
  rintro ⟨h1, hp1, h0⟩
  rw [hp] at hp1
  simp only [Option.some.injEq] at hp1
  subst hp1
  exact hn h0

/-- C2 fails as stated: a file without any FN line whose only property line is
`X-CUSTOM:foo` fails with `INV_PROP`, not `INV_CARD`; so does the file that ends after its
VERSION line. -/
theorem createCard_without_FN_counterexample :
    (∀ l ∈ ["BEGIN:VCARD".toList, "VERSION:4.0".toList, "X-CUSTOM:foo".toList,
        "END:VCARD".toList], ¬ IsFNLine l) ∧
      createCard "BEGIN:VCARD\r\nVERSION:4.0\r\nX-CUSTOM:foo\r\nEND:VCARD\r\n".toList
        = some (VCardErrorCode.INV_PROP, none) ∧
      createCard "BEGIN:VCARD\r\nVERSION:4.0\r\n".toList
        = some (VCardErrorCode.INV_PROP, none) := by
  refine ⟨?_, by decide, by decide⟩
  intro l hl
  simp only [List.mem_cons, List.mem_singleton, List.not_mem_nil, or_false] at hl
  rcases hl with rfl | rfl | rfl | rfl
  · exact not_IsFNLine_of_eval _ ⟨[], 0, [], 6, "BEGIN".toList ++ NUL :: "VCARD".toList, 5⟩
      (by decide) (by decide)
  · exact not_IsFNLine_of_eval _ ⟨[], 0, [], 8, "VERSION".toList ++ NUL :: "4.0".toList, 7⟩
      (by decide) (by decide)
  · exact not_IsFNLine_of_eval _ ⟨[], 0, [], 9, "X-CUSTOM".toList ++ NUL :: "foo".toList, 8⟩
      (by decide) (by decide)
  · exact not_IsFNLine_of_eval _ ⟨[], 0, [], 4, "END".toList ++ NUL :: "VCARD".toList, 3⟩
      (by decide) (by decide)

theorem validateCard_fn_only (p : Property) :
    validateCard (some ⟨some p, some [], none, none⟩) = VCardErrorCode.OK := rfl

/-- C1: for every full-name value `v` that is not empty and holds no semicolon, CR, LF or
NUL, `createCard` on the text `BEGIN:VCARD`, `VERSION:4.0`, `FN:v`, `END:VCARD` (each line
CRLF-terminated) returns `OK` with a card whose `fn` is a property named FN with the single
value `v` (no group, no parameters), no birthday, no anniversary and an empty
`optionalProperties` list, and `validateCard` returns `OK` on that card. -/
theorem createCard_scenario_A (v : List Char) (hne : v ≠ [])
    (hv : ∀ c ∈ v, c ≠ ';' ∧ c ≠ CR ∧ c ≠ LF ∧ c ≠ NUL) :
    createCard ("BEGIN:VCARD\r\nVERSION:4.0\r\nFN:".toList ++ v ++ "\r\nEND:VCARD\r\n".toList)
        = some (VCardErrorCode.OK,
            some ⟨some ⟨some "FN".toList, some [], some [], some [v]⟩, some [], none, none⟩) ∧
      validateCard (some ⟨some ⟨some "FN".toList, some [], some [], some [v]⟩, some [], none,
        none⟩) = VCardErrorCode.OK := by
  refine ⟨?_, validateCard_fn_only _⟩
  have hfile : "BEGIN:VCARD\r\nVERSION:4.0\r\nFN:".toList ++ v ++ "\r\nEND:VCARD\r\n".toList
      = fileText (Folded.mk "BEGIN:VCARD".toList [] :: Folded.mk "VERSION:4.0".toList [] ::
          [Folded.mk ("FN:".toList ++ v) []] ++ [Folded.mk "END:VCARD".toList []]) := by
    simp [fileText, Folded.text, crlf, contsText, CR, LF]
  have hvN : NUL ∉ v := fun h => (hv _ h).2.2.2 rfl
  have h0 : (Folded.mk "BEGIN:VCARD".toList []).Clean := by
    simp only [Folded.Clean, PieceOK]; decide
  have hfnok : PieceOK ("FN:".toList ++ v) := by
    intro c hc
    rcases List.mem_append.mp hc with hc | hc
    · have hlit : ∀ x ∈ "FN:".toList, x ≠ CR ∧ x ≠ LF ∧ x ≠ NUL := by decide
      exact hlit c hc
    · exact ⟨(hv c hc).2.1, (hv c hc).2.2.1, (hv c hc).2.2.2⟩
  have hok : ∀ l ∈ Folded.mk "VERSION:4.0".toList [] :: [Folded.mk ("FN:".toList ++ v) []]
      ++ [Folded.mk "END:VCARD".toList []], l.Clean ∧ l.Starts := by
    intro l hl
    simp only [List.cons_append, List.nil_append, List.mem_cons, List.mem_singleton,
      List.not_mem_nil, or_false] at hl
    rcases hl with rfl | rfl | rfl
    · simp only [Folded.Clean, Folded.Starts, PieceOK]; decide
    · refine ⟨⟨hfnok, by simp⟩, ?_⟩
      simp [Folded.Starts]
    · simp only [Folded.Clean, Folded.Starts, PieceOK]; decide
  have hlen : 2 ≤ (Folded.mk "END:VCARD".toList []).lastPhysical.length := by decide
  -- the FN line
  obtain ⟨h, hph, hs⟩ := parseHead_wf [] "FN".toList [] v (by unfold TokenOK; decide)
    (by unfold TokenOK; decide) (by decide) (by simp) hvN
  have hline : propertyLine [] "FN".toList [] v = "FN:".toList ++ v := by
    simp [propertyLine, groupText, paramsText]
  rw [hline] at hph
  have hd := dispatch_FN_any newCard h [] "FN".toList [] [] v [] (by simpa using hs) (by decide)
    (by simp) (fun c hc => ⟨(hv c hc).1, (hv c hc).2.2.2⟩) (Or.inl rfl) (fun _ => rfl) (by decide)
  rw [if_neg hne] at hd
  have hprop : createProperty newCard ("FN:".toList ++ v) = some (some { newCard with
      fn := some ⟨some "FN".toList, some [], some [], some [v]⟩ }) := by
    unfold createProperty
    rw [hph]
    exact hd
  have hall : parseAll newCard ([Folded.mk ("FN:".toList ++ v) []].map Folded.logical)
      = some (some { newCard with fn := some ⟨some "FN".toList, some [], some [], some [v]⟩ }) := by
    simp only [List.map_cons, List.map_nil, Folded.logical, List.flatten_nil, List.append_nil,
      parseAll, hprop]
  rw [hfile, createCard_eval _ _ _ _ h0 hok hlen, hall]
  have hb : ¬ (strcasecmp (Folded.mk "BEGIN:VCARD".toList []).logical "BEGIN:VCARD".toList ≠ 0) := by
    decide
  have hver : ¬ (strcasecmp (Folded.mk "VERSION:4.0".toList []).logical "VERSION:4.0".toList ≠ 0) := by
    decide
  have hend : ¬ (strcasecmp (Folded.mk "END:VCARD".toList []).logical "END:VCARD".toList ≠ 0) := by
    decide
  rw [if_neg hb, if_neg hver]
  dsimp only
  rw [if_neg (by simp), if_neg hend]
  rfl

/-- Scenario A, with the full name `J. Doe`, as an instance of C1. -/
theorem createCard_scenario_A_witness :
    "J. Doe".toList ≠ [] ∧ (∀ c ∈ "J. Doe".toList, c ≠ ';' ∧ c ≠ CR ∧ c ≠ LF ∧ c ≠ NUL) ∧
      createCard "BEGIN:VCARD\r\nVERSION:4.0\r\nFN:J. Doe\r\nEND:VCARD\r\n".toList
        = some (VCardErrorCode.OK, some ⟨some ⟨some "FN".toList, some [], some [],
            some ["J. Doe".toList]⟩, some [], none, none⟩) ∧
      validateCard (some ⟨some ⟨some "FN".toList, some [], some [], some ["J. Doe".toList]⟩,
        some [], none, none⟩) = VCardErrorCode.OK :=
  ⟨by decide, by decide, createCard_scenario_A "J. Doe".toList (by decide) (by decide)⟩

/-- C3 (amended): envelope rule of `createCard` over CRLF-terminated input whose physical
lines hold no CR, LF or NUL.  If the first logical line is followed by another logical line
and does not case-insensitively equal `BEGIN:VCARD`, the result is `INV_CARD`.  If the first
does, the second is followed by a third logical line and does not case-insensitively equal
`VERSION:4.0`, the result is `INV_CARD`.  If both do, the last physical line has at least two
characters, every line between the second and the last is accepted by the property parser
and an FN was seen, the result is `OK` exactly when the last logical line case-insensitively
equals `END:VCARD`, and `INV_CARD` otherwise. -/
theorem createCard_envelope :
    (∀ (l0 l1 : Folded) (rest : List Char), l0.Clean → l1.Clean → l1.Starts →
      strcasecmp l0.logical "BEGIN:VCARD".toList ≠ 0 →
      createCard (l0.text ++ (l1.text ++ rest)) = some (VCardErrorCode.INV_CARD, none)) ∧
    (∀ (l0 l1 l2 : Folded) (rest : List Char), l0.Clean → l1.Clean → l1.Starts → l2.Clean →
      l2.Starts → strcasecmp l0.logical "BEGIN:VCARD".toList = 0 →
      strcasecmp l1.logical "VERSION:4.0".toList ≠ 0 →
      createCard (l0.text ++ (l1.text ++ (l2.text ++ rest)))
        = some (VCardErrorCode.INV_CARD, none)) ∧
    (∀ (l0 l1 : Folded) (mids : List Folded) (last : Folded) (card : Card), l0.Clean →
      (∀ l ∈ l1 :: mids ++ [last], l.Clean ∧ l.Starts) → 2 ≤ last.lastPhysical.length →
      strcasecmp l0.logical "BEGIN:VCARD".toList = 0 →
      strcasecmp l1.logical "VERSION:4.0".toList = 0 →
      parseAll newCard (mids.map Folded.logical) = some (some card) → card.fn ≠ none →
      createCard (fileText (l0 :: l1 :: mids ++ [last])) =
        if strcasecmp last.logical "END:VCARD".toList = 0 then
          some (VCardErrorCode.OK, some card)
        else some (VCardErrorCode.INV_CARD, none)) := by
  refine ⟨?_, ?_, ?_⟩
  · intro l0 l1 rest h0 h1 hst hb
    obtain ⟨n1, hn1, e1⟩ := readNextLine_first l0 l1 rest h0 h1 hst
    unfold createCard
    rw [e1]
    dsimp only
    rw [if_neg hn1, if_pos hb]
  · intro l0 l1 l2 rest h0 h1 hst1 h2 hst2 hb hv
    obtain ⟨n1, hn1, e1⟩ := readNextLine_first l0 l1 (l2.text ++ rest) h0 h1 hst1
    obtain ⟨n2, hn2, e2⟩ := readNextLine_next l0.logical l1 l2 rest h1 h2 hst2
    unfold createCard
    rw [e1]
    dsimp only
    rw [if_neg hn1, if_neg (by simpa using hb), e2]
    dsimp only
    rw [if_neg hn2, if_pos hv]
  · intro l0 l1 mids last card h0 hok hlen hb hv hacc hfn
    rw [createCard_eval l0 l1 mids last h0 hok hlen, hacc]
    rw [if_neg (by simpa using hb), if_neg (by simpa using hv)]
    dsimp only
    rw [if_neg hfn]
    by_cases he : strcasecmp last.logical "END:VCARD".toList = 0
    · rw [if_neg (by simpa using he), if_pos he]
    · rw [if_pos he, if_neg he]

/-- The three parts of C3 at concrete files: a wrong first line, a wrong second line, and
Scenario A with its last line in lower case and with a wrong last line. -/
theorem createCard_envelope_witness :
    createCard "BEGIN:VCAR\r\nVERSION:4.0\r\n".toList = some (VCardErrorCode.INV_CARD, none) ∧
      createCard "begin:vcard\r\nVERSION:3.0\r\nFN:x\r\n".toList
        = some (VCardErrorCode.INV_CARD, none) ∧
      createCard "BEGIN:VCARD\r\nVERSION:4.0\r\nFN:J. Doe\r\nend:vcard\r\n".toList
        = some (VCardErrorCode.OK, some ⟨some ⟨some "FN".toList, some [], some [],
            some ["J. Doe".toList]⟩, some [], none, none⟩) ∧
      createCard "BEGIN:VCARD\r\nVERSION:4.0\r\nFN:J. Doe\r\nEND:VCARDS\r\n".toList
        = some (VCardErrorCode.INV_CARD, none) :=
  have hB : (Folded.mk "BEGIN:VCARD".toList []).Clean := by
    simp only [Folded.Clean, PieceOK]; decide
  ⟨createCard_envelope.1 (Folded.mk "BEGIN:VCAR".toList []) (Folded.mk "VERSION:4.0".toList [])
      [] (by simp only [Folded.Clean, PieceOK]; decide)
      (by simp only [Folded.Clean, PieceOK]; decide) (by simp only [Folded.Starts]; decide)
      (by decide),
    createCard_envelope.2.1 (Folded.mk "begin:vcard".toList [])
      (Folded.mk "VERSION:3.0".toList []) (Folded.mk "FN:x".toList []) []
      (by simp only [Folded.Clean, PieceOK]; decide)
      (by simp only [Folded.Clean, PieceOK]; decide) (by simp only [Folded.Starts]; decide)
      (by simp only [Folded.Clean, PieceOK]; decide) (by simp only [Folded.Starts]; decide)
      (by decide) (by decide),
    createCard_envelope.2.2 (Folded.mk "BEGIN:VCARD".toList [])
      (Folded.mk "VERSION:4.0".toList []) [Folded.mk "FN:J. Doe".toList []]
      (Folded.mk "end:vcard".toList [])
      ⟨some ⟨some "FN".toList, some [], some [], some ["J. Doe".toList]⟩, some [], none, none⟩
      hB (by simp only [Folded.Clean, Folded.Starts, PieceOK]; decide) (by decide) (by decide)
      (by decide) (by decide) (by decide),
    createCard_envelope.2.2 (Folded.mk "BEGIN:VCARD".toList [])
      (Folded.mk "VERSION:4.0".toList []) [Folded.mk "FN:J. Doe".toList []]
      (Folded.mk "END:VCARDS".toList [])
      ⟨some ⟨some "FN".toList, some [], some [], some ["J. Doe".toList]⟩, some [], none, none⟩
      hB (by simp only [Folded.Clean, Folded.Starts, PieceOK]; decide) (by decide) (by decide)
      (by decide) (by decide) (by decide)⟩

/-- C3 fails as stated: when no line follows the first logical line `FOO:BARX` (folded over
two physical lines), the result is `INV_PROP`; when the second line is the last, a wrong second
line gives `INV_PROP`; and a last line `end:vcard`, which is not equal to `END:VCARD`, gives
`OK`. -/
theorem createCard_envelope_counterexample :
    strcasecmp "FOO:BARX".toList "BEGIN:VCARD".toList ≠ 0 ∧
      createCard "FOO:BAR\r\n X\r\n".toList = some (VCardErrorCode.INV_PROP, none) ∧
      strcasecmp "BEGIN:VCARD".toList "BEGIN:VCARD".toList = 0 ∧
      strcasecmp "FOO:BAR".toList "VERSION:4.0".toList ≠ 0 ∧
      createCard "BEGIN:VCARD\r\nFOO:BAR\r\n".toList = some (VCardErrorCode.INV_PROP, none) ∧
      "end:vcard".toList ≠ "END:VCARD".toList ∧
      createCard "BEGIN:VCARD\r\nVERSION:4.0\r\nFN:J. Doe\r\nend:vcard\r\n".toList
        = some (VCardErrorCode.OK, some ⟨some ⟨some "FN".toList, some [], some [],
            some ["J. Doe".toList]⟩, some [], none, none⟩) := by
  decide

/-- C4 fails on the code: the list of lines 856-887 spells IMPP as `IIMP`, so the property
parser rejects the line `IMPP:xmpp:alice@example.com` and `createCard` reports `INV_PROP`,
while it accepts the name `IIMP`; `validateCard` for its part knows IMPP. -/
theorem createProperty_IMPP_rejected :
    createProperty newCard "IMPP:xmpp:alice@example.com".toList = some none ∧
      createCard
        "BEGIN:VCARD\r\nVERSION:4.0\r\nFN:x\r\nIMPP:xmpp:alice@example.com\r\nEND:VCARD\r\n".toList
        = some (VCardErrorCode.INV_PROP, none) ∧
      createProperty newCard "IIMP:xmpp:alice@example.com".toList = some (some { newCard with
        optionalProperties := some [⟨some "IIMP".toList, some [], some [],
          some ["xmpp:alice@example.com".toList]⟩] }) ∧
      validateCard (some ⟨some ⟨some "FN".toList, some [], some [], some ["x".toList]⟩,
        some [⟨some "IMPP".toList, some [], some [], some ["xmpp:alice@example.com".toList]⟩],
        none, none⟩) = VCardErrorCode.OK := by
  decide

/-- C8 fails on the code: the parameter loop tests only the value, so the line
`TEL;=abc:123` is accepted with a parameter whose name is empty, `createCard` returns `OK`
for a file that holds it, and `validateCard` then rejects the card with `INV_PROP`.  A
segment without `=` (`TEL;abc:123`) makes the loop read a value that was never written. -/
theorem createProperty_empty_parameter_name :
    createProperty newCard "TEL;=abc:123".toList = some (some { newCard with
        optionalProperties := some [⟨some "TEL".toList, some [],
          some [⟨some [], some "abc".toList⟩], some ["123".toList]⟩] }) ∧
      createCard "BEGIN:VCARD\r\nVERSION:4.0\r\nFN:x\r\nTEL;=abc:123\r\nEND:VCARD\r\n".toList
        = some (VCardErrorCode.OK, some ⟨some ⟨some "FN".toList, some [], some [],
            some ["x".toList]⟩,
          some [⟨some "TEL".toList, some [], some [⟨some [], some "abc".toList⟩],
            some ["123".toList]⟩], none, none⟩) ∧
      validateCard (some ⟨some ⟨some "FN".toList, some [], some [], some ["x".toList]⟩,
          some [⟨some "TEL".toList, some [], some [⟨some [], some "abc".toList⟩],
            some ["123".toList]⟩], none, none⟩) = VCardErrorCode.INV_PROP ∧
      createProperty newCard "TEL;TYPE=:123".toList = some none ∧
      createProperty newCard "TEL;abc:123".toList = none := by
  decide

/-- The value `19800101T1200Z` as an instance of C6. -/
theorem createDateTime_fields_witness :
    cstrAt "BDAY:19800101T1200Z".toList 5 = "19800101T1200Z".toList ∧
      ("19800101T1200".toList = if "19800101T1200Z".toList.getLast? = some 'Z'
        then "19800101T1200Z".toList.dropLast else "19800101T1200Z".toList) ∧
      "19800101T1200".toList ≠ [] ∧
      createDateTime "BDAY:19800101T1200Z".toList 5
        = some ⟨true, false, some "19800101".toList, some "1200".toList, some []⟩ :=
  ⟨by decide, by decide, by decide,
    (createDateTime_fields "BDAY:19800101T1200Z".toList 5 "19800101T1200Z".toList
      "19800101T1200".toList (by decide) (by decide) (by decide)).trans (by decide)⟩

theorem TailOK_of_semicolon (r : List Char) (h1 : ':' ∉ ';' :: r) (h2 : NUL ∉ ';' :: r) :
    TailOK (';' :: r) := ⟨Or.inr ⟨r, rfl⟩, h1, h2⟩

/-- The line `a.TEL;TYPE=home:123`, with one dot in its name segment. -/
theorem createProperty_group_name_witness :
    SegOK "a.TEL".toList ∧ "a.TEL".toList.count '.' ≤ 1 ∧ TailOK ";TYPE=home".toList ∧
      NUL ∉ "123".toList ∧ strcasecmp (nameOf "a.TEL".toList) "BDAY".toList ≠ 0 ∧
      strcasecmp (nameOf "a.TEL".toList) "ANNIVERSARY".toList ≠ 0 ∧
      createProperty newCard "a.TEL;TYPE=home:123".toList = some (some { newCard with
        optionalProperties := some [⟨some "TEL".toList, some "a".toList,
          some [⟨some "TYPE".toList, some "home".toList⟩], some ["123".toList]⟩] }) ∧
      ∃ p, StoredAs newCard { newCard with
          optionalProperties := some [⟨some "TEL".toList, some "a".toList,
            some [⟨some "TYPE".toList, some "home".toList⟩], some ["123".toList]⟩] }
          (nameOf "a.TEL".toList) p ∧
        p.group = some (groupOf "a.TEL".toList) ∧ p.name = some (nameOf "a.TEL".toList) :=
  have h1 : SegOK "a.TEL".toList := by unfold SegOK; decide
  have h2 : TailOK ";TYPE=home".toList :=
    TailOK_of_semicolon "TYPE=home".toList (by decide) (by decide)
  ⟨h1, by decide, h2, by decide, by decide, by decide, by decide,
    createProperty_group_name newCard _ "a.TEL".toList ";TYPE=home".toList "123".toList h1
      (by decide) h2 (by decide) (by decide) (by decide) (by decide)⟩

/-- C9: on `a.TEL.x:1` the part of the name segment after the dot is `TEL.x`, which the
comment of line 781 says becomes the property name, but the line is accepted and stored with
the name `TEL`; and on `;TEL:1` the name segment is empty, which line 750 means to reject,
but the line is accepted with the name `TEL`. -/
theorem createProperty_second_dot :
    nameOf "a.TEL.x".toList = "TEL.x".toList ∧
      createProperty newCard "a.TEL.x:1".toList = some (some { newCard with
        optionalProperties := some [⟨some "TEL".toList, some "a".toList, some [],
          some ["1".toList]⟩] }) ∧
      ";TEL".toList.takeWhile (fun c => c != ';') = [] ∧
      createProperty newCard ";TEL:1".toList = some (some { newCard with
        optionalProperties := some [⟨some "TEL".toList, some [], some [],
          some ["1".toList]⟩] }) := by
  decide

/-! ## Termination of the loops

The loops of the model count down a fuel argument.  The fuel each caller passes
is never used up: a larger one gives the same result. -/

theorem cstr_length_le (buf : List Char) : (cstr buf).length ≤ buf.length :=
  (List.takeWhile_sublist _).length_le

theorem getline_measure (buf : Option (List Char)) (fp next1 : List Char)
    (hfp : fp ≠ []) (h : stripCRLF (getline buf fp).1 = some (some next1)) :
    (getline buf fp).2.1.length + next1.length + 2 ≤ fp.length := by
  unfold getline at h ⊢
  rw [if_neg hfp] at h ⊢
  dsimp only at h ⊢
  unfold stripCRLF at h
  dsimp only at h
  split at h
  · exact absurd h (by simp)
  · split at h
    · exact absurd h (by simp)
    · simp only [Option.some.injEq] at h
      rw [← h]
      have h1 := cstr_length_le (fp.take (strcspn fp [LF] + 1))
      simp only [List.length_take, List.length_drop] at h1 ⊢
      omega

theorem stale_measure (next next1 : List Char)
    (h : stripCRLF (some next) = some (some next1)) : next1.length + 2 ≤ next.length := by
  unfold stripCRLF at h
  dsimp only at h
  split at h
  · exact absurd h (by simp)
  · split at h
    · exact absurd h (by simp)
    · simp only [Option.some.injEq] at h
      rw [← h]
      simp only [List.length_take]
      omega

/-- The unfolding loop never uses up its fuel: with more fuel than bytes left in the stream
and in the line buffer, more fuel changes nothing. -/
theorem unfoldLoop_fuel (fuel : Nat) :
    ∀ (k : Nat) (cur next fp : List Char) (rs : Int), fp.length + next.length < fuel →
      unfoldLoop (fuel + k) cur next fp rs = unfoldLoop fuel cur next fp rs := by
  induction fuel with
  | zero => intro k cur next fp rs h; omega
  | succ fuel ih =>
    intro k cur next fp rs h
    have hk : fuel + 1 + k = (fuel + k) + 1 := by omega
    rw [hk, unfoldLoop, unfoldLoop]
    split
    · dsimp only
      cases hs : stripCRLF (getline (some next) fp).1 with
      | none => rfl
      | some r =>
        cases r with
        | none => rfl
        | some next1 =>
          dsimp only
          apply ih
          by_cases hfp : fp = []
          · subst hfp
            rw [getline_eof] at hs ⊢
            have := stale_measure next next1 hs
            simp only [List.length_nil]
            omega
          · have := getline_measure (some next) fp next1 hfp hs
            omega
    · rfl

theorem cstr_drop (s : List Char) : ∀ k : Nat, k ≤ (cstr s).length →
    cstr (s.drop k) = (cstr s).drop k := by
  induction s with
  | nil => intro k _; simp [cstr]
  | cons a s ih =>
    intro k hk
    cases k with
    | zero => rfl
    | succ k =>
      by_cases hN : a = NUL
      · subst hN
        simp [cstr, List.takeWhile_cons] at hk
      · have e : cstr (a :: s) = a :: cstr s := by simp [cstr, List.takeWhile_cons, hN]
        rw [e] at hk ⊢
        simp only [List.length_cons, Nat.add_le_add_iff_right] at hk
        simp only [List.drop_succ_cons]
        exact ih k hk

theorem drop_takeWhile_length (p : Char → Bool) (s : List Char) :
    s.drop (s.takeWhile p).length = s.dropWhile p := by
  induction s with
  | nil => rfl
  | cons a s ih =>
    by_cases ha : p a = true
    · simp [List.takeWhile_cons, List.dropWhile_cons, ha, ih]
    · simp [List.takeWhile_cons, List.dropWhile_cons, ha]

theorem takeWhile_length_le (p : Char → Bool) (s : List Char) :
    (s.takeWhile p).length ≤ s.length := by
  induction s with
  | nil => simp
  | cons a s ih =>
    by_cases ha : p a = true
    · simp [List.takeWhile_cons, ha, ih]
    · simp [List.takeWhile_cons, ha]

theorem cstrAt_add (mem : List Char) (p k : Nat) (hk : k ≤ (cstrAt mem p).length) :
    cstrAt mem (p + k) = (cstrAt mem p).drop k := by
  unfold cstrAt at hk ⊢
  rw [← cstr_drop _ _ hk, List.drop_drop, Nat.add_comm]

/-- After the leading delimiters are skipped, a string that is not empty has a
first segment that is not empty. -/
theorem strcspn_pos_after_strspn (mem : List Char) (p : Nat) (delim : List Char)
    (hne : cstrAt mem (p + strspn (cstrAt mem p) delim) ≠ []) :
    0 < strcspn (cstrAt mem (p + strspn (cstrAt mem p) delim)) delim := by
  have e : cstrAt mem (p + strspn (cstrAt mem p) delim) =
      (cstrAt mem p).dropWhile (fun c => delim.contains c) := by
    unfold strspn
    rw [cstrAt_add _ _ _ (takeWhile_length_le _ _)]
    exact drop_takeWhile_length _ _
  rw [e] at hne ⊢
  cases hd : (cstrAt mem p).dropWhile (fun c => delim.contains c) with
  | nil => exact absurd hd hne
  | cons x xs =>
    have hx := List.head_dropWhile_not (fun c => delim.contains c) (cstrAt mem p) hne
    simp only [hd, List.head_cons] at hx
    have hx2 : x ∉ delim := by simpa using hx
    simp [strcspn, List.takeWhile_cons, hx2]

theorem cstrAt_length_le (mem : List Char) (p : Nat) : p + (cstrAt mem p).length ≤ mem.length ∨
    cstrAt mem p = [] := by
  by_cases hp : p ≤ mem.length
  · left
    have := cstr_length_le (mem.drop p)
    simp only [List.length_drop] at this
    unfold cstrAt
    omega
  · right
    unfold cstrAt
    rw [List.drop_eq_nil_of_le (by omega)]
    rfl

theorem peek_eq_NUL_of_le (mem : List Char) (i : Nat) (h : mem.length ≤ i) : peek mem i = NUL := by
  unfold peek
  rw [List.getD_eq_getElem?_getD, List.getElem?_eq_none h]
  rfl

/-- A token that `strtok` returns is not empty and lies inside the buffer. -/
theorem strtok_some_bounds (mem : List Char) (ptr : Option Nat) (delim : List Char) (sv q : Nat)
    (h : (strtok mem ptr delim sv).tok = some q) :
    ptr.getD sv ≤ q ∧ q < (strtok mem ptr delim sv).save ∧
      (strtok mem ptr delim sv).save ≤ mem.length := by
  by_cases hne : cstrAt mem (ptr.getD sv + strspn (cstrAt mem (ptr.getD sv)) delim) = []
  · have : (strtok mem ptr delim sv).tok = none := by
      unfold strtok
      dsimp only
      rw [if_pos hne]
    rw [this] at h
    exact absurd h (by simp)
  · have hb := (cstrAt_length_le mem (ptr.getD sv + strspn (cstrAt mem (ptr.getD sv)) delim)).resolve_right hne
    have hc := strcspn_le (cstrAt mem (ptr.getD sv + strspn (cstrAt mem (ptr.getD sv)) delim)) delim
    have hp := strcspn_pos_after_strspn mem (ptr.getD sv) delim hne
    by_cases hpk : peek mem (ptr.getD sv + strspn (cstrAt mem (ptr.getD sv)) delim +
          strcspn (cstrAt mem (ptr.getD sv + strspn (cstrAt mem (ptr.getD sv)) delim)) delim) = NUL
    · have e : strtok mem ptr delim sv = ⟨some (ptr.getD sv + strspn (cstrAt mem (ptr.getD sv)) delim), mem,
          ptr.getD sv + strspn (cstrAt mem (ptr.getD sv)) delim +
          strcspn (cstrAt mem (ptr.getD sv + strspn (cstrAt mem (ptr.getD sv)) delim)) delim⟩ := by
        unfold strtok
        dsimp only
        rw [if_neg hne, if_pos hpk]
      rw [e] at h ⊢
      simp only [Option.some.injEq] at h
      subst h
      dsimp only
      refine ⟨by omega, by omega, by omega⟩
    · have e : strtok mem ptr delim sv = ⟨some (ptr.getD sv + strspn (cstrAt mem (ptr.getD sv)) delim),
          mem.set (ptr.getD sv + strspn (cstrAt mem (ptr.getD sv)) delim +
          strcspn (cstrAt mem (ptr.getD sv + strspn (cstrAt mem (ptr.getD sv)) delim)) delim) NUL,
          ptr.getD sv + strspn (cstrAt mem (ptr.getD sv)) delim +
          strcspn (cstrAt mem (ptr.getD sv + strspn (cstrAt mem (ptr.getD sv)) delim)) delim + 1⟩ := by
        unfold strtok
        dsimp only
        rw [if_neg hne, if_neg hpk]
      rw [e] at h ⊢
      simp only [Option.some.injEq] at h
      subst h
      dsimp only
      have : ptr.getD sv + strspn (cstrAt mem (ptr.getD sv)) delim +
          strcspn (cstrAt mem (ptr.getD sv + strspn (cstrAt mem (ptr.getD sv)) delim)) delim
          < mem.length := by
        by_contra hge
        exact hpk (peek_eq_NUL_of_le mem _ (by omega))
      refine ⟨by omega, by omega, by omega⟩

/-- More fuel does not change the parameter loop once the fuel exceeds the bytes
that `strtok` has not passed yet. -/
theorem parseParameters_fuel_aux (fuel : Nat) :
    ∀ (k : Nat) (t : Tok) (acc : List Parameter),
      (t.tok = none → 1 ≤ fuel) →
      (∀ q, t.tok = some q → t.save ≤ t.mem.length ∧ t.mem.length + 1 < fuel + t.save) →
      parseParameters (fuel + k) t acc = parseParameters fuel t acc := by
  induction fuel with
  | zero =>
    intro k t acc h1 h2
    cases ht : t.tok with
    | none => exact absurd (h1 ht) (by omega)
    | some q => have := h2 q ht; omega
  | succ fuel ih =>
    intro k t acc h1 h2
    rw [show fuel + 1 + k = (fuel + k) + 1 by omega]
    unfold parseParameters
    cases ht : t.tok with
    | none => rfl
    | some q =>
      dsimp only
      have hq := h2 q ht
      split
      · rfl
      · split
        · rfl
        · apply ih
          · intro _
            omega
          · intro q2 hq2
            have hb := strtok_some_bounds t.mem none [';'] t.save q2 hq2
            rw [strtok_mem_length]
            simp only [Option.getD_none] at hb
            omega

/-- The fuel `createProperty`'s model gives the parameter loop is enough: any
larger fuel gives the same result. -/
theorem parseParameters_fuel (mem : List Char) (sv k : Nat) (acc : List Parameter) :
    parseParameters ((strtok mem none [';'] sv).mem.length + 1 + k) (strtok mem none [';'] sv) acc =
      parseParameters ((strtok mem none [';'] sv).mem.length + 1) (strtok mem none [';'] sv) acc := by
  apply parseParameters_fuel_aux
  · intro _
    omega
  · intro q hq
    have hb := strtok_some_bounds mem none [';'] sv q hq
    rw [strtok_mem_length]
    omega

theorem getline_step (buf : Option (List Char)) (fp : List Char) :
    (getline buf fp).2.1.length ≤ fp.length ∧
      ((getline buf fp).2.2 = -1 ∨ (getline buf fp).2.1.length < fp.length) := by
  by_cases hfp : fp = []
  · subst hfp
    simp [getline]
  · unfold getline
    rw [if_neg hfp]
    dsimp only
    have : 0 < fp.length := List.length_pos.mpr hfp
    simp only [List.length_drop]
    omega

/-- What a call of the unfolding loop returns is `-1`, or the value it was
given with the stream untouched, or it has consumed bytes of the stream. -/
theorem unfoldLoop_progress (fuel : Nat) :
    ∀ (cur next fp : List Char) (rs rs1 : Int) (r1 : Reader),
      unfoldLoop fuel cur next fp rs = some (rs1, r1) →
      rs1 = -1 ∨ (rs1 = rs ∧ r1.fp = fp) ∨ r1.fp.length < fp.length := by
  induction fuel with
  | zero => intro cur next fp rs rs1 r1 h; simp [unfoldLoop] at h
  | succ fuel ih =>
    intro cur next fp rs rs1 r1 h
    rw [unfoldLoop] at h
    split at h
    · dsimp only at h
      cases hs : stripCRLF (getline (some next) fp).1 with
      | none => rw [hs] at h; simp at h
      | some o =>
        cases o with
        | none =>
          rw [hs] at h
          simp only [Option.some.injEq, Prod.mk.injEq] at h
          exact Or.inl h.1.symm
        | some next1 =>
          rw [hs] at h
          dsimp only at h
          have hg := getline_step (some next) fp
          rcases ih _ _ _ _ _ _ h with h1 | ⟨h1, h2⟩ | h1
          · exact Or.inl h1
          · rcases hg.2 with h3 | h3
            · exact Or.inl (h1.trans h3)
            · right; right
              rw [h2]
              exact h3
          · right; right
            omega
    · simp only [Option.some.injEq, Prod.mk.injEq] at h
      right; left
      refine ⟨h.1.symm, ?_⟩
      rw [← h.2]

/-- A call of `readNextLine` that does not return `-1` has consumed bytes of the
stream. -/
theorem readNextLine_progress (r r1 : Reader) (rs : Int)
    (h : readNextLine r = some (rs, r1)) : rs = -1 ∨ r1.fp.length < r.fp.length := by
  unfold readNextLine at h
  cases hc : r.currentLine with
  | none =>
    rw [hc] at h
    dsimp only at h
    have hg := getline_step none r.fp
    cases hs : stripCRLF (getline none r.fp).1 with
    | none => rw [hs] at h; simp at h
    | some o =>
      cases o with
      | none =>
        rw [hs] at h
        simp only [Option.some.injEq, Prod.mk.injEq] at h
        exact Or.inl h.1.symm
      | some current =>
        rw [hs] at h
        dsimp only at h
        have hg2 := getline_step r.nextLine (getline none r.fp).2.1
        cases hs2 : stripCRLF (getline r.nextLine (getline none r.fp).2.1).1 with
        | none => rw [hs2] at h; simp at h
        | some o2 =>
          cases o2 with
          | none =>
            rw [hs2] at h
            simp only [Option.some.injEq, Prod.mk.injEq] at h
            exact Or.inl h.1.symm
          | some next =>
            rw [hs2] at h
            dsimp only at h
            rcases unfoldLoop_progress _ _ _ _ _ _ _ h with h1 | ⟨h1, h2⟩ | h1
            · exact Or.inl h1
            · rcases hg2.2 with h3 | h3
              · exact Or.inl (h1.trans h3)
              · right
                rw [h2]
                omega
            · right
              omega
  | some c0 =>
    rw [hc] at h
    dsimp only at h
    cases hn : r.nextLine with
    | none => rw [hn] at h; simp at h
    | some current =>
      rw [hn] at h
      dsimp only at h
      have hg := getline_step (some current) r.fp
      cases hs : stripCRLF (getline (some current) r.fp).1 with
      | none => rw [hs] at h; simp at h
      | some o =>
        cases o with
        | none =>
          rw [hs] at h
          simp only [Option.some.injEq, Prod.mk.injEq] at h
          exact Or.inl h.1.symm
        | some next =>
          rw [hs] at h
          dsimp only at h
          rcases unfoldLoop_progress _ _ _ _ _ _ _ h with h1 | ⟨h1, h2⟩ | h1
          · exact Or.inl h1
          · rcases hg.2 with h3 | h3
            · exact Or.inl (h1.trans h3)
            · right
              rw [h2]
              exact h3
          · right
            omega

/-- The property loop never uses up its fuel: with more fuel than bytes left in
the stream, more fuel changes nothing. -/
theorem readProperties_fuel (fuel : Nat) :
    ∀ (k : Nat) (card : Card) (r : Reader), r.fp.length < fuel →
      readProperties (fuel + k) card r = readProperties fuel card r := by
  induction fuel with
  | zero => intro k card r h; omega
  | succ fuel ih =>
    intro k card r h
    rw [show fuel + 1 + k = (fuel + k) + 1 by omega, readProperties, readProperties]
    cases hr : readNextLine r with
    | none => rfl
    | some p =>
      obtain ⟨rs, r1⟩ := p
      dsimp only
      by_cases hrs : rs = -1
      · rw [if_pos hrs, if_pos hrs]
      · rw [if_neg hrs, if_neg hrs]
        cases hl : r1.currentLine with
        | none => rfl
        | some line =>
          dsimp only
          cases hp : createProperty card line with
          | none => rfl
          | some o =>
            cases o with
            | none => rfl
            | some card1 =>
              dsimp only
              apply ih
              have := (readNextLine_progress r r1 rs hr).resolve_left hrs
              omega

/-- The value loop never uses up its fuel: with as much fuel as the string has
bytes, more fuel changes nothing. -/
theorem parsePropertyValuesLoop_fuel (fuel : Nat) :
    ∀ (k : Nat) (valueList : List (List Char)) (s : List Char), s.length ≤ fuel →
      parsePropertyValuesLoop (fuel + k) valueList s = parsePropertyValuesLoop fuel valueList s := by
  induction fuel with
  | zero =>
    intro k valueList s hs
    have : s = [] := List.length_eq_zero.mp (Nat.le_zero.mp hs)
    subst this
    cases k with
    | zero => rfl
    | succ k => simp [parsePropertyValuesLoop, strpbrk, strcspn]
  | succ fuel ih =>
    intro k valueList s hs
    rw [show fuel + 1 + k = (fuel + k) + 1 by omega, parsePropertyValuesLoop,
      parsePropertyValuesLoop]
    cases hp : strpbrk s [';'] with
    | none => rfl
    | some n =>
      dsimp only
      apply ih
      unfold strpbrk at hp
      split at hp
      · simp only [Option.some.injEq] at hp
        simp only [List.length_drop]
        omega
      · exact absurd hp (by simp)

/-! ## Folding -/

theorem getline_line (p rest : List Char) (buf : Option (List Char)) (hp : LineOK p) :
    getline buf (crlf p ++ rest) = (some (crlf p), rest, ((p.length + 2 : Nat) : Int)) := by
  have hne : crlf p ++ rest ≠ [] := by simp [crlf]
  have hsp : strcspn (crlf p ++ rest) [LF] = p.length + 1 := by
    have := strcspn_append_of_mem (p ++ [CR]) rest [LF] LF
      (fun c hc => by
        simp only [List.mem_append, List.mem_singleton] at hc
        rcases hc with hc | rfl
        · simpa using (hp c hc).1
        · decide) (by simp)
    simpa [crlf, List.append_assoc] using this
  have hN : NUL ∉ crlf p := by
    simp only [crlf, List.mem_append, List.mem_cons, not_or]
    exact ⟨fun h => (hp _ h).2 rfl, by decide, by decide, by simp⟩
  have htake : (crlf p ++ rest).take (p.length + 1 + 1) = crlf p := by
    have : (crlf p).length = p.length + 1 + 1 := by simp [crlf]
    rw [← this, List.take_left']
    rfl
  have hdrop : (crlf p ++ rest).drop (p.length + 1 + 1) = rest := by
    have : (crlf p).length = p.length + 1 + 1 := by simp [crlf]
    rw [← this, List.drop_left']
    rfl
  unfold getline
  rw [if_neg hne, hsp, htake, hdrop]
  dsimp only
  rw [cstr_of_not_mem _ hN]
  simp [crlf]

theorem peek_zero_eq_of_head (p : List Char) (c : Char) (h : p.head? = some c) : peek p 0 = c := by
  cases p with
  | nil => simp at h
  | cons x p => simpa [peek] using h

theorem linesText_cons (p : List Char) (ps : List (List Char)) :
    linesText (p :: ps) = crlf p ++ linesText ps := by
  simp [linesText]

theorem length_le_linesText (ps : List (List Char)) : ps.length ≤ (linesText ps).length := by
  induction ps with
  | nil => simp [linesText]
  | cons p ps ih =>
    rw [linesText_cons]
    simp only [List.length_append, List.length_cons, crlf]
    omega

/-- The unfolding loop on continuation lines that are followed by a line that does not start
with a space: every continuation loses its first byte and is appended. -/
theorem unfoldLoop_fold (ps : List (List Char)) :
    ∀ (cur nxt q rest : List Char) (rs : Int) (fuel : Nat),
      (∀ p ∈ nxt :: ps, p.head? = some ' ' ∧ LineOK p) → LineOK q → q.head? ≠ some ' ' →
      ps.length + 2 ≤ fuel →
      unfoldLoop fuel cur nxt (linesText ps ++ (crlf q ++ rest)) rs
        = some (((q.length + 2 : Nat) : Int),
            ⟨some (cur ++ nxt.drop 1 ++ (ps.map (List.drop 1)).flatten), some q, rest⟩) := by
  induction ps with
  | nil =>
    intro cur nxt q rest rs fuel hok hq hhead hfuel
    obtain ⟨k, rfl⟩ : ∃ k, fuel = k + 2 := ⟨fuel - 2, by simp at hfuel; omega⟩
    have hpq := peek_zero_of_head q hhead
    have hn := peek_zero_eq_of_head nxt ' ' (hok nxt (by simp)).1
    simp only [linesText, List.map_nil, List.flatten_nil, List.nil_append, List.append_nil]
    rw [unfoldLoop, if_pos hn, getline_line q rest _ hq]
    dsimp only
    rw [stripCRLF_crlf]
    dsimp only
    rw [unfoldLoop, if_neg hpq]
  | cons p1 ps ih =>
    intro cur nxt q rest rs fuel hok hq hhead hfuel
    obtain ⟨k, rfl⟩ : ∃ k, fuel = k + 1 := ⟨fuel - 1, by simp at hfuel; omega⟩
    have hn := peek_zero_eq_of_head nxt ' ' (hok nxt (by simp)).1
    have hp1 := hok p1 (by simp)
    rw [linesText_cons, List.append_assoc]
    rw [unfoldLoop, if_pos hn, getline_line p1 _ _ hp1.2]
    dsimp only
    rw [stripCRLF_crlf]
    dsimp only
    rw [ih (cur ++ nxt.drop 1) p1 q rest _ k (fun x hx => hok x (by
      rcases List.mem_cons.mp hx with rfl | hx
      · simp
      · simp [hx])) hq hhead (by simp at hfuel ⊢; omega)]
    simp

/-- Both branches of `readNextLine` after the lookahead line has been fetched and stripped:
the continuation lines `ps` are folded into `cur` and the line `q` that follows stays in the
lookahead buffer. -/
theorem unfold_lines (cur : List Char) (ps : List (List Char)) (q rest : List Char)
    (buf : Option (List Char)) (hps : ∀ p ∈ ps, p.head? = some ' ' ∧ LineOK p)
    (hq : LineOK q) (hhead : q.head? ≠ some ' ') :
    ∃ p fp1 n, getline buf (linesText ps ++ (crlf q ++ rest)) = (some (crlf p), fp1, n) ∧
      unfoldLoop (fp1.length + p.length + 1) cur p fp1 n
        = some (((q.length + 2 : Nat) : Int),
            ⟨some (cur ++ (ps.map (List.drop 1)).flatten), some q, rest⟩) := by
  cases ps with
  | nil =>
    refine ⟨q, rest, ((q.length + 2 : Nat) : Int), ?_, ?_⟩
    · simpa [linesText] using getline_line q rest buf hq
    · rw [unfoldLoop, if_neg (peek_zero_of_head _ hhead)]
      simp
  | cons p ps =>
    have hp := hps p (by simp)
    refine ⟨p, linesText ps ++ (crlf q ++ rest), ((p.length + 2 : Nat) : Int), ?_, ?_⟩
    · rw [linesText_cons, List.append_assoc]
      exact getline_line p _ buf hp.2
    · have := unfoldLoop_fold ps cur p q rest ((p.length + 2 : Nat) : Int)
        ((linesText ps ++ (crlf q ++ rest)).length + p.length + 1) hps hq hhead
        (by
          have := length_le_linesText ps
          simp only [List.length_append, List.length_cons, crlf]
          omega)
      simpa using this

/-- C11: space folding.  For physical lines `p0, p1, ..., pk` (each ending in CR LF in the
file) where each of `p1..pk` begins with a space, followed by a further line `q` ending in CR
LF that does not begin with a space, `readNextLine` returns the size of `q` (not `-1`) and
leaves in `currentLine` the logical line `p0 ++ drop1 p1 ++ ... ++ drop1 pk`, where `drop1`
removes exactly one byte and no CR LF is left; `q` stays in the lookahead buffer.  This holds
for the first call, which reads `p0` itself, and for every later call, which finds `p0` in
the lookahead buffer. -/
theorem readNextLine_space_folding (p0 : List Char) (ps : List (List Char))
    (q rest x : List Char) (h0 : LineOK p0) (hps : ∀ p ∈ ps, p.head? = some ' ' ∧ LineOK p)
    (hq : LineOK q) (hhead : q.head? ≠ some ' ') :
    readNextLine ⟨none, none, crlf p0 ++ (linesText ps ++ (crlf q ++ rest))⟩
        = some (((q.length + 2 : Nat) : Int),
            ⟨some (p0 ++ (ps.map (List.drop 1)).flatten), some q, rest⟩) ∧
      readNextLine ⟨some x, some p0, linesText ps ++ (crlf q ++ rest)⟩
        = some (((q.length + 2 : Nat) : Int),
            ⟨some (p0 ++ (ps.map (List.drop 1)).flatten), some q, rest⟩) := by
  constructor
  · obtain ⟨p, fp1, n, hg, hloop⟩ := unfold_lines p0 ps q rest none hps hq hhead
    unfold readNextLine
    dsimp only
    rw [getline_line p0 _ _ h0]
    dsimp only
    rw [stripCRLF_crlf]
    dsimp only
    rw [hg]
    dsimp only
    rw [stripCRLF_crlf]
    dsimp only
    rw [hloop]
  · obtain ⟨p, fp1, n, hg, hloop⟩ := unfold_lines p0 ps q rest (some p0) hps hq hhead
    unfold readNextLine
    dsimp only
    rw [hg]
    dsimp only
    rw [stripCRLF_crlf]
    dsimp only
    rw [hloop]

theorem readNextLine_space_folding_witness :
    (LineOK "NOTE:Hello ".toList ∧
      (∀ p ∈ [" World".toList], p.head? = some ' ' ∧ LineOK p) ∧
      LineOK "END:VCARD".toList ∧ "END:VCARD".toList.head? ≠ some ' ') ∧
    "NOTE:Hello ".toList ++ ([" World".toList].map (List.drop 1)).flatten
      = "NOTE:Hello World".toList ∧
    crlf "NOTE:Hello ".toList ++ (linesText [" World".toList] ++ (crlf "END:VCARD".toList ++ []))
      = "NOTE:Hello \r\n World\r\nEND:VCARD\r\n".toList ∧
    readNextLine ⟨some "FN:x".toList, some "NOTE:Hello ".toList,
        linesText [" World".toList] ++ (crlf "END:VCARD".toList ++ [])⟩
      = some (11, ⟨some ("NOTE:Hello ".toList ++ ([" World".toList].map (List.drop 1)).flatten),
          some "END:VCARD".toList, []⟩) :=
  ⟨⟨by unfold LineOK; decide, by unfold LineOK; decide, by unfold LineOK; decide, by decide⟩,
    by decide, by decide,
    (readNextLine_space_folding "NOTE:Hello ".toList [" World".toList] "END:VCARD".toList []
      "FN:x".toList (by unfold LineOK; decide) (by unfold LineOK; decide)
      (by unfold LineOK; decide) (by decide)).2⟩

/-- C12, as amended: a physical line that begins with a tab is not a continuation.  For
physical lines `p0` and `p1` (each ending in CR LF in the file) where `p1` begins with a tab,
`readNextLine` leaves `p0` alone in `currentLine` and keeps `p1`, its tab included, in the
lookahead buffer as the start of the next logical line; this holds for the first call and for
every later call. -/
theorem readNextLine_tab_not_folded (p0 p1 rest x : List Char) (h0 : LineOK p0)
    (h1 : LineOK p1) (htab : p1.head? = some '\t') :
    readNextLine ⟨none, none, crlf p0 ++ (crlf p1 ++ rest)⟩
        = some (((p1.length + 2 : Nat) : Int), ⟨some p0, some p1, rest⟩) ∧
      readNextLine ⟨some x, some p0, crlf p1 ++ rest⟩
        = some (((p1.length + 2 : Nat) : Int), ⟨some p0, some p1, rest⟩) := by
  have hhead : p1.head? ≠ some ' ' := by
    rw [htab]
    decide
  constructor
  · obtain ⟨p, fp1, n, hg, hloop⟩ := unfold_lines p0 [] p1 rest none (by simp) h1 hhead
    simp only [linesText, List.map_nil, List.flatten_nil, List.nil_append,
      List.append_nil] at hg hloop
    unfold readNextLine
    dsimp only
    rw [getline_line p0 _ _ h0]
    dsimp only
    rw [stripCRLF_crlf]
    dsimp only
    rw [hg]
    dsimp only
    rw [stripCRLF_crlf]
    dsimp only
    rw [hloop]
  · obtain ⟨p, fp1, n, hg, hloop⟩ := unfold_lines p0 [] p1 rest (some p0) (by simp) h1 hhead
    simp only [linesText, List.map_nil, List.flatten_nil, List.nil_append,
      List.append_nil] at hg hloop
    unfold readNextLine
    dsimp only
    rw [hg]
    dsimp only
    rw [stripCRLF_crlf]
    dsimp only
    rw [hloop]

theorem readNextLine_tab_not_folded_witness :
    (LineOK "NOTE:a".toList ∧ LineOK "\tb".toList ∧ "\tb".toList.head? = some '\t') ∧
    crlf "NOTE:a".toList ++ (crlf "\tb".toList ++ []) = "NOTE:a\r\n\tb\r\n".toList ∧
    readNextLine ⟨none, none, crlf "NOTE:a".toList ++ (crlf "\tb".toList ++ [])⟩
      = some (4, ⟨some "NOTE:a".toList, some "\tb".toList, []⟩) :=
  ⟨⟨by unfold LineOK; decide, by unfold LineOK; decide, by decide⟩, by decide,
    (readNextLine_tab_not_folded "NOTE:a".toList "\tb".toList [] [] (by unfold LineOK; decide)
      (by unfold LineOK; decide) (by decide)).1⟩

/-- C12 fails as stated: on `NOTE:a` followed by the line `<TAB>b` the logical line is
`NOTE:a`, not `NOTE:ab`, and the tab line is the next line; with a space in place of the tab
the two lines are folded into `NOTE:ab`. -/
theorem readNextLine_tab_not_folded_counterexample :
    readNextLine ⟨none, none, "NOTE:a\r\n\tb\r\nEND:VCARD\r\n".toList⟩
      = some (4, ⟨some "NOTE:a".toList, some "\tb".toList, "END:VCARD\r\n".toList⟩) ∧
    "NOTE:a".toList ≠ "NOTE:a".toList ++ "\tb".toList.drop 1 ∧
    readNextLine ⟨none, none, "NOTE:a\r\n b\r\nEND:VCARD\r\n".toList⟩
      = some (11, ⟨some "NOTE:ab".toList, some "END:VCARD".toList, []⟩) := by
  decide

/-! ## Lines without CR LF -/

theorem getline_unterminated (junk : List Char) (buf : Option (List Char))
    (hj : Unterminated junk) :
    (getline buf junk).1 = some (firstLine junk) ∧
      (getline buf junk).2.1 = junk.drop (strcspn junk [LF] + 1) ∧
      stripCRLF (some (firstLine junk)) = some none := by
  refine ⟨?_, ?_, ?_⟩
  · unfold getline
    rw [if_neg hj.1]
    rfl
  · unfold getline
    rw [if_neg hj.1]
  · unfold stripCRLF
    dsimp only
    rw [if_neg (by have := hj.2.1; omega)]
    simp [hj.2.2]

/-- The unfolding loop when the continuation lines are followed by a line that fails the
test for CR LF. -/
theorem unfoldLoop_unterminated (cs : List (List Char)) :
    ∀ (cur c junk : List Char) (rs : Int) (fuel : Nat),
      (∀ x ∈ c :: cs, PieceOK x) → Unterminated junk → cs.length + 1 ≤ fuel →
      unfoldLoop fuel cur (' ' :: c) (contsText cs ++ junk) rs
        = some (-1, ⟨some (cur ++ c ++ cs.flatten), some (firstLine junk),
            junk.drop (strcspn junk [LF] + 1)⟩) := by
  induction cs with
  | nil =>
    intro cur c junk rs fuel hok hj hfuel
    obtain ⟨k, rfl⟩ : ∃ k, fuel = k + 1 := ⟨fuel - 1, by simp at hfuel; omega⟩
    obtain ⟨h1, h2, h3⟩ := getline_unterminated junk (some (' ' :: c)) hj
    simp only [contsText, List.map_nil, List.flatten_nil, List.nil_append]
    rw [unfoldLoop, if_pos (peek_zero_cons _ _)]
    dsimp only
    rw [h1, h2, h3]
    simp
  | cons c1 cs ih =>
    intro cur c junk rs fuel hok hj hfuel
    obtain ⟨k, rfl⟩ : ∃ k, fuel = k + 1 := ⟨fuel - 1, by simp at hfuel; omega⟩
    have hc1 : PieceOK (' ' :: c1) := PieceOK_space_cons c1 (hok c1 (by simp))
    have hnl := ih (cur ++ c) c1 junk ((((' ' :: c1).length + 2 : Nat) : Int)) k
      (fun x hx => hok x (by
        rcases List.mem_cons.mp hx with rfl | hx
        · simp
        · simp [hx])) hj (by simp at hfuel ⊢; omega)
    rw [contsText_cons, List.append_assoc]
    rw [unfoldLoop, if_pos (peek_zero_cons _ _), getline_crlf (' ' :: c1) _ _ hc1]
    dsimp only
    rw [stripCRLF_crlf]
    dsimp only
    simp only [List.drop_succ_cons, List.drop_zero]
    rw [hnl]
    simp

/-- Once the lookahead line has been fetched: the continuation lines are folded and the call
returns `-1` at the line that fails the test for CR LF. -/
theorem unfold_to_unterminated (cur : List Char) (cs : List (List Char)) (junk : List Char)
    (buf : Option (List Char)) (hcs : ∀ x ∈ cs, PieceOK x) (hj : Unterminated junk) :
    (stripCRLF (getline buf (contsText cs ++ junk)).1 = some none ∧ cs = [] ∧
        (getline buf (contsText cs ++ junk)).1 = some (firstLine junk) ∧
        (getline buf (contsText cs ++ junk)).2.1 = junk.drop (strcspn junk [LF] + 1)) ∨
      ∃ p fp1 n, getline buf (contsText cs ++ junk) = (some (crlf p), fp1, n) ∧
        unfoldLoop (fp1.length + p.length + 1) cur p fp1 n
          = some (-1, ⟨some (cur ++ cs.flatten), some (firstLine junk),
              junk.drop (strcspn junk [LF] + 1)⟩) := by
  cases cs with
  | nil =>
    left
    obtain ⟨h1, h2, h3⟩ := getline_unterminated junk buf hj
    have e : contsText [] ++ junk = junk := by simp [contsText]
    rw [e, h1]
    exact ⟨h3, rfl, rfl, h2⟩
  | cons c cs =>
    right
    have hc : PieceOK (' ' :: c) := PieceOK_space_cons c (hcs c (by simp))
    refine ⟨' ' :: c, contsText cs ++ junk, (((' ' :: c).length + 2 : Nat) : Int), ?_, ?_⟩
    · rw [contsText_cons, List.append_assoc]
      exact getline_crlf (' ' :: c) (contsText cs ++ junk) buf hc
    · have := unfoldLoop_unterminated cs cur c junk (((' ' :: c).length + 2 : Nat) : Int)
        ((contsText cs ++ junk).length + (' ' :: c).length + 1) hcs hj
        (by
          have := length_le_contsText cs
          simp only [List.length_append, List.length_cons]
          omega)
      simpa using this

/-- A call of `readNextLine` after the first one, on the last logical line before a line that
fails the test for CR LF: the call returns `-1` with the logical line in `currentLine`. -/
theorem readNextLine_unterminated (x : List Char) (l : Folded) (junk : List Char)
    (hl : l.Clean) (hj : Unterminated junk) :
    readNextLine ⟨some x, some l.first, contsText l.conts ++ junk⟩
      = some (-1, ⟨some l.logical, some (firstLine junk),
          junk.drop (strcspn junk [LF] + 1)⟩) := by
  rcases unfold_to_unterminated l.first l.conts junk (some l.first) hl.2 hj with
    ⟨h1, h2, h3, h4⟩ | ⟨p, fp1, n, hg, hloop⟩
  · unfold readNextLine
    dsimp only
    rw [h1]
    dsimp only
    rw [h3, h4]
    simp [Folded.logical, h2]
  · unfold readNextLine
    dsimp only
    rw [hg]
    dsimp only
    rw [stripCRLF_crlf]
    dsimp only
    rw [hloop]
    rfl

/-- The first call of `readNextLine` when a line that fails the test for CR LF follows the
first logical line, or starts the file. -/
theorem readNextLine_first_unterminated (l : Folded) (junk : List Char)
    (hl : l.Clean) (hj : Unterminated junk) :
    (∃ r, readNextLine ⟨none, none, junk⟩ = some (-1, r)) ∧
      ∃ r, readNextLine ⟨none, none, l.text ++ junk⟩ = some (-1, r) := by
  constructor
  · obtain ⟨h1, h2, h3⟩ := getline_unterminated junk none hj
    unfold readNextLine
    dsimp only
    rw [h1, h3]
    exact ⟨_, rfl⟩
  · rcases unfold_to_unterminated l.first l.conts junk none hl.2 hj with
      ⟨h1, h2, h3, h4⟩ | ⟨p, fp1, n, hg, hloop⟩
    · unfold readNextLine
      dsimp only
      rw [Folded.text, List.append_assoc, getline_crlf l.first _ _ hl.1]
      dsimp only
      rw [stripCRLF_crlf]
      dsimp only
      rw [h1]
      exact ⟨_, rfl⟩
    · unfold readNextLine
      dsimp only
      rw [Folded.text, List.append_assoc, getline_crlf l.first _ _ hl.1]
      dsimp only
      rw [stripCRLF_crlf]
      dsimp only
      rw [hg]
      dsimp only
      rw [stripCRLF_crlf]
      dsimp only
      rw [hloop]
      exact ⟨_, rfl⟩

/-- The loop of lines 68-73 on the lines that follow the VERSION line, when a line that fails
the test for CR LF comes after them. -/
theorem readProperties_unterminated (mids : List Folded) (junk : List Char)
    (hj : Unterminated junk) :
    ∀ (card : Card) (x : List Char) (last hd : Folded) (tl : List Folded) (fuel : Nat),
      mids ++ [last] = hd :: tl → (∀ l ∈ mids ++ [last], l.Clean ∧ l.Starts) →
      mids.length + 1 ≤ fuel →
      readProperties fuel card ⟨some x, some hd.first, contsText hd.conts ++ (fileText tl ++ junk)⟩
        = loopEnd (parseAll card (mids.map Folded.logical))
            ⟨some last.logical, some (firstLine junk), junk.drop (strcspn junk [LF] + 1)⟩ := by
  induction mids with
  | nil =>
    intro card x last hd tl fuel heq hok hfuel
    obtain ⟨k, rfl⟩ : ∃ k, fuel = k + 1 := ⟨fuel - 1, by simp at hfuel; omega⟩
    simp only [List.nil_append, List.cons.injEq] at heq
    obtain ⟨rfl, rfl⟩ := heq
    have e := readNextLine_unterminated x last junk (hok last (by simp)).1 hj
    simp only [fileText, List.map_nil, List.flatten_nil, List.nil_append]
    rw [readProperties, e]
    simp [parseAll, loopEnd]
  | cons m ms ih =>
    intro card x last hd tl fuel heq hok hfuel
    obtain ⟨k, rfl⟩ : ∃ k, fuel = k + 1 := ⟨fuel - 1, by simp at hfuel; omega⟩
    simp only [List.cons_append, List.cons.injEq] at heq
    obtain ⟨rfl, rfl⟩ := heq
    obtain ⟨hd1, tl1, htl⟩ : ∃ hd1 tl1, ms ++ [last] = hd1 :: tl1 := by
      cases ms with
      | nil => exact ⟨last, [], rfl⟩
      | cons a as => exact ⟨a, as ++ [last], rfl⟩
    have hhd1 : hd1 ∈ m :: ms ++ [last] := by
      have : hd1 ∈ ms ++ [last] := by rw [htl]; simp
      simp only [List.cons_append, List.mem_cons]
      exact Or.inr this
    obtain ⟨n, hn, e⟩ := readNextLine_next x m hd1 (fileText tl1 ++ junk) (hok m (by simp)).1
      (hok hd1 hhd1).1 (hok hd1 hhd1).2
    have hshape : contsText m.conts ++ (fileText (ms ++ [last]) ++ junk)
        = contsText m.conts ++ (hd1.text ++ (fileText tl1 ++ junk)) := by
      rw [htl, fileText_cons, Folded.text]
      simp only [List.append_assoc]
    rw [hshape, readProperties, e]
    dsimp only
    rw [if_neg hn]
    simp only [List.map_cons, parseAll]
    cases hc : createProperty card m.logical with
    | none => simp [loopEnd]
    | some r =>
      cases r with
      | none => simp [loopEnd]
      | some c1 =>
        dsimp only
        exact ih c1 m.logical last hd1 tl1 k htl
          (fun l hl => hok l (by simp only [List.cons_append, List.mem_cons]; exact Or.inr hl))
          (by simp at hfuel ⊢; omega)

/-- The result of `createCard` on a file of at least three clean logical lines followed by a
line that fails the test for CR LF: the lines before that line decide. -/
theorem createCard_unterminated_eval (l0 l1 : Folded) (mids : List Folded) (last : Folded)
    (junk : List Char) (h0 : l0.Clean) (hok : ∀ l ∈ l1 :: mids ++ [last], l.Clean ∧ l.Starts)
    (hj : Unterminated junk) :
    createCard (fileText (l0 :: l1 :: mids ++ [last]) ++ junk) =
      if strcasecmp l0.logical "BEGIN:VCARD".toList ≠ 0 then some (VCardErrorCode.INV_CARD, none)
      else if strcasecmp l1.logical "VERSION:4.0".toList ≠ 0 then
        some (VCardErrorCode.INV_CARD, none)
      else
        match parseAll newCard (mids.map Folded.logical) with
        | none => none
        | some none => some (VCardErrorCode.INV_PROP, none)
        | some (some card) =>
          if card.fn = none then some (VCardErrorCode.INV_CARD, none)
          else if strcasecmp last.logical "END:VCARD".toList ≠ 0 then
            some (VCardErrorCode.INV_CARD, none)
          else some (VCardErrorCode.OK, some card) := by
  obtain ⟨hd, tl, htl⟩ : ∃ hd tl, mids ++ [last] = hd :: tl := by
    cases mids with
    | nil => exact ⟨last, [], rfl⟩
    | cons a as => exact ⟨a, as ++ [last], rfl⟩
  have hhd : hd ∈ l1 :: mids ++ [last] := by
    have : hd ∈ mids ++ [last] := by rw [htl]; simp
    simp only [List.cons_append, List.mem_cons]
    exact Or.inr this
  have hl1 := hok l1 (by simp)
  obtain ⟨n1, hn1, e1⟩ := readNextLine_first l0 l1 (fileText (mids ++ [last]) ++ junk) h0
    hl1.1 hl1.2
  obtain ⟨n2, hn2, e2⟩ := readNextLine_next l0.logical l1 hd (fileText tl ++ junk) hl1.1
    (hok hd hhd).1 (hok hd hhd).2
  have e3 := readProperties_unterminated mids junk hj newCard l1.logical last hd tl
    ((contsText hd.conts ++ (fileText tl ++ junk)).length + 1) htl
    (fun l hl => hok l (by simp only [List.cons_append, List.mem_cons]; exact Or.inr hl))
    (by
      have h1 := length_le_fileText tl
      have h2 : (mids ++ [last]).length = (hd :: tl).length := by rw [htl]
      simp only [List.length_append, List.length_cons, List.length_nil] at h2 ⊢
      omega)
  have hfile : fileText (l0 :: l1 :: mids ++ [last]) ++ junk
      = l0.text ++ (l1.text ++ (fileText (mids ++ [last]) ++ junk)) := by
    simp [fileText]
  have hshape : contsText l1.conts ++ (fileText (mids ++ [last]) ++ junk)
      = contsText l1.conts ++ (hd.text ++ (fileText tl ++ junk)) := by
    rw [htl, fileText_cons, Folded.text]
    simp only [List.append_assoc]
  unfold createCard
  rw [hfile, e1]
  dsimp only
  rw [if_neg hn1]
  by_cases hb : strcasecmp l0.logical "BEGIN:VCARD".toList ≠ 0
  · rw [if_pos hb, if_pos hb]
  · rw [if_neg hb, if_neg hb]
    rw [hshape, e2]
    dsimp only
    rw [if_neg hn2]
    by_cases hv : strcasecmp l1.logical "VERSION:4.0".toList ≠ 0
    · rw [if_pos hv, if_pos hv]
    · rw [if_neg hv, if_neg hv, e3]
      cases hp : parseAll newCard (mids.map Folded.logical) with
      | none => simp [loopEnd]
      | some r =>
        cases r with
        | none => simp [loopEnd]
        | some card => simp [loopEnd]

/-- With fewer than three logical lines before the line that fails the test for CR LF,
`createCard` leaves through one of its error exits. -/
theorem createCard_unterminated_short (ls : List Folded) (junk : List Char)
    (hlen : ls.length ≤ 2) (hclean : ∀ l ∈ ls, l.Clean) (hstart : ∀ l ∈ ls.tail, l.Starts)
    (hj : Unterminated junk) :
    createCard (fileText ls ++ junk) = some (VCardErrorCode.INV_PROP, none) ∨
      createCard (fileText ls ++ junk) = some (VCardErrorCode.INV_CARD, none) := by
  match ls, hlen, hclean, hstart with
  | [], _, _, _ =>
    left
    obtain ⟨r, hr⟩ := (readNextLine_first_unterminated ⟨[], []⟩ junk
      ⟨by simp [PieceOK], by simp⟩ hj).1
    simp only [fileText, List.map_nil, List.flatten_nil, List.nil_append]
    unfold createCard
    rw [hr]
    rfl
  | [l0], _, hclean, _ =>
    left
    obtain ⟨r, hr⟩ := (readNextLine_first_unterminated l0 junk (hclean l0 (by simp)) hj).2
    have e : fileText [l0] ++ junk = l0.text ++ junk := by simp [fileText]
    unfold createCard
    rw [e, hr]
    rfl
  | [l0, l1], _, hclean, hstart =>
    obtain ⟨n1, hn1, e1⟩ := readNextLine_first l0 l1 junk (hclean l0 (by simp))
      (hclean l1 (by simp)) (hstart l1 (by simp))
    have e2 := readNextLine_unterminated l0.logical l1 junk (hclean l1 (by simp)) hj
    have e : fileText [l0, l1] ++ junk = l0.text ++ (l1.text ++ junk) := by simp [fileText]
    unfold createCard
    rw [e, e1]
    dsimp only
    rw [if_neg hn1]
    by_cases hb : strcasecmp l0.logical "BEGIN:VCARD".toList ≠ 0
    · right
      rw [if_pos hb]
    · left
      rw [if_neg hb, e2]
      rfl
  | _ :: _ :: _ :: _, hlen, _, _ => simp at hlen

/-- C13, as amended: when CRLF-terminated logical lines are followed by a physical line that
fails the test of `readNextLine` (at least two bytes, the byte before the last not CR: a
line ending in a bare LF, a last line without terminator), `createCard` takes that line for
the end of the input.  It returns OK exactly when the lines before it are a complete card:
BEGIN:VCARD, VERSION:4.0, property lines the parser accepts with an FN among them, and
END:VCARD as the last; the card is the one those property lines give. -/
theorem createCard_unterminated (ls : List Folded) (junk : List Char) (r : Option Card)
    (hclean : ∀ l ∈ ls, l.Clean) (hstart : ∀ l ∈ ls.tail, l.Starts) (hj : Unterminated junk) :
    createCard (fileText ls ++ junk) = some (VCardErrorCode.OK, r) ↔
      ∃ l0 l1 mids last card, ls = l0 :: l1 :: mids ++ [last] ∧ r = some card ∧
        strcasecmp l0.logical "BEGIN:VCARD".toList = 0 ∧
        strcasecmp l1.logical "VERSION:4.0".toList = 0 ∧
        parseAll newCard (mids.map Folded.logical) = some (some card) ∧ card.fn ≠ none ∧
        strcasecmp last.logical "END:VCARD".toList = 0 := by
  by_cases hlen : ls.length ≤ 2
  · constructor
    · intro h
      rcases createCard_unterminated_short ls junk hlen hclean hstart hj with e | e
      · rw [e] at h
        simp at h
      · rw [e] at h
        simp at h
    · rintro ⟨l0, l1, mids, last, card, rfl, _⟩
      simp at hlen
  · obtain ⟨l0, l1, mids, last, rfl⟩ : ∃ l0 l1 mids last, ls = l0 :: l1 :: mids ++ [last] := by
      match ls, hlen with
      | [], hlen => simp at hlen
      | [_], hlen => simp at hlen
      | [_, _], hlen => simp at hlen
      | l0 :: l1 :: l2 :: rest, _ =>
        refine ⟨l0, l1, (l2 :: rest).dropLast, (l2 :: rest).getLast (by simp), ?_⟩
        simp only [List.cons_append]
        rw [List.dropLast_append_getLast]
    have hev := createCard_unterminated_eval l0 l1 mids last junk (hclean l0 (by simp))
      (fun l hl => ⟨hclean l (by simp only [List.cons_append, List.mem_cons] at hl ⊢
                                 exact Or.inr hl),
        hstart l (by simpa using hl)⟩) hj
    rw [hev]
    constructor
    · intro h
      split at h
      · simp at h
      · rename_i hb
        split at h
        · simp at h
        · rename_i hv
          split at h
          · simp at h
          · simp at h
          · rename_i card hp
            split at h
            · simp at h
            · rename_i hfn
              split at h
              · simp at h
              · rename_i hend
                simp only [Option.some.injEq, Prod.mk.injEq, true_and] at h
                exact ⟨l0, l1, mids, last, card, rfl, h.symm, by simpa using hb,
                  by simpa using hv, hp, hfn, by simpa using hend⟩
    · rintro ⟨l0', l1', mids', last', card, heq, rfl, hb, hv, hp, hfn, hend⟩
      simp only [List.cons_append, List.cons.injEq] at heq
      obtain ⟨rfl, rfl, hml⟩ := heq
      obtain ⟨rfl, hl⟩ := List.append_inj' hml rfl
      simp only [List.cons.injEq, and_true] at hl
      subst hl
      rw [if_neg (by simpa using hb), if_neg (by simpa using hv), hp]
      dsimp only
      rw [if_neg hfn, if_neg (by simpa using hend)]

theorem createCard_unterminated_witness :
    ((∀ l ∈ [(⟨"BEGIN:VCARD".toList, []⟩ : Folded), ⟨"VERSION:4.0".toList, []⟩,
          ⟨"FN:x".toList, []⟩, ⟨"END:VCARD".toList, []⟩], l.Clean) ∧
      (∀ l ∈ [(⟨"BEGIN:VCARD".toList, []⟩ : Folded), ⟨"VERSION:4.0".toList, []⟩,
          ⟨"FN:x".toList, []⟩, ⟨"END:VCARD".toList, []⟩].tail, l.Starts) ∧
      Unterminated "NOTE:y\n".toList) ∧
    fileText [⟨"BEGIN:VCARD".toList, []⟩, ⟨"VERSION:4.0".toList, []⟩, ⟨"FN:x".toList, []⟩,
        ⟨"END:VCARD".toList, []⟩] ++ "NOTE:y\n".toList
      = "BEGIN:VCARD\r\nVERSION:4.0\r\nFN:x\r\nEND:VCARD\r\nNOTE:y\n".toList ∧
    createCard (fileText [⟨"BEGIN:VCARD".toList, []⟩, ⟨"VERSION:4.0".toList, []⟩,
        ⟨"FN:x".toList, []⟩, ⟨"END:VCARD".toList, []⟩] ++ "NOTE:y\n".toList)
      = some (VCardErrorCode.OK,
          some ⟨some ⟨some "FN".toList, some [], some [], some ["x".toList]⟩, some [], none,
            none⟩) :=
  ⟨⟨by simp only [Folded.Clean, PieceOK]; decide, by simp only [Folded.Starts]; decide,
      by simp only [Unterminated, firstLine]; decide⟩, by decide,
    (createCard_unterminated _ "NOTE:y\n".toList _ (by simp only [Folded.Clean, PieceOK]; decide)
      (by simp only [Folded.Starts]; decide)
      (by simp only [Unterminated, firstLine]; decide)).mpr
      ⟨⟨"BEGIN:VCARD".toList, []⟩, ⟨"VERSION:4.0".toList, []⟩, [⟨"FN:x".toList, []⟩],
        ⟨"END:VCARD".toList, []⟩, _, rfl, rfl, by decide, by decide, by decide, by decide,
        by decide⟩⟩

/-- C13 fails as stated: a complete card followed by a last line without terminator, or by a
line that ends in a bare LF, is accepted with OK. -/
theorem createCard_unterminated_counterexample :
    "BEGIN:VCARD\r\nVERSION:4.0\r\nFN:x\r\nEND:VCARD\r\nxyz".toList.getLast? ≠ some LF ∧
    createCard "BEGIN:VCARD\r\nVERSION:4.0\r\nFN:x\r\nEND:VCARD\r\nxyz".toList
      = some (VCardErrorCode.OK,
          some ⟨some ⟨some "FN".toList, some [], some [], some ["x".toList]⟩, some [], none,
            none⟩) ∧
    createCard "BEGIN:VCARD\r\nVERSION:4.0\r\nFN:x\r\nEND:VCARD\r\nNOTE:y\n".toList
      = some (VCardErrorCode.OK,
          some ⟨some ⟨some "FN".toList, some [], some [], some ["x".toList]⟩, some [], none,
            none⟩) ∧
    createCard "BEGIN:VCARD\r\nVERSION:4.0\r\nFN:x\nEND:VCARD\r\n".toList
      = some (VCardErrorCode.INV_PROP, none) := by
  decide

/-! ## The assembled card -/

/-- What an accepted line does to the list of optional properties. -/
theorem createProperty_optionalProperties (card card1 : Card) (line : List Char)
    (hacc : createProperty card line = some (some card1)) :
    card1.optionalProperties =
      match genericOf line with
      | some p => insertBack card.optionalProperties p
      | none => card.optionalProperties := by
  unfold createProperty at hacc
  unfold genericOf
  cases hp : parseHead line with
  | none => rw [hp] at hacc; exact absurd hacc (by simp)
  | some r =>
    cases r with
    | none => rw [hp] at hacc; exact absurd hacc (by simp)
    | some h =>
      rw [hp] at hacc
      dsimp only at hacc ⊢
      unfold dispatch at hacc
      dsimp only at hacc
      by_cases h1 : strcasecmp (cstrAt h.mem h.propertyName) "FN".toList = 0
      · rw [if_pos h1] at hacc ⊢
        split at hacc
        · exact absurd hacc (by simp)
        · simp only [Option.some.injEq] at hacc
          rw [← hacc]
      · rw [if_neg h1] at hacc ⊢
        by_cases h2 : strcasecmp (cstrAt h.mem h.propertyName) "BDAY".toList = 0
        · rw [if_pos h2] at hacc ⊢
          split at hacc
          · exact absurd hacc (by simp)
          · simp only [Option.some.injEq] at hacc
            rw [← hacc]
        · rw [if_neg h2] at hacc ⊢
          by_cases h3 : strcasecmp (cstrAt h.mem h.propertyName) "ANNIVERSARY".toList = 0
          · rw [if_pos h3] at hacc ⊢
            split at hacc
            · exact absurd hacc (by simp)
            · simp only [Option.some.injEq] at hacc
              rw [← hacc]
          · rw [if_neg h3] at hacc ⊢
            split at hacc
            · rename_i h4
              rw [if_pos h4]
              simp only [Option.some.injEq] at hacc
              rw [← hacc]
            · exact absurd hacc (by simp)

/-- The optional properties after a run of accepted lines: the generic properties of the
lines, appended in the order of the lines. -/
theorem parseAll_optionalProperties (lines : List (List Char)) :
    ∀ (card card1 : Card) (ps : List Property), parseAll card lines = some (some card1) →
      card.optionalProperties = some ps →
      card1.optionalProperties = some (ps ++ lines.filterMap genericOf) := by
  induction lines with
  | nil =>
    intro card card1 ps h hps
    simp only [parseAll, Option.some.injEq] at h
    subst h
    simpa using hps
  | cons l ls ih =>
    intro card card1 ps h hps
    rw [parseAll] at h
    cases hc : createProperty card l with
    | none => rw [hc] at h; exact absurd h (by simp)
    | some r =>
      cases r with
      | none => rw [hc] at h; exact absurd h (by simp)
      | some c1 =>
        rw [hc] at h
        dsimp only at h
        have e := createProperty_optionalProperties card c1 l hc
        cases hg : genericOf l with
        | none =>
          rw [hg] at e
          dsimp only at e
          rw [List.filterMap_cons, hg]
          exact ih c1 card1 ps h (e.trans hps)
        | some p =>
          rw [hg] at e
          dsimp only at e
          rw [List.filterMap_cons, hg]
          have := ih c1 card1 (ps ++ [p]) h (by rw [e, hps]; rfl)
          simpa using this

/-- The loop of lines 68-73 is the property parser run over the lines it reads. -/
theorem readProperties_parseAll (fuel : Nat) :
    ∀ (card card1 : Card) (r r1 : Reader), readProperties fuel card r = some (some (card1, r1)) →
      parseAll card (linesRead fuel r) = some (some card1) := by
  induction fuel with
  | zero => intro card card1 r r1 h; simp [readProperties] at h
  | succ fuel ih =>
    intro card card1 r r1 h
    rw [readProperties] at h
    rw [linesRead]
    cases hr : readNextLine r with
    | none => rw [hr] at h; exact absurd h (by simp)
    | some p =>
      obtain ⟨rs, r2⟩ := p
      rw [hr] at h
      dsimp only at h ⊢
      by_cases hrs : rs = -1
      · rw [if_pos hrs] at h ⊢
        simp only [Option.some.injEq, Prod.mk.injEq] at h
        rw [parseAll, h.1]
      · rw [if_neg hrs] at h ⊢
        cases hl : r2.currentLine with
        | none => rw [hl] at h; exact absurd h (by simp)
        | some line =>
          rw [hl] at h
          dsimp only at h ⊢
          rw [parseAll]
          cases hc : createProperty card line with
          | none => rw [hc] at h; exact absurd h (by simp)
          | some o =>
            cases o with
            | none => rw [hc] at h; exact absurd h (by simp)
            | some c1 =>
              rw [hc] at h
              dsimp only at h ⊢
              exact ih c1 card1 r2 r1 h

/-- A run of `createCard` that ends in OK: the card has its FN and is what the property
parser gives on the lines after the first two. -/
theorem createCard_OK_parseAll (fp : List Char) (res : Option Card)
    (h : createCard fp = some (VCardErrorCode.OK, res)) :
    ∃ card, res = some card ∧ card.fn ≠ none ∧
      parseAll newCard (propertyLines fp) = some (some card) := by
  unfold createCard at h
  unfold propertyLines
  cases h1 : readNextLine ⟨none, none, fp⟩ with
  | none => rw [h1] at h; exact absurd h (by simp)
  | some p1 =>
    obtain ⟨read1, r1⟩ := p1
    rw [h1] at h
    dsimp only at h ⊢
    split at h
    · exact absurd h (by simp)
    · split at h
      · exact absurd h (by simp)
      · split at h
        · exact absurd h (by simp)
        · cases h2 : readNextLine r1 with
          | none => rw [h2] at h; exact absurd h (by simp)
          | some p2 =>
            obtain ⟨read2, r2⟩ := p2
            rw [h2] at h
            dsimp only at h ⊢
            split at h
            · exact absurd h (by simp)
            · split at h
              · exact absurd h (by simp)
              · split at h
                · exact absurd h (by simp)
                · cases h3 : readProperties (r2.fp.length + 1) newCard r2 with
                  | none => rw [h3] at h; exact absurd h (by simp)
                  | some o =>
                    cases o with
                    | none => rw [h3] at h; exact absurd h (by simp)
                    | some cr =>
                      obtain ⟨card, r⟩ := cr
                      rw [h3] at h
                      dsimp only at h
                      split at h
                      · exact absurd h (by simp)
                      · rename_i hfn
                        split at h
                        · exact absurd h (by simp)
                        · split at h
                          · exact absurd h (by simp)
                          · simp only [Option.some.injEq, Prod.mk.injEq, true_and] at h
                            exact ⟨card, h.symm, hfn,
                              readProperties_parseAll _ _ _ _ _ h3⟩

theorem genericNames_not_structural :
    ∀ g ∈ genericNames, NUL ∉ g ∧
      ∀ b ∈ structuralNames, NUL ∉ b ∧ g.map tolower ≠ b.map tolower := by
  decide

/-- The name of a generic property is none of the names handled outside the list. -/
theorem genericOf_name (line : List Char) (p : Property) (h : genericOf line = some p) :
    ∃ n, p.name = some n ∧ ∀ b ∈ structuralNames, strcasecmp n b ≠ 0 := by
  unfold genericOf at h
  split at h
  · rename_i hd hp
    split at h
    · exact absurd h (by simp)
    · rename_i h1
      split at h
      · exact absurd h (by simp)
      · rename_i h2
        split at h
        · exact absurd h (by simp)
        · rename_i h3
          split at h
          · rename_i h4
            simp only [Option.some.injEq] at h
            refine ⟨cstrAt hd.mem hd.propertyName, by rw [← h], ?_⟩
            rw [List.any_eq_true] at h4
            obtain ⟨g, hg, hgn⟩ := h4
            have hgn0 : strcasecmp (cstrAt hd.mem hd.propertyName) g = 0 := by simpa using hgn
            intro b hb
            have hN : NUL ∉ cstrAt hd.mem hd.propertyName := not_mem_cstr _
            have hgb := genericNames_not_structural g hg
            exact strcasecmp_ne_of_eq _ g b hN hgb.1 (hgb.2 b hb).1 (hgb.2 b hb).2 hgn0
          · exact absurd h (by simp)
  · exact absurd h (by simp)

/-- The lines the loop reads on a file of clean logical lines: all but the last. -/
theorem linesRead_eval (mids : List Folded) :
    ∀ (x : List Char) (last hd : Folded) (tl : List Folded) (fuel : Nat),
      mids ++ [last] = hd :: tl → (∀ l ∈ mids ++ [last], l.Clean ∧ l.Starts) →
      2 ≤ last.lastPhysical.length → mids.length + 1 ≤ fuel →
      linesRead fuel ⟨some x, some hd.first, contsText hd.conts ++ fileText tl⟩
        = mids.map Folded.logical := by
  induction mids with
  | nil =>
    intro x last hd tl fuel heq hok hlen hfuel
    obtain ⟨k, rfl⟩ : ∃ k, fuel = k + 1 := ⟨fuel - 1, by simp at hfuel; omega⟩
    simp only [List.nil_append, List.cons.injEq] at heq
    obtain ⟨rfl, rfl⟩ := heq
    have e := readNextLine_last x last (hok last (by simp)).1 hlen
    simp only [fileText, List.map_nil, List.flatten_nil, List.append_nil]
    rw [linesRead, e]
    simp
  | cons m ms ih =>
    intro x last hd tl fuel heq hok hlen hfuel
    obtain ⟨k, rfl⟩ : ∃ k, fuel = k + 1 := ⟨fuel - 1, by simp at hfuel; omega⟩
    simp only [List.cons_append, List.cons.injEq] at heq
    obtain ⟨rfl, rfl⟩ := heq
    obtain ⟨hd1, tl1, htl⟩ : ∃ hd1 tl1, ms ++ [last] = hd1 :: tl1 := by
      cases ms with
      | nil => exact ⟨last, [], rfl⟩
      | cons a as => exact ⟨a, as ++ [last], rfl⟩
    have hhd1 : hd1 ∈ m :: ms ++ [last] := by
      have : hd1 ∈ ms ++ [last] := by rw [htl]; simp
      simp only [List.cons_append, List.mem_cons]
      exact Or.inr this
    obtain ⟨n, hn, e⟩ := readNextLine_next x m hd1 (fileText tl1) (hok m (by simp)).1
      (hok hd1 hhd1).1 (hok hd1 hhd1).2
    rw [htl, fileText_cons, ← List.append_assoc (crlf hd1.first), ← Folded.text]
    rw [linesRead, e]
    dsimp only
    rw [if_neg hn]
    simp only [List.map_cons, List.cons.injEq, true_and]
    exact ih m.logical last hd1 tl1 k htl
      (fun l hl => hok l (by simp only [List.cons_append, List.mem_cons]; exact Or.inr hl))
      hlen (by simp at hfuel ⊢; omega)

/-- On a file of at least three clean logical lines, the lines handed to the property parser
are the logical lines between the second and the last, in the order of the file. -/
theorem propertyLines_fileText (l0 l1 : Folded) (mids : List Folded) (last : Folded)
    (h0 : l0.Clean) (hok : ∀ l ∈ l1 :: mids ++ [last], l.Clean ∧ l.Starts)
    (hlen : 2 ≤ last.lastPhysical.length) :
    propertyLines (fileText (l0 :: l1 :: mids ++ [last])) = mids.map Folded.logical := by
  obtain ⟨hd, tl, htl⟩ : ∃ hd tl, mids ++ [last] = hd :: tl := by
    cases mids with
    | nil => exact ⟨last, [], rfl⟩
    | cons a as => exact ⟨a, as ++ [last], rfl⟩
  have hhd : hd ∈ l1 :: mids ++ [last] := by
    have : hd ∈ mids ++ [last] := by rw [htl]; simp
    simp only [List.cons_append, List.mem_cons]
    exact Or.inr this
  have hl1 := hok l1 (by simp)
  obtain ⟨n1, _, e1⟩ := readNextLine_first l0 l1 (fileText (mids ++ [last])) h0 hl1.1 hl1.2
  obtain ⟨n2, _, e2⟩ := readNextLine_next l0.logical l1 hd (fileText tl) hl1.1 (hok hd hhd).1
    (hok hd hhd).2
  have e3 := linesRead_eval mids l1.logical last hd tl
    ((contsText hd.conts ++ fileText tl).length + 1) htl
    (fun l hl => hok l (by simp only [List.cons_append, List.mem_cons]; exact Or.inr hl)) hlen
    (by
      have h1 := length_le_fileText tl
      have h2 : (mids ++ [last]).length = (hd :: tl).length := by rw [htl]
      simp only [List.length_append, List.length_cons, List.length_nil] at h2 ⊢
      omega)
  have hfile : fileText (l0 :: l1 :: mids ++ [last])
      = l0.text ++ (l1.text ++ fileText (mids ++ [last])) := by
    simp [fileText]
  unfold propertyLines
  rw [hfile, e1]
  dsimp only
  rw [htl, fileText_cons, ← List.append_assoc (crlf hd.first), ← Folded.text, e2]
  dsimp only
  exact e3

/-- C14: on every input on which `createCard` returns OK, the card has its `fn`, and
`optionalProperties` is the list of the generic properties of the lines that `createCard`
handed to the property parser, in the order of the lines; the name of none of them compares
equal under `strcasecmp` to FN, BDAY, ANNIVERSARY, BEGIN, END or VERSION. -/
theorem createCard_OK_invariant (fp : List Char) (res : Option Card)
    (h : createCard fp = some (VCardErrorCode.OK, res)) :
    ∃ card, res = some card ∧ card.fn ≠ none ∧
      card.optionalProperties = some ((propertyLines fp).filterMap genericOf) ∧
      ∀ p ∈ (propertyLines fp).filterMap genericOf,
        ∃ n, p.name = some n ∧ ∀ b ∈ structuralNames, strcasecmp n b ≠ 0 := by
  obtain ⟨card, hres, hfn, hp⟩ := createCard_OK_parseAll fp res h
  refine ⟨card, hres, hfn, ?_, ?_⟩
  · have := parseAll_optionalProperties (propertyLines fp) newCard card [] hp rfl
    simpa using this
  · intro p hp
    rw [List.mem_filterMap] at hp
    obtain ⟨line, _, hl⟩ := hp
    exact genericOf_name line p hl

theorem createCard_OK_invariant_witness :
    createCard "BEGIN:VCARD\r\nVERSION:4.0\r\nTEL:1\r\nFN:x\r\nBDAY:2000\r\nN:a;b;c;d;e\r\nEND:VCARD\r\n".toList
      = some (VCardErrorCode.OK, some ⟨some ⟨some "FN".toList, some [], some [], some ["x".toList]⟩,
          some [⟨some "TEL".toList, some [], some [], some ["1".toList]⟩,
            ⟨some "N".toList, some [], some [],
              some ["a".toList, "b".toList, "c".toList, "d".toList, "e".toList]⟩],
          some ⟨false, false, some "2000".toList, some [], some []⟩, none⟩) ∧
    propertyLines "BEGIN:VCARD\r\nVERSION:4.0\r\nTEL:1\r\nFN:x\r\nBDAY:2000\r\nN:a;b;c;d;e\r\nEND:VCARD\r\n".toList
      = ["TEL:1".toList, "FN:x".toList, "BDAY:2000".toList, "N:a;b;c;d;e".toList] ∧
    ∃ card : Card, (some ⟨some ⟨some "FN".toList, some [], some [], some ["x".toList]⟩,
          some [⟨some "TEL".toList, some [], some [], some ["1".toList]⟩,
            ⟨some "N".toList, some [], some [],
              some ["a".toList, "b".toList, "c".toList, "d".toList, "e".toList]⟩],
          some ⟨false, false, some "2000".toList, some [], some []⟩, none⟩ : Option Card)
        = some card ∧
      card.fn ≠ none ∧
      card.optionalProperties = some ((propertyLines
        "BEGIN:VCARD\r\nVERSION:4.0\r\nTEL:1\r\nFN:x\r\nBDAY:2000\r\nN:a;b;c;d;e\r\nEND:VCARD\r\n".toList).filterMap
          genericOf) ∧
      ∀ p ∈ (propertyLines
        "BEGIN:VCARD\r\nVERSION:4.0\r\nTEL:1\r\nFN:x\r\nBDAY:2000\r\nN:a;b;c;d;e\r\nEND:VCARD\r\n".toList).filterMap
          genericOf,
        ∃ n, p.name = some n ∧ ∀ b ∈ structuralNames, strcasecmp n b ≠ 0 :=
  ⟨by decide, by decide,
    createCard_OK_invariant
      "BEGIN:VCARD\r\nVERSION:4.0\r\nTEL:1\r\nFN:x\r\nBDAY:2000\r\nN:a;b;c;d;e\r\nEND:VCARD\r\n".toList
      (some ⟨some ⟨some "FN".toList, some [], some [], some ["x".toList]⟩,
          some [⟨some "TEL".toList, some [], some [], some ["1".toList]⟩,
            ⟨some "N".toList, some [], some [],
              some ["a".toList, "b".toList, "c".toList, "d".toList, "e".toList]⟩],
          some ⟨false, false, some "2000".toList, some [], some []⟩, none⟩) (by decide)⟩

/-! ## Validator: the cardinality table -/

/-- The loop body of `validateCard` on a property with all its containers: the parameter
test, then the branch the name selects. -/
theorem validateProperty_branch (c : Counters) (name group : List Char)
    (params : List Parameter) (values : List (List Char)) :
    validateProperty c ⟨some name, some group, some params, some values⟩ =
      if params.any emptyParameter then .error .INV_PROP
      else branchStep (branchOf name) c values := by
  unfold validateProperty branchOf
  dsimp only
  by_cases hp : params.any emptyParameter = true
  · rw [if_pos hp, if_pos hp]
  · rw [if_neg hp, if_neg hp]
    by_cases h0 : nameIs name "VERSION" = true
    · rw [if_pos h0, if_pos h0]
      rfl
    rw [if_neg h0, if_neg h0]
    by_cases h1 : (nameIs name "BEGIN" || nameIs name "END" || nameIs name "BDAY"
      || nameIs name "ANNIVERSARY") = true
    · rw [if_pos h1, if_pos h1]
      rfl
    rw [if_neg h1, if_neg h1]
    by_cases h2 : singleValueNames.any (nameIs name) = true
    · rw [if_pos h2, if_pos h2]
      rfl
    rw [if_neg h2, if_neg h2]
    by_cases h3 : nameIs name "KIND" = true
    · rw [if_pos h3, if_pos h3]
      rfl
    rw [if_neg h3, if_neg h3]
    by_cases h4 : nameIs name "PRODID" = true
    · rw [if_pos h4, if_pos h4]
      rfl
    rw [if_neg h4, if_neg h4]
    by_cases h5 : nameIs name "REV" = true
    · rw [if_pos h5, if_pos h5]
      rfl
    rw [if_neg h5, if_neg h5]
    by_cases h6 : nameIs name "UID" = true
    · rw [if_pos h6, if_pos h6]
      rfl
    rw [if_neg h6, if_neg h6]
    by_cases h7 : nameIs name "GENDER" = true
    · rw [if_pos h7, if_pos h7]
      rfl
    rw [if_neg h7, if_neg h7]
    by_cases h8 : nameIs name "CLIENTPIDMAP" = true
    · rw [if_pos h8, if_pos h8]
      rfl
    rw [if_neg h8, if_neg h8]
    by_cases h9 : nameIs name "N" = true
    · rw [if_pos h9, if_pos h9]
      rfl
    rw [if_neg h9, if_neg h9]
    by_cases h10 : nameIs name "ADR" = true
    · rw [if_pos h10, if_pos h10]
      rfl
    rw [if_neg h10, if_neg h10]
    by_cases h11 : (nameIs name "ORG" || nameIs name "TEL") = true
    · rw [if_pos h11, if_pos h11]
      rfl
    rw [if_neg h11, if_neg h11]
    rfl

theorem nameIs_congr (name : List Char) (s : String) (hn : NUL ∉ name) (hs : NUL ∉ s.toList)
    (h : nameIs name s = true) (t : String) (ht : NUL ∉ t.toList) :
    nameIs name t = nameIs s.toList t := by
  have e := (strcasecmp_eq_zero_iff name s.toList hn hs).mp (by simpa [nameIs] using h)
  have h1 := strcasecmp_eq_zero_iff name t.toList hn ht
  have h2 := strcasecmp_eq_zero_iff s.toList t.toList hs ht
  rw [e] at h1
  unfold nameIs
  rw [decide_eq_decide]
  exact h1.trans h2.symm

/-- A name that compares equal to `s` selects the branch that `s` selects. -/
theorem branchOf_congr (name : List Char) (s : String) (hn : NUL ∉ name) (hs : NUL ∉ s.toList)
    (h : nameIs name s = true) : branchOf name = branchOf s.toList := by
  have e := nameIs_congr name s hn hs h
  unfold branchOf
  simp only [singleValueNames, List.any_cons, List.any_nil,
    e "VERSION" (by decide), e "BEGIN" (by decide), e "END" (by decide), e "BDAY" (by decide),
    e "ANNIVERSARY" (by decide), e "SOURCE" (by decide), e "XML" (by decide), e "FN" (by decide),
    e "NICKNAME" (by decide), e "PHOTO" (by decide), e "EMAIL" (by decide), e "IMPP" (by decide),
    e "LANG" (by decide), e "TZ" (by decide), e "GEO" (by decide), e "TITLE" (by decide),
    e "ROLE" (by decide), e "LOGO" (by decide), e "MEMBER" (by decide), e "RELATED" (by decide),
    e "CATEGORIES" (by decide), e "NOTE" (by decide), e "SOUND" (by decide), e "URL" (by decide),
    e "KEY" (by decide), e "FBURL" (by decide), e "CALADRURI" (by decide),
    e "CALURI" (by decide), e "KIND" (by decide), e "PRODID" (by decide), e "REV" (by decide),
    e "UID" (by decide), e "GENDER" (by decide), e "CLIENTPIDMAP" (by decide), e "N" (by decide),
    e "ADR" (by decide), e "ORG" (by decide), e "TEL" (by decide)]

/-- A name that compares equal to `s` has the rule of `s`. -/
theorem countRule_congr (name : List Char) (s : String) (hn : NUL ∉ name)
    (hs : NUL ∉ s.toList) (h : nameIs name s = true) : countRule name = countRule s.toList := by
  have e := nameIs_congr name s hn hs h
  unfold countRule
  simp only [oneValueNames, List.any_cons, List.any_nil,
    e "SOURCE" (by decide), e "XML" (by decide), e "FN" (by decide), e "NICKNAME" (by decide),
    e "PHOTO" (by decide), e "EMAIL" (by decide), e "IMPP" (by decide), e "LANG" (by decide),
    e "TZ" (by decide), e "GEO" (by decide), e "TITLE" (by decide), e "ROLE" (by decide),
    e "LOGO" (by decide), e "MEMBER" (by decide), e "RELATED" (by decide),
    e "CATEGORIES" (by decide), e "NOTE" (by decide), e "SOUND" (by decide), e "URL" (by decide),
    e "KEY" (by decide), e "FBURL" (by decide), e "CALADRURI" (by decide),
    e "CALURI" (by decide), e "KIND" (by decide), e "PRODID" (by decide), e "REV" (by decide),
    e "UID" (by decide), e "N" (by decide), e "GENDER" (by decide), e "CLIENTPIDMAP" (by decide),
    e "ADR" (by decide), e "ORG" (by decide), e "TEL" (by decide)]

theorem tableNames_branch :
    ∀ s ∈ tableNames, NUL ∉ s.toList ∧ branchRule (branchOf s.toList) = countRule s.toList := by
  decide

theorem countRule_mem (name : List Char) (r : CountRule) (h : countRule name = some r) :
    ∃ s ∈ tableNames, nameIs name s = true := by
  unfold countRule at h
  split at h
  · rename_i h1
    rw [List.any_eq_true] at h1
    obtain ⟨s, hs, hn⟩ := h1
    exact ⟨s, by simp only [tableNames, List.mem_append]; exact Or.inl hs, hn⟩
  · split at h
    · rename_i h1
      exact ⟨"N", by decide, h1⟩
    · split at h
      · rename_i h1
        exact ⟨"GENDER", by decide, h1⟩
      · split at h
        · rename_i h1
          exact ⟨"CLIENTPIDMAP", by decide, h1⟩
        · split at h
          · rename_i h1
            exact ⟨"ADR", by decide, h1⟩
          · split at h
            · rename_i h1
              rw [Bool.or_eq_true] at h1
              rcases h1 with h1 | h1
              · exact ⟨"ORG", by decide, h1⟩
              · exact ⟨"TEL", by decide, h1⟩
            · exact absurd h (by simp)

/-- The branch a listed name selects enforces the rule the table gives for the name. -/
theorem branchRule_of_countRule (name : List Char) (r : CountRule) (hn : NUL ∉ name)
    (h : countRule name = some r) : branchRule (branchOf name) = some r := by
  obtain ⟨s, hs, hname⟩ := countRule_mem name r h
  obtain ⟨hN, ht⟩ := tableNames_branch s hs
  rw [branchOf_congr name s hn hN hname, ht, ← countRule_congr name s hn hN hname, h]

theorem any_emptyParameter_false (params : List Parameter)
    (h : ∀ q ∈ params, emptyParameter q = false) : params.any emptyParameter = false := by
  rw [List.any_eq_false]
  intro q hq
  rw [h q hq]
  simp

/-- What the validator answers on one property whose parameters are fine when no counter has
been raised: the rule of the branch decides. -/
theorem validateProperties_single (b : Branch) (r : CountRule) (values : List (List Char))
    (hb : branchRule b = some r) :
    (match branchStep b ⟨0, 0, 0, 0, 0, 0⟩ values with
      | .error code => code
      | .ok _ => VCardErrorCode.OK)
      = if r.holds values.length then VCardErrorCode.OK else VCardErrorCode.INV_PROP := by
  cases b <;> simp only [branchRule] at hb <;>
    first
    | (obtain rfl := Option.some.inj hb
       simp only [branchStep, CountRule.holds, getLength]
       split_ifs <;>
         simp only [beq_iff_eq, Bool.or_eq_true, decide_eq_true_eq, gt_iff_lt, ne_eq] at * <;>
         first | rfl | (exfalso; omega))
    | exact Option.noConfusion hb

/-- C15: value-count rule of `validateCard`.  For every card with `fn` present, no birthday
and no anniversary, whose `optionalProperties` holds exactly one property with all four
containers present and no empty parameter, and whose name the cardinality table lists (the
name is a C string and is compared without regard to case): `validateCard` returns OK when
the number of values satisfies the rule of the table for the name, and INV_PROP otherwise.
The rule is exactly 1 for SOURCE, XML, FN, NICKNAME, PHOTO, EMAIL, IMPP, LANG, TZ, GEO,
TITLE, ROLE, LOGO, MEMBER, RELATED, CATEGORIES, NOTE, SOUND, URL, KEY, FBURL, CALADRURI,
CALURI, KIND, PRODID, REV, UID; exactly 5 for N; 1 or 2 for GENDER; exactly 2 for
CLIENTPIDMAP; exactly 7 for ADR; at least 1 for ORG and TEL. -/
theorem validateCard_value_count (fn : Property) (name group : List Char)
    (params : List Parameter) (values : List (List Char)) (r : CountRule)
    (hname : NUL ∉ name) (hparams : ∀ q ∈ params, emptyParameter q = false)
    (hrule : countRule name = some r) :
    validateCard (some ⟨some fn, some [⟨some name, some group, some params, some values⟩],
        none, none⟩)
      = if r.holds values.length then VCardErrorCode.OK else VCardErrorCode.INV_PROP := by
  have hb := branchRule_of_countRule name r hname hrule
  have hs := validateProperties_single (branchOf name) r values hb
  unfold validateCard
  simp only [Option.any_none, Bool.false_eq_true, if_false, validateProperties,
    validateProperty_branch, any_emptyParameter_false params hparams]
  refine Eq.trans ?_ hs
  cases branchStep (branchOf name) ⟨0, 0, 0, 0, 0, 0⟩ values <;> rfl

theorem validateCard_value_count_witness :
    (NUL ∉ "n".toList ∧
      (∀ q ∈ [(⟨some "SORT-AS".toList, some "x".toList⟩ : Parameter)],
        emptyParameter q = false) ∧
      countRule "n".toList = some (CountRule.exactly 5)) ∧
    validateCard (some ⟨some ⟨some "FN".toList, some [], some [], some ["x".toList]⟩,
        some [⟨some "n".toList, some [], some [⟨some "SORT-AS".toList, some "x".toList⟩],
          some ["a".toList, "b".toList, "c".toList, "d".toList]⟩], none, none⟩)
      = VCardErrorCode.INV_PROP :=
  ⟨⟨by decide, by decide, by decide⟩,
    validateCard_value_count ⟨some "FN".toList, some [], some [], some ["x".toList]⟩
      "n".toList [] [⟨some "SORT-AS".toList, some "x".toList⟩]
      ["a".toList, "b".toList, "c".toList, "d".toList] (CountRule.exactly 5)
      (by decide) (by decide) (by decide)⟩

/-! ## Validator: occurrences -/

theorem branchCount_cons (b : Branch) (name group : List Char) (params : List Parameter)
    (values : List (List Char)) (ps : List Property) :
    branchCount b (⟨some name, some group, some params, some values⟩ :: ps)
      = branchCount b ps + if branchOf name = b then 1 else 0 := by
  unfold branchCount
  rw [List.countP_cons]
  simp

/-- The loop of `validateCard` over properties that each satisfy their value-count rule,
started with any counters: the result is OK when no counter would pass one. -/
theorem validateProperties_once (ps : List Property) :
    ∀ c : Counters, (∀ p ∈ ps, RuleOK p) →
      (∀ b ∈ onceBranches, 0 ≤ counterOf c b ∧ counterOf c b ≤ 1) →
      validateProperties c ps =
        if ∀ b ∈ onceBranches, counterOf c b + branchCount b ps ≤ 1 then VCardErrorCode.OK
        else VCardErrorCode.INV_PROP := by
  induction ps with
  | nil =>
    intro c _ hc
    simp only [onceBranches, List.forall_mem_cons, List.not_mem_nil, false_imp_iff,
      implies_true, and_true, counterOf] at hc
    have : ∀ b ∈ onceBranches, counterOf c b + ((branchCount b [] : Nat) : Int) ≤ 1 := by
      simp only [onceBranches, List.forall_mem_cons, List.not_mem_nil, false_imp_iff,
        implies_true, and_true, counterOf, branchCount, List.countP_nil]
      omega
    rw [validateProperties, if_pos this]
  | cons p ps ih =>
    intro c hps hc
    obtain ⟨name, group, params, values, r, rfl, hname, hparams, hrule, hholds⟩ :=
      hps _ (List.mem_cons_self _ _)
    have hb := branchRule_of_countRule name r hname hrule
    have ih1 := fun c1 h => ih c1 (fun q hq => hps q (List.mem_cons_of_mem _ hq)) h
    rw [validateProperties, validateProperty_branch, any_emptyParameter_false params hparams]
    simp only [Bool.false_eq_true, if_false]
    simp only [onceBranches, List.forall_mem_cons, List.not_mem_nil, false_imp_iff,
      implies_true, and_true, counterOf, branchCount_cons] at hc ih1 ⊢
    cases hbr : branchOf name <;> rw [hbr] at hb <;> simp only [branchRule] at hb
    all_goals first
      | exact Option.noConfusion hb
      | (obtain rfl := Option.some.inj hb
         simp only [branchStep, CountRule.holds, getLength, beq_iff_eq, Bool.or_eq_true,
           decide_eq_true_eq, reduceCtorEq, if_true, if_false, Nat.add_zero, gt_iff_lt,
           ne_eq] at hholds ⊢
         split_ifs <;> (try dsimp only) <;> (try rw [ih1]) <;> (try dsimp only at *) <;>
           (try split_ifs) <;> first | rfl | omega)

theorem tableNames_once :
    ∀ t ∈ tableNames, ∀ s ∈ onceNames, NUL ∉ s.toList ∧
      nameIs t.toList s = decide (branchOf t.toList = branchOf s.toList) := by
  decide

/-- On a name the table lists, the test for one of the names that may occur once is the test
for its branch. -/
theorem nameIs_eq_branch (name : List Char) (r : CountRule) (hn : NUL ∉ name)
    (hrule : countRule name = some r) (s : String) (hs : s ∈ onceNames) :
    nameIs name s = decide (branchOf name = branchOf s.toList) := by
  obtain ⟨t, ht, hname⟩ := countRule_mem name r hrule
  obtain ⟨hN, _⟩ := tableNames_branch t ht
  obtain ⟨hsN, he⟩ := tableNames_once t ht s hs
  rw [nameIs_congr name t hn hN hname s hsN, branchOf_congr name t hn hN hname, he]

theorem occurrences_eq_branchCount (ps : List Property) (hps : ∀ p ∈ ps, RuleOK p)
    (s : String) (hs : s ∈ onceNames) :
    occurrences s ps = branchCount (branchOf s.toList) ps := by
  unfold occurrences branchCount
  apply List.countP_congr
  intro p hp
  obtain ⟨name, group, params, values, r, rfl, hname, _, hrule, _⟩ := hps p hp
  simp only [Option.any_some, nameIs_eq_branch name r hname hrule s hs]

theorem onceBranches_eq : onceBranches = onceNames.map (fun s => branchOf s.toList) := by
  decide

/-- C16: occurrence rule of `validateCard`.  For every card with `fn` present, no birthday
and no anniversary, whose optional properties each satisfy on their own the value-count rule
for their name: `validateCard` returns OK when none of the names KIND, PRODID, REV, UID, N,
GENDER, compared with `strcasecmp`, occurs on more than one property, and INV_PROP
otherwise.  The other names of the table may occur any number of times. -/
theorem validateCard_occurrence (fn : Property) (ps : List Property)
    (hps : ∀ p ∈ ps, RuleOK p) :
    validateCard (some ⟨some fn, some ps, none, none⟩)
      = if ∀ s ∈ onceNames, occurrences s ps ≤ 1 then VCardErrorCode.OK
        else VCardErrorCode.INV_PROP := by
  have h := validateProperties_once ps ⟨0, 0, 0, 0, 0, 0⟩ hps (by
    simp only [onceBranches, List.forall_mem_cons, List.not_mem_nil, false_imp_iff,
      implies_true, and_true, counterOf]
    omega)
  have hiff : (∀ b ∈ onceBranches, counterOf ⟨0, 0, 0, 0, 0, 0⟩ b + ((branchCount b ps : Nat) : Int) ≤ 1)
      ↔ ∀ s ∈ onceNames, occurrences s ps ≤ 1 := by
    rw [onceBranches_eq]
    simp only [List.forall_mem_map]
    constructor
    · intro hb s hs
      have := hb s hs
      rw [occurrences_eq_branchCount ps hps s hs]
      have h0 : 0 ≤ counterOf ⟨0, 0, 0, 0, 0, 0⟩ (branchOf s.toList) := by
        cases branchOf s.toList <;> simp [counterOf]
      omega
    · intro hn s hs
      have := hn s hs
      rw [occurrences_eq_branchCount ps hps s hs] at this
      have h0 : counterOf ⟨0, 0, 0, 0, 0, 0⟩ (branchOf s.toList) = 0 := by
        cases branchOf s.toList <;> simp [counterOf]
      omega
  unfold validateCard
  simp only [Option.any_none, Bool.false_eq_true, if_false]
  rw [h]
  by_cases hc : ∀ s ∈ onceNames, occurrences s ps ≤ 1
  · rw [if_pos hc, if_pos (hiff.mpr hc)]
  · rw [if_neg hc, if_neg (fun hb => hc (hiff.mp hb))]

theorem validateCard_occurrence_witness :
    (∀ p ∈ [(⟨some "TEL".toList, some [], some [], some ["1".toList]⟩ : Property),
        ⟨some "tel".toList, some [], some [], some ["2".toList, "3".toList]⟩,
        ⟨some "KIND".toList, some [], some [], some ["individual".toList]⟩,
        ⟨some "kind".toList, some [], some [], some ["org".toList]⟩], RuleOK p) ∧
    validateCard (some ⟨some ⟨some "FN".toList, some [], some [], some ["x".toList]⟩,
        some [⟨some "TEL".toList, some [], some [], some ["1".toList]⟩,
          ⟨some "tel".toList, some [], some [], some ["2".toList, "3".toList]⟩,
          ⟨some "KIND".toList, some [], some [], some ["individual".toList]⟩,
          ⟨some "kind".toList, some [], some [], some ["org".toList]⟩], none, none⟩)
      = VCardErrorCode.INV_PROP ∧
    validateCard (some ⟨some ⟨some "FN".toList, some [], some [], some ["x".toList]⟩,
        some [⟨some "TEL".toList, some [], some [], some ["1".toList]⟩,
          ⟨some "tel".toList, some [], some [], some ["2".toList, "3".toList]⟩,
          ⟨some "KIND".toList, some [], some [], some ["individual".toList]⟩], none, none⟩)
      = VCardErrorCode.OK := by
  have hok : ∀ p ∈ [(⟨some "TEL".toList, some [], some [], some ["1".toList]⟩ : Property),
        ⟨some "tel".toList, some [], some [], some ["2".toList, "3".toList]⟩,
        ⟨some "KIND".toList, some [], some [], some ["individual".toList]⟩,
        ⟨some "kind".toList, some [], some [], some ["org".toList]⟩], RuleOK p := by
    intro p hp
    simp only [List.mem_cons, List.mem_singleton, List.not_mem_nil, or_false] at hp
    rcases hp with rfl | rfl | rfl | rfl
    · exact ⟨_, _, _, _, CountRule.atLeastOne, rfl, by decide, by decide, by decide, by decide⟩
    · exact ⟨_, _, _, _, CountRule.atLeastOne, rfl, by decide, by decide, by decide, by decide⟩
    · exact ⟨_, _, _, _, CountRule.exactly 1, rfl, by decide, by decide, by decide, by decide⟩
    · exact ⟨_, _, _, _, CountRule.exactly 1, rfl, by decide, by decide, by decide, by decide⟩
  exact ⟨hok,
    (validateCard_occurrence ⟨some "FN".toList, some [], some [], some ["x".toList]⟩ _
      hok).trans (by decide),
    by decide⟩

/-! ## Validator: dates -/

theorem validateDateTime_iff (d : DateTime) : validateDateTime d = true ↔ DateAccepted d := by
  obtain ⟨utc, isText, date, time, text⟩ := d
  unfold validateDateTime DateAccepted
  cases date with
  | none => simp
  | some date =>
    cases time with
    | none => simp
    | some time =>
      cases text with
      | none => simp
      | some text =>
        cases utc <;> cases isText <;> cases date <;> cases time <;> cases text <;> simp

theorem branchStep_error (b : Branch) (c : Counters) (values : List (List Char))
    (e : VCardErrorCode) (h : branchStep b c values = .error e) :
    e = VCardErrorCode.INV_PROP ∨ e = VCardErrorCode.INV_CARD := by
  cases b <;> simp only [branchStep] at h <;> (try split_ifs at h) <;>
    first
    | (injection h with h; exact Or.inl h.symm)
    | (injection h with h; exact Or.inr h.symm)

theorem validateProperty_error (c : Counters) (p : Property) (e : VCardErrorCode)
    (h : validateProperty c p = .error e) :
    e = VCardErrorCode.INV_PROP ∨ e = VCardErrorCode.INV_CARD := by
  obtain ⟨name, group, params, values⟩ := p
  cases name with
  | none => simp only [validateProperty] at h; injection h with h; exact Or.inl h.symm
  | some name =>
    cases group with
    | none => simp only [validateProperty] at h; injection h with h; exact Or.inl h.symm
    | some group =>
      cases params with
      | none => simp only [validateProperty] at h; injection h with h; exact Or.inl h.symm
      | some params =>
        cases values with
        | none => simp only [validateProperty] at h; injection h with h; exact Or.inl h.symm
        | some values =>
          rw [validateProperty_branch] at h
          split_ifs at h
          · injection h with h; exact Or.inl h.symm
          · exact branchStep_error _ _ _ _ h

/-- The loop over the optional properties answers OK, INV_PROP or INV_CARD. -/
theorem validateProperties_codes (ps : List Property) :
    ∀ c : Counters, validateProperties c ps = VCardErrorCode.OK ∨
      validateProperties c ps = VCardErrorCode.INV_PROP ∨
      validateProperties c ps = VCardErrorCode.INV_CARD := by
  induction ps with
  | nil => intro c; exact Or.inl rfl
  | cons p ps ih =>
    intro c
    rw [validateProperties]
    cases hv : validateProperty c p with
    | error e =>
      dsimp only
      rcases validateProperty_error c p e hv with h | h
      · exact Or.inr (Or.inl h)
      · exact Or.inr (Or.inr h)
    | ok c1 => exact ih c1

/-- C17, as amended: date rule of `validateCard`.  For every card with `fn` and
`optionalProperties` present, `validateCard` returns INV_DT exactly when the birthday or the
anniversary is present and is not accepted by `validateDateTime`, that is: one of its three
strings is missing, or `UTC` and `isText` are both true, or `isText` is true and the date or
the time is not empty, or `isText` is false and the text is not empty.  A `DateTime` with
`isText` false whose date and time are both empty is accepted; and every `DateTime` with its
three strings present that satisfies (i) exactly one of `isText` and a non-empty date or
time, (ii) not both `UTC` and `isText`, and has an empty text when `isText` is false, is
accepted. -/
theorem validateCard_date_rule (fn : Property) (ps : List Property)
    (b a : Option DateTime) :
    (validateCard (some ⟨some fn, some ps, b, a⟩) = VCardErrorCode.INV_DT ↔
      (∃ d, b = some d ∧ ¬ DateAccepted d) ∨ (∃ d, a = some d ∧ ¬ DateAccepted d)) ∧
    (∀ utc : Bool, DateAccepted ⟨utc, false, some [], some [], some []⟩) ∧
    (∀ d : DateTime, d.date ≠ none → d.time ≠ none → d.text ≠ none → ExactlyOneForm d →
      ¬ (d.UTC = true ∧ d.isText = true) → (d.isText = false → d.text = some []) →
      DateAccepted d) := by
  refine ⟨?_, ?_, ?_⟩
  · unfold validateCard
    dsimp only
    cases b with
    | none =>
      cases a with
      | none =>
        simp only [Option.any_none, Bool.false_eq_true, if_false]
        constructor
        · intro h
          rcases validateProperties_codes ps ⟨0, 0, 0, 0, 0, 0⟩ with h1 | h1 | h1 <;>
            rw [h1] at h <;> exact absurd h (by decide)
        · rintro (⟨d, hd, _⟩ | ⟨d, hd, _⟩) <;> exact absurd hd (by simp)
      | some da =>
        simp only [Option.any_none, Bool.false_eq_true, if_false, Option.any_some]
        by_cases hv : validateDateTime da = true
        · simp only [hv, Bool.not_true, Bool.false_eq_true, if_false]
          constructor
          · intro h
            rcases validateProperties_codes ps ⟨0, 0, 0, 0, 0, 0⟩ with h1 | h1 | h1 <;>
              rw [h1] at h <;> exact absurd h (by decide)
          · rintro (⟨d, hd, _⟩ | ⟨d, hd, hn⟩)
            · exact absurd hd (by simp)
            · simp only [Option.some.injEq] at hd
              subst hd
              exact absurd ((validateDateTime_iff da).mp hv) hn
        · simp only [Bool.not_eq_true] at hv
          simp only [hv, Bool.not_false, if_true, true_iff]
          right
          exact ⟨da, rfl, fun hacc => by
            rw [(validateDateTime_iff da).mpr hacc] at hv
            exact absurd hv (by decide)⟩
    | some db =>
      simp only [Option.any_some]
      by_cases hv : validateDateTime db = true
      · simp only [hv, Bool.not_true, Bool.false_eq_true, if_false]
        cases a with
        | none =>
          simp only [Option.any_none, Bool.false_eq_true, if_false]
          constructor
          · intro h
            rcases validateProperties_codes ps ⟨0, 0, 0, 0, 0, 0⟩ with h1 | h1 | h1 <;>
              rw [h1] at h <;> exact absurd h (by decide)
          · rintro (⟨d, hd, hn⟩ | ⟨d, hd, _⟩)
            · simp only [Option.some.injEq] at hd
              subst hd
              exact absurd ((validateDateTime_iff db).mp hv) hn
            · exact absurd hd (by simp)
        | some da =>
          simp only [Option.any_some]
          by_cases hva : validateDateTime da = true
          · simp only [hva, Bool.not_true, Bool.false_eq_true, if_false]
            constructor
            · intro h
              rcases validateProperties_codes ps ⟨0, 0, 0, 0, 0, 0⟩ with h1 | h1 | h1 <;>
                rw [h1] at h <;> exact absurd h (by decide)
            · rintro (⟨d, hd, hn⟩ | ⟨d, hd, hn⟩)
              · simp only [Option.some.injEq] at hd
                subst hd
                exact absurd ((validateDateTime_iff db).mp hv) hn
              · simp only [Option.some.injEq] at hd
                subst hd
                exact absurd ((validateDateTime_iff da).mp hva) hn
          · simp only [Bool.not_eq_true] at hva
            simp only [hva, Bool.not_false, if_true, true_iff]
            right
            exact ⟨da, rfl, fun hacc => by
              rw [(validateDateTime_iff da).mpr hacc] at hva
              exact absurd hva (by decide)⟩
      · simp only [Bool.not_eq_true] at hv
        simp only [hv, Bool.not_false, if_true, true_iff]
        left
        exact ⟨db, rfl, fun hacc => by
          rw [(validateDateTime_iff db).mpr hacc] at hv
          exact absurd hv (by decide)⟩
  · intro utc
    exact ⟨[], [], [], rfl, rfl, rfl, by simp, by simp, fun _ => rfl⟩
  · intro d hdate htime htext hone hutc hplain
    obtain ⟨utc, isText, date, time, text⟩ := d
    cases date with
    | none => exact absurd rfl hdate
    | some date =>
      cases time with
      | none => exact absurd rfl htime
      | some time =>
        cases text with
        | none => exact absurd rfl htext
        | some text =>
          refine ⟨date, time, text, rfl, rfl, rfl, hutc, ?_, ?_⟩
          · rintro ⟨ht, hdt⟩
            simp only at ht
            subst ht
            simp only [ExactlyOneForm, hasDateOrTime, Option.any_some] at hone
            rcases hdt with h | h <;> simp [h] at hone
          · intro ht
            simpa using hplain ht

theorem validateCard_date_rule_witness :
    ((⟨true, false, some "19960415".toList, some "143000".toList, some []⟩ : DateTime).date
        ≠ none ∧
      ExactlyOneForm ⟨true, false, some "19960415".toList, some "143000".toList, some []⟩ ∧
      ¬ ((⟨true, false, some "19960415".toList, some "143000".toList, some []⟩ : DateTime).UTC
          = true ∧
        (⟨true, false, some "19960415".toList, some "143000".toList, some []⟩ : DateTime).isText
          = true)) ∧
    DateAccepted ⟨true, false, some "19960415".toList, some "143000".toList, some []⟩ :=
  ⟨⟨by decide, by unfold ExactlyOneForm; decide, by decide⟩,
    (validateCard_date_rule ⟨some "FN".toList, some [], some [], some ["x".toList]⟩ [] none
      none).2.2 ⟨true, false, some "19960415".toList, some "143000".toList, some []⟩
      (by decide) (by decide) (by decide) (by unfold ExactlyOneForm; decide) (by decide)
      (by decide)⟩

/-- C17 fails as stated: a birthday with `isText` false and empty date and time, which is
what the line `BDAY:T` gives, satisfies neither half of (i), and `validateCard` returns OK,
not INV_DT. -/
theorem validateCard_date_rule_counterexample :
    ¬ ExactlyOneForm ⟨false, false, some [], some [], some []⟩ ∧
    validateCard (some ⟨some ⟨some "FN".toList, some [], some [], some ["x".toList]⟩, some [],
        some ⟨false, false, some [], some [], some []⟩, none⟩) = VCardErrorCode.OK ∧
    createProperty newCard "BDAY:T".toList
      = some (some { newCard with birthday := some ⟨false, false, some [], some [], some []⟩ }) := by
  unfold ExactlyOneForm
  decide

/-! ## Validator: rejected properties -/

/-- When the loop answers OK, its body has accepted every property. -/
theorem validateProperties_OK_mem (ps : List Property) :
    ∀ c : Counters, validateProperties c ps = VCardErrorCode.OK →
      ∀ p ∈ ps, ∃ c0 c1, validateProperty c0 p = .ok c1 := by
  induction ps with
  | nil => intro c _ p hp; simp at hp
  | cons q ps ih =>
    intro c h p hp
    rw [validateProperties] at h
    cases hv : validateProperty c q with
    | error e =>
      rw [hv] at h
      dsimp only at h
      rcases validateProperty_error c q e hv with he | he <;> rw [he] at h <;>
        exact absurd h (by decide)
    | ok c1 =>
      rw [hv] at h
      dsimp only at h
      rcases List.mem_cons.mp hp with rfl | hp
      · exact ⟨c, c1, hv⟩
      · exact ih c1 h p hp

theorem branchOf_rejected (n : List Char) (s : String) (hs : s ∈ rejectedNames)
    (h : nameIs n s = true) : branchOf n = Branch.version ∨ branchOf n = Branch.structural := by
  unfold branchOf
  by_cases h0 : nameIs n "VERSION" = true
  · left
    rw [if_pos h0]
  · right
    have h1 : (nameIs n "BEGIN" || nameIs n "END" || nameIs n "BDAY"
        || nameIs n "ANNIVERSARY") = true := by
      simp only [rejectedNames, List.mem_cons, List.mem_singleton, List.not_mem_nil,
        or_false] at hs
      rcases hs with rfl | rfl | rfl | rfl | rfl
      · exact absurd h h0
      · simp [h]
      · simp [h]
      · simp [h]
      · simp [h]
    rw [if_neg h0, if_pos h1]

theorem singleValueNames_sub : ∀ s ∈ singleValueNames, s ∈ tableNames := by decide

theorem branchOf_unlisted (n : List Char) (h : ∀ s ∈ tableNames, nameIs n s = false) :
    branchOf n = Branch.version ∨ branchOf n = Branch.structural ∨
      branchOf n = Branch.unknown := by
  have h1 : singleValueNames.any (nameIs n) = false := by
    rw [List.any_eq_false]
    intro s hs
    rw [h s (singleValueNames_sub s hs)]
    decide
  unfold branchOf
  rw [h1, h "KIND" (by decide), h "PRODID" (by decide), h "REV" (by decide),
    h "UID" (by decide), h "GENDER" (by decide), h "CLIENTPIDMAP" (by decide),
    h "N" (by decide), h "ADR" (by decide), h "ORG" (by decide), h "TEL" (by decide)]
  by_cases h0 : nameIs n "VERSION" = true
  · left
    rw [if_pos h0]
  · right
    rw [if_neg h0]
    by_cases h2 : (nameIs n "BEGIN" || nameIs n "END" || nameIs n "BDAY"
        || nameIs n "ANNIVERSARY") = true
    · left
      rw [if_pos h2]
    · right
      rw [if_neg h2]
      rfl

/-- The loop body accepts no property of the three kinds. -/
theorem validateProperty_bad (c c1 : Counters) (p : Property) (hbad : BadProperty p) :
    validateProperty c p ≠ .ok c1 := by
  intro hv
  obtain ⟨name, group, params, values⟩ := p
  cases name with
  | none => simp [validateProperty] at hv
  | some name =>
    cases group with
    | none => simp [validateProperty] at hv
    | some group =>
      cases params with
      | none => simp [validateProperty] at hv
      | some params =>
        cases values with
        | none => simp [validateProperty] at hv
        | some values =>
          rw [validateProperty_branch] at hv
          by_cases hp : params.any emptyParameter = true
          · rw [if_pos hp] at hv
            exact absurd hv (by simp)
          · rw [if_neg hp] at hv
            rcases hbad with ⟨n, hn, s, hs, hsn⟩ | ⟨n, hn, hall⟩ | ⟨ps, q, hps, hq, hempty⟩
            · simp only [Option.some.injEq] at hn
              subst hn
              rcases branchOf_rejected name s hs hsn with hb | hb <;> rw [hb] at hv <;>
                simp [branchStep] at hv
            · simp only [Option.some.injEq] at hn
              subst hn
              rcases branchOf_unlisted name hall with hb | hb | hb <;> rw [hb] at hv <;>
                simp [branchStep] at hv
            · simp only [Option.some.injEq] at hps
              subst hps
              apply hp
              rw [List.any_eq_true]
              refine ⟨q, hq, ?_⟩
              obtain ⟨qn, qv⟩ := q
              rcases hempty with h | h
              · simp only at h
                subst h
                cases qv <;> simp [emptyParameter]
              · simp only at h
                subst h
                cases qn <;> simp [emptyParameter]

/-- C18: for every card whose `optionalProperties` holds a property whose name compares
equal under `strcasecmp` to VERSION, BEGIN, END, BDAY or ANNIVERSARY, or to none of the names
of the cardinality table, or that has a parameter with an empty name or an empty value,
`validateCard` does not return OK. -/
theorem validateCard_rejects (card : Card) (ps : List Property) (p : Property)
    (hps : card.optionalProperties = some ps) (hp : p ∈ ps) (hbad : BadProperty p) :
    validateCard (some card) ≠ VCardErrorCode.OK := by
  intro h
  obtain ⟨fn, props, b, a⟩ := card
  simp only at hps
  subst hps
  unfold validateCard at h
  cases fn with
  | none => simp at h
  | some fn =>
    dsimp only at h
    split_ifs at h
    obtain ⟨c0, c1, hv⟩ := validateProperties_OK_mem ps _ h p hp
    exact validateProperty_bad c0 c1 p hbad hv

theorem validateCard_rejects_witness :
    ((⟨some ⟨some "FN".toList, some [], some [], some ["x".toList]⟩,
        some [⟨some "TEL".toList, some [], some [], some ["1".toList]⟩,
          ⟨some "X-CUSTOM".toList, some [], some [], some ["foo".toList]⟩], none, none⟩ :
        Card).optionalProperties
        = some [⟨some "TEL".toList, some [], some [], some ["1".toList]⟩,
          ⟨some "X-CUSTOM".toList, some [], some [], some ["foo".toList]⟩] ∧
      (⟨some "X-CUSTOM".toList, some [], some [], some ["foo".toList]⟩ : Property)
        ∈ [(⟨some "TEL".toList, some [], some [], some ["1".toList]⟩ : Property),
          ⟨some "X-CUSTOM".toList, some [], some [], some ["foo".toList]⟩] ∧
      BadProperty ⟨some "X-CUSTOM".toList, some [], some [], some ["foo".toList]⟩) ∧
    validateCard (some ⟨some ⟨some "FN".toList, some [], some [], some ["x".toList]⟩,
        some [⟨some "TEL".toList, some [], some [], some ["1".toList]⟩,
          ⟨some "X-CUSTOM".toList, some [], some [], some ["foo".toList]⟩], none, none⟩)
      ≠ VCardErrorCode.OK :=
  ⟨⟨rfl, by decide, Or.inr (Or.inl ⟨_, rfl, by decide⟩)⟩,
    validateCard_rejects _ _ ⟨some "X-CUSTOM".toList, some [], some [], some ["foo".toList]⟩
      rfl (by decide) (Or.inr (Or.inl ⟨_, rfl, by decide⟩))⟩

/-! ## Scenario E -/

/-- An FN line without group and parameters whose value is one token. -/
theorem createProperty_FN_value (card : Card) (v : List Char) (hne : v ≠ [])
    (hv : ∀ c ∈ v, c ≠ ';' ∧ c ≠ NUL) :
    createProperty card ("FN:".toList ++ v) = some (some { card with
      fn := some ⟨some "FN".toList, some [], some [], some [v]⟩ }) := by
  have hvN : NUL ∉ v := fun h => (hv _ h).2 rfl
  obtain ⟨h, hph, hs⟩ := parseHead_wf [] "FN".toList [] v (by unfold TokenOK; decide)
    (by unfold TokenOK; decide) (by decide) (by simp) hvN
  have hline : propertyLine [] "FN".toList [] v = "FN:".toList ++ v := by
    simp [propertyLine, groupText, paramsText]
  rw [hline] at hph
  have hd := dispatch_FN_any card h [] "FN".toList [] [] v [] (by simpa using hs) (by decide)
    (by simp) hv (Or.inl rfl) (fun _ => rfl) (by decide)
  rw [if_neg hne] at hd
  unfold createProperty
  rw [hph]
  exact hd

/-- The line `N:Public;John;Q;;` of Scenario E is stored with five values. -/
theorem createProperty_N_scenario (card : Card) :
    createProperty card "N:Public;John;Q;;".toList = some (some { card with
      optionalProperties := insertBack card.optionalProperties
        ⟨some "N".toList, some [], some [],
          some ["Public".toList, "John".toList, "Q".toList, [], []]⟩ }) := by
  obtain ⟨h, hph, hs⟩ := parseHead_wf [] "N".toList [] "Public;John;Q;;".toList
    (by unfold TokenOK; decide) (by unfold TokenOK; decide) (by decide) (by simp) (by decide)
  have hline : propertyLine [] "N".toList [] "Public;John;Q;;".toList
      = "N:Public;John;Q;;".toList := by decide
  rw [hline] at hph
  have hd := dispatch_generic card h [] "N".toList [] "Public;John;Q;;".toList
    (by simpa using hs) (by decide) (by decide) (by decide) (by decide) (by decide) (by decide)
  have hvals : parsePropertyValues [] "N".toList "Public;John;Q;;".toList
      = ["Public".toList, "John".toList, "Q".toList, [], []] := by decide
  rw [hvals] at hd
  unfold createProperty
  rw [hph]
  exact hd

theorem validateCard_fn_N (p : Property) :
    validateCard (some ⟨some p, some [⟨some "N".toList, some [], some [],
      some ["Public".toList, "John".toList, "Q".toList, [], []]⟩], none, none⟩)
      = VCardErrorCode.OK := rfl

/-- C19, as amended: Scenario E.  For every full-name value `v` that is not empty and holds
no semicolon, CR, LF or NUL, `createCard` on the text `BEGIN:VCARD`, `VERSION:4.0`, `FN:v`,
`N:Public;John;Q;;`, `END:VCARD` (each line CRLF-terminated) returns OK; the N property of
the card has the five values `Public`, `John`, `Q`, `""`, `""` (four semicolons separate
five values), which is the number N requires, and `validateCard` returns OK on the card. -/
theorem createCard_scenario_E (v : List Char) (hne : v ≠ [])
    (hv : ∀ c ∈ v, c ≠ ';' ∧ c ≠ CR ∧ c ≠ LF ∧ c ≠ NUL) :
    createCard ("BEGIN:VCARD\r\nVERSION:4.0\r\nFN:".toList ++ v ++
        "\r\nN:Public;John;Q;;\r\nEND:VCARD\r\n".toList)
        = some (VCardErrorCode.OK,
            some ⟨some ⟨some "FN".toList, some [], some [], some [v]⟩,
              some [⟨some "N".toList, some [], some [],
                some ["Public".toList, "John".toList, "Q".toList, [], []]⟩], none, none⟩) ∧
      validateCard (some ⟨some ⟨some "FN".toList, some [], some [], some [v]⟩,
          some [⟨some "N".toList, some [], some [],
            some ["Public".toList, "John".toList, "Q".toList, [], []]⟩], none, none⟩)
        = VCardErrorCode.OK := by
  refine ⟨?_, validateCard_fn_N _⟩
  have hfile : "BEGIN:VCARD\r\nVERSION:4.0\r\nFN:".toList ++ v ++
        "\r\nN:Public;John;Q;;\r\nEND:VCARD\r\n".toList
      = fileText (Folded.mk "BEGIN:VCARD".toList [] :: Folded.mk "VERSION:4.0".toList [] ::
          [Folded.mk ("FN:".toList ++ v) [], Folded.mk "N:Public;John;Q;;".toList []]
            ++ [Folded.mk "END:VCARD".toList []]) := by
    simp [fileText, Folded.text, crlf, contsText, CR, LF]
  have h0 : (Folded.mk "BEGIN:VCARD".toList []).Clean := by
    simp only [Folded.Clean, PieceOK]; decide
  have hfnok : PieceOK ("FN:".toList ++ v) := by
    intro c hc
    rcases List.mem_append.mp hc with hc | hc
    · have hlit : ∀ x ∈ "FN:".toList, x ≠ CR ∧ x ≠ LF ∧ x ≠ NUL := by decide
      exact hlit c hc
    · exact ⟨(hv c hc).2.1, (hv c hc).2.2.1, (hv c hc).2.2.2⟩
  have hok : ∀ l ∈ Folded.mk "VERSION:4.0".toList [] ::
      [Folded.mk ("FN:".toList ++ v) [], Folded.mk "N:Public;John;Q;;".toList []]
      ++ [Folded.mk "END:VCARD".toList []], l.Clean ∧ l.Starts := by
    intro l hl
    simp only [List.cons_append, List.nil_append, List.mem_cons, List.mem_singleton,
      List.not_mem_nil, or_false] at hl
    rcases hl with rfl | rfl | rfl | rfl
    · simp only [Folded.Clean, Folded.Starts, PieceOK]; decide
    · refine ⟨⟨hfnok, by simp⟩, ?_⟩
      simp [Folded.Starts]
    · simp only [Folded.Clean, Folded.Starts, PieceOK]; decide
    · simp only [Folded.Clean, Folded.Starts, PieceOK]; decide
  have hlen : 2 ≤ (Folded.mk "END:VCARD".toList []).lastPhysical.length := by decide
  have hfn := createProperty_FN_value newCard v hne (fun c hc => ⟨(hv c hc).1, (hv c hc).2.2.2⟩)
  have hn := createProperty_N_scenario { newCard with
    fn := some ⟨some "FN".toList, some [], some [], some [v]⟩ }
  have hall : parseAll newCard ([Folded.mk ("FN:".toList ++ v) [],
      Folded.mk "N:Public;John;Q;;".toList []].map Folded.logical)
      = some (some ⟨some ⟨some "FN".toList, some [], some [], some [v]⟩,
          some [⟨some "N".toList, some [], some [],
            some ["Public".toList, "John".toList, "Q".toList, [], []]⟩], none, none⟩) := by
    simp only [List.map_cons, List.map_nil, Folded.logical, List.flatten_nil, List.append_nil,
      parseAll, hfn, hn]
    rfl
  rw [hfile, createCard_eval _ _ _ _ h0 hok hlen, hall]
  have hb : ¬ (strcasecmp (Folded.mk "BEGIN:VCARD".toList []).logical "BEGIN:VCARD".toList ≠ 0) := by
    decide
  have hver : ¬ (strcasecmp (Folded.mk "VERSION:4.0".toList []).logical "VERSION:4.0".toList ≠ 0) := by
    decide
  have hend : ¬ (strcasecmp (Folded.mk "END:VCARD".toList []).logical "END:VCARD".toList ≠ 0) := by
    decide
  rw [if_neg hb, if_neg hver]
  dsimp only
  rw [if_neg (by simp), if_neg hend]

/-- Scenario E with the full name `J. Doe`, as an instance of the amended C19. -/
theorem createCard_scenario_E_witness :
    "J. Doe".toList ≠ [] ∧ (∀ c ∈ "J. Doe".toList, c ≠ ';' ∧ c ≠ CR ∧ c ≠ LF ∧ c ≠ NUL) ∧
    createCard ("BEGIN:VCARD\r\nVERSION:4.0\r\nFN:".toList ++ "J. Doe".toList ++
        "\r\nN:Public;John;Q;;\r\nEND:VCARD\r\n".toList)
        = some (VCardErrorCode.OK,
            some ⟨some ⟨some "FN".toList, some [], some [], some ["J. Doe".toList]⟩,
              some [⟨some "N".toList, some [], some [],
                some ["Public".toList, "John".toList, "Q".toList, [], []]⟩], none, none⟩) :=
  ⟨by decide, by decide,
    (createCard_scenario_E "J. Doe".toList (by decide) (by decide)).1⟩

/-- C19 fails as stated: on Scenario E the N property has five values, not four, and
`validateCard` returns OK, not INV_PROP; with one semicolon less the property has four
values and `validateCard` returns INV_PROP. -/
theorem createCard_scenario_E_counterexample :
    createCard "BEGIN:VCARD\r\nVERSION:4.0\r\nFN:J. Doe\r\nN:Public;John;Q;;\r\nEND:VCARD\r\n".toList
        = some (VCardErrorCode.OK,
            some ⟨some ⟨some "FN".toList, some [], some [], some ["J. Doe".toList]⟩,
              some [⟨some "N".toList, some [], some [],
                some ["Public".toList, "John".toList, "Q".toList, [], []]⟩], none, none⟩) ∧
    ["Public".toList, "John".toList, "Q".toList, [], []].length = 5 ∧
    validateCard (some ⟨some ⟨some "FN".toList, some [], some [], some ["J. Doe".toList]⟩,
        some [⟨some "N".toList, some [], some [],
          some ["Public".toList, "John".toList, "Q".toList, [], []]⟩], none, none⟩)
      = VCardErrorCode.OK ∧
    validateCard (some ⟨some ⟨some "FN".toList, some [], some [], some ["J. Doe".toList]⟩,
        some [⟨some "N".toList, some [], some [],
          some ["Public".toList, "John".toList, "Q".toList, []]⟩], none, none⟩)
      = VCardErrorCode.INV_PROP := by
  decide

/-! ## Serializer: layout -/

theorem paramsToString_eq (ps : List Parameter) :
    ∀ s : List Char, (∀ q ∈ ps, q.name ≠ none ∧ q.value ≠ none) →
      paramsToString ps s = some (s ++ (ps.map parameterText).flatten) := by
  induction ps with
  | nil => intro s _; simp [paramsToString]
  | cons q ps ih =>
    intro s h
    obtain ⟨qn, qv⟩ := q
    have hq := h ⟨qn, qv⟩ (by simp)
    cases qn with
    | none => exact absurd rfl hq.1
    | some n =>
      cases qv with
      | none => exact absurd rfl hq.2
      | some v =>
        rw [paramsToString]
        dsimp only
        rw [ih _ (fun x hx => h x (List.mem_cons_of_mem _ hx))]
        simp [parameterText]

theorem valuesToString_eq (vs : List (List Char)) :
    ∀ s : List Char, valuesToString vs s = s ++ (vs.map (fun v => v ++ [';'])).flatten := by
  induction vs with
  | nil => intro s; simp [valuesToString]
  | cons v vs ih =>
    intro s
    rw [valuesToString, ih]
    simp

theorem flatten_semicolons (vs : List (List Char)) (h : vs ≠ []) :
    (vs.map (fun v => v ++ [';'])).flatten = [';'].intercalate vs ++ [';'] := by
  induction vs with
  | nil => exact absurd rfl h
  | cons v vs ih =>
    cases vs with
    | nil => simp [List.intercalate]
    | cons w ws =>
      have := ih (by simp)
      simp only [List.map_cons, List.flatten_cons] at this ⊢
      rw [this]
      simp [List.intercalate, List.intersperse]

theorem set_last (x : List Char) (c d : Char) :
    (x ++ [c]).set ((x ++ [c]).length - 1) d = x ++ [d] := by
  have : (x ++ [c]).length - 1 = x.length := by simp
  rw [this]
  simp [set_append x [] c d]

/-- `propertyToString` on a property with at least one value. -/
theorem propertyToString_eq (p : Property) (h : Printable p) :
    propertyToString (some p) = some (some (lineOf p)) := by
  obtain ⟨name, group, params, values⟩ := p
  obtain ⟨hn, ⟨ps, hps, hq⟩, vs, hvs, hne⟩ := h
  simp only at hn hps hvs
  subst hps hvs
  cases name with
  | none => exact absurd rfl hn
  | some name =>
    simp only [propertyToString, paramsToString_eq ps name hq, valuesToString_eq,
      flatten_semicolons vs hne]
    have e : name ++ (ps.map parameterText).flatten ++ [':'] ++ ([';'].intercalate vs ++ [';'])
        = (name ++ (ps.map parameterText).flatten ++ [':'] ++ [';'].intercalate vs) ++ [';'] := by
      simp
    rw [e, set_last]
    simp [lineOf, crlf]

/-- `dateToString` on a date with its three strings: the value part and an LF. -/
theorem dateToString_eq (d : DateTime) (h : DatePrintable d) :
    dateToString (some d) = some (some (dateBody d ++ [LF])) := by
  obtain ⟨utc, isText, date, time, text⟩ := d
  obtain ⟨hd, ht, hx⟩ := h
  cases date with
  | none => exact absurd rfl hd
  | some date =>
    cases time with
    | none => exact absurd rfl ht
    | some time =>
      cases text with
      | none => exact absurd rfl hx
      | some text =>
        have hlast : ∀ x : List Char, (x ++ [LF]).set ((x ++ [LF]).length - 1) 'Z' ++ [LF]
            = x ++ ['Z'] ++ [LF] := fun x => by rw [set_last]
        cases utc <;> cases isText <;> cases time <;>
          simp [dateToString, dateBody, hlast]

/-- The block of `writeCard` that writes a date appends the line of the date. -/
theorem writeDate_eq (cardString : List Char) (textTag tag : String) (d : DateTime) :
    writeDate cardString textTag tag (some d) (some (dateBody d ++ [LF]))
      = cardString ++ crlf ((if d.isText then textTag.toList else tag.toList) ++ dateBody d) := by
  unfold writeDate
  dsimp only
  have e : cardString ++ (if d.isText = true then textTag.toList else tag.toList)
        ++ (dateBody d ++ [LF])
      = (cardString ++ (if d.isText = true then textTag.toList else tag.toList) ++ dateBody d)
        ++ [LF] := by simp
  rw [e, set_last]
  simp [crlf]

/-- The modelled `toString` on printable properties: their lines, in list order. -/
theorem toString_eq (ps : List Property) (h : ∀ p ∈ ps, Printable p) :
    toString (fun p => propertyToString (some p)) (some ps) = some ((ps.map lineOf).flatten) := by
  unfold toString
  dsimp only
  induction ps with
  | nil => rfl
  | cons p ps ih =>
    rw [List.foldr_cons, ih (fun q hq => h q (List.mem_cons_of_mem _ hq)),
      propertyToString_eq p (h p (List.mem_cons_self _ _))]
    simp

/-- C20: for every card with `fn` present and a property list present, whose properties (the
`fn` among them) each have their name, their parameters and at least one value, and whose
dates have their three strings, the text `writeCard` writes is exactly
`BEGIN:VCARD` CR LF `VERSION:4.0` CR LF, the FN line, the BDAY line when the birthday is
present and nothing when it is not, the ANNIVERSARY line when the anniversary is present and
nothing when it is not, one line for each optional property in list order, and `END:VCARD`
CR LF; every line ends in CR LF and nothing stands between the lines. -/
theorem writeCard_layout (fn : Property) (ps : List Property) (b a : Option DateTime)
    (hfn : Printable fn) (hps : ∀ p ∈ ps, Printable p)
    (hb : ∀ d, b = some d → DatePrintable d) (ha : ∀ d, a = some d → DatePrintable d) :
    writeCard ⟨some fn, some ps, b, a⟩
      = some ("BEGIN:VCARD\r\nVERSION:4.0\r\n".toList ++ lineOf fn ++
          (b.map (dateLine "BDAY")).getD [] ++ (a.map (dateLine "ANNIVERSARY")).getD [] ++
          (ps.map lineOf).flatten ++ "END:VCARD\r\n".toList) := by
  have hB : ∃ sb, dateToString b = some sb ∧ ∀ cs,
      writeDate cs "BDAY;VALUE=text:" "BDAY:" b sb = cs ++ (b.map (dateLine "BDAY")).getD [] := by
    cases b with
    | none => exact ⟨none, rfl, fun cs => by simp [writeDate]⟩
    | some d =>
      refine ⟨some (dateBody d ++ [LF]), dateToString_eq d (hb d rfl), fun cs => ?_⟩
      rw [writeDate_eq]
      cases hd : d.isText <;> simp [dateLine, hd]
  have hA : ∃ sa, dateToString a = some sa ∧ ∀ cs,
      writeDate cs "ANNIVERSARY;VALUE=text:" "ANNIVERSARY:" a sa
        = cs ++ (a.map (dateLine "ANNIVERSARY")).getD [] := by
    cases a with
    | none => exact ⟨none, rfl, fun cs => by simp [writeDate]⟩
    | some d =>
      refine ⟨some (dateBody d ++ [LF]), dateToString_eq d (ha d rfl), fun cs => ?_⟩
      rw [writeDate_eq]
      cases hd : d.isText <;> simp [dateLine, hd]
  obtain ⟨sb, hsb, hwb⟩ := hB
  obtain ⟨sa, hsa, hwa⟩ := hA
  unfold writeCard
  dsimp only
  rw [propertyToString_eq fn hfn, hsb, hsa, toString_eq ps hps]
  dsimp only
  rw [hwb, hwa]

theorem writeCard_layout_witness :
    (Printable ⟨some "FN".toList, some [], some [⟨some "A".toList, some "b".toList⟩],
        some ["J. Doe".toList]⟩ ∧
      (∀ p ∈ [(⟨some "TEL".toList, some [], some [], some ["1".toList]⟩ : Property),
          ⟨some "N".toList, some [], some [],
            some ["a".toList, "b".toList, "c".toList, [], []]⟩], Printable p) ∧
      (∀ d, some (⟨true, false, some "2000".toList, some "12".toList, some []⟩ : DateTime)
        = some d → DatePrintable d) ∧
      (∀ d, (none : Option DateTime) = some d → DatePrintable d)) ∧
    "BEGIN:VCARD\r\nVERSION:4.0\r\n".toList ++
        lineOf ⟨some "FN".toList, some [], some [⟨some "A".toList, some "b".toList⟩],
          some ["J. Doe".toList]⟩ ++
        ((some (⟨true, false, some "2000".toList, some "12".toList, some []⟩ :
          DateTime)).map (dateLine "BDAY")).getD [] ++
        ((none : Option DateTime).map (dateLine "ANNIVERSARY")).getD [] ++
        ([(⟨some "TEL".toList, some [], some [], some ["1".toList]⟩ : Property),
          ⟨some "N".toList, some [], some [],
            some ["a".toList, "b".toList, "c".toList, [], []]⟩].map lineOf).flatten ++
        "END:VCARD\r\n".toList
      = ("BEGIN:VCARD\r\nVERSION:4.0\r\nFN;A=b:J. Doe\r\nBDAY:2000T12Z\r\nTEL:1\r\n" ++
          "N:a;b;c;;\r\nEND:VCARD\r\n").toList ∧
    writeCard ⟨some ⟨some "FN".toList, some [], some [⟨some "A".toList, some "b".toList⟩],
          some ["J. Doe".toList]⟩,
        some [⟨some "TEL".toList, some [], some [], some ["1".toList]⟩,
          ⟨some "N".toList, some [], some [],
            some ["a".toList, "b".toList, "c".toList, [], []]⟩],
        some ⟨true, false, some "2000".toList, some "12".toList, some []⟩, none⟩
      = some ("BEGIN:VCARD\r\nVERSION:4.0\r\n".toList ++
        lineOf ⟨some "FN".toList, some [], some [⟨some "A".toList, some "b".toList⟩],
          some ["J. Doe".toList]⟩ ++
        ((some (⟨true, false, some "2000".toList, some "12".toList, some []⟩ :
          DateTime)).map (dateLine "BDAY")).getD [] ++
        ((none : Option DateTime).map (dateLine "ANNIVERSARY")).getD [] ++
        ([(⟨some "TEL".toList, some [], some [], some ["1".toList]⟩ : Property),
          ⟨some "N".toList, some [], some [],
            some ["a".toList, "b".toList, "c".toList, [], []]⟩].map lineOf).flatten ++
        "END:VCARD\r\n".toList) := by
  have h1 : Printable ⟨some "FN".toList, some [], some [⟨some "A".toList, some "b".toList⟩],
      some ["J. Doe".toList]⟩ :=
    ⟨by decide, ⟨_, rfl, by decide⟩, _, rfl, by decide⟩
  have h2 : ∀ p ∈ [(⟨some "TEL".toList, some [], some [], some ["1".toList]⟩ : Property),
      ⟨some "N".toList, some [], some [],
        some ["a".toList, "b".toList, "c".toList, [], []]⟩], Printable p := by
    intro p hp
    simp only [List.mem_cons, List.mem_singleton, List.not_mem_nil, or_false] at hp
    rcases hp with rfl | rfl
    · exact ⟨by decide, ⟨_, rfl, by decide⟩, _, rfl, by decide⟩
    · exact ⟨by decide, ⟨_, rfl, by decide⟩, _, rfl, by decide⟩
  have h3 : ∀ d, some (⟨true, false, some "2000".toList, some "12".toList, some []⟩ : DateTime)
      = some d → DatePrintable d := by
    intro d hd
    simp only [Option.some.injEq] at hd
    subst hd
    exact ⟨by decide, by decide, by decide⟩
  have h4 : ∀ d, (none : Option DateTime) = some d → DatePrintable d := by
    intro d hd
    exact absurd hd (by simp)
  exact ⟨⟨h1, h2, h3, h4⟩, by decide, writeCard_layout _ _ _ _ h1 h2 h3 h4⟩

/-! ## Serializer: lines -/

theorem map_parameterText (ps : List (List Char × List Char)) :
    ((ps.map toParameter).map parameterText).flatten = paramsText ps := by
  induction ps with
  | nil => rfl
  | cons p ps ih =>
    simp only [List.map_cons, List.flatten_cons, ih, paramsText]
    simp [parameterText, toParameter, paramText]

/-- C21, as amended: for every property with a name, parameters and at least one value,
`propertyToString` renders the line as the name, then `;name=value` for each parameter in
order, then a colon, then the values joined by semicolons in order, then CR LF.  The group
is not written, whatever it is. -/
theorem propertyToString_line (name : List Char) (group : Option (List Char))
    (ps : List (List Char × List Char)) (values : List (List Char)) (hne : values ≠ []) :
    propertyToString (some ⟨some name, group, some (ps.map toParameter), some values⟩)
      = some (some (name ++ paramsText ps ++ ':' :: [';'].intercalate values ++ [CR, LF])) := by
  have hp : Printable ⟨some name, group, some (ps.map toParameter), some values⟩ := by
    refine ⟨by simp, ⟨_, rfl, ?_⟩, _, rfl, hne⟩
    intro q hq
    obtain ⟨p, _, rfl⟩ := List.mem_map.mp hq
    simp [toParameter]
  rw [propertyToString_eq _ hp]
  have e := map_parameterText ps
  simp only [lineOf, Option.getD_some, crlf, e]

theorem propertyToString_line_witness :
    ["1".toList, "2".toList] ≠ [] ∧
    propertyToString (some ⟨some "TEL".toList, some "item1".toList,
        some ([("TYPE".toList, "work".toList)].map toParameter), some ["1".toList, "2".toList]⟩)
      = some (some ("TEL".toList ++ paramsText [("TYPE".toList, "work".toList)] ++
          ':' :: [';'].intercalate ["1".toList, "2".toList] ++ [CR, LF])) ∧
    "TEL".toList ++ paramsText [("TYPE".toList, "work".toList)] ++
        ':' :: [';'].intercalate ["1".toList, "2".toList] ++ [CR, LF]
      = "TEL;TYPE=work:1;2\r\n".toList :=
  ⟨by decide, propertyToString_line "TEL".toList (some "item1".toList)
    [("TYPE".toList, "work".toList)] ["1".toList, "2".toList] (by decide), by decide⟩

/-- C21 fails as stated: for the property with group `item1`, name `TEL` and the value `1`
the line is `TEL:1`, without `item1.` before the name. -/
theorem propertyToString_line_counterexample :
    propertyToString (some ⟨some "TEL".toList, some "item1".toList, some [],
        some ["1".toList]⟩) = some (some "TEL:1\r\n".toList) ∧
    "TEL:1\r\n".toList ≠ "item1.TEL:1\r\n".toList := by
  decide

/-- The text of `writeCard` on a card whose properties and dates can be printed. -/
theorem writeCard_text (fn : Property) (ps : List Property) (b a : Option DateTime)
    (hfn : Printable fn) (hps : ∀ p ∈ ps, Printable p)
    (hb : ∀ d, b = some d → DatePrintable d) (ha : ∀ d, a = some d → DatePrintable d) :
    writeCard ⟨some fn, some ps, b, a⟩
      = some ("BEGIN:VCARD\r\nVERSION:4.0\r\n".toList ++ lineOf fn ++
          (b.map (dateLine "BDAY")).getD [] ++ (a.map (dateLine "ANNIVERSARY")).getD [] ++
          (ps.map lineOf).flatten ++ "END:VCARD\r\n".toList) := by
  have hB : ∃ sb, dateToString b = some sb ∧ ∀ cs,
      writeDate cs "BDAY;VALUE=text:" "BDAY:" b sb = cs ++ (b.map (dateLine "BDAY")).getD [] := by
    cases b with
    | none => exact ⟨none, rfl, fun cs => by simp [writeDate]⟩
    | some d =>
      refine ⟨some (dateBody d ++ [LF]), dateToString_eq d (hb d rfl), fun cs => ?_⟩
      rw [writeDate_eq]
      cases hd : d.isText <;> simp [dateLine, hd]
  have hA : ∃ sa, dateToString a = some sa ∧ ∀ cs,
      writeDate cs "ANNIVERSARY;VALUE=text:" "ANNIVERSARY:" a sa
        = cs ++ (a.map (dateLine "ANNIVERSARY")).getD [] := by
    cases a with
    | none => exact ⟨none, rfl, fun cs => by simp [writeDate]⟩
    | some d =>
      refine ⟨some (dateBody d ++ [LF]), dateToString_eq d (ha d rfl), fun cs => ?_⟩
      rw [writeDate_eq]
      cases hd : d.isText <;> simp [dateLine, hd]
  obtain ⟨sb, hsb, hwb⟩ := hB
  obtain ⟨sa, hsa, hwa⟩ := hA
  unfold writeCard
  dsimp only
  rw [propertyToString_eq fn hfn, hsb, hsa, toString_eq ps hps]
  dsimp only
  rw [hwb, hwa]

/-- The text of `cardToString` on a card whose properties and dates can be printed. -/
theorem cardToString_text (fn : Property) (ps : List Property) (b a : Option DateTime)
    (hfn : Printable fn) (hps : ∀ p ∈ ps, Printable p)
    (hb : ∀ d, b = some d → DatePrintable d) (ha : ∀ d, a = some d → DatePrintable d) :
    cardToString (some ⟨some fn, some ps, b, a⟩)
      = some (lineOf fn ++ (b.map (dateText "BDAY")).getD [] ++
          (a.map (dateText "ANNIVERSARY")).getD [] ++ (ps.map lineOf).flatten) := by
  have hB : ∃ sb, dateToString b = some sb ∧ ∀ cs,
      describeDate cs "BDAY;VALUE=text:" "BDAY:" b sb
        = cs ++ (b.map (dateText "BDAY")).getD [] := by
    cases b with
    | none => exact ⟨none, rfl, fun cs => by simp [describeDate]⟩
    | some d =>
      refine ⟨some (dateBody d ++ [LF]), dateToString_eq d (hb d rfl), fun cs => ?_⟩
      cases hd : d.isText <;> simp [describeDate, dateText, hd]
  have hA : ∃ sa, dateToString a = some sa ∧ ∀ cs,
      describeDate cs "ANNIVERSARY;VALUE=text:" "ANNIVERSARY:" a sa
        = cs ++ (a.map (dateText "ANNIVERSARY")).getD [] := by
    cases a with
    | none => exact ⟨none, rfl, fun cs => by simp [describeDate]⟩
    | some d =>
      refine ⟨some (dateBody d ++ [LF]), dateToString_eq d (ha d rfl), fun cs => ?_⟩
      cases hd : d.isText <;> simp [describeDate, dateText, hd]
  obtain ⟨sb, hsb, hwb⟩ := hB
  obtain ⟨sa, hsa, hwa⟩ := hA
  unfold cardToString
  dsimp only
  rw [propertyToString_eq fn hfn, hsb, hsa, toString_eq ps hps]
  dsimp only
  rw [hwb, hwa]

theorem dateLine_fields (tag : String) (utc isText : Bool) (date time text : List Char) :
    dateLine tag ⟨utc, isText, some date, some time, some text⟩
      = if isText then
          tag.toList ++ ";VALUE=text:".toList ++ text ++ (if utc then ['Z'] else []) ++ [CR, LF]
        else
          tag.toList ++ [':'] ++ date ++ (if time = [] then [] else 'T' :: time) ++
            (if utc then ['Z'] else []) ++ [CR, LF] := by
  cases isText <;> simp [dateLine, dateBody, crlf]

/-- The line of a date that does not have `isText` and `UTC` both set: a text is followed by
CR LF directly. -/
theorem dateLine_valid (tag : String) (utc isText : Bool) (date time text : List Char)
    (hd : ¬ (isText = true ∧ utc = true)) :
    dateLine tag ⟨utc, isText, some date, some time, some text⟩
      = if isText then tag.toList ++ ";VALUE=text:".toList ++ text ++ [CR, LF]
        else
          tag.toList ++ [':'] ++ date ++ (if time = [] then [] else 'T' :: time) ++
            (if utc then ['Z'] else []) ++ [CR, LF] := by
  cases isText <;> cases utc <;> simp [dateLine, dateBody, crlf] at hd ⊢

/-- A date that `validateDateTime` accepts does not have `isText` and `UTC` both set. -/
theorem validateDateTime_not_both (d : DateTime) (h : validateDateTime d = true) :
    ¬ (d.isText = true ∧ d.UTC = true) := by
  obtain ⟨_, _, _, _, _, _, hn, _⟩ := (validateDateTime_iff d).mp h
  exact fun hb => hn ⟨hb.2, hb.1⟩

/-- C22: for every card that `writeCard` can print and whose birthday does not have `isText`
and `UTC` both set, as is the case of every date that `validateDateTime` accepts, the line
emitted for the birthday is `BDAY;VALUE=text:`, the text, CR LF when `isText` is true, and
otherwise `BDAY:`, the date, `T` and the time when the time is not empty, `Z` when `UTC` is
true, CR LF; the line stands right after the FN line.  The same holds for the anniversary
with ANNIVERSARY in place of BDAY; its line stands after the line of the birthday when there
is one. -/
theorem writeCard_date_line (fn : Property) (ps : List Property) (o : Option DateTime)
    (utc isText : Bool) (date time text : List Char)
    (hfn : Printable fn) (hps : ∀ p ∈ ps, Printable p) (ho : ∀ d, o = some d → DatePrintable d)
    (hvalid : ¬ (isText = true ∧ utc = true)) :
    writeCard ⟨some fn, some ps, some ⟨utc, isText, some date, some time, some text⟩, o⟩
        = some ("BEGIN:VCARD\r\nVERSION:4.0\r\n".toList ++ lineOf fn ++
            (if isText then "BDAY;VALUE=text:".toList ++ text ++ [CR, LF]
            else
              "BDAY:".toList ++ date ++ (if time = [] then [] else 'T' :: time) ++
                (if utc then ['Z'] else []) ++ [CR, LF]) ++
            (o.map (dateLine "ANNIVERSARY")).getD [] ++
            (ps.map lineOf).flatten ++ "END:VCARD\r\n".toList) ∧
      writeCard ⟨some fn, some ps, o, some ⟨utc, isText, some date, some time, some text⟩⟩
        = some ("BEGIN:VCARD\r\nVERSION:4.0\r\n".toList ++ lineOf fn ++
            (o.map (dateLine "BDAY")).getD [] ++
            (if isText then "ANNIVERSARY;VALUE=text:".toList ++ text ++ [CR, LF]
            else
              "ANNIVERSARY:".toList ++ date ++ (if time = [] then [] else 'T' :: time) ++
                (if utc then ['Z'] else []) ++ [CR, LF]) ++
            (ps.map lineOf).flatten ++ "END:VCARD\r\n".toList) := by
  have hd : ∀ d, some (⟨utc, isText, some date, some time, some text⟩ : DateTime) = some d →
      DatePrintable d := by
    intro d h
    simp only [Option.some.injEq] at h
    subst h
    exact ⟨by simp, by simp, by simp⟩
  constructor
  · rw [writeCard_text fn ps _ o hfn hps hd ho]
    simp only [Option.map_some', Option.getD_some]
    rw [dateLine_valid "BDAY" utc isText date time text hvalid]
    rfl
  · rw [writeCard_text fn ps o _ hfn hps ho hd]
    simp only [Option.map_some', Option.getD_some]
    rw [dateLine_valid "ANNIVERSARY" utc isText date time text hvalid]
    rfl

/-- The birthday of the line `BDAY:19960415T143000Z` and the anniversary of the line
`ANNIVERSARY;VALUE=text:last spring`, as instances of C22. -/
theorem writeCard_date_line_witness :
    (Printable ⟨some "FN".toList, some [], some [], some ["x".toList]⟩ ∧
      (∀ p ∈ ([] : List Property), Printable p) ∧
      (∀ d, (none : Option DateTime) = some d → DatePrintable d) ∧
      ¬ (false = true ∧ true = true) ∧ ¬ (true = true ∧ false = true)) ∧
    writeCard ⟨some ⟨some "FN".toList, some [], some [], some ["x".toList]⟩, some [],
        some ⟨true, false, some "19960415".toList, some "143000".toList, some []⟩, none⟩
      = some "BEGIN:VCARD\r\nVERSION:4.0\r\nFN:x\r\nBDAY:19960415T143000Z\r\nEND:VCARD\r\n".toList ∧
    writeCard ⟨some ⟨some "FN".toList, some [], some [], some ["x".toList]⟩, some [],
        none, some ⟨false, true, some [], some [], some "last spring".toList⟩⟩
      = some ("BEGIN:VCARD\r\nVERSION:4.0\r\nFN:x\r\n".toList ++
          "ANNIVERSARY;VALUE=text:last spring\r\nEND:VCARD\r\n".toList) := by
  have h1 : Printable ⟨some "FN".toList, some [], some [], some ["x".toList]⟩ :=
    ⟨by decide, ⟨_, rfl, by decide⟩, _, rfl, by decide⟩
  have h2 : ∀ p ∈ ([] : List Property), Printable p := by
    intro p hp
    simp at hp
  have h3 : ∀ d, (none : Option DateTime) = some d → DatePrintable d := by
    intro d hd
    exact absurd hd (by simp)
  exact ⟨⟨h1, h2, h3, by decide, by decide⟩,
    (writeCard_date_line ⟨some "FN".toList, some [], some [], some ["x".toList]⟩ [] none
      true false "19960415".toList "143000".toList [] h1 h2 h3 (by decide)).1.trans (by decide),
    (writeCard_date_line ⟨some "FN".toList, some [], some [], some ["x".toList]⟩ [] none
      false true [] [] "last spring".toList h1 h2 h3 (by decide)).2.trans (by decide)⟩

/-- C24, as amended: for every card with `fn` present that can be printed, `cardToString`
gives the FN line, then the string of the birthday and the string of the anniversary when
they are present, then the lines of the optional properties.  The string of a date is the
line `writeCard` writes for it with LF alone in place of CR LF.  When the card has neither
birthday nor anniversary, the text `writeCard` writes is `BEGIN:VCARD` CR LF `VERSION:4.0`
CR LF, the string of `cardToString`, `END:VCARD` CR LF. -/
theorem cardToString_layout (fn : Property) (ps : List Property) (b a : Option DateTime)
    (hfn : Printable fn) (hps : ∀ p ∈ ps, Printable p)
    (hb : ∀ d, b = some d → DatePrintable d) (ha : ∀ d, a = some d → DatePrintable d) :
    cardToString (some ⟨some fn, some ps, b, a⟩)
        = some (lineOf fn ++ (b.map (dateText "BDAY")).getD [] ++
            (a.map (dateText "ANNIVERSARY")).getD [] ++ (ps.map lineOf).flatten) ∧
      (∀ (tag : String) (d : DateTime),
        dateLine tag d = (dateText tag d).dropLast ++ [CR, LF]) ∧
      (b = none → a = none →
        ∃ x, cardToString (some ⟨some fn, some ps, b, a⟩) = some x ∧
          writeCard ⟨some fn, some ps, b, a⟩
            = some ("BEGIN:VCARD\r\nVERSION:4.0\r\n".toList ++ x ++ "END:VCARD\r\n".toList)) := by
  refine ⟨cardToString_text fn ps b a hfn hps hb ha, ?_, ?_⟩
  · intro tag d
    unfold dateLine dateText crlf
    rw [List.dropLast_concat]
  · intro hbn han
    subst hbn han
    refine ⟨_, cardToString_text fn ps none none hfn hps hb ha, ?_⟩
    rw [writeCard_text fn ps none none hfn hps hb ha]
    simp

theorem cardToString_layout_witness :
    (Printable ⟨some "FN".toList, some [], some [], some ["x".toList]⟩ ∧
      (∀ p ∈ [(⟨some "TEL".toList, some [], some [], some ["1".toList]⟩ : Property)],
        Printable p) ∧
      (∀ d, some (⟨false, false, some "2000".toList, some [], some []⟩ : DateTime) = some d →
        DatePrintable d) ∧
      (∀ d, (none : Option DateTime) = some d → DatePrintable d)) ∧
    cardToString (some ⟨some ⟨some "FN".toList, some [], some [], some ["x".toList]⟩,
        some [⟨some "TEL".toList, some [], some [], some ["1".toList]⟩],
        some ⟨false, false, some "2000".toList, some [], some []⟩, none⟩)
      = some "FN:x\r\nBDAY:2000\nTEL:1\r\n".toList := by
  have h1 : Printable ⟨some "FN".toList, some [], some [], some ["x".toList]⟩ :=
    ⟨by decide, ⟨_, rfl, by decide⟩, _, rfl, by decide⟩
  have h2 : ∀ p ∈ [(⟨some "TEL".toList, some [], some [], some ["1".toList]⟩ : Property)],
      Printable p := by
    intro p hp
    simp only [List.mem_singleton] at hp
    subst hp
    exact ⟨by decide, ⟨_, rfl, by decide⟩, _, rfl, by decide⟩
  have h3 : ∀ d, some (⟨false, false, some "2000".toList, some [], some []⟩ : DateTime)
      = some d → DatePrintable d := by
    intro d hd
    simp only [Option.some.injEq] at hd
    subst hd
    exact ⟨by decide, by decide, by decide⟩
  have h4 : ∀ d, (none : Option DateTime) = some d → DatePrintable d := by
    intro d hd
    exact absurd hd (by simp)
  exact ⟨⟨h1, h2, h3, h4⟩,
    (cardToString_layout _ _ _ _ h1 h2 h3 h4).1.trans (by decide)⟩

/-- C24 fails as stated: for a card with the birthday `2000`, `cardToString` ends the BDAY
line in LF alone while `writeCard` writes CR LF, so the text of `writeCard` is not the
string of `cardToString` between the header and the trailer. -/
theorem cardToString_layout_counterexample :
    cardToString (some ⟨some ⟨some "FN".toList, some [], some [], some ["x".toList]⟩, some [],
        some ⟨false, false, some "2000".toList, some [], some []⟩, none⟩)
      = some "FN:x\r\nBDAY:2000\n".toList ∧
    writeCard ⟨some ⟨some "FN".toList, some [], some [], some ["x".toList]⟩, some [],
        some ⟨false, false, some "2000".toList, some [], some []⟩, none⟩
      = some "BEGIN:VCARD\r\nVERSION:4.0\r\nFN:x\r\nBDAY:2000\r\nEND:VCARD\r\n".toList ∧
    "BEGIN:VCARD\r\nVERSION:4.0\r\nFN:x\r\nBDAY:2000\r\nEND:VCARD\r\n".toList
      ≠ "BEGIN:VCARD\r\nVERSION:4.0\r\n".toList ++ "FN:x\r\nBDAY:2000\n".toList ++
          "END:VCARD\r\n".toList := by
  decide

/-! ## Validator: order of the tests -/

/-- The loop goes past the properties its body accepts. -/
theorem validateProperties_append (pre : List Property) :
    ∀ (c0 c : Counters) (rest : List Property), runProperties c0 pre = some c →
      validateProperties c0 (pre ++ rest) = validateProperties c rest := by
  induction pre with
  | nil =>
    intro c0 c rest h
    simp only [runProperties, Option.some.injEq] at h
    subst h
    rfl
  | cons q pre ih =>
    intro c0 c rest h
    rw [runProperties] at h
    rw [List.cons_append, validateProperties]
    cases hv : validateProperty c0 q with
    | error e => rw [hv] at h; exact absurd h (by simp)
    | ok c1 =>
      rw [hv] at h
      dsimp only at h ⊢
      exact ih c1 c rest h

/-- The loop answers OK exactly when its body accepts every property. -/
theorem validateProperties_OK_iff (ps : List Property) :
    ∀ c : Counters, validateProperties c ps = VCardErrorCode.OK ↔
      (runProperties c ps).isSome = true := by
  induction ps with
  | nil => intro c; simp [validateProperties, runProperties]
  | cons p ps ih =>
    intro c
    rw [validateProperties, runProperties]
    cases hv : validateProperty c p with
    | error e =>
      dsimp only
      rcases validateProperty_error c p e hv with h | h <;> rw [h] <;> simp
    | ok c1 =>
      dsimp only
      exact ih c1

theorem branchOf_version (name : List Char) :
    branchOf name = Branch.version ↔ nameIs name "VERSION" = true := by
  unfold branchOf
  by_cases h0 : nameIs name "VERSION" = true
  · rw [if_pos h0]
    simp [h0]
  · rw [if_neg h0]
    simp only [h0, iff_false]
    by_cases h1 : (nameIs name "BEGIN" || nameIs name "END" || nameIs name "BDAY"
      || nameIs name "ANNIVERSARY") = true
    · rw [if_pos h1]
      decide
    rw [if_neg h1]
    by_cases h2 : singleValueNames.any (nameIs name) = true
    · rw [if_pos h2]
      decide
    rw [if_neg h2]
    by_cases h3 : nameIs name "KIND" = true
    · rw [if_pos h3]
      decide
    rw [if_neg h3]
    by_cases h4 : nameIs name "PRODID" = true
    · rw [if_pos h4]
      decide
    rw [if_neg h4]
    by_cases h5 : nameIs name "REV" = true
    · rw [if_pos h5]
      decide
    rw [if_neg h5]
    by_cases h6 : nameIs name "UID" = true
    · rw [if_pos h6]
      decide
    rw [if_neg h6]
    by_cases h7 : nameIs name "GENDER" = true
    · rw [if_pos h7]
      decide
    rw [if_neg h7]
    by_cases h8 : nameIs name "CLIENTPIDMAP" = true
    · rw [if_pos h8]
      decide
    rw [if_neg h8]
    by_cases h9 : nameIs name "N" = true
    · rw [if_pos h9]
      decide
    rw [if_neg h9]
    by_cases h10 : nameIs name "ADR" = true
    · rw [if_pos h10]
      decide
    rw [if_neg h10]
    by_cases h11 : (nameIs name "ORG" || nameIs name "TEL") = true
    · rw [if_pos h11]
      decide
    rw [if_neg h11]
    decide

theorem branchStep_INV_CARD (b : Branch) (c : Counters) (values : List (List Char))
    (h : branchStep b c values = .error VCardErrorCode.INV_CARD) : b = Branch.version := by
  cases b <;> simp only [branchStep] at h <;> (try split_ifs at h) <;>
    first
    | rfl
    | (injection h with h; exact absurd h (by decide))

/-- The code the loop body gives for a property it rejects is INV_CARD exactly when the
property has its four containers, no empty parameter, and is named VERSION. -/
theorem validateProperty_INV_CARD (c : Counters) (p : Property) (e : VCardErrorCode)
    (h : validateProperty c p = .error e) :
    e = VCardErrorCode.INV_CARD ↔
      ∃ name group params values, p = ⟨some name, some group, some params, some values⟩ ∧
        params.any emptyParameter = false ∧ nameIs name "VERSION" = true := by
  obtain ⟨name, group, params, values⟩ := p
  constructor
  · intro he
    subst he
    cases name with
    | none => simp only [validateProperty] at h; injection h with h; exact absurd h (by decide)
    | some name =>
      cases group with
      | none => simp only [validateProperty] at h; injection h with h; exact absurd h (by decide)
      | some group =>
        cases params with
        | none =>
          simp only [validateProperty] at h; injection h with h; exact absurd h (by decide)
        | some params =>
          cases values with
          | none =>
            simp only [validateProperty] at h; injection h with h; exact absurd h (by decide)
          | some values =>
            rw [validateProperty_branch] at h
            by_cases hp : params.any emptyParameter = true
            · rw [if_pos hp] at h
              injection h with h
              exact absurd h (by decide)
            · rw [if_neg hp] at h
              exact ⟨name, group, params, values, rfl, by simpa using hp,
                (branchOf_version name).mp (branchStep_INV_CARD _ _ _ h)⟩
  · rintro ⟨n, g, ps, vs, hp, hany, hv⟩
    simp only [Property.mk.injEq, Option.some.injEq] at hp
    obtain ⟨rfl, rfl, rfl, rfl⟩ := hp
    rw [validateProperty_branch, hany, (branchOf_version n).mpr hv] at h
    simp only [Bool.false_eq_true, if_false, branchStep] at h
    injection h with h
    exact h.symm

/-- C25, as amended: the order of the tests of `validateCard`.  A `NULL` card, a missing
`fn` or a missing property list gives INV_CARD before anything else; otherwise a birthday or
an anniversary that `validateDateTime` rejects gives INV_DT whatever the optional properties
are; otherwise, when the loop body accepts the properties before `p` and rejects `p`, the
result is the code it gives for `p`, whatever follows `p`: INV_CARD when `p` has its four
containers, no empty parameter, and is named VERSION, and INV_PROP in every other case (also
for a property named VERSION that lacks a container or has an empty parameter); and the
result is OK exactly when both dates pass and the loop body accepts every property. -/
theorem validateCard_first_failure :
    (validateCard none = VCardErrorCode.INV_CARD ∧
      ∀ card : Card, card.fn = none ∨ card.optionalProperties = none →
        validateCard (some card) = VCardErrorCode.INV_CARD) ∧
    (∀ (fn : Property) (ps : List Property) (b a : Option DateTime),
      b.any (fun d => !validateDateTime d) = true ∨ a.any (fun d => !validateDateTime d) = true →
        validateCard (some ⟨some fn, some ps, b, a⟩) = VCardErrorCode.INV_DT) ∧
    (∀ (fn : Property) (pre post : List Property) (p : Property) (b a : Option DateTime)
      (c : Counters) (e : VCardErrorCode),
      b.any (fun d => !validateDateTime d) = false →
      a.any (fun d => !validateDateTime d) = false →
      runProperties ⟨0, 0, 0, 0, 0, 0⟩ pre = some c → validateProperty c p = .error e →
        validateCard (some ⟨some fn, some (pre ++ p :: post), b, a⟩) = e ∧
        (e = VCardErrorCode.INV_CARD ∨ e = VCardErrorCode.INV_PROP) ∧
        (e = VCardErrorCode.INV_CARD ↔
          ∃ name group params values, p = ⟨some name, some group, some params, some values⟩ ∧
            params.any emptyParameter = false ∧ nameIs name "VERSION" = true)) ∧
    (∀ (fn : Property) (ps : List Property) (b a : Option DateTime),
      validateCard (some ⟨some fn, some ps, b, a⟩) = VCardErrorCode.OK ↔
        b.any (fun d => !validateDateTime d) = false ∧
        a.any (fun d => !validateDateTime d) = false ∧
        (runProperties ⟨0, 0, 0, 0, 0, 0⟩ ps).isSome = true) := by
  refine ⟨⟨rfl, ?_⟩, ?_, ?_, ?_⟩
  · intro card h
    obtain ⟨fn, ps, b, a⟩ := card
    simp only at h
    unfold validateCard
    rcases h with h | h
    · subst h
      rfl
    · subst h
      cases fn <;> rfl
  · intro fn ps b a h
    unfold validateCard
    dsimp only
    by_cases hb : b.any (fun d => !validateDateTime d) = true
    · rw [if_pos hb]
    · rw [if_neg hb]
      rcases h with h | h
      · exact absurd h hb
      · rw [if_pos h]
  · intro fn pre post p b a c e hb ha hrun hv
    refine ⟨?_, ?_, validateProperty_INV_CARD c p e hv⟩
    · unfold validateCard
      dsimp only
      rw [hb, ha]
      simp only [Bool.false_eq_true, if_false]
      rw [validateProperties_append pre _ c _ hrun, validateProperties, hv]
    · rcases validateProperty_error c p e hv with h | h
      · exact Or.inr h
      · exact Or.inl h
  · intro fn ps b a
    unfold validateCard
    dsimp only
    by_cases hb : b.any (fun d => !validateDateTime d) = true
    · rw [if_pos hb]
      simp [hb]
    · rw [if_neg hb]
      by_cases ha : a.any (fun d => !validateDateTime d) = true
      · rw [if_pos ha]
        simp [ha]
      · rw [if_neg ha, validateProperties_OK_iff]
        simp only [Bool.not_eq_true] at hb ha
        simp [hb, ha]

theorem validateCard_first_failure_witness :
    (runProperties ⟨0, 0, 0, 0, 0, 0⟩
        [⟨some "TEL".toList, some [], some [], some ["1".toList]⟩] = some ⟨0, 0, 0, 0, 0, 0⟩ ∧
      validateProperty ⟨0, 0, 0, 0, 0, 0⟩
        ⟨some "version".toList, some [], some [], some ["4.0".toList]⟩
        = .error VCardErrorCode.INV_CARD) ∧
    validateCard (some ⟨some ⟨some "FN".toList, some [], some [], some ["x".toList]⟩,
        some ([⟨some "TEL".toList, some [], some [], some ["1".toList]⟩] ++
          ⟨some "version".toList, some [], some [], some ["4.0".toList]⟩ ::
          [⟨some "X-CUSTOM".toList, some [], some [], some ["y".toList]⟩]), none, none⟩)
      = VCardErrorCode.INV_CARD :=
  ⟨⟨by decide, rfl⟩,
    (validateCard_first_failure.2.2.1 ⟨some "FN".toList, some [], some [], some ["x".toList]⟩
      [⟨some "TEL".toList, some [], some [], some ["1".toList]⟩]
      [⟨some "X-CUSTOM".toList, some [], some [], some ["y".toList]⟩]
      ⟨some "version".toList, some [], some [], some ["4.0".toList]⟩ none none
      ⟨0, 0, 0, 0, 0, 0⟩ VCardErrorCode.INV_CARD rfl rfl (by decide) rfl).1⟩

/-- C25 fails as stated: for a property named VERSION that has a parameter with an empty
value, the first test that fails is the one on the parameters, and the result is INV_PROP,
not INV_CARD. -/
theorem validateCard_first_failure_counterexample :
    validateCard (some ⟨some ⟨some "FN".toList, some [], some [], some ["x".toList]⟩,
        some [⟨some "VERSION".toList, some [], some [⟨some "TYPE".toList, some []⟩],
          some ["4.0".toList]⟩], none, none⟩) = VCardErrorCode.INV_PROP ∧
    validateCard (some ⟨some ⟨some "FN".toList, some [], some [], some ["x".toList]⟩,
        some [⟨some "VERSION".toList, some [], some [], some ["4.0".toList]⟩], none, none⟩)
      = VCardErrorCode.INV_CARD := by
  decide

/-! ## Comparison of properties: sums that cancel -/

theorem strcmp_self (a : List Char) : strcmp a a = 0 := by
  induction a with
  | nil => rfl
  | cons x a ih => simp [strcmp, ih]

theorem compareParametersLoop_alike (ps qs : List Parameter) (h : List.Forall₂ ParamsAlike ps qs) :
    ∀ ret : Int, compareParametersLoop ps qs ret = some ret := by
  induction h with
  | nil => intro ret; rfl
  | cons hpq _ ih =>
    intro ret
    obtain ⟨n1, v1, n2, v2, rfl, rfl, hn, hv⟩ := hpq
    rw [compareParametersLoop]
    simp only [compareParameters, hn, hv]
    simpa using ih ret

theorem compareValuesLoop_self (vs : List (List Char)) :
    ∀ ret : Int, compareValuesLoop vs vs ret = ret := by
  induction vs with
  | nil => intro ret; rfl
  | cons v vs ih =>
    intro ret
    rw [compareValuesLoop, compareValues, strcmp_self]
    simpa using ih ret

/-- The half of C26 that holds: properties with names and groups equal under `strcasecmp`,
parameters pairwise equal under `strcasecmp` and the same values compare as `0`. -/
theorem compareProperties_alike (n1 n2 g1 g2 : List Char) (ps qs : List Parameter)
    (vs : List (List Char)) (hn : strcasecmp n1 n2 = 0) (hg : strcasecmp g1 g2 = 0)
    (hp : List.Forall₂ ParamsAlike ps qs) :
    compareProperties (some ⟨some n1, some g1, some ps, some vs⟩)
      (some ⟨some n2, some g2, some qs, some vs⟩) = some 0 := by
  have hlen : getLength ps = getLength qs := by
    unfold getLength
    rw [hp.length_eq]
  unfold compareProperties
  dsimp only
  rw [hn, hg, if_neg (by simp [hlen]), compareParametersLoop_alike ps qs hp]
  dsimp only
  rw [if_neg (by simp), compareValuesLoop_self]
  rfl

/-- C26 fails on the code: the properties of the lines `b.TEL:x` and `a.URL:x` have different
names and different groups, and `compareProperties` returns `0` for them, in both orders: the
result `-1` for the names and the result `1` for the groups are added.  The same happens
with the groups `a`, `b` against the values `2`, `1` of two TEL properties. -/
theorem compareProperties_cancel :
    strcasecmp "TEL".toList "URL".toList ≠ 0 ∧ strcasecmp "b".toList "a".toList ≠ 0 ∧
    compareProperties (some ⟨some "TEL".toList, some "b".toList, some [], some ["x".toList]⟩)
      (some ⟨some "URL".toList, some "a".toList, some [], some ["x".toList]⟩) = some 0 ∧
    compareProperties (some ⟨some "URL".toList, some "a".toList, some [], some ["x".toList]⟩)
      (some ⟨some "TEL".toList, some "b".toList, some [], some ["x".toList]⟩) = some 0 ∧
    compareProperties (some ⟨some "TEL".toList, some "a".toList, some [], some ["2".toList]⟩)
      (some ⟨some "TEL".toList, some "b".toList, some [], some ["1".toList]⟩) = some 0 := by
  decide

/-! ## Dates: parser and validator -/

theorem dateTimeFields_valid (mem : List Char) (p : Nat) (utc : Bool) (dt : DateTime)
    (h : dateTimeFields mem p utc = some dt) : validateDateTime dt = true := by
  unfold dateTimeFields at h
  split at h
  · simp only [Option.some.injEq] at h
    subst h
    cases utc <;> simp [validateDateTime]
  · dsimp only at h
    split at h
    · exact absurd h (by simp)
    · split at h
      · simp only [Option.some.injEq] at h
        subst h
        cases utc <;> simp [validateDateTime]
      · simp only [Option.some.injEq] at h
        subst h
        cases utc <;> simp [validateDateTime]

/-- Every `DateTime` that `createDateTime` returns passes `validateDateTime`. -/
theorem createDateTime_valid (mem : List Char) (p : Nat) (dt : DateTime)
    (h : createDateTime mem p = some dt) : validateDateTime dt = true := by
  unfold createDateTime at h
  dsimp only at h
  split at h
  · exact absurd h (by simp)
  · split at h
    · exact dateTimeFields_valid _ _ _ _ h
    · exact dateTimeFields_valid _ _ _ _ h

theorem dateOfHead_valid (h : Head) (dt : DateTime) (hd : dateOfHead h = some dt) :
    validateDateTime dt = true := by
  unfold dateOfHead at hd
  split at hd
  · simp only [Option.some.injEq] at hd
    subst hd
    simp [validateDateTime]
  · exact createDateTime_valid _ _ _ hd

/-- An accepted line leaves in the card only dates that pass `validateDateTime`, when the
dates the card had pass. -/
theorem createProperty_dates_valid (card card1 : Card) (line : List Char)
    (hacc : createProperty card line = some (some card1))
    (hb : card.birthday.all validateDateTime = true)
    (ha : card.anniversary.all validateDateTime = true) :
    card1.birthday.all validateDateTime = true ∧
      card1.anniversary.all validateDateTime = true := by
  unfold createProperty at hacc
  cases hp : parseHead line with
  | none => rw [hp] at hacc; exact absurd hacc (by simp)
  | some r =>
    cases r with
    | none => rw [hp] at hacc; exact absurd hacc (by simp)
    | some h =>
      rw [hp] at hacc
      dsimp only at hacc
      unfold dispatch at hacc
      dsimp only at hacc
      split at hacc
      · split at hacc
        · exact absurd hacc (by simp)
        · simp only [Option.some.injEq] at hacc
          rw [← hacc]
          exact ⟨hb, ha⟩
      · split at hacc
        · cases hd : dateOfHead h with
          | none => rw [hd] at hacc; exact absurd hacc (by simp)
          | some dt =>
            rw [hd] at hacc
            simp only [Option.some.injEq] at hacc
            rw [← hacc]
            exact ⟨by simpa using dateOfHead_valid h dt hd, ha⟩
        · split at hacc
          · cases hd : dateOfHead h with
            | none => rw [hd] at hacc; exact absurd hacc (by simp)
            | some dt =>
              rw [hd] at hacc
              simp only [Option.some.injEq] at hacc
              rw [← hacc]
              exact ⟨hb, by simpa using dateOfHead_valid h dt hd⟩
          · split at hacc
            · simp only [Option.some.injEq] at hacc
              rw [← hacc]
              exact ⟨hb, ha⟩
            · exact absurd hacc (by simp)

theorem parseAll_dates_valid (lines : List (List Char)) :
    ∀ (card card1 : Card), parseAll card lines = some (some card1) →
      card.birthday.all validateDateTime = true → card.anniversary.all validateDateTime = true →
      card1.birthday.all validateDateTime = true ∧
        card1.anniversary.all validateDateTime = true := by
  induction lines with
  | nil =>
    intro card card1 h hb ha
    simp only [parseAll, Option.some.injEq] at h
    subst h
    exact ⟨hb, ha⟩
  | cons l ls ih =>
    intro card card1 h hb ha
    rw [parseAll] at h
    cases hc : createProperty card l with
    | none => rw [hc] at h; exact absurd h (by simp)
    | some r =>
      cases r with
      | none => rw [hc] at h; exact absurd h (by simp)
      | some c1 =>
        rw [hc] at h
        dsimp only at h
        obtain ⟨hb1, ha1⟩ := createProperty_dates_valid card c1 l hc hb ha
        exact ih c1 card1 h hb1 ha1

/-- The half of C27 that holds: a card that `createCard` returns with OK is never rejected by
`validateCard` with INV_DT. -/
theorem createCard_OK_not_INV_DT (fp : List Char) (res : Option Card)
    (h : createCard fp = some (VCardErrorCode.OK, res)) :
    validateCard res ≠ VCardErrorCode.INV_DT := by
  obtain ⟨card, hres, hfn, hp⟩ := createCard_OK_parseAll fp res h
  subst hres
  obtain ⟨hb, ha⟩ := parseAll_dates_valid _ newCard card hp rfl rfl
  obtain ⟨fn, ps, b, a⟩ := card
  simp only at hb ha hfn
  unfold validateCard
  cases fn with
  | none => exact absurd rfl hfn
  | some fn =>
    cases ps with
    | none => simp
    | some ps =>
      dsimp only
      have hb1 : b.any (fun d => !validateDateTime d) = false := by
        cases b with
        | none => rfl
        | some d => simpa using hb
      have ha1 : a.any (fun d => !validateDateTime d) = false := by
        cases a with
        | none => rfl
        | some d => simpa using ha
      rw [hb1, ha1]
      simp only [Bool.false_eq_true, if_false]
      rcases validateProperties_codes ps ⟨0, 0, 0, 0, 0, 0⟩ with h1 | h1 | h1 <;> rw [h1] <;>
        decide

/-- C27 fails on the code: on the lines `BDAY:` and `BDAY:Z` (and on the same lines with
ANNIVERSARY) `createDateTime` passes the `NULL` that `strtok` returns for an empty string to
`strlen`, so the property parser is not defined, and neither is `createCard` on a file with
such a line; with the parameter `VALUE=text` the same two values are accepted as text. -/
theorem createProperty_date_undefined :
    createProperty newCard "BDAY:".toList = none ∧
    createProperty newCard "BDAY:Z".toList = none ∧
    createProperty newCard "ANNIVERSARY:".toList = none ∧
    createProperty newCard "ANNIVERSARY:Z".toList = none ∧
    createCard "BEGIN:VCARD\r\nVERSION:4.0\r\nFN:x\r\nBDAY:\r\nEND:VCARD\r\n".toList = none ∧
    createProperty newCard "BDAY;VALUE=text:".toList
      = some (some { newCard with birthday := some ⟨false, true, some [], some [], some []⟩ }) ∧
    createProperty newCard "BDAY;VALUE=text:Z".toList
      = some (some { newCard with
          birthday := some ⟨false, true, some [], some [], some "Z".toList⟩ }) := by
  decide

/-! ## Dates: round trip -/

/-- The fields of the `DateTime` that `createDateTime` returns for the string `s`, with `r`
the string without one trailing `Z`. -/
theorem createDateTime_eq (mem : List Char) (p : Nat) (s r : List Char)
    (hs : cstrAt mem p = s)
    (hr : r = if s.getLast? = some 'Z' then s.dropLast else s)
    (hne : r ≠ []) :
    createDateTime mem p = some ⟨decide (s.getLast? = some 'Z'), false,
      some (if r.head? = some 'T' then [] else r.takeWhile (fun c => c != 'T')),
      some (if r.head? = some 'T' then r.drop 1 else (r.dropWhile (fun c => c != 'T')).drop 1),
      some []⟩ := by
  have hsne : s ≠ [] := by
    intro h
    apply hne
    rw [hr, h]
    simp
  have hsN : NUL ∉ s := by rw [← hs]; exact not_mem_cstr _
  obtain ⟨pre, post, hmem, hpre, hpost⟩ := cstrAt_decomp mem p (by rw [hs]; exact hsne)
  rw [hs] at hmem
  subst hpre
  obtain ⟨init, last, rfl⟩ : ∃ init last, s = init ++ [last] :=
    ⟨s.dropLast, s.getLast hsne, (List.dropLast_append_getLast hsne).symm⟩
  have hlen : pre.length + (init ++ [last]).length - 1 = (pre ++ init).length := by simp
  have hpeek : peek mem (pre ++ init).length = last := by
    rw [hmem]
    have := peek_append (pre ++ init) post last
    simpa [List.append_assoc] using this
  have hnz : ¬ (pre.length + (init ++ [last]).length = 0) := by simp
  unfold createDateTime
  dsimp only
  rw [hs, if_neg hnz, hlen, hpeek]
  by_cases hZ : last = 'Z'
  · subst hZ
    have hr' : r = init := by simp at hr; exact hr
    subst hr'
    have hset : mem.set (pre ++ r).length NUL = pre ++ r ++ (NUL :: post) := by
      rw [hmem]
      simp [List.append_assoc]
    rw [if_pos rfl, hset]
    have := dateTimeFields_eq pre r (NUL :: post) true hne (fun h => hsN (by simp [h]))
      (Or.inr ⟨_, rfl⟩)
    rw [this]
    simp
  · have hr' : r = init ++ [last] := by simpa [hZ] using hr
    subst hr'
    rw [if_neg hZ, hmem]
    have := dateTimeFields_eq pre (init ++ [last]) post false hne hsN hpost
    rw [this]
    simp [hZ]

/-- The date, then `T` and the time when the time is not empty, give back a string that is
not empty and does not end in `T`. -/
theorem date_time_join (r : List Char) (hne : r ≠ []) (hT : r.getLast? ≠ some 'T') :
    (if r.head? = some 'T' then [] else r.takeWhile (fun c => c != 'T')) ++
      (if (if r.head? = some 'T' then r.drop 1 else (r.dropWhile (fun c => c != 'T')).drop 1) = []
        then []
        else 'T' :: (if r.head? = some 'T' then r.drop 1
          else (r.dropWhile (fun c => c != 'T')).drop 1)) = r := by
  by_cases hh : r.head? = some 'T'
  · obtain ⟨x, r1, rfl⟩ := List.exists_cons_of_ne_nil hne
    simp only [List.head?_cons, Option.some.injEq] at hh
    subst hh
    have hr1 : r1 ≠ [] := by
      intro h
      subst h
      exact hT rfl
    simp [hr1]
  · simp only [hh, if_false]
    cases hd : r.dropWhile (fun c => c != 'T') with
    | nil =>
      have := List.takeWhile_append_dropWhile (fun c => c != 'T') r
      rw [hd] at this
      simpa using this
    | cons y rest =>
      have hy : y = 'T' := by
        have := List.head_dropWhile_not (fun c => c != 'T') r (by rw [hd]; simp)
        simp only [hd, List.head_cons] at this
        simpa using this
      subst hy
      have hsplit := List.takeWhile_append_dropWhile (fun c => c != 'T') r
      rw [hd] at hsplit
      have hrest : rest ≠ [] := by
        intro h
        subst h
        apply hT
        rw [← hsplit]
        simp
      simp only [List.drop_succ_cons, List.drop_zero, hrest, if_false]
      exact hsplit

/-- C28: date and time round trip.  For every string `s` such that `s` without one trailing
`Z` is not empty and does not end in `T`, `createDateTime` on a buffer that holds `s` returns
a `DateTime`, and `dateToString` of that `DateTime` is `s` followed by LF. -/
theorem dateToString_createDateTime (mem : List Char) (p : Nat) (s r : List Char)
    (hs : cstrAt mem p = s)
    (hr : r = if s.getLast? = some 'Z' then s.dropLast else s)
    (hne : r ≠ []) (hT : r.getLast? ≠ some 'T') :
    ∃ dt, createDateTime mem p = some dt ∧ dateToString (some dt) = some (some (s ++ [LF])) := by
  refine ⟨_, createDateTime_eq mem p s r hs hr hne, ?_⟩
  rw [dateToString_eq _ ⟨by simp, by simp, by simp⟩]
  have hj := date_time_join r hne hT
  simp only [dateBody, Option.getD_some, Bool.false_eq_true, if_false, hj]
  by_cases hZ : s.getLast? = some 'Z'
  · have hsne : s ≠ [] := by
      intro h
      subst h
      simp at hZ
    have hsplit := List.dropLast_append_getLast hsne
    have hlast : s.getLast hsne = 'Z' := by
      rw [List.getLast?_eq_getLast s hsne] at hZ
      simpa using hZ
    rw [hlast] at hsplit
    simp only [hZ, if_true] at hr
    subst hr
    simp only [hZ, decide_True, if_true, hsplit]
  · simp only [hZ, if_false] at hr
    subst hr
    simp [hZ]

theorem dateToString_createDateTime_witness :
    (cstrAt "BDAY\x0019960415T143000Z".toList 5 = "19960415T143000Z".toList ∧
      "19960415T143000".toList
        = (if "19960415T143000Z".toList.getLast? = some 'Z'
            then "19960415T143000Z".toList.dropLast else "19960415T143000Z".toList) ∧
      "19960415T143000".toList ≠ [] ∧ "19960415T143000".toList.getLast? ≠ some 'T') ∧
    ∃ dt, createDateTime "BDAY\x0019960415T143000Z".toList 5 = some dt ∧
      dateToString (some dt) = some (some ("19960415T143000Z".toList ++ [LF])) :=
  ⟨⟨by decide, by decide, by decide, by decide⟩,
    dateToString_createDateTime "BDAY\x0019960415T143000Z".toList 5 "19960415T143000Z".toList
      "19960415T143000".toList (by decide) (by decide) (by decide) (by decide)⟩

/-! ## Round trip of a card -/

/-- A name that compares equal to `n` under `strcasecmp` holds none of the bytes whose
lower-case form is not in `n`. -/
theorem not_mem_of_strcasecmp (name n : List Char) (x : Char) (hname : NUL ∉ name)
    (hn : NUL ∉ n) (h : strcasecmp name n = 0) (hx : tolower x ∉ n.map tolower) :
    x ∉ name := by
  intro hmem
  have e := (strcasecmp_eq_zero_iff name n hname hn).mp h
  apply hx
  rw [← e]
  exact List.mem_map_of_mem _ hmem

/-- A name that compares equal to FN: not empty, a token, not starting with a space. -/
theorem name_FN (name : List Char) (hname : NUL ∉ name)
    (h : strcasecmp name "FN".toList = 0) :
    name ≠ [] ∧ TokenOK name ∧ name.head? ≠ some ' ' := by
  have hk : ∀ x, tolower x ∉ "FN".toList.map tolower → x ∉ name := fun x hx =>
    not_mem_of_strcasecmp name _ x hname (by decide) h hx
  refine ⟨?_, ?_, ?_⟩
  · rintro rfl
    revert h
    decide
  · intro c hc
    refine ⟨?_, ?_, ?_, ?_⟩
    · rintro rfl; exact hk _ (by decide) hc
    · rintro rfl; exact hk _ (by decide) hc
    · rintro rfl; exact hk _ (by decide) hc
    · rintro rfl; exact hname hc
  · intro hh
    exact hk ' ' (by decide) (List.mem_of_mem_head? hh)

/-- A name that compares equal to a name of the last branch: not empty, a token, not starting
with a space, and not FN, BDAY or ANNIVERSARY. -/
theorem name_generic (name : List Char) (hname : NUL ∉ name)
    (h : genericNames.any (fun n => decide (strcasecmp name n = 0)) = true) :
    name ≠ [] ∧ TokenOK name ∧ name.head? ≠ some ' ' ∧ strcasecmp name "FN".toList ≠ 0 ∧
      strcasecmp name "BDAY".toList ≠ 0 ∧ strcasecmp name "ANNIVERSARY".toList ≠ 0 := by
  rw [List.any_eq_true] at h
  obtain ⟨n, hn, h⟩ := h
  have h : strcasecmp name n = 0 := of_decide_eq_true h
  have hN : ∀ n ∈ genericNames, NUL ∉ n := by decide
  have hk : ∀ x, tolower x ∉ n.map tolower → x ∉ name := fun x hx =>
    not_mem_of_strcasecmp name _ x hname (hN n hn) h hx
  have hdot : ∀ n ∈ genericNames, tolower '.' ∉ n.map tolower := by decide
  have hsemi : ∀ n ∈ genericNames, tolower ';' ∉ n.map tolower := by decide
  have hcolon : ∀ n ∈ genericNames, tolower ':' ∉ n.map tolower := by decide
  have hspace : ∀ n ∈ genericNames, tolower ' ' ∉ n.map tolower := by decide
  have hnil : ∀ n ∈ genericNames, strcasecmp [] n ≠ 0 := by decide
  have hFN : ∀ n ∈ genericNames, n.map tolower ≠ "FN".toList.map tolower := by decide
  have hBD : ∀ n ∈ genericNames, n.map tolower ≠ "BDAY".toList.map tolower := by decide
  have hAN : ∀ n ∈ genericNames, n.map tolower ≠ "ANNIVERSARY".toList.map tolower := by decide
  refine ⟨?_, ?_, ?_, ?_, ?_, ?_⟩
  · rintro rfl
    exact hnil n hn h
  · intro c hc
    refine ⟨?_, ?_, ?_, ?_⟩
    · rintro rfl; exact hk _ (hdot n hn) hc
    · rintro rfl; exact hk _ (hsemi n hn) hc
    · rintro rfl; exact hk _ (hcolon n hn) hc
    · rintro rfl; exact hname hc
  · intro hh
    exact hk ' ' (hspace n hn) (List.mem_of_mem_head? hh)
  · exact strcasecmp_ne_of_eq name n _ hname (hN n hn) (by decide) (hFN n hn) h
  · exact strcasecmp_ne_of_eq name n _ hname (hN n hn) (by decide) (hBD n hn) h
  · exact strcasecmp_ne_of_eq name n _ hname (hN n hn) (by decide) (hAN n hn) h

/-- Parameters that can be read back are the parameters of pairs of strings. -/
theorem params_rereadable (params : List Parameter)
    (h : ∀ q ∈ params, ParameterRereadable q) :
    ∃ ps : List (List Char × List Char), params = ps.map toParameter ∧
      (∀ p ∈ ps, ParamOK p) ∧ PieceOK (paramsText ps) ∧
      (paramsText ps).head? ≠ some ' ' := by
  induction params with
  | nil => exact ⟨[], rfl, by simp, by simp [paramsText, PieceOK], by simp [paramsText]⟩
  | cons q params ih =>
    obtain ⟨ps, e, hps, hpiece, _⟩ := ih (fun q hq => h q (List.mem_cons_of_mem _ hq))
    obtain ⟨n, v, rfl, hok, hn, hv⟩ := h q (List.mem_cons_self _ _)
    refine ⟨(n, v) :: ps, by rw [e]; rfl, ?_, ?_, ?_⟩
    · intro p hp
      rcases List.mem_cons.mp hp with rfl | hp
      · exact hok
      · exact hps p hp
    · intro c hc
      simp only [paramsText, List.map_cons, List.flatten_cons, paramText, List.cons_append,
        List.mem_cons, List.mem_append] at hc
      rcases hc with rfl | (hc | rfl | hc) | hc
      · decide
      · exact hn c hc
      · decide
      · exact hv c hc
      · exact hpiece c hc
    · simp [paramsText, paramText]

theorem intercalate_cons_cons (v w : List Char) (vs : List (List Char)) :
    [';'].intercalate (v :: w :: vs) = v ++ ';' :: [';'].intercalate (w :: vs) := by
  simp [List.intercalate, List.intersperse]

/-- A byte of the joined values is a semicolon or a byte of one of the values. -/
theorem mem_intercalate (c : Char) (values : List (List Char))
    (h : c ∈ [';'].intercalate values) : c = ';' ∨ ∃ v ∈ values, c ∈ v := by
  induction values with
  | nil => simp [List.intercalate] at h
  | cons v vs ih =>
    cases vs with
    | nil =>
      have hv : [';'].intercalate [v] = v := by simp [List.intercalate, List.intersperse]
      rw [hv] at h
      exact Or.inr ⟨v, List.mem_cons_self _ _, h⟩
    | cons w vs =>
      rw [intercalate_cons_cons, List.mem_append, List.mem_cons] at h
      rcases h with h | h | h
      · exact Or.inr ⟨v, List.mem_cons_self _ _, h⟩
      · exact Or.inl h
      · rcases ih h with h | ⟨x, hx, hc⟩
        · exact Or.inl h
        · exact Or.inr ⟨x, List.mem_cons_of_mem _ hx, hc⟩

/-- The value loop gives back the values that were joined with semicolons. -/
theorem parsePropertyValuesLoop_join (vs : List (List Char)) :
    ∀ (v : List Char) (fuel : Nat) (acc : List (List Char)),
      (∀ x ∈ v :: vs, ';' ∉ x) → ([';'].intercalate (v :: vs)).length ≤ fuel →
      parsePropertyValuesLoop fuel acc ([';'].intercalate (v :: vs)) = acc ++ v :: vs := by
  induction vs with
  | nil =>
    intro v fuel acc hx _
    have hv : [';'].intercalate [v] = v := by simp [List.intercalate, List.intersperse]
    rw [hv]
    cases fuel with
    | zero => rfl
    | succ f =>
      have hs : strcspn v [';'] = v.length :=
        strcspn_of_not_mem v [';'] (fun c hc => by
          intro h
          rw [List.mem_singleton] at h
          subst h
          exact hx v (List.mem_cons_self _ _) hc)
      simp [parsePropertyValuesLoop, strpbrk, hs]
  | cons w vs ih =>
    intro v fuel acc hx hlen
    rw [intercalate_cons_cons] at hlen ⊢
    have hv : ∀ c ∈ v, c ∉ [';'] := fun c hc => by
      intro h
      rw [List.mem_singleton] at h
      subst h
      exact hx v (List.mem_cons_self _ _) hc
    have hs : strcspn (v ++ ';' :: [';'].intercalate (w :: vs)) [';'] = v.length :=
      strcspn_append_of_mem v _ [';'] ';' hv (by simp)
    cases fuel with
    | zero => simp at hlen
    | succ f =>
      have hlt : v.length < (v ++ ';' :: [';'].intercalate (w :: vs)).length := by simp
      have hp : strpbrk (v ++ ';' :: [';'].intercalate (w :: vs)) [';'] = some v.length := by
        unfold strpbrk
        rw [hs, if_pos hlt]
      have ht : (v ++ ';' :: [';'].intercalate (w :: vs)).take v.length = v := by simp
      have hd : (v ++ ';' :: [';'].intercalate (w :: vs)).drop (v.length + 1)
          = [';'].intercalate (w :: vs) := by
        rw [← List.drop_drop]
        simp
      unfold parsePropertyValuesLoop
      rw [hp]
      dsimp only
      rw [ht, hd, ih w f (acc ++ [v]) (fun x hx1 => hx x (List.mem_cons_of_mem _ hx1))
        (by simp at hlen; omega)]
      simp

/-- The value tokenizer gives back the values that were joined with semicolons. -/
theorem parsePropertyValues_join (name : List Char) (values : List (List Char))
    (hne : values ≠ []) (h : ∀ v ∈ values, ';' ∉ v) :
    parsePropertyValues [] name ([';'].intercalate values) = values := by
  obtain ⟨v, vs, rfl⟩ := List.exists_cons_of_ne_nil hne
  unfold parsePropertyValues
  rw [parsePropertyValuesLoop_join vs v _ [] h (Nat.le_refl _)]
  rfl

/-- The written FN line is read back as the `fn` it was written from. -/
theorem createProperty_FN_written (card : Card) (name : List Char)
    (ps : List (List Char × List Char)) (v : List Char)
    (hcmp : strcasecmp name "FN".toList = 0) (hname : NUL ∉ name)
    (hps : ∀ p ∈ ps, ParamOK p) (hne : v ≠ []) (hv : ∀ c ∈ v, c ≠ ';' ∧ c ≠ NUL) :
    createProperty card (propertyLine [] name ps v) = some (some { card with
      fn := some ⟨some name, some [], some (ps.map toParameter), some [v]⟩ }) := by
  obtain ⟨hnn, htok, _⟩ := name_FN name hname hcmp
  have hvN : NUL ∉ v := fun h => (hv _ h).2 rfl
  obtain ⟨h, hph, hs⟩ := parseHead_wf [] name ps v (by intro c hc; simp at hc) htok hnn hps hvN
  have hd := dispatch_FN_any card h [] name (ps.map toParameter) [] v [] (by simpa using hs)
    hname (by simp) hv (Or.inl rfl) (fun _ => rfl) hcmp
  rw [if_neg hne] at hd
  unfold createProperty
  rw [hph]
  exact hd

/-- The written line of an optional property is read back as the property it was written
from, at the tail of the list. -/
theorem createProperty_generic_written (card : Card) (name : List Char)
    (ps : List (List Char × List Char)) (values : List (List Char))
    (hcmp : genericNames.any (fun n => decide (strcasecmp name n = 0)) = true)
    (hname : NUL ∉ name) (hps : ∀ p ∈ ps, ParamOK p) (hne : values ≠ [])
    (hv : ∀ v ∈ values, ∀ c ∈ v, c ≠ ';' ∧ c ≠ NUL) :
    createProperty card (propertyLine [] name ps ([';'].intercalate values))
      = some (some { card with
          optionalProperties := insertBack card.optionalProperties
            ⟨some name, some [], some (ps.map toParameter), some values⟩ }) := by
  obtain ⟨hnn, htok, _, h1, h2, h3⟩ := name_generic name hname hcmp
  have hvN : NUL ∉ [';'].intercalate values := by
    intro h
    rcases mem_intercalate NUL values h with h | ⟨v, hv1, hc⟩
    · revert h
      decide
    · exact (hv v hv1 NUL hc).2 rfl
  obtain ⟨h, hph, hs⟩ := parseHead_wf [] name ps _ (by intro c hc; simp at hc) htok hnn hps hvN
  have hd := dispatch_generic card h [] name (ps.map toParameter) _ hs hname hvN h1 h2 h3 hcmp
  rw [parsePropertyValues_join name values hne (fun v hv1 hc => (hv v hv1 ';' hc).1 rfl)] at hd
  unfold createProperty
  rw [hph]
  exact hd

/-- The line of a date is a property line with the parameters and the body of the date. -/
theorem dateLine_propertyLine (tag : String) (d : DateTime) :
    dateLine tag d = crlf (propertyLine [] tag.toList (dateParams d) (dateBody d)) := by
  unfold dateLine propertyLine dateParams
  by_cases ht : d.isText = true
  · simp [ht, groupText, paramsText, paramText]
  · simp [ht, groupText, paramsText]

/-- A date without `T` followed by nothing or by `T` and a time splits at that `T`. -/
theorem takeWhile_date (date rest : List Char) (hT : 'T' ∉ date)
    (hrest : rest = [] ∨ ∃ t, rest = 'T' :: t) :
    (date ++ rest).takeWhile (fun c => c != 'T') = date ∧
      (date ++ rest).dropWhile (fun c => c != 'T') = rest := by
  induction date with
  | nil =>
    rcases hrest with rfl | ⟨t, rfl⟩
    · simp
    · simp
  | cons x date ih =>
    have hx : x ≠ 'T' := fun h => hT (by simp [h])
    have ih' := ih (fun h => hT (List.mem_cons_of_mem _ h))
    simp [List.takeWhile_cons, List.dropWhile_cons, hx, ih'.1, ih'.2]

/-- The date and the time that `createDateTime` finds in the string written for a date and a
time. -/
theorem date_fields (date time : List Char) (hT : 'T' ∉ date) (hne : date ++ time ≠ []) :
    date ++ (if time = [] then [] else 'T' :: time) ≠ [] ∧
      (date ++ (if time = [] then [] else 'T' :: time)).getLast? = (date ++ time).getLast? ∧
      (if (date ++ (if time = [] then [] else 'T' :: time)).head? = some 'T' then []
        else (date ++ (if time = [] then [] else 'T' :: time)).takeWhile (fun c => c != 'T'))
        = date ∧
      (if (date ++ (if time = [] then [] else 'T' :: time)).head? = some 'T' then
          (date ++ (if time = [] then [] else 'T' :: time)).drop 1
        else ((date ++ (if time = [] then [] else 'T' :: time)).dropWhile
          (fun c => c != 'T')).drop 1) = time := by
  by_cases ht : time = []
  · subst ht
    have hd : date ≠ [] := by simpa using hne
    obtain ⟨x, date1, rfl⟩ := List.exists_cons_of_ne_nil hd
    have hx : x ≠ 'T' := fun h => hT (by simp [h])
    have hk := takeWhile_date (x :: date1) [] hT (Or.inl rfl)
    simp only [if_true, List.append_nil] at hk ⊢
    refine ⟨by simp, ?_, ?_, ?_⟩
    · first | rfl | trivial
    · rw [if_neg (by simpa using hx)]
      exact hk.1
    · rw [if_neg (by simpa using hx), hk.2]
      rfl
  · simp only [if_neg ht]
    have hk := takeWhile_date date ('T' :: time) hT (Or.inr ⟨_, rfl⟩)
    refine ⟨by simp, ?_, ?_, ?_⟩
    · rw [List.getLast?_append_of_ne_nil _ (by simp), List.getLast?_append_of_ne_nil _ ht]
      obtain ⟨y, time1, rfl⟩ := List.exists_cons_of_ne_nil ht
      rfl
    · cases date with
      | nil => simp
      | cons x date1 =>
        have hx : x ≠ 'T' := fun h => hT (by simp [h])
        rw [if_neg (by simpa using hx)]
        exact hk.1
    · cases date with
      | nil => simp
      | cons x date1 =>
        have hx : x ≠ 'T' := fun h => hT (by simp [h])
        rw [if_neg (by simpa using hx), hk.2]
        rfl

/-- The body of a date that can be read back is free of CR, LF and NUL. -/
theorem dateBody_piece (d : DateTime) (hd : DateRereadable d) : PieceOK (dateBody d) := by
  rcases hd with ⟨text, rfl, ht⟩ | ⟨utc, date, time, rfl, _, hdate, htime, _, _⟩
  · intro c hc
    simp only [dateBody, if_true, Option.getD_some, Bool.false_eq_true, if_false,
      List.append_nil] at hc
    exact ht c hc
  · intro c hc
    simp only [dateBody, Bool.false_eq_true, if_false, Option.getD_some, List.mem_append] at hc
    rcases hc with (hc | hc) | hc
    · exact hdate c hc
    · by_cases ht : time = []
      · simp [ht] at hc
      · rw [if_neg ht, List.mem_cons] at hc
        rcases hc with rfl | hc
        · decide
        · exact htime c hc
    · by_cases hu : utc = true
      · rw [if_pos hu, List.mem_singleton] at hc
        subst hc
        decide
      · simp [hu] at hc

/-- The written line of a date is read back as the date it was written from. -/
theorem dateOfHead_written (h : Head) (g name : List Char) (d : DateTime)
    (hd : DateRereadable d)
    (hs : HeadShape h g name ((dateParams d).map toParameter) (dateBody d)) :
    dateOfHead h = some d := by
  have hN : NUL ∉ dateBody d := fun hc => (dateBody_piece d hd NUL hc).2.2 rfl
  rcases hd with ⟨text, rfl, _⟩ | ⟨utc, date, time, rfl, hT, _, _, hne, hZ⟩
  · have := dateOfHead_text h g name _ _ hs hN
      (show hasValueText (List.map toParameter [("VALUE".toList, "text".toList)]) = true by
        decide)
    rw [this]
    simp [dateBody]
  · have hp : h.parameters = [] := hs.2.1
    have hview := hs.value_view hN
    obtain ⟨hw, hlast, hdate, htime⟩ := date_fields date time hT hne
    unfold dateOfHead
    rw [hp, if_neg (by decide)]
    simp only [dateBody, Bool.false_eq_true, if_false, Option.getD_some] at hview
    by_cases hu : utc = true
    · subst hu
      simp only [if_true] at hview
      have hl : (date ++ (if time = [] then [] else 'T' :: time) ++ ['Z']).getLast? = some 'Z' := by
        simp
      have := createDateTime_eq h.mem h.valueString _
        (date ++ (if time = [] then [] else 'T' :: time)) hview
        (by rw [if_pos hl]; simp) hw
      rw [this, hdate, htime, decide_eq_true hl]
    · have hu' : utc = false := by simpa using hu
      subst hu'
      simp only [Bool.false_eq_true, if_false, List.append_nil] at hview
      have hl : (date ++ (if time = [] then [] else 'T' :: time)).getLast? ≠ some 'Z' := by
        rw [hlast]
        exact hZ rfl
      have := createDateTime_eq h.mem h.valueString _
        (date ++ (if time = [] then [] else 'T' :: time)) hview
        (by rw [if_neg hl]) hw
      rw [this, hdate, htime, decide_eq_false hl]

theorem dateParams_ok (d : DateTime) : ∀ p ∈ dateParams d, ParamOK p := by
  intro p hp
  unfold dateParams at hp
  by_cases ht : d.isText = true
  · rw [if_pos ht, List.mem_singleton] at hp
    subst hp
    unfold ParamOK
    decide
  · rw [if_neg ht] at hp
    simp at hp

/-- The written BDAY line is read back as the birthday it was written from. -/
theorem createProperty_BDAY_written (card : Card) (d : DateTime) (hd : DateRereadable d) :
    createProperty card (propertyLine [] "BDAY".toList (dateParams d) (dateBody d))
      = some (some { card with birthday := some d }) := by
  have hN : NUL ∉ dateBody d := fun hc => (dateBody_piece d hd NUL hc).2.2 rfl
  obtain ⟨h, hph, hs⟩ := parseHead_wf [] "BDAY".toList (dateParams d) (dateBody d)
    (by intro c hc; simp at hc) (by unfold TokenOK; decide) (by decide) (dateParams_ok d) hN
  unfold createProperty
  rw [hph]
  exact dispatch_BDAY card h [] "BDAY".toList _ _ hs (by decide) d
    (dateOfHead_written h _ _ d hd hs) (by decide) (by decide)

/-- The written ANNIVERSARY line is read back as the anniversary it was written from. -/
theorem createProperty_ANNIVERSARY_written (card : Card) (d : DateTime)
    (hd : DateRereadable d) :
    createProperty card (propertyLine [] "ANNIVERSARY".toList (dateParams d) (dateBody d))
      = some (some { card with anniversary := some d }) := by
  have hN : NUL ∉ dateBody d := fun hc => (dateBody_piece d hd NUL hc).2.2 rfl
  obtain ⟨h, hph, hs⟩ := parseHead_wf [] "ANNIVERSARY".toList (dateParams d) (dateBody d)
    (by intro c hc; simp at hc) (by unfold TokenOK; decide) (by decide) (dateParams_ok d) hN
  unfold createProperty
  rw [hph]
  exact dispatch_ANNIVERSARY card h [] "ANNIVERSARY".toList _ _ hs (by decide) d
    (dateOfHead_written h _ _ d hd hs) (by decide) (by decide) (by decide)

theorem bodyOf_eq (name : List Char) (qs : List (List Char × List Char))
    (values : List (List Char)) :
    bodyOf ⟨some name, some [], some (qs.map toParameter), some values⟩
      = propertyLine [] name qs ([';'].intercalate values) := by
  have e := map_parameterText qs
  simp only [bodyOf, Option.getD_some, e, propertyLine, groupText, if_true, List.nil_append]

theorem fileText_plain (xs : List (List Char)) :
    fileText (xs.map (fun x => Folded.mk x [])) = (xs.map crlf).flatten := by
  induction xs with
  | nil => rfl
  | cons x xs ih =>
    rw [List.map_cons, fileText_cons, ih]
    simp [contsText]

theorem parseAll_append (l1 l2 : List (List Char)) :
    ∀ (card card1 : Card), parseAll card l1 = some (some card1) →
      parseAll card (l1 ++ l2) = parseAll card1 l2 := by
  induction l1 with
  | nil =>
    intro card card1 h
    simp only [parseAll, Option.some.injEq] at h
    subst h
    rfl
  | cons l l1 ih =>
    intro card card1 h
    simp only [List.cons_append, parseAll] at h ⊢
    cases hc : createProperty card l with
    | none => rw [hc] at h; simp at h
    | some r =>
      cases r with
      | none => rw [hc] at h; simp at h
      | some c2 =>
        rw [hc] at h
        simp only at h ⊢
        exact ih c2 card1 h

/-- A file of unfolded lines between the BEGIN, VERSION and END lines: the result of
`createCard` is that of the property parser on the lines in order. -/
theorem createCard_plain (mids : List (List Char))
    (hmids : ∀ x ∈ mids, PieceOK x ∧ x.head? ≠ some ' ') :
    createCard ("BEGIN:VCARD\r\nVERSION:4.0\r\n".toList ++ (mids.map crlf).flatten ++
        "END:VCARD\r\n".toList)
      = match parseAll newCard mids with
        | none => none
        | some none => some (VCardErrorCode.INV_PROP, none)
        | some (some card) =>
          if card.fn = none then some (VCardErrorCode.INV_CARD, none)
          else some (VCardErrorCode.OK, some card) := by
  have hfile : "BEGIN:VCARD\r\nVERSION:4.0\r\n".toList ++ (mids.map crlf).flatten ++
        "END:VCARD\r\n".toList
      = fileText (Folded.mk "BEGIN:VCARD".toList [] :: Folded.mk "VERSION:4.0".toList [] ::
          mids.map (fun x => Folded.mk x []) ++ [Folded.mk "END:VCARD".toList []]) := by
    have e := fileText_plain mids
    simp only [fileText, List.map_cons, List.map_append, List.map_nil, List.flatten_cons,
      List.flatten_append, List.flatten_nil] at e ⊢
    rw [e]
    simp [Folded.text, crlf, contsText, CR, LF]
  have h0 : (Folded.mk "BEGIN:VCARD".toList []).Clean := by
    simp only [Folded.Clean, PieceOK]; decide
  have hok : ∀ l ∈ Folded.mk "VERSION:4.0".toList [] :: mids.map (fun x => Folded.mk x [])
      ++ [Folded.mk "END:VCARD".toList []], l.Clean ∧ l.Starts := by
    intro l hl
    simp only [List.cons_append, List.mem_cons, List.mem_append, List.mem_map,
      List.mem_singleton, List.not_mem_nil, or_false] at hl
    rcases hl with rfl | ⟨x, hx, rfl⟩ | rfl
    · simp only [Folded.Clean, Folded.Starts, PieceOK]; decide
    · exact ⟨⟨(hmids x hx).1, by simp⟩, (hmids x hx).2⟩
    · simp only [Folded.Clean, Folded.Starts, PieceOK]; decide
  have hlen : 2 ≤ (Folded.mk "END:VCARD".toList []).lastPhysical.length := by decide
  have hlog : (mids.map (fun x => Folded.mk x [])).map Folded.logical = mids := by
    rw [List.map_map]
    conv => rhs; rw [← List.map_id mids]
    apply List.map_congr_left
    intro x _
    simp [Folded.logical]
  rw [hfile, createCard_eval _ _ _ _ h0 hok hlen, hlog]
  have hb : ¬ (strcasecmp (Folded.mk "BEGIN:VCARD".toList []).logical "BEGIN:VCARD".toList ≠ 0) := by
    decide
  have hver : ¬ (strcasecmp (Folded.mk "VERSION:4.0".toList []).logical "VERSION:4.0".toList ≠ 0) := by
    decide
  have hend : ¬ (strcasecmp (Folded.mk "END:VCARD".toList []).logical "END:VCARD".toList ≠ 0) := by
    decide
  rw [if_neg hb, if_neg hver]
  cases parseAll newCard mids with
  | none => rfl
  | some r =>
    cases r with
    | none => rfl
    | some card =>
      dsimp only
      rw [if_neg hend]

/-- A property line without group whose parts are free of CR, LF and NUL is a physical line
that starts a logical line. -/
theorem propertyLine_piece (name : List Char) (qs : List (List Char × List Char))
    (value : List Char) (hname : PieceOK name) (hqs : PieceOK (paramsText qs))
    (hvalue : PieceOK value) (hne : name ≠ []) (hhead : name.head? ≠ some ' ') :
    PieceOK (propertyLine [] name qs value) ∧
      (propertyLine [] name qs value).head? ≠ some ' ' := by
  constructor
  · intro c hc
    simp only [propertyLine, groupText, if_true, List.nil_append, List.mem_append,
      List.mem_cons] at hc
    rcases hc with (hc | hc) | rfl | hc
    · exact hname c hc
    · exact hqs c hc
    · decide
    · exact hvalue c hc
  · obtain ⟨x, name1, rfl⟩ := List.exists_cons_of_ne_nil hne
    simpa [propertyLine, groupText] using hhead

theorem dateParams_piece (d : DateTime) : PieceOK (paramsText (dateParams d)) := by
  unfold dateParams
  by_cases ht : d.isText = true
  · rw [if_pos ht]
    unfold PieceOK
    decide
  · rw [if_neg ht]
    unfold PieceOK
    decide

/-- The joined values of a property that can be read back are free of CR, LF and NUL. -/
theorem intercalate_piece (values : List (List Char)) (h : ∀ v ∈ values, ValueOK v) :
    PieceOK ([';'].intercalate values) := by
  intro c hc
  rcases mem_intercalate c values hc with rfl | ⟨v, hv, hcv⟩
  · decide
  · exact (h v hv c hcv).2

/-- The optional properties are read back in order, behind the properties the card holds. -/
theorem parseAll_generic_written (ps : List Property) :
    (∀ p ∈ ps, PropertyRereadable p) → ∀ (fn : Option Property) (acc : List Property)
      (b a : Option DateTime),
      parseAll ⟨fn, some acc, b, a⟩ (ps.map bodyOf) = some (some ⟨fn, some (acc ++ ps), b, a⟩) := by
  induction ps with
  | nil =>
    intro _ fn acc b a
    simp [parseAll]
  | cons p ps ih =>
    intro hps fn acc b a
    obtain ⟨name, params, values, rfl, hcmp, hname, hparams, hne, hv⟩ :=
      hps _ (List.mem_cons_self _ _)
    obtain ⟨qs, rfl, hqs, _, _⟩ := params_rereadable params hparams
    have hc := createProperty_generic_written ⟨fn, some acc, b, a⟩ name qs values hcmp
      (fun h => (hname NUL h).2.2 rfl) hqs hne
      (fun v hv1 c hc => ⟨(hv v hv1 c hc).1, (hv v hv1 c hc).2.2.2⟩)
    rw [List.map_cons, bodyOf_eq]
    unfold parseAll
    rw [hc]
    have := ih (fun p hp => hps p (List.mem_cons_of_mem _ hp)) fn
      (acc ++ [⟨some name, some [], some (qs.map toParameter), some values⟩]) b a
    simp only [insertBack, Option.map_some', List.append_assoc, List.singleton_append] at this ⊢
    exact this

/-- The lines `writeCard` writes for a card that can be read back are physical lines that
start a logical line. -/
theorem writtenLines_piece (fn : Property) (ps : List Property) (b a : Option DateTime)
    (hfn : FNRereadable fn) (hps : ∀ p ∈ ps, PropertyRereadable p)
    (hb : ∀ d, b = some d → DateRereadable d) (ha : ∀ d, a = some d → DateRereadable d) :
    ∀ x ∈ writtenLines fn ps b a, PieceOK x ∧ x.head? ≠ some ' ' := by
  intro x hx
  simp only [writtenLines, List.mem_cons, List.mem_append, Option.mem_toList, Option.mem_def,
    Option.map_eq_some', List.mem_map] at hx
  rcases hx with rfl | ⟨d, hd, rfl⟩ | ⟨d, hd, rfl⟩ | ⟨p, hp, rfl⟩
  · obtain ⟨name, params, v, rfl, hcmp, hname, hparams, hne, hv⟩ := hfn
    obtain ⟨qs, rfl, _, hqs, _⟩ := params_rereadable params hparams
    obtain ⟨hnn, _, hhead⟩ := name_FN name (fun h => (hname NUL h).2.2 rfl) hcmp
    rw [bodyOf_eq]
    exact propertyLine_piece name qs _ hname hqs
      (intercalate_piece [v] (by
        intro w hw
        rw [List.mem_singleton] at hw
        subst hw
        exact hv)) hnn hhead
  · exact propertyLine_piece _ _ _ (by unfold PieceOK; decide) (dateParams_piece d)
      (dateBody_piece d (hb d hd)) (by decide) (by decide)
  · exact propertyLine_piece _ _ _ (by unfold PieceOK; decide) (dateParams_piece d)
      (dateBody_piece d (ha d hd)) (by decide) (by decide)
  · obtain ⟨name, params, values, rfl, hcmp, hname, hparams, hne, hv⟩ := hps p hp
    obtain ⟨qs, rfl, _, hqs, _⟩ := params_rereadable params hparams
    obtain ⟨hnn, _, hhead, _⟩ := name_generic name (fun h => (hname NUL h).2.2 rfl) hcmp
    rw [bodyOf_eq]
    exact propertyLine_piece name qs _ hname hqs (intercalate_piece values hv) hnn hhead

/-- The property parser on the lines `writeCard` writes for a card that can be read back gives
the card. -/
theorem parseAll_writtenLines (fn : Property) (ps : List Property) (b a : Option DateTime)
    (hfn : FNRereadable fn) (hps : ∀ p ∈ ps, PropertyRereadable p)
    (hb : ∀ d, b = some d → DateRereadable d) (ha : ∀ d, a = some d → DateRereadable d) :
    parseAll newCard (writtenLines fn ps b a) = some (some ⟨some fn, some ps, b, a⟩) := by
  have h1 : parseAll newCard [bodyOf fn] = some (some ⟨some fn, some [], none, none⟩) := by
    obtain ⟨name, params, v, rfl, hcmp, hname, hparams, hne, hv⟩ := hfn
    obtain ⟨qs, rfl, hqs, _, _⟩ := params_rereadable params hparams
    have hc := createProperty_FN_written newCard name qs v hcmp
      (fun h => (hname NUL h).2.2 rfl) hqs hne (fun c hc => ⟨(hv c hc).1, (hv c hc).2.2.2⟩)
    have hj : [';'].intercalate [v] = v := by simp [List.intercalate, List.intersperse]
    rw [bodyOf_eq, hj]
    unfold parseAll
    rw [hc]
    rfl
  have h2 : parseAll ⟨some fn, some [], none, none⟩
      (b.map (fun d => propertyLine [] "BDAY".toList (dateParams d) (dateBody d))).toList
      = some (some ⟨some fn, some [], b, none⟩) := by
    cases b with
    | none => rfl
    | some d =>
      simp only [Option.map_some', Option.toList_some]
      unfold parseAll
      rw [createProperty_BDAY_written _ d (hb d rfl)]
      rfl
  have h3 : parseAll ⟨some fn, some [], b, none⟩
      (a.map (fun d => propertyLine [] "ANNIVERSARY".toList (dateParams d) (dateBody d))).toList
      = some (some ⟨some fn, some [], b, a⟩) := by
    cases a with
    | none => rfl
    | some d =>
      simp only [Option.map_some', Option.toList_some]
      unfold parseAll
      rw [createProperty_ANNIVERSARY_written _ d (ha d rfl)]
      rfl
  have h4 := parseAll_generic_written ps hps (some fn) [] b a
  unfold writtenLines
  rw [← List.singleton_append, parseAll_append _ _ _ _ h1, parseAll_append _ _ _ _ h2,
    parseAll_append _ _ _ _ h3, h4]
  rfl

/-- The text of a card that can be read back: the BEGIN and VERSION lines, the written lines,
the END line. -/
theorem writeCard_writtenLines (fn : Property) (ps : List Property) (b a : Option DateTime)
    (hfn : FNRereadable fn) (hps : ∀ p ∈ ps, PropertyRereadable p)
    (hb : ∀ d, b = some d → DateRereadable d) (ha : ∀ d, a = some d → DateRereadable d) :
    writeCard ⟨some fn, some ps, b, a⟩
      = some ("BEGIN:VCARD\r\nVERSION:4.0\r\n".toList ++
          ((writtenLines fn ps b a).map crlf).flatten ++ "END:VCARD\r\n".toList) := by
  have pfn : Printable fn := by
    obtain ⟨name, params, v, rfl, _, _, hparams, _, _⟩ := hfn
    refine ⟨by simp, ⟨params, rfl, ?_⟩, ⟨[v], rfl, by simp⟩⟩
    intro q hq
    obtain ⟨n, w, rfl, _⟩ := hparams q hq
    simp
  have pps : ∀ p ∈ ps, Printable p := by
    intro p hp
    obtain ⟨name, params, values, rfl, _, _, hparams, hne, _⟩ := hps p hp
    refine ⟨by simp, ⟨params, rfl, ?_⟩, ⟨values, rfl, hne⟩⟩
    intro q hq
    obtain ⟨n, w, rfl, _⟩ := hparams q hq
    simp
  have pd : ∀ d, DateRereadable d → DatePrintable d := by
    intro d hd
    rcases hd with ⟨text, rfl, _⟩ | ⟨utc, date, time, rfl, _⟩
    · simp [DatePrintable]
    · simp [DatePrintable]
  rw [writeCard_text fn ps b a pfn pps (fun d hd => pd d (hb d hd)) (fun d hd => pd d (ha d hd))]
  have hl : ∀ p : Property, lineOf p = crlf (bodyOf p) := fun _ => rfl
  have hls : (ps.map lineOf).flatten = ((ps.map bodyOf).map crlf).flatten := by
    rw [List.map_map]
    rfl
  rw [hls, hl fn]
  cases b with
  | none =>
    cases a with
    | none => simp [writtenLines]
    | some y => simp [writtenLines, dateLine_propertyLine]
  | some x =>
    cases a with
    | none => simp [writtenLines, dateLine_propertyLine]
    | some y => simp [writtenLines, dateLine_propertyLine]

/-- C23, counterexample: the card read from a file with the line `item1.TEL:1` is accepted by
`validateCard`, but `writeCard` writes the line `TEL:1`, and the card read back has the empty
group, so it is not the card that was written; the card read from a file with the line
`BDAY:T` is accepted too, is written with the line `BDAY:`, and reading that text back is
undefined. -/
theorem createCard_writeCard_counterexample :
    createCard "BEGIN:VCARD\r\nVERSION:4.0\r\nFN:x\r\nitem1.TEL:1\r\nEND:VCARD\r\n".toList
        = some (VCardErrorCode.OK,
            some ⟨some ⟨some "FN".toList, some [], some [], some ["x".toList]⟩,
              some [⟨some "TEL".toList, some "item1".toList, some [], some ["1".toList]⟩],
              none, none⟩) ∧
      validateCard (some ⟨some ⟨some "FN".toList, some [], some [], some ["x".toList]⟩,
          some [⟨some "TEL".toList, some "item1".toList, some [], some ["1".toList]⟩],
          none, none⟩) = VCardErrorCode.OK ∧
      writeCard ⟨some ⟨some "FN".toList, some [], some [], some ["x".toList]⟩,
          some [⟨some "TEL".toList, some "item1".toList, some [], some ["1".toList]⟩],
          none, none⟩
        = some "BEGIN:VCARD\r\nVERSION:4.0\r\nFN:x\r\nTEL:1\r\nEND:VCARD\r\n".toList ∧
      createCard "BEGIN:VCARD\r\nVERSION:4.0\r\nFN:x\r\nTEL:1\r\nEND:VCARD\r\n".toList
        = some (VCardErrorCode.OK,
            some ⟨some ⟨some "FN".toList, some [], some [], some ["x".toList]⟩,
              some [⟨some "TEL".toList, some [], some [], some ["1".toList]⟩],
              none, none⟩) ∧
      createCard "BEGIN:VCARD\r\nVERSION:4.0\r\nFN:x\r\nTEL:1\r\nEND:VCARD\r\n".toList
        ≠ some (VCardErrorCode.OK,
            some ⟨some ⟨some "FN".toList, some [], some [], some ["x".toList]⟩,
              some [⟨some "TEL".toList, some "item1".toList, some [], some ["1".toList]⟩],
              none, none⟩) ∧
      createCard "BEGIN:VCARD\r\nVERSION:4.0\r\nFN:x\r\nBDAY:T\r\nEND:VCARD\r\n".toList
        = some (VCardErrorCode.OK,
            some ⟨some ⟨some "FN".toList, some [], some [], some ["x".toList]⟩, some [],
              some ⟨false, false, some [], some [], some []⟩, none⟩) ∧
      validateCard (some ⟨some ⟨some "FN".toList, some [], some [], some ["x".toList]⟩, some [],
          some ⟨false, false, some [], some [], some []⟩, none⟩) = VCardErrorCode.OK ∧
      writeCard ⟨some ⟨some "FN".toList, some [], some [], some ["x".toList]⟩, some [],
          some ⟨false, false, some [], some [], some []⟩, none⟩
        = some "BEGIN:VCARD\r\nVERSION:4.0\r\nFN:x\r\nBDAY:\r\nEND:VCARD\r\n".toList ∧
      createCard "BEGIN:VCARD\r\nVERSION:4.0\r\nFN:x\r\nBDAY:\r\nEND:VCARD\r\n".toList = none := by
  decide

/-- C23, amended: a card whose `fn` and optional properties have the empty group, names the
parser accepts, parameters the parameter loop reads back and values without semicolon, and
whose dates are a text or a date and time that are written as a string the date parser splits
the same way, is written by `writeCard` as a text from which `createCard` returns `OK` and
the same card. -/
theorem createCard_writeCard (c : Card) (h : CardRereadable c) :
    ∃ text, writeCard c = some text ∧ createCard text = some (VCardErrorCode.OK, some c) := by
  obtain ⟨⟨fn, hfn, hfnr⟩, ⟨ps, hps, hpsr⟩, hb, ha⟩ := h
  obtain ⟨f, o, b, a⟩ := c
  simp only at hfn hps hb ha
  subst hfn
  subst hps
  refine ⟨_, writeCard_writtenLines fn ps b a hfnr hpsr hb ha, ?_⟩
  rw [createCard_plain _ (writtenLines_piece fn ps b a hfnr hpsr hb ha),
    parseAll_writtenLines fn ps b a hfnr hpsr hb ha]
  rfl

/-- The card of the lines `fn;TYPE=work:Ann Lee`, `BDAY:19960415T143000Z`,
`ANNIVERSARY;VALUE=text:last spring`, `N:Lee;Ann;;;` and `tel;TYPE=home:555-0100` can be read
back, and the text written for it gives the card. -/
theorem createCard_writeCard_witness :
    CardRereadable
        ⟨some ⟨some "fn".toList, some [], some [⟨some "TYPE".toList, some "work".toList⟩],
            some ["Ann Lee".toList]⟩,
          some [⟨some "N".toList, some [], some [],
              some ["Lee".toList, "Ann".toList, [], [], []]⟩,
            ⟨some "tel".toList, some [], some [⟨some "TYPE".toList, some "home".toList⟩],
              some ["555-0100".toList]⟩],
          some ⟨true, false, some "19960415".toList, some "143000".toList, some []⟩,
          some ⟨false, true, some [], some [], some "last spring".toList⟩⟩ ∧
      ∃ text,
        writeCard
            ⟨some ⟨some "fn".toList, some [], some [⟨some "TYPE".toList, some "work".toList⟩],
                some ["Ann Lee".toList]⟩,
              some [⟨some "N".toList, some [], some [],
                  some ["Lee".toList, "Ann".toList, [], [], []]⟩,
                ⟨some "tel".toList, some [], some [⟨some "TYPE".toList, some "home".toList⟩],
                  some ["555-0100".toList]⟩],
              some ⟨true, false, some "19960415".toList, some "143000".toList, some []⟩,
              some ⟨false, true, some [], some [], some "last spring".toList⟩⟩ = some text ∧
          createCard text = some (VCardErrorCode.OK,
            some ⟨some ⟨some "fn".toList, some [],
                some [⟨some "TYPE".toList, some "work".toList⟩], some ["Ann Lee".toList]⟩,
              some [⟨some "N".toList, some [], some [],
                  some ["Lee".toList, "Ann".toList, [], [], []]⟩,
                ⟨some "tel".toList, some [], some [⟨some "TYPE".toList, some "home".toList⟩],
                  some ["555-0100".toList]⟩],
              some ⟨true, false, some "19960415".toList, some "143000".toList, some []⟩,
              some ⟨false, true, some [], some [], some "last spring".toList⟩⟩) :=
  have hwork : ∀ q ∈ [(⟨some "TYPE".toList, some "work".toList⟩ : Parameter)],
      ParameterRereadable q := fun q hq => by
    rw [List.mem_singleton] at hq
    subst hq
    exact ⟨_, _, rfl, by unfold ParamOK; decide, by unfold PieceOK; decide,
      by unfold PieceOK; decide⟩
  have hhome : ∀ q ∈ [(⟨some "TYPE".toList, some "home".toList⟩ : Parameter)],
      ParameterRereadable q := fun q hq => by
    rw [List.mem_singleton] at hq
    subst hq
    exact ⟨_, _, rfl, by unfold ParamOK; decide, by unfold PieceOK; decide,
      by unfold PieceOK; decide⟩
  have hc : CardRereadable
      ⟨some ⟨some "fn".toList, some [], some [⟨some "TYPE".toList, some "work".toList⟩],
          some ["Ann Lee".toList]⟩,
        some [⟨some "N".toList, some [], some [],
            some ["Lee".toList, "Ann".toList, [], [], []]⟩,
          ⟨some "tel".toList, some [], some [⟨some "TYPE".toList, some "home".toList⟩],
            some ["555-0100".toList]⟩],
        some ⟨true, false, some "19960415".toList, some "143000".toList, some []⟩,
        some ⟨false, true, some [], some [], some "last spring".toList⟩⟩ := by
    refine ⟨⟨_, rfl, _, _, _, rfl, by decide, by unfold PieceOK; decide, hwork, by decide,
      by unfold ValueOK; decide⟩, ⟨_, rfl, ?_⟩, ?_, ?_⟩
    · intro p hp
      rw [List.mem_cons, List.mem_singleton] at hp
      rcases hp with rfl | rfl
      · exact ⟨_, _, _, rfl, by decide, by unfold PieceOK; decide,
          fun q hq => absurd hq (List.not_mem_nil q), by decide, by unfold ValueOK; decide⟩
      · exact ⟨_, _, _, rfl, by decide, by unfold PieceOK; decide, hhome, by decide,
          by unfold ValueOK; decide⟩
    · intro d hd
      cases hd
      exact Or.inr ⟨_, _, _, rfl, by decide, by unfold PieceOK; decide,
        by unfold PieceOK; decide, by decide, by decide⟩
    · intro d hd
      cases hd
      exact Or.inl ⟨_, rfl, by unfold PieceOK; decide⟩
  ⟨hc, createCard_writeCard _ hc⟩

end VCParser
